import Mathlib

/-!
# cLox: hash table and single-pass compiler

A shallow embedding of `cLox/compiler/table.c` and `cLox/compiler/compiler.c`.

Conventions of the embedding.

* A pointer to an `ObjString` is a natural number (its address); `NULL` is `none`.
  The objects themselves live in a `Heap`, a map from addresses to `ObjString` records,
  so that `key->hash` is `(heap key).hash` and `entry->key == key` compares addresses.
* `int` values are unbounded integers: the development covers the executions in which no
  `int` overflows (tables of fewer than `2^30` slots, chunks of fewer than `2^31` bytes).
* A C function whose behaviour can be undefined (an out-of-bounds read) or whose loop may
  not terminate returns an `Option`; `none` stands for both.
-/

namespace CLox

/-! ## Values and objects -/

/-- Modelled from the spec: `value.h` is not among the sources. A value is a tagged word
with the variants nil, boolean, number (the payload is the bit pattern of the double) and
object (the payload is the address of the heap object). -/
inductive Value where
  | nil : Value
  | bool (b : Bool) : Value
  | number (bits : Nat) : Value
  | obj (ptr : Nat) : Value
deriving DecidableEq, Repr

/-- Modelled from the spec: the macro `IS_NIL` of `value.h`. -/
def IS_NIL : Value → Bool
  | Value.nil => true
  | _ => false

/-- Modelled from the spec: the macro `NIL_VAL` of `value.h`. -/
def NIL_VAL : Value := Value.nil

/-- Modelled from the spec: the macro `BOOL_VAL` of `value.h`. -/
def BOOL_VAL (b : Bool) : Value := Value.bool b

/-- The header `struct Obj` of `object.h`; the type tag and the allocation-list link play
no role in the table and are left out. -/
structure Obj where
  isMarked : Bool
deriving DecidableEq, Repr

/-- The `struct ObjString` of `object.h`; `chars` are the bytes of the string. -/
structure ObjString where
  obj : Obj
  length : Int
  chars : List Nat
  hash : Nat
deriving DecidableEq, Repr

/-- The heap of string objects: the object stored at each address. -/
abbrev Heap := Nat → ObjString

/-! ## table.h / table.c -/

/-- The `Entry` of `table.h`; `key = none` is the `NULL` key. -/
structure Entry where
  key : Option Nat
  value : Value
deriving DecidableEq, Repr

/-- The `Table` of `table.h`; `entries = []` stands for the `NULL` array. -/
structure Table where
  count : Int
  capacity : Int
  entries : List Entry
deriving DecidableEq, Repr

/-- Modelled from the spec: the macro `GROW_CAPACITY` of `memory.h`, which is not among the
sources: 8 below 8, else doubling. -/
def GROW_CAPACITY (capacity : Int) : Int :=
  if capacity < 8 then 8 else capacity * 2

/-- The conversion of an `int` to `uint32_t` that the usual arithmetic conversions apply to
the right operand of `key->hash & capacity`. -/
def asUInt32 (x : Int) : Nat :=
  if 0 ≤ x then x.toNat else (x + 4294967296).toNat

/-- The test `table->count + 1 > (table->capacity + 1) * TABLE_MAX_LOAD`, with
`TABLE_MAX_LOAD` read as the rational 3/5. See `exceedsMaxLoadDouble` for the comparison
in double arithmetic and `exceedsMaxLoad_eq_double` for their agreement on every capacity
an `int` can hold. -/
def exceedsMaxLoad (count capacity : Int) : Bool :=
  decide (5 * (count + 1) > 3 * (capacity + 1))

/-- The same test with `TABLE_MAX_LOAD` the double nearest to 0.6, which is
`5404319552844595 / 2^53`; the product with a power of two is exact in double arithmetic. -/
def exceedsMaxLoadDouble (count capacity : Int) : Bool :=
  decide ((count + 1) * 9007199254740992 > (capacity + 1) * 5404319552844595)

/-- `initTable` of `table.c`. -/
def initTable : Table :=
  { count := 0, capacity := -1, entries := [] }

/-- The `for (;;)` loop of `findEntry`. `fuel` bounds the number of iterations; the result
is the index of the returned entry. `tombstone` is declared inside the loop body, as in
the source, so it is `NULL` at the top of every iteration. -/
def findEntryLoop (entries : List Entry) (mask : Nat) (key : Nat) : Nat → Nat → Option Nat
  | 0, _ => none
  | fuel + 1, index =>
    match entries[index]? with
    | none => none
    | some entry =>
      let tombstone : Option Nat := none
      match entry.key with
      | none =>
        if IS_NIL entry.value then
          some (match tombstone with
            | some t => t
            | none => index)
        else
          findEntryLoop entries mask key fuel ((index + 1) &&& mask)
      | some k =>
        if k = key then some index
        else findEntryLoop entries mask key fuel ((index + 1) &&& mask)

/-- `findEntry` of `table.c`. The loop is run for `entries.length` iterations: an
execution that has not returned by then has either left the array or visited a slot
twice, and in the second case the C loop never returns. -/
def findEntry (h : Heap) (entries : List Entry) (capacity : Int) (key : Nat) : Option Nat :=
  findEntryLoop entries (asUInt32 capacity) key entries.length
    ((h key).hash &&& asUInt32 capacity)

/-- `tableGet` of `table.c`: `some none` is the result `false`, `some (some v)` is the
result `true` with `*value = v`. -/
def tableGet (h : Heap) (table : Table) (key : Nat) : Option (Option Value) :=
  if table.count = 0 then some none
  else
    match findEntry h table.entries table.capacity key with
    | none => none
    | some i =>
      match table.entries[i]? with
      | none => none
      | some entry =>
        match entry.key with
        | none => some none
        | some _ => some (some entry.value)

/-- `tableDelete` of `table.c`: the returned flag and the table after the call. -/
def tableDelete (h : Heap) (table : Table) (key : Nat) : Option (Bool × Table) :=
  if table.count = 0 then some (false, table)
  else
    match findEntry h table.entries table.capacity key with
    | none => none
    | some i =>
      match table.entries[i]? with
      | none => none
      | some entry =>
        match entry.key with
        | none => some (false, table)
        | some _ =>
          some (true, { table with
            entries := table.entries.set i { key := none, value := BOOL_VAL true } })

/-- One iteration of the second loop of `adjustCapacity`: the state is the new entry array
and the running `table->count`. -/
def adjustCapacityStep (h : Heap) (old : List Entry) (capacity : Int)
    (acc : List Entry × Int) (i : Nat) : Option (List Entry × Int) :=
  match old[i]? with
  | none => none
  | some entry =>
    match entry.key with
    | none => some acc
    | some k =>
      match findEntry h acc.1 capacity k with
      | none => none
      | some dest => some (acc.1.set dest { key := some k, value := entry.value }, acc.2 + 1)

/-- `adjustCapacity` of `table.c`. -/
def adjustCapacity (h : Heap) (table : Table) (capacity : Int) : Option Table :=
  let entries : List Entry :=
    List.replicate (capacity + 1).toNat { key := none, value := NIL_VAL }
  match (List.range (table.capacity + 1).toNat).foldlM
      (adjustCapacityStep h table.entries capacity) (entries, 0) with
  | none => none
  | some (entries, count) =>
    some { count := count, capacity := capacity, entries := entries }

/-- `tableSet` of `table.c`: the returned flag `isNewKey` and the table after the call. -/
def tableSet (h : Heap) (table : Table) (key : Nat) (value : Value) : Option (Bool × Table) :=
  let grown : Option Table :=
    if exceedsMaxLoad table.count table.capacity then
      adjustCapacity h table (GROW_CAPACITY (table.capacity + 1) - 1)
    else some table
  match grown with
  | none => none
  | some t =>
    match findEntry h t.entries t.capacity key with
    | none => none
    | some i =>
      match t.entries[i]? with
      | none => none
      | some entry =>
        let isNewKey : Bool := entry.key.isNone
        let count : Int := if isNewKey && IS_NIL entry.value then t.count + 1 else t.count
        some (isNewKey, { t with
          count := count
          entries := t.entries.set i { key := some key, value := value } })

/-- The `memcmp(a, b, length) == 0` of `tableFindString`: the first `length` bytes agree. -/
def memcmpEq (a b : List Nat) (length : Int) : Bool :=
  decide (a.take length.toNat = b.take length.toNat)

/-- The `for (;;)` loop of `tableFindString`; the result is the key found (`none` for
`NULL`). -/
def tableFindStringLoop (h : Heap) (entries : List Entry) (mask : Nat) (chars : List Nat)
    (length : Int) (hash : Nat) : Nat → Nat → Option (Option Nat)
  | 0, _ => none
  | fuel + 1, index =>
    match entries[index]? with
    | none => none
    | some entry =>
      match entry.key with
      | none =>
        if IS_NIL entry.value then some none
        else tableFindStringLoop h entries mask chars length hash fuel ((index + 1) &&& mask)
      | some k =>
        if (h k).length = length ∧ (h k).hash = hash ∧ memcmpEq (h k).chars chars length then
          some (some k)
        else tableFindStringLoop h entries mask chars length hash fuel ((index + 1) &&& mask)

/-- `tableFindString` of `table.c`. -/
def tableFindString (h : Heap) (table : Table) (chars : List Nat) (length : Int)
    (hash : Nat) : Option (Option Nat) :=
  if table.count = 0 then some none
  else
    tableFindStringLoop h table.entries (asUInt32 table.capacity) chars length hash
      table.entries.length (hash &&& asUInt32 table.capacity)

/-- One iteration of the loop of `tableRemoveWhite`. -/
def tableRemoveWhiteStep (h : Heap) (table : Table) (i : Nat) : Option Table :=
  match table.entries[i]? with
  | none => none
  | some entry =>
    match entry.key with
    | none => some table
    | some k =>
      if !(h k).obj.isMarked then
        match tableDelete h table k with
        | none => none
        | some r => some r.2
      else some table

/-- `tableRemoveWhite` of `table.c`. -/
def tableRemoveWhite (h : Heap) (table : Table) : Option Table :=
  (List.range (table.capacity + 1).toNat).foldlM (tableRemoveWhiteStep h) table

/-! ## Specification vocabulary for the table -/

/-- A slot is empty when its key is `NULL` and its value is nil. -/
def Entry.isEmpty (e : Entry) : Bool := e.key.isNone && IS_NIL e.value

/-- A slot is a tombstone when its key is `NULL` and its value is not nil. -/
def Entry.isTombstone (e : Entry) : Bool := e.key.isNone && !IS_NIL e.value

/-- The probe of `findEntry` for `key` stops at this slot. -/
def Entry.stops (key : Nat) (e : Entry) : Bool := e.isEmpty || decide (e.key = some key)

/-- The pair `(k, v)` is stored in a live slot of the entry array. -/
def Live (es : List Entry) (k : Nat) (v : Value) : Prop :=
  ∃ i : Nat, es[i]? = some (Entry.mk (some k) v)

/-- The probing invariant of an entry array: a key occupies at most one slot, and no empty
slot lies between the home slot of a stored key and the slot that holds it. -/
structure ProbeOK (h : Heap) (es : List Entry) : Prop where
  uniq : ∀ (i j k : Nat) (v w : Value), es[i]? = some (Entry.mk (some k) v) →
    es[j]? = some (Entry.mk (some k) w) → i = j
  chain : ∀ (p k : Nat) (v : Value), es[p]? = some (Entry.mk (some k) v) →
    ∀ j : Nat, j < es.length → ((h k).hash + j) % es.length = p →
    ∀ j', j' < j → ∀ e, es[((h k).hash + j') % es.length]? = some e → e.isEmpty = false

/-- The tombstone that `tableDelete` writes: `(key = NULL, value = true)`. -/
def tombstoneEntry : Entry := { key := none, value := BOOL_VAL true }

/-- Well-formed tables: the entry array has `capacity + 1` slots, which is zero (the `NULL`
array) or a power of two; `count` is the number of non-empty slots; the load factor is at
most 0.6; and the array satisfies the probing invariant. -/
structure WF (h : Heap) (t : Table) : Prop where
  len : (t.entries.length : Int) = t.capacity + 1
  pow : t.capacity = -1 ∨ ∃ m : Nat, t.capacity + 1 = 2 ^ m
  count_eq : t.count = ((t.entries.countP (fun e => !e.isEmpty) : Nat) : Int)
  load : 5 * t.count ≤ 3 * (t.capacity + 1)
  probe : ProbeOK h t.entries

/-- The string at address `k` has the length, the hash and the bytes of the query: the
condition under which `tableFindString` returns `entry->key`. -/
def StringMatches (h : Heap) (k : Nat) (chars : List Nat) (length : Int) (hash : Nat) : Prop :=
  (h k).length = length ∧ (h k).hash = hash ∧ memcmpEq (h k).chars chars length = true

/-- The probe of `tableFindString` stops at this slot: it is empty, or its key matches the
query. -/
def Entry.stopsFind (h : Heap) (chars : List Nat) (length : Int) (hash : Nat) (e : Entry) :
    Bool :=
  e.isEmpty ||
    (match e.key with
    | none => false
    | some k => decide ((h k).length = length ∧ (h k).hash = hash ∧
        memcmpEq (h k).chars chars length = true))

/-- The tables built from `initTable` by calls of `tableSet`, `tableDelete` and
`tableRemoveWhite`. The heap `h` fixes the hash of every string; the mark bits, which the
collector changes between two calls of `tableRemoveWhite`, are those of the heap `h'` of
that call. -/
inductive Reachable (h : Heap) : Table → Prop where
  | init : Reachable h initTable
  | set {t t' : Table} {b : Bool} (key : Nat) (value : Value) :
      Reachable h t → tableSet h t key value = some (b, t') → Reachable h t'
  | delete {t t' : Table} {b : Bool} (key : Nat) :
      Reachable h t → tableDelete h t key = some (b, t') → Reachable h t'
  | removeWhite {t t' : Table} (h' : Heap) :
      (∀ p, (h' p).hash = (h p).hash) → Reachable h t →
      tableRemoveWhite h' t = some t' → Reachable h t'

/-- A heap for the worked examples: the string at address `p` has hash `p % 8`, the single
byte `p`, and is marked when `p` is even. The addresses 1, 9 and 17 share the home slot 1
of an 8-slot table. -/
def demoHeap : Heap :=
  fun p => { obj := { isMarked := p % 2 == 0 }, length := 1, chars := [p], hash := p % 8 }

/-- The table after `tableSet 1`, `tableSet 9`, `tableSet 17`, `tableSet 2` and
`tableDelete 9` on `initTable` under `demoHeap`: slot 2 holds a tombstone inside the probe
chain of the keys 1 and 17. -/
def demoTable : Table :=
  { count := 4
    capacity := 7
    entries :=
      [ { key := none, value := Value.nil },
        { key := some 1, value := Value.number 10 },
        { key := none, value := Value.bool true },
        { key := some 17, value := Value.number 30 },
        { key := some 2, value := Value.number 40 },
        { key := none, value := Value.nil },
        { key := none, value := Value.nil },
        { key := none, value := Value.nil } ] }

/-! ## scanner.h: the token contract -/

/-- Modelled from the spec: `scanner.h` is not among the sources. The token types are the
ones that index the table `rules` of `compiler.c`. -/
inductive TokenType where
  | TOKEN_LEFT_PAREN | TOKEN_RIGHT_PAREN | TOKEN_LEFT_BRACE | TOKEN_RIGHT_BRACE
  | TOKEN_COMMA | TOKEN_DOT | TOKEN_MINUS | TOKEN_PLUS | TOKEN_SEMICOLON | TOKEN_SLASH
  | TOKEN_STAR | TOKEN_BANG | TOKEN_BANG_EQUAL | TOKEN_EQUAL | TOKEN_EQUAL_EQUAL
  | TOKEN_GREATER | TOKEN_GREATER_EQUAL | TOKEN_LESS | TOKEN_LESS_EQUAL
  | TOKEN_IDENTIFIER | TOKEN_STRING | TOKEN_NUMBER
  | TOKEN_AND | TOKEN_CLASS | TOKEN_ELSE | TOKEN_FALSE | TOKEN_FOR | TOKEN_FUN | TOKEN_IF
  | TOKEN_NIL | TOKEN_OR | TOKEN_PRINT | TOKEN_RETURN | TOKEN_SUPER | TOKEN_THIS
  | TOKEN_TRUE | TOKEN_VAR | TOKEN_WHILE
  | TOKEN_ERROR | TOKEN_EOF
deriving DecidableEq, Repr

open TokenType

/-- Modelled from the spec: the `Token` of `scanner.h`. `lexeme` stands for the `length`
bytes at `start`; for a `TOKEN_ERROR` it is the error message. -/
structure Token where
  type : TokenType
  lexeme : String
  line : Int
deriving DecidableEq, Repr

/-- Modelled from the spec: `scanToken` of the scanner, which is not among the sources. The
scanner state is the list of the tokens not yet delivered; `scanToken` delivers them in
order, and delivers `TOKEN_EOF` from the end of the source on. -/
def scanToken (source : List Token) : Token × List Token :=
  match source with
  | [] => ({ type := TOKEN_EOF, lexeme := "", line := 0 }, [])
  | t :: rest => if t.type = TOKEN_EOF then (t, t :: rest) else (t, rest)

/-! ## chunk.h -/

def OP_CONSTANT : Nat := 0
def OP_NOT : Nat := 1
def OP_NEGATE : Nat := 2
def OP_NIL : Nat := 3
def OP_TRUE : Nat := 4
def OP_FALSE : Nat := 5
def OP_POP : Nat := 6
def OP_GET_LOCAL : Nat := 7
def OP_SET_LOCAL : Nat := 8
def OP_GET_GLOBAL : Nat := 9
def OP_SET_GLOBAL : Nat := 10
def OP_GET_UPVALUE : Nat := 11
def OP_SET_UPVALUE : Nat := 12
def OP_DEFINE_GLOBAL : Nat := 13
def OP_GET_PROPERTY : Nat := 14
def OP_SET_PROPERTY : Nat := 15
def OP_GET_SUPER : Nat := 16
def OP_EQUAL : Nat := 17
def OP_GREATER : Nat := 18
def OP_LESS : Nat := 19
def OP_ADD : Nat := 20
def OP_SUBTRACT : Nat := 21
def OP_MULTIPLY : Nat := 22
def OP_DIVIDE : Nat := 23
def OP_PRINT : Nat := 24
def OP_JUMP : Nat := 25
def OP_JUMP_IF_FALSE : Nat := 26
def OP_LOOP : Nat := 27
def OP_CALL : Nat := 28
def OP_INVOKE : Nat := 29
def OP_SUPER_INVOKE : Nat := 30
def OP_CLOSURE : Nat := 31
def OP_CLOSE_UPVALUE : Nat := 32
def OP_RETURN : Nat := 33
def OP_CLASS : Nat := 34
def OP_INHERIT : Nat := 35
def OP_METHOD : Nat := 36

/-- The `Chunk` of `chunk.h`: the code bytes, the source line of each byte, and the
constants. `count` is the length of `code`. -/
structure Chunk where
  code : List Nat
  lines : List Int
  constants : List Value
deriving DecidableEq, Repr

/-- Modelled from the spec: `writeChunk` of `chunk.c`, which is not among the sources: the
chunk is append-only, one source line per byte. -/
def writeChunk (chunk : Chunk) (byte : Nat) (line : Int) : Chunk :=
  { chunk with code := chunk.code ++ [byte], lines := chunk.lines ++ [line] }

/-- Modelled from the spec: `addConstant` of `chunk.c`, which is not among the sources: the
value is appended to the constants and its index is returned. -/
def addConstant (chunk : Chunk) (value : Value) : Int × Chunk :=
  (chunk.constants.length, { chunk with constants := chunk.constants ++ [value] })

/-! ## object.h, as far as the compiler uses it -/

/-- The `ObjFunction` of `object.h`; `name` is the address of the name string, `none` for
`NULL`. -/
structure ObjFunction where
  arity : Int
  upvalueCount : Int
  chunk : Chunk
  name : Option Nat
deriving DecidableEq, Repr

/-- Modelled from the spec: the macro `OBJ_VAL` of `value.h`. -/
def OBJ_VAL (ptr : Nat) : Value := Value.obj ptr

/-- Modelled from the spec: the macro `NUMBER_VAL` of `value.h`. -/
def NUMBER_VAL (bits : Nat) : Value := Value.number bits

/-- The functions of other translation units that the compiler calls and whose code is not
among the sources: `strtod` of the C library (the result is the bit pattern of the
double), `copyString` of `object.c` (the result is the address of the interned string with
the given bytes), and the address at which `newFunction` of `object.c` allocates the n-th
function object. `number` calls `strtod(parser.previous.start, NULL)`: the string given to
`strtod` starts with the token and goes on with the source text behind it, and `strtod`
reads as far as a number goes on (in `1.e5` the token is `1`, the number read is 100000).
So `strtod` has two arguments here, the lexeme of the token and the tokens that follow it
in the source, which is what the embedding knows of the text behind the token. -/
structure Extern where
  strtod : String → List Token → Nat
  copyString : String → Nat
  newFunction : Nat → Nat

/-! ## compiler.c: data -/

/-- The global `parser`. -/
structure Parser where
  current : Token
  previous : Token
  hadError : Bool
  panicMode : Bool
deriving DecidableEq, Repr

def PREC_NONE : Nat := 0
def PREC_ASSIGNMENT : Nat := 1
def PREC_OR : Nat := 2
def PREC_AND : Nat := 3
def PREC_EQUALITY : Nat := 4
def PREC_COMPARISON : Nat := 5
def PREC_TERM : Nat := 6
def PREC_FACTOR : Nat := 7
def PREC_UNARY : Nat := 8
def PREC_CALL : Nat := 9
def PREC_PRIMARY : Nat := 10

/-- The parse functions that the table `rules` points to. -/
inductive ParseFn where
  | grouping | call | dot | unary | binary | variable_ | string | number | and_ | or_
  | literal | super_ | this_
deriving DecidableEq, Repr

/-- The `ParseRule` of `compiler.c`; `none` is the `NULL` function pointer. -/
structure ParseRule where
  prefixRule : Option ParseFn
  infixRule : Option ParseFn
  precedence : Nat
deriving DecidableEq, Repr

/-- The `Local` of `compiler.c`. Of the token `name` only the bytes are ever read, so the
name is kept as its lexeme. -/
structure Local where
  name : String
  depth : Int
  isCaptured : Bool
deriving DecidableEq, Repr

/-- The `Upvalue` of `compiler.c`. -/
structure Upvalue where
  index : Nat
  isLocal : Bool
deriving DecidableEq, Repr

/-- The `FunctionType` of `compiler.c`. -/
inductive FunctionType where
  | TYPE_FUNCTION | TYPE_INITIALIZER | TYPE_METHOD | TYPE_SCRIPT
deriving DecidableEq, Repr

open FunctionType

/-- The `Compiler` of `compiler.c`, one frame per function being compiled. The pointer
`enclosing` is the position in the list of frames of the state. `function` is the function
object under construction and `functionPtr` its address. `locals` is the live part
`locals[0 .. localCount-1]` of the array, `upvalues` the part of the array written so far. -/
structure Compiler where
  function : ObjFunction
  functionPtr : Nat
  type : FunctionType
  locals : List Local
  upvalues : List Upvalue
  scopeDepth : Int
deriving DecidableEq, Repr

/-- The `ClassCompiler` of `compiler.c`; `enclosing` is the position in the list of the
state. -/
structure ClassCompiler where
  name : Token
  hasSuperclass : Bool
deriving DecidableEq, Repr

/-- One line that `errorAt` prints to `stderr`: `[line L] Error<location>: <message>`. -/
structure ErrorReport where
  line : Int
  location : String
  message : String
deriving DecidableEq, Repr

/-- An operation of the compiler whose behaviour C leaves undefined. -/
inductive Fault where
  | nullCurrent
  | localsIndex (index : Int)
  | nullParseFn
deriving DecidableEq, Repr

/-- The global state of `compiler.c` and of its collaborators: the parser, the scanner
(the tokens not yet delivered), `current` and its chain of enclosing frames (the head of
`frames` is `*current`; the empty list is `current == NULL`), `currentClass` and its chain,
what has been printed to `stderr`, the number of function objects allocated so far, and the
operations with undefined behaviour performed so far. -/
structure State where
  parser : Parser
  source : List Token
  frames : List Compiler
  classes : List ClassCompiler
  stderr : List ErrorReport
  allocated : Nat
  faults : List Fault
deriving DecidableEq, Repr

def UINT8_MAX : Int := 255
def UINT8_COUNT : Int := 256
def UINT16_MAX : Int := 65535

/-- The conversion of an `int` to `uint8_t`. -/
def asUInt8 (x : Int) : Nat := (x % 256).toNat

/-! ## compiler.c: error reporting and token handling -/

/-- `errorAt` of `compiler.c`. -/
def errorAt (token : Token) (message : String) (s : State) : State :=
  if s.parser.panicMode then s
  else
    let location : String :=
      if token.type = TOKEN_EOF then " at end"
      else if token.type = TOKEN_ERROR then ""
      else " at '" ++ token.lexeme ++ "'"
    { s with
      parser := { s.parser with panicMode := true, hadError := true }
      stderr := s.stderr ++ [{ line := token.line, location := location, message := message }] }

/-- `error` of `compiler.c`. -/
def error (message : String) (s : State) : State :=
  errorAt s.parser.previous message s

/-- `errorAtCurrent` of `compiler.c`. -/
def errorAtCurrent (message : String) (s : State) : State :=
  errorAt s.parser.current message s

/-- The `for (;;)` loop of `advance`. Every iteration but the last consumes a
`TOKEN_ERROR` of the source, so `source.length + 1` iterations always reach the `break`
(see `advanceLoop_type`). -/
def advanceLoop : Nat → State → State
  | 0, s => s
  | fuel + 1, s =>
    let r := scanToken s.source
    let s1 : State := { s with parser := { s.parser with current := r.1 }, source := r.2 }
    if r.1.type ≠ TOKEN_ERROR then s1
    else advanceLoop fuel (errorAtCurrent r.1.lexeme s1)

/-- `advance` of `compiler.c`. -/
def advance (s : State) : State :=
  advanceLoop (s.source.length + 1)
    { s with parser := { s.parser with previous := s.parser.current } }

/-- `consume` of `compiler.c`. -/
def consume (type : TokenType) (message : String) (s : State) : State :=
  if s.parser.current.type = type then advance s
  else errorAtCurrent message s

/-- `check` of `compiler.c`. -/
def check (type : TokenType) (s : State) : Bool :=
  decide (s.parser.current.type = type)

/-- `match` of `compiler.c`: the result and the state after the call. -/
def matchToken (type : TokenType) (s : State) : Bool × State :=
  if !check type s then (false, s)
  else (true, advance s)

/-! ## compiler.c: emitting code -/

/-- A store through `current`: `f` is applied to `*current`; with `current == NULL` the
store is recorded as a fault. -/
def modifyCurrent (f : Compiler → Compiler) (s : State) : State :=
  match s.frames with
  | [] => { s with faults := s.faults ++ [Fault.nullCurrent] }
  | c :: rest => { s with frames := f c :: rest }

/-- A store through `currentChunk()`. -/
def modifyChunk (f : Chunk → Chunk) (s : State) : State :=
  modifyCurrent (fun c => { c with function := { c.function with chunk := f c.function.chunk } }) s

/-- `currentChunk()->count`. -/
def currentCount (s : State) : Int :=
  match s.frames with
  | [] => 0
  | c :: _ => c.function.chunk.code.length

/-- `emitByte` of `compiler.c`. -/
def emitByte (byte : Nat) (s : State) : State :=
  modifyChunk (fun chunk => writeChunk chunk byte s.parser.previous.line) s

/-- `emitBytes` of `compiler.c`. -/
def emitBytes (byte1 byte2 : Nat) (s : State) : State :=
  emitByte byte2 (emitByte byte1 s)

/-- `emitLoop` of `compiler.c`. -/
def emitLoop (loopStart : Int) (s : State) : State :=
  let s := emitByte OP_LOOP s
  let offset : Int := currentCount s - loopStart + 2
  let s := if offset > UINT16_MAX then error "Loop body too large." s else s
  let s := emitByte (asUInt8 (offset / 256)) s
  emitByte (asUInt8 offset) s

/-- `current->type`. -/
def currentType (s : State) : FunctionType :=
  match s.frames with
  | [] => TYPE_FUNCTION
  | c :: _ => c.type

/-- `emitReturn` of `compiler.c`. -/
def emitReturn (s : State) : State :=
  let s :=
    if currentType s = TYPE_INITIALIZER then emitBytes OP_GET_LOCAL 0 s
    else emitByte OP_NIL s
  emitByte OP_RETURN s

/-- `emitJump` of `compiler.c`: the offset returned and the state after the call. -/
def emitJump (instruction : Nat) (s : State) : Int × State :=
  let s := emitByte instruction s
  let s := emitByte 255 s
  let s := emitByte 255 s
  (currentCount s - 2, s)

/-- `makeConstant` of `compiler.c`: the index returned and the state after the call. -/
def makeConstant (value : Value) (s : State) : Nat × State :=
  let constant : Int :=
    match s.frames with
    | [] => 0
    | c :: _ => (addConstant c.function.chunk value).1
  let s := modifyChunk (fun chunk => (addConstant chunk value).2) s
  if constant > UINT8_MAX then (0, error "Too many constants in one chunk." s)
  else (asUInt8 constant, s)

/-- `emitConstant` of `compiler.c`. -/
def emitConstant (value : Value) (s : State) : State :=
  let r := makeConstant value s
  emitBytes OP_CONSTANT r.1 r.2

/-- `patchJump` of `compiler.c`; `offset` is an offset that `emitJump` returned. -/
def patchJump (offset : Int) (s : State) : State :=
  let jump : Int := currentCount s - offset - 2
  let s := if jump > UINT16_MAX then error "Too much code to jump over." s else s
  modifyChunk (fun chunk => { chunk with
    code := (chunk.code.set offset.toNat (asUInt8 (jump / 256))).set (offset.toNat + 1)
      (asUInt8 jump) }) s

/-- `initCompiler` of `compiler.c`. -/
def initCompiler (x : Extern) (type : FunctionType) (s : State) : State :=
  let function : ObjFunction :=
    { arity := 0, upvalueCount := 0, chunk := { code := [], lines := [], constants := [] },
      name := if type ≠ TYPE_SCRIPT then some (x.copyString s.parser.previous.lexeme) else none }
  let slot0 : Local :=
    { name := if type ≠ TYPE_FUNCTION then "this" else "", depth := 0, isCaptured := false }
  let compiler : Compiler :=
    { function := function, functionPtr := x.newFunction s.allocated, type := type,
      locals := [slot0], upvalues := [], scopeDepth := 0 }
  { s with frames := compiler :: s.frames, allocated := s.allocated + 1 }

/-- `endCompiler` of `compiler.c`: the frame that was current (whose `function` is the
function returned) and the state after the call. -/
def endCompiler (s : State) : Option Compiler × State :=
  let s := emitReturn s
  match s.frames with
  | [] => (none, s)
  | c :: rest => (some c, { s with frames := rest })

/-- `beginScope` of `compiler.c`. -/
def beginScope (s : State) : State :=
  modifyCurrent (fun c => { c with scopeDepth := c.scopeDepth + 1 }) s

/-- The `while` loop of `endScope`; the first argument is `current->localCount`. -/
def endScopeLoop : Nat → State → State
  | 0, s => s
  | n + 1, s =>
    match s.frames with
    | [] => s
    | c :: _ =>
      match c.locals.getLast? with
      | none => s
      | some l =>
        if l.depth > c.scopeDepth then
          let s := if l.isCaptured then emitByte OP_CLOSE_UPVALUE s else emitByte OP_POP s
          endScopeLoop n (modifyCurrent (fun c => { c with locals := c.locals.dropLast }) s)
        else s

/-- `current->localCount`. -/
def localCount (s : State) : Nat :=
  match s.frames with
  | [] => 0
  | c :: _ => c.locals.length

/-- `current->scopeDepth`. -/
def scopeDepth (s : State) : Int :=
  match s.frames with
  | [] => 0
  | c :: _ => c.scopeDepth

/-- `endScope` of `compiler.c`. -/
def endScope (s : State) : State :=
  let s := modifyCurrent (fun c => { c with scopeDepth := c.scopeDepth - 1 }) s
  endScopeLoop (localCount s) s

/-! ## compiler.c: variables, scopes and upvalues -/

/-- `makeConstant(OBJ_VAL(copyString(name->start, name->length)))`: `identifierConstant` of
`compiler.c`. -/
def identifierConstant (x : Extern) (name : String) (s : State) : Nat × State :=
  makeConstant (OBJ_VAL (x.copyString name)) s

/-- `addLocal` of `compiler.c`. -/
def addLocal (name : String) (s : State) : State :=
  if (localCount s : Int) = UINT8_COUNT then
    error "Too many local variables in function." s
  else
    modifyCurrent (fun c => { c with
      locals := c.locals ++ [{ name := name, depth := -1, isCaptured := false }] }) s

/-- `identifiersEqual` of `compiler.c`: equal lengths and equal bytes. -/
def identifiersEqual (a b : String) : Bool :=
  decide (a = b)

/-- The `for` loop of `resolveLocal`, entered with `i + 1` the argument: the index found and
the local stored there. -/
def resolveLocalLoop (locals : List Local) (name : String) : Nat → Option (Nat × Local)
  | 0 => none
  | i + 1 =>
    match locals[i]? with
    | none => none
    | some l =>
      if identifiersEqual name l.name then some (i, l)
      else resolveLocalLoop locals name i

/-- `resolveLocal` of `compiler.c`; the frame `compiler` is given by its position `ci` in
the chain of frames (0 is `current`). -/
def resolveLocal (ci : Nat) (name : String) (s : State) : Int × State :=
  match s.frames[ci]? with
  | none => (-1, { s with faults := s.faults ++ [Fault.nullCurrent] })
  | some c =>
    match resolveLocalLoop c.locals name c.locals.length with
    | none => (-1, s)
    | some (i, l) =>
      (i, if l.depth = -1 then
        error "Can't read local variable in its own initializer." s else s)

/-- The `for` loop of `addUpvalue`: the index of the first upvalue equal to
`(index, isLocal)`, counted from `i`. -/
def findUpvalue : List Upvalue → Nat → Nat → Bool → Option Nat
  | [], _, _, _ => none
  | u :: rest, i, index, isLocal =>
    if u.index = index ∧ u.isLocal = isLocal then some i
    else findUpvalue rest (i + 1) index isLocal

/-- A store through the frame at position `ci`. -/
def modifyFrame (ci : Nat) (f : Compiler → Compiler) (s : State) : State :=
  match s.frames[ci]? with
  | none => { s with faults := s.faults ++ [Fault.nullCurrent] }
  | some c => { s with frames := s.frames.set ci (f c) }

/-- `addUpvalue` of `compiler.c`: the index returned and the state after the call. -/
def addUpvalue (ci : Nat) (index : Nat) (isLocal : Bool) (s : State) : Int × State :=
  match s.frames[ci]? with
  | none => (0, { s with faults := s.faults ++ [Fault.nullCurrent] })
  | some c =>
    let upvalueCount : Int := c.function.upvalueCount
    match findUpvalue c.upvalues 0 index isLocal with
    | some i => (i, s)
    | none =>
      if upvalueCount = UINT8_COUNT then
        (0, error "Too many closure variables in function." s)
      else
        (upvalueCount, modifyFrame ci (fun c => { c with
          upvalues := c.upvalues ++ [{ index := index, isLocal := isLocal }]
          function := { c.function with upvalueCount := c.function.upvalueCount + 1 } }) s)

/-- The store `compiler->locals[index].isCaptured = true` into the frame at position `ci`;
a store outside `locals[0 .. localCount-1]` is recorded as a fault and changes nothing
else. -/
def setCaptured (ci : Nat) (index : Int) (s : State) : State :=
  match s.frames[ci]? with
  | none => { s with faults := s.faults ++ [Fault.nullCurrent] }
  | some c =>
    if 0 ≤ index ∧ index < c.locals.length then
      match c.locals[index.toNat]? with
      | none => s
      | some l =>
        let marked : Local := { l with isCaptured := true }
        let frame : Compiler := { c with locals := c.locals.set index.toNat marked }
        { s with frames := s.frames.set ci frame }
    else { s with faults := s.faults ++ [Fault.localsIndex index] }

/-- `resolveUpvalue` of `compiler.c`, by recursion on the number of frames that enclose the
frame at position `ci`. In the second branch the source stores to
`compiler->enclosing->locals[local]` with `local == -1`. -/
def resolveUpvalueAux : Nat → Nat → String → State → Int × State
  | 0, _, _, s => (-1, s)
  | fuel + 1, ci, name, s =>
    if s.frames.length ≤ ci + 1 then (-1, s)
    else
      let r := resolveLocal (ci + 1) name s
      let localIdx : Int := r.1
      let s := r.2
      if localIdx ≠ -1 then
        addUpvalue ci (asUInt8 localIdx) true s
      else
        let r := resolveUpvalueAux fuel (ci + 1) name s
        let upvalue : Int := r.1
        let s := r.2
        if upvalue ≠ -1 then
          let s := setCaptured (ci + 1) localIdx s
          addUpvalue ci (asUInt8 upvalue) false s
        else (-1, s)

/-- `resolveUpvalue` of `compiler.c`. -/
def resolveUpvalue (ci : Nat) (name : String) (s : State) : Int × State :=
  resolveUpvalueAux s.frames.length ci name s

/-- The `for` loop of `declareVariable`, entered with `i + 1` the argument. -/
def declareVariableLoop (name : String) : Nat → State → State
  | 0, s => s
  | i + 1, s =>
    match s.frames with
    | [] => s
    | c :: _ =>
      match c.locals[i]? with
      | none => s
      | some l =>
        if l.depth ≠ -1 ∧ l.depth < c.scopeDepth then s
        else
          let s :=
            if identifiersEqual name l.name then
              error "Already variable with this name in this scope." s
            else s
          declareVariableLoop name i s

/-- `declareVariable` of `compiler.c`. -/
def declareVariable (s : State) : State :=
  if scopeDepth s = 0 then s
  else
    let name := s.parser.previous.lexeme
    let s := declareVariableLoop name (localCount s) s
    addLocal name s

/-- `parseVariable` of `compiler.c`. -/
def parseVariable (x : Extern) (errorMessage : String) (s : State) : Nat × State :=
  let s := consume TOKEN_IDENTIFIER errorMessage s
  let s := declareVariable s
  if scopeDepth s > 0 then (0, s)
  else identifierConstant x s.parser.previous.lexeme s

/-- `markInitialized` of `compiler.c`. -/
def markInitialized (s : State) : State :=
  if scopeDepth s = 0 then s
  else
    match s.frames with
    | [] => { s with faults := s.faults ++ [Fault.nullCurrent] }
    | c :: rest =>
      match c.locals.getLast? with
      | none => { s with faults := s.faults ++ [Fault.localsIndex (-1)] }
      | some l =>
        let initialized : Local := { l with depth := c.scopeDepth }
        let frame : Compiler := { c with locals := c.locals.dropLast ++ [initialized] }
        { s with frames := frame :: rest }

/-- `defineVariable` of `compiler.c`. -/
def defineVariable (global : Nat) (s : State) : State :=
  if scopeDepth s > 0 then markInitialized s
  else emitBytes OP_DEFINE_GLOBAL global s

/-- The `while` loop of `synchronize`. Every iteration advances past a token that is not
`TOKEN_EOF`, so `source.length + 1` iterations always suffice. -/
def synchronizeLoop : Nat → State → State
  | 0, s => s
  | fuel + 1, s =>
    if s.parser.current.type ≠ TOKEN_EOF then
      if s.parser.previous.type = TOKEN_SEMICOLON then s
      else
        match s.parser.current.type with
        | TOKEN_CLASS => s
        | TOKEN_FUN => s
        | TOKEN_VAR => s
        | TOKEN_FOR => s
        | TOKEN_IF => s
        | TOKEN_WHILE => s
        | TOKEN_PRINT => s
        | TOKEN_RETURN => s
        | _ => synchronizeLoop fuel (advance s)
    else s

/-- `synchronize` of `compiler.c`. -/
def synchronize (s : State) : State :=
  synchronizeLoop (s.source.length + 1) { s with parser := { s.parser with panicMode := false } }

/-- `syntheticToken` of `compiler.c`: only `start` and `length` of the token are set, so
the token is its lexeme. -/
def syntheticToken (text : String) : String := text

/-- Appends a record of undefined behaviour met by the C code (a null function pointer
call, an out-of-range array index) to the state. -/
def recordFault (f : Fault) (s : State) : State :=
  { s with faults := s.faults ++ [f] }

/-- Assignment to the global `currentClass`: the chain of enclosing class compilers
becomes `classes`. -/
def setClasses (classes : List ClassCompiler) (s : State) : State :=
  { s with classes := classes }

/-- The table `rules` of `compiler.c`, read through `getRule`. -/
def getRule (type : TokenType) : ParseRule :=
  match type with
  | TOKEN_LEFT_PAREN => ⟨some ParseFn.grouping, some ParseFn.call, PREC_CALL⟩
  | TOKEN_RIGHT_PAREN => ⟨none, none, PREC_NONE⟩
  | TOKEN_LEFT_BRACE => ⟨none, none, PREC_NONE⟩
  | TOKEN_RIGHT_BRACE => ⟨none, none, PREC_NONE⟩
  | TOKEN_COMMA => ⟨none, none, PREC_NONE⟩
  | TOKEN_DOT => ⟨none, some ParseFn.dot, PREC_CALL⟩
  | TOKEN_MINUS => ⟨some ParseFn.unary, some ParseFn.binary, PREC_TERM⟩
  | TOKEN_PLUS => ⟨none, some ParseFn.binary, PREC_TERM⟩
  | TOKEN_SEMICOLON => ⟨none, none, PREC_NONE⟩
  | TOKEN_SLASH => ⟨none, some ParseFn.binary, PREC_FACTOR⟩
  | TOKEN_STAR => ⟨none, some ParseFn.binary, PREC_FACTOR⟩
  | TOKEN_BANG => ⟨some ParseFn.unary, none, PREC_NONE⟩
  | TOKEN_BANG_EQUAL => ⟨none, some ParseFn.binary, PREC_EQUALITY⟩
  | TOKEN_EQUAL => ⟨none, none, PREC_NONE⟩
  | TOKEN_EQUAL_EQUAL => ⟨none, some ParseFn.binary, PREC_EQUALITY⟩
  | TOKEN_GREATER => ⟨none, some ParseFn.binary, PREC_COMPARISON⟩
  | TOKEN_GREATER_EQUAL => ⟨none, some ParseFn.binary, PREC_COMPARISON⟩
  | TOKEN_LESS => ⟨none, some ParseFn.binary, PREC_COMPARISON⟩
  | TOKEN_LESS_EQUAL => ⟨none, some ParseFn.binary, PREC_COMPARISON⟩
  | TOKEN_IDENTIFIER => ⟨some ParseFn.variable_, none, PREC_NONE⟩
  | TOKEN_STRING => ⟨some ParseFn.string, none, PREC_NONE⟩
  | TOKEN_NUMBER => ⟨some ParseFn.number, none, PREC_NONE⟩
  | TOKEN_AND => ⟨none, some ParseFn.and_, PREC_AND⟩
  | TOKEN_CLASS => ⟨none, none, PREC_NONE⟩
  | TOKEN_ELSE => ⟨none, none, PREC_NONE⟩
  | TOKEN_FALSE => ⟨some ParseFn.literal, none, PREC_NONE⟩
  | TOKEN_FOR => ⟨none, none, PREC_NONE⟩
  | TOKEN_FUN => ⟨none, none, PREC_NONE⟩
  | TOKEN_IF => ⟨none, none, PREC_NONE⟩
  | TOKEN_NIL => ⟨some ParseFn.literal, none, PREC_NONE⟩
  | TOKEN_OR => ⟨none, some ParseFn.or_, PREC_OR⟩
  | TOKEN_PRINT => ⟨none, none, PREC_NONE⟩
  | TOKEN_RETURN => ⟨none, none, PREC_NONE⟩
  | TOKEN_SUPER => ⟨some ParseFn.super_, none, PREC_NONE⟩
  | TOKEN_THIS => ⟨some ParseFn.this_, none, PREC_NONE⟩
  | TOKEN_TRUE => ⟨some ParseFn.literal, none, PREC_NONE⟩
  | TOKEN_VAR => ⟨none, none, PREC_NONE⟩
  | TOKEN_WHILE => ⟨none, none, PREC_NONE⟩
  | TOKEN_ERROR => ⟨none, none, PREC_NONE⟩
  | TOKEN_EOF => ⟨none, none, PREC_NONE⟩

/-- The parts of `function` of `compiler.c` that compile the parameter list: the body of
the `do ... while (match(TOKEN_COMMA))` loop, run `fuel` times at most. Every iteration
but the first follows a comma taken from the source, so `source.length + 2` iterations
always suffice. -/
def functionParams (x : Extern) : Nat → State → State
  | 0, s => s
  | fuel + 1, s =>
    let s := modifyCurrent (fun c => { c with
      function := { c.function with arity := c.function.arity + 1 } }) s
    let arity : Int :=
      match s.frames with
      | [] => 0
      | c :: _ => c.function.arity
    let s := if arity > 255 then errorAtCurrent "Can't have more than 255 parameters." s else s
    let r := parseVariable x "Expect parameter name." s
    let s := defineVariable r.1 r.2
    let m := matchToken TOKEN_COMMA s
    if m.1 then functionParams x fuel m.2 else m.2

/-- The `for` loop at the end of `function` of `compiler.c`: the operand pairs of
`OP_CLOSURE`, read from the upvalues of the frame `compiler`. -/
def emitUpvalues (compiler : Compiler) (upvalueCount : Nat) (s : State) : State :=
  (List.range upvalueCount).foldl
    (fun s i =>
      match compiler.upvalues[i]? with
      | none => { s with faults := s.faults ++ [Fault.localsIndex i] }
      | some u => emitByte u.index (emitByte (if u.isLocal then 1 else 0) s))
    s

/-! ## compiler.c: the recursive-descent functions -/

/-- The mutually recursive functions of `compiler.c`, with their arguments. The loops whose
body calls one of these functions are procedures of their own: `parsePrecedenceLoop` is the
`while` loop of `parsePrecedence`, `argumentListLoop` the `do ... while` loop of
`argumentList` (its argument is `argCount`), `classDeclarationLoop` the `while` loop of
`classDeclaration`, `compileLoop` the `while` loop of `compile`. The `while` loop of `block`
is `block` itself. `variable_` is the function `variable`. -/
inductive Proc where
  | parsePrecedence (precedence : Nat)
  | parsePrecedenceLoop (precedence : Nat) (canAssign : Bool)
  | and_ (canAssign : Bool)
  | or_ (canAssign : Bool)
  | expression
  | varDeclaration
  | expressionStatement
  | forStatement
  | ifStatement
  | whileStatement
  | printStatement
  | returnStatement
  | declaration
  | statement
  | block
  | function (type : FunctionType)
  | method
  | classDeclaration
  | classDeclarationLoop
  | funDeclaration
  | binary (canAssign : Bool)
  | argumentList
  | argumentListLoop (argCount : Nat)
  | call (canAssign : Bool)
  | dot (canAssign : Bool)
  | literal (canAssign : Bool)
  | number (canAssign : Bool)
  | string (canAssign : Bool)
  | namedVariable (name : String) (canAssign : Bool)
  | variable_ (canAssign : Bool)
  | super_ (canAssign : Bool)
  | this_ (canAssign : Bool)
  | unary (canAssign : Bool)
  | grouping (canAssign : Bool)
  | compileLoop
deriving DecidableEq, Repr

/-- The call `fn(canAssign)` through a `ParseFn` pointer. -/
def ParseFn.proc (fn : ParseFn) (canAssign : Bool) : Proc :=
  match fn with
  | ParseFn.grouping => Proc.grouping canAssign
  | ParseFn.call => Proc.call canAssign
  | ParseFn.dot => Proc.dot canAssign
  | ParseFn.unary => Proc.unary canAssign
  | ParseFn.binary => Proc.binary canAssign
  | ParseFn.variable_ => Proc.variable_ canAssign
  | ParseFn.string => Proc.string canAssign
  | ParseFn.number => Proc.number canAssign
  | ParseFn.and_ => Proc.and_ canAssign
  | ParseFn.or_ => Proc.or_ canAssign
  | ParseFn.literal => Proc.literal canAssign
  | ParseFn.super_ => Proc.super_ canAssign
  | ParseFn.this_ => Proc.this_ canAssign

/-- The functions of `compiler.c` that call each other recursively. `exec x fuel p s` runs
the procedure `p` from the state `s`; `fuel` bounds the depth of the calls, and the result
is `none` when it is exhausted. The result is the value returned (0 for a `void` function)
and the state after the call. -/
def exec (x : Extern) : Nat → Proc → State → Option (Int × State)
  | 0, _, _ => none
  | n + 1, Proc.parsePrecedence precedence, s =>
    let s := advance s
    match (getRule s.parser.previous.type).prefixRule with
    | none => some (0, error "Expect expression." s)
    | some prefixRule =>
      let canAssign : Bool := decide (precedence ≤ PREC_ASSIGNMENT)
      (exec x n (prefixRule.proc canAssign) s).bind fun r =>
      (exec x n (Proc.parsePrecedenceLoop precedence canAssign) r.2).bind fun r =>
      let s := r.2
      if canAssign then
        let m := matchToken TOKEN_EQUAL s
        if m.1 then some (0, error "Invalid assignment target." m.2) else some (0, m.2)
      else some (0, s)
  | n + 1, Proc.parsePrecedenceLoop precedence canAssign, s =>
    if precedence ≤ (getRule s.parser.current.type).precedence then
      let s := advance s
      match (getRule s.parser.previous.type).infixRule with
      | none => some (0, recordFault Fault.nullParseFn s)
      | some infixRule =>
        (exec x n (infixRule.proc canAssign) s).bind fun r =>
        exec x n (Proc.parsePrecedenceLoop precedence canAssign) r.2
    else some (0, s)
  | n + 1, Proc.and_ _, s =>
    let endJump := emitJump OP_JUMP_IF_FALSE s
    let s := emitByte OP_POP endJump.2
    (exec x n (Proc.parsePrecedence PREC_AND) s).bind fun r =>
    some (0, patchJump endJump.1 r.2)
  | n + 1, Proc.or_ _, s =>
    let elseJump := emitJump OP_JUMP_IF_FALSE s
    let endJump := emitJump OP_JUMP elseJump.2
    let s := patchJump elseJump.1 endJump.2
    let s := emitByte OP_POP s
    (exec x n (Proc.parsePrecedence PREC_OR) s).bind fun r =>
    some (0, patchJump endJump.1 r.2)
  | n + 1, Proc.expression, s =>
    exec x n (Proc.parsePrecedence PREC_ASSIGNMENT) s
  | n + 1, Proc.varDeclaration, s =>
    let global := parseVariable x "Expect variable name." s
    let m := matchToken TOKEN_EQUAL global.2
    (if m.1 then exec x n Proc.expression m.2
      else some (0, emitByte OP_NIL m.2)).bind fun r =>
    let s := consume TOKEN_SEMICOLON "Expect ';' after variable declaration." r.2
    some (0, defineVariable global.1 s)
  | n + 1, Proc.expressionStatement, s =>
    (exec x n Proc.expression s).bind fun r =>
    let s := consume TOKEN_SEMICOLON "Expect ';' after expression." r.2
    some (0, emitByte OP_POP s)
  | n + 1, Proc.forStatement, s =>
    let s := beginScope s
    let s := consume TOKEN_LEFT_PAREN "Expect '(' after 'for'." s
    let m := matchToken TOKEN_SEMICOLON s
    (if m.1 then some (0, m.2)
      else
        let m := matchToken TOKEN_VAR m.2
        if m.1 then exec x n Proc.varDeclaration m.2
        else exec x n Proc.expressionStatement m.2).bind fun r =>
    let s := r.2
    let loopStart : Int := currentCount s
    let m := matchToken TOKEN_SEMICOLON s
    (if !m.1 then
        (exec x n Proc.expression m.2).bind fun r =>
        let s := consume TOKEN_SEMICOLON "Expect ';' after loop condition." r.2
        let exitJump := emitJump OP_JUMP_IF_FALSE s
        some (exitJump.1, emitByte OP_POP exitJump.2)
      else some (-1, m.2)).bind fun r =>
    let exitJump : Int := r.1
    let s := r.2
    let m := matchToken TOKEN_RIGHT_PAREN s
    (if !m.1 then
        let bodyJump := emitJump OP_JUMP m.2
        let incrementStart : Int := currentCount bodyJump.2
        (exec x n Proc.expression bodyJump.2).bind fun r =>
        let s := emitByte OP_POP r.2
        let s := consume TOKEN_RIGHT_PAREN "Expect ')' after for clauses." s
        let s := emitLoop loopStart s
        some (incrementStart, patchJump bodyJump.1 s)
      else some (loopStart, m.2)).bind fun r =>
    let loopStart : Int := r.1
    (exec x n Proc.statement r.2).bind fun r =>
    let s := emitLoop loopStart r.2
    let s := if exitJump ≠ -1 then emitByte OP_POP (patchJump exitJump s) else s
    some (0, endScope s)
  | n + 1, Proc.ifStatement, s =>
    let s := consume TOKEN_LEFT_PAREN "Expect '(' after 'if'." s
    (exec x n Proc.expression s).bind fun r =>
    let s := consume TOKEN_RIGHT_PAREN "Expect ')' after condition." r.2
    let thenJump := emitJump OP_JUMP_IF_FALSE s
    let s := emitByte OP_POP thenJump.2
    (exec x n Proc.statement s).bind fun r =>
    let elseJump := emitJump OP_JUMP r.2
    let s := patchJump thenJump.1 elseJump.2
    let s := emitByte OP_POP s
    let m := matchToken TOKEN_ELSE s
    (if m.1 then exec x n Proc.statement m.2 else some (0, m.2)).bind fun r =>
    some (0, patchJump elseJump.1 r.2)
  | n + 1, Proc.whileStatement, s =>
    let loopStart : Int := currentCount s
    let s := consume TOKEN_LEFT_PAREN "Expect '(' after 'while'." s
    (exec x n Proc.expression s).bind fun r =>
    let s := consume TOKEN_RIGHT_PAREN "Expect ')' after 'while'." r.2
    let exitJump := emitJump OP_JUMP_IF_FALSE s
    let s := emitByte OP_POP exitJump.2
    (exec x n Proc.statement s).bind fun r =>
    let s := emitLoop loopStart r.2
    let s := patchJump exitJump.1 s
    some (0, emitByte OP_POP s)
  | n + 1, Proc.printStatement, s =>
    (exec x n Proc.expression s).bind fun r =>
    let s := consume TOKEN_SEMICOLON "Expect ';' after value." r.2
    some (0, emitByte OP_PRINT s)
  | n + 1, Proc.returnStatement, s =>
    let s :=
      if currentType s = TYPE_SCRIPT then error "Can't return from top-level code." s else s
    let m := matchToken TOKEN_SEMICOLON s
    if m.1 then some (0, emitReturn m.2)
    else
      let s :=
        if currentType m.2 = TYPE_INITIALIZER then
          error "Can't return a value from an initializer." m.2
        else m.2
      (exec x n Proc.expression s).bind fun r =>
      let s := consume TOKEN_SEMICOLON "Expect ';' after return value." r.2
      some (0, emitByte OP_RETURN s)
  | n + 1, Proc.declaration, s =>
    let m := matchToken TOKEN_CLASS s
    (if m.1 then exec x n Proc.classDeclaration m.2
      else
        let m := matchToken TOKEN_FUN m.2
        if m.1 then exec x n Proc.funDeclaration m.2
        else
          let m := matchToken TOKEN_VAR m.2
          if m.1 then exec x n Proc.varDeclaration m.2
          else exec x n Proc.statement m.2).bind fun r =>
    let s := r.2
    if s.parser.panicMode then some (0, synchronize s) else some (0, s)
  | n + 1, Proc.statement, s =>
    let m := matchToken TOKEN_PRINT s
    if m.1 then exec x n Proc.printStatement m.2
    else
      let m := matchToken TOKEN_IF m.2
      if m.1 then exec x n Proc.ifStatement m.2
      else
        let m := matchToken TOKEN_RETURN m.2
        if m.1 then exec x n Proc.returnStatement m.2
        else
          let m := matchToken TOKEN_WHILE m.2
          if m.1 then exec x n Proc.whileStatement m.2
          else
            let m := matchToken TOKEN_FOR m.2
            if m.1 then exec x n Proc.forStatement m.2
            else
              let m := matchToken TOKEN_LEFT_BRACE m.2
              if m.1 then
                let s := beginScope m.2
                (exec x n Proc.block s).bind fun r =>
                some (0, endScope r.2)
              else exec x n Proc.expressionStatement m.2
  | n + 1, Proc.block, s =>
    if !check TOKEN_RIGHT_BRACE s && !check TOKEN_EOF s then
      (exec x n Proc.declaration s).bind fun r =>
      exec x n Proc.block r.2
    else some (0, consume TOKEN_RIGHT_BRACE "Expect '\x7d' after block." s)
  | n + 1, Proc.function type, s =>
    let s := initCompiler x type s
    let s := beginScope s
    let s := consume TOKEN_LEFT_PAREN "Expect '(' after function name." s
    let s := if !check TOKEN_RIGHT_PAREN s then functionParams x (s.source.length + 2) s else s
    let s := consume TOKEN_RIGHT_PAREN "Expect ')' after parameters." s
    let s := consume TOKEN_LEFT_BRACE "Expect '\x7b' before function body." s
    (exec x n Proc.block s).bind fun r =>
    let ended := endCompiler r.2
    match ended.1 with
    | none => some (0, ended.2)
    | some compiler =>
      let constant := makeConstant (OBJ_VAL compiler.functionPtr) ended.2
      let s := emitBytes OP_CLOSURE constant.1 constant.2
      some (0, emitUpvalues compiler compiler.function.upvalueCount.toNat s)
  | n + 1, Proc.method, s =>
    let s := consume TOKEN_IDENTIFIER "Expect method name." s
    let constant := identifierConstant x s.parser.previous.lexeme s
    let s := constant.2
    let type : FunctionType :=
      if s.parser.previous.lexeme = "init" then TYPE_INITIALIZER else TYPE_METHOD
    (exec x n (Proc.function type) s).bind fun r =>
    some (0, emitBytes OP_METHOD constant.1 r.2)
  | n + 1, Proc.classDeclaration, s =>
    let s := consume TOKEN_IDENTIFIER "Expect class name." s
    let className : String := s.parser.previous.lexeme
    let nameConstant := identifierConstant x s.parser.previous.lexeme s
    let s := declareVariable nameConstant.2
    let s := emitBytes OP_CLASS nameConstant.1 s
    let s := defineVariable nameConstant.1 s
    let classCompiler : ClassCompiler := { name := s.parser.previous, hasSuperclass := false }
    let s := setClasses (classCompiler :: s.classes) s
    let m := matchToken TOKEN_LESS s
    (if m.1 then
        let s := consume TOKEN_IDENTIFIER "Expect superclass name." m.2
        (exec x n (Proc.variable_ false) s).bind fun r =>
        let s := r.2
        let s :=
          if identifiersEqual className s.parser.previous.lexeme then
            error "A class can't inherit from itself." s
          else s
        (exec x n (Proc.namedVariable className false) s).bind fun r =>
        let s := emitByte OP_INHERIT r.2
        let marked : List ClassCompiler :=
          match s.classes with
          | [] => []
          | c :: rest => { c with hasSuperclass := true } :: rest
        some (0, setClasses marked s)
      else some (0, m.2)).bind fun r =>
    let s := beginScope r.2
    let s := addLocal (syntheticToken "super") s
    let s := defineVariable 0 s
    (exec x n (Proc.namedVariable className false) s).bind fun r =>
    let s := consume TOKEN_LEFT_BRACE "Expect '\x7b' before class body." r.2
    (exec x n Proc.classDeclarationLoop s).bind fun r =>
    let s := consume TOKEN_RIGHT_BRACE "Expect '\x7d' after class body." r.2
    let s := emitByte OP_POP s
    let hasSuperclass : Bool :=
      match s.classes with
      | [] => false
      | c :: _ => c.hasSuperclass
    let s := if hasSuperclass then endScope s else s
    some (0, setClasses s.classes.tail s)
  | n + 1, Proc.classDeclarationLoop, s =>
    if !check TOKEN_RIGHT_BRACE s && !check TOKEN_EOF s then
      (exec x n Proc.method s).bind fun r =>
      exec x n Proc.classDeclarationLoop r.2
    else some (0, s)
  | n + 1, Proc.funDeclaration, s =>
    let global := parseVariable x "Expect function name." s
    let s := markInitialized global.2
    (exec x n (Proc.function TYPE_FUNCTION) s).bind fun r =>
    some (0, defineVariable global.1 r.2)
  | n + 1, Proc.binary _, s =>
    let operatorType := s.parser.previous.type
    let rule := getRule operatorType
    (exec x n (Proc.parsePrecedence (rule.precedence + 1)) s).bind fun r =>
    let s := r.2
    match operatorType with
    | TOKEN_BANG_EQUAL => some (0, emitBytes OP_EQUAL OP_NOT s)
    | TOKEN_EQUAL_EQUAL => some (0, emitByte OP_EQUAL s)
    | TOKEN_GREATER => some (0, emitByte OP_GREATER s)
    | TOKEN_GREATER_EQUAL => some (0, emitBytes OP_LESS OP_NOT s)
    | TOKEN_LESS => some (0, emitByte OP_LESS s)
    | TOKEN_LESS_EQUAL => some (0, emitBytes OP_GREATER OP_NOT s)
    | TOKEN_PLUS => some (0, emitByte OP_ADD s)
    | TOKEN_MINUS => some (0, emitByte OP_SUBTRACT s)
    | TOKEN_STAR => some (0, emitByte OP_MULTIPLY s)
    | TOKEN_SLASH => some (0, emitByte OP_DIVIDE s)
    | _ => some (0, s)
  | n + 1, Proc.argumentList, s =>
    (if !check TOKEN_RIGHT_PAREN s then exec x n (Proc.argumentListLoop 0) s
      else some (0, s)).bind fun r =>
    some (r.1, consume TOKEN_RIGHT_PAREN "Expect ')' after arguments." r.2)
  | n + 1, Proc.argumentListLoop argCount, s =>
    (exec x n Proc.expression s).bind fun r =>
    let s := if argCount = 255 then error "Can't have more than 255 arguments." r.2 else r.2
    let argCount : Nat := (argCount + 1) % 256
    let m := matchToken TOKEN_COMMA s
    if m.1 then exec x n (Proc.argumentListLoop argCount) m.2
    else some (argCount, m.2)
  | n + 1, Proc.call _, s =>
    (exec x n Proc.argumentList s).bind fun r =>
    some (0, emitBytes OP_CALL (asUInt8 r.1) r.2)
  | n + 1, Proc.dot canAssign, s =>
    let s := consume TOKEN_IDENTIFIER "Expect property name after '.'." s
    let name := identifierConstant x s.parser.previous.lexeme s
    let m := if canAssign then matchToken TOKEN_EQUAL name.2 else (false, name.2)
    if m.1 then
      (exec x n Proc.expression m.2).bind fun r =>
      some (0, emitBytes OP_SET_PROPERTY name.1 r.2)
    else
      let m := matchToken TOKEN_LEFT_PAREN m.2
      if m.1 then
        (exec x n Proc.argumentList m.2).bind fun r =>
        let s := emitBytes OP_INVOKE name.1 r.2
        some (0, emitByte (asUInt8 r.1) s)
      else some (0, emitBytes OP_GET_PROPERTY name.1 m.2)
  | _ + 1, Proc.literal _, s =>
    match s.parser.previous.type with
    | TOKEN_FALSE => some (0, emitByte OP_FALSE s)
    | TOKEN_NIL => some (0, emitByte OP_NIL s)
    | TOKEN_TRUE => some (0, emitByte OP_TRUE s)
    | _ => some (0, s)
  | _ + 1, Proc.number _, s =>
    let value := x.strtod s.parser.previous.lexeme (s.parser.current :: s.source)
    some (0, emitConstant (NUMBER_VAL value) s)
  | _ + 1, Proc.string _, s =>
    let chars := s.parser.previous.lexeme.data
    some (0, emitConstant
      (OBJ_VAL (x.copyString (String.mk ((chars.drop 1).take (chars.length - 2))))) s)
  | n + 1, Proc.namedVariable name canAssign, s =>
    let r := resolveLocal 0 name s
    let resolved : (Nat × Nat) × (Int × State) :=
      if r.1 ≠ -1 then ((OP_GET_LOCAL, OP_SET_LOCAL), r)
      else
        let r := resolveUpvalue 0 name r.2
        if r.1 ≠ -1 then ((OP_GET_UPVALUE, OP_SET_UPVALUE), r)
        else
          let c := identifierConstant x name r.2
          ((OP_GET_GLOBAL, OP_SET_GLOBAL), ((c.1 : Int), c.2))
    let getOp := resolved.1.1
    let setOp := resolved.1.2
    let arg : Int := resolved.2.1
    let m := if canAssign then matchToken TOKEN_EQUAL resolved.2.2 else (false, resolved.2.2)
    if m.1 then
      (exec x n Proc.expression m.2).bind fun r =>
      some (0, emitBytes setOp (asUInt8 arg) r.2)
    else some (0, emitBytes getOp (asUInt8 arg) m.2)
  | n + 1, Proc.variable_ canAssign, s =>
    exec x n (Proc.namedVariable s.parser.previous.lexeme canAssign) s
  | n + 1, Proc.super_ _, s =>
    let s :=
      match s.classes with
      | [] => error "Can't use 'super' outside of a class." s
      | c :: _ =>
        if !c.hasSuperclass then error "Can't use 'super' in a class with no superclass." s
        else s
    let s := consume TOKEN_DOT "Expect '.' after 'super'." s
    let s := consume TOKEN_IDENTIFIER "Expect superclass method name." s
    let name := identifierConstant x s.parser.previous.lexeme s
    (exec x n (Proc.namedVariable (syntheticToken "this") false) name.2).bind fun r =>
    (exec x n (Proc.namedVariable (syntheticToken "super") false) r.2).bind fun r =>
    let m := matchToken TOKEN_LEFT_PAREN r.2
    if m.1 then
      (exec x n Proc.argumentList m.2).bind fun a =>
      (exec x n (Proc.namedVariable (syntheticToken "super") false) a.2).bind fun r =>
      let s := emitBytes OP_SUPER_INVOKE name.1 r.2
      some (0, emitByte (asUInt8 a.1) s)
    else
      (exec x n (Proc.namedVariable (syntheticToken "super") false) m.2).bind fun r =>
      some (0, emitBytes OP_GET_SUPER name.1 r.2)
  | n + 1, Proc.this_ _, s =>
    match s.classes with
    | [] => some (0, error "Can't use 'this' outside of a class." s)
    | _ :: _ => exec x n (Proc.variable_ false) s
  | n + 1, Proc.unary _, s =>
    let operatorType := s.parser.previous.type
    (exec x n (Proc.parsePrecedence PREC_UNARY) s).bind fun r =>
    let s := r.2
    match operatorType with
    | TOKEN_BANG => some (0, emitByte OP_NOT s)
    | TOKEN_MINUS => some (0, emitByte OP_NEGATE s)
    | _ => some (0, s)
  | n + 1, Proc.grouping _, s =>
    (exec x n Proc.expression s).bind fun r =>
    some (0, consume TOKEN_RIGHT_PAREN "Expect ')' after expression." r.2)
  | n + 1, Proc.compileLoop, s =>
    let m := matchToken TOKEN_EOF s
    if m.1 then some (0, m.2)
    else
      (exec x n Proc.declaration m.2).bind fun r =>
      exec x n Proc.compileLoop r.2

/-- `compile` of `compiler.c`. `source` is the token stream that the scanner delivers for
the source text, `g` the global state before the call, `fuel` the bound on the depth of the
recursive descent. The result is `none` when the fuel is exhausted; otherwise it is the
value returned (`none` for `NULL`, else the frame of the top-level function, whose
`function` is the `ObjFunction` returned) and the global state after the call. -/
def compile (x : Extern) (fuel : Nat) (source : List Token) (g : State) :
    Option (Option Compiler × State) :=
  let s : State := { g with source := source }
  let s := initCompiler x TYPE_SCRIPT s
  let s : State := { s with parser := { s.parser with hadError := false, panicMode := false } }
  let s := advance s
  (exec x fuel Proc.compileLoop s).bind fun r =>
  let ended := endCompiler r.2
  some (if ended.2.parser.hadError then none else ended.1, ended.2)

/-! ## Worked examples for the compiler -/

/-- The externals used in the worked examples. -/
def demoExtern : Extern :=
  { strtod := fun s _ => s.length, copyString := fun s => 1000 + s.length,
    newFunction := fun n => 2000 + n }

/-- The global state of `compiler.c` at program start: `current` and `currentClass` are
`NULL`, the parser is zero-initialised, nothing has been printed. -/
def startState : State :=
  { parser :=
      { current := ⟨TOKEN_LEFT_PAREN, "", 0⟩, previous := ⟨TOKEN_LEFT_PAREN, "", 0⟩,
        hadError := false, panicMode := false }
    source := [], frames := [], classes := [], stderr := [], allocated := 0, faults := [] }

/-- The token stream of `class A {} var x = 1;`. -/
def classThenVar : List Token :=
  [ ⟨TOKEN_CLASS, "class", 1⟩, ⟨TOKEN_IDENTIFIER, "A", 1⟩, ⟨TOKEN_LEFT_BRACE, "\x7b", 1⟩,
    ⟨TOKEN_RIGHT_BRACE, "\x7d", 1⟩, ⟨TOKEN_VAR, "var", 1⟩, ⟨TOKEN_IDENTIFIER, "x", 1⟩,
    ⟨TOKEN_EQUAL, "=", 1⟩, ⟨TOKEN_NUMBER, "1", 1⟩, ⟨TOKEN_SEMICOLON, ";", 1⟩,
    ⟨TOKEN_EOF, "", 1⟩ ]

/-- The token stream of `var x = 1;`. -/
def varOnly : List Token :=
  [ ⟨TOKEN_VAR, "var", 1⟩, ⟨TOKEN_IDENTIFIER, "x", 1⟩,
    ⟨TOKEN_EQUAL, "=", 1⟩, ⟨TOKEN_NUMBER, "1", 1⟩, ⟨TOKEN_SEMICOLON, ";", 1⟩,
    ⟨TOKEN_EOF, "", 1⟩ ]

/-- What a compiled top-level function shows of its code and of the frame's locals. -/
def codeAndLocals (r : Option (Option Compiler × State)) :
    Option (Option (List Nat × List String × Int)) :=
  r.map fun r => r.1.map fun c => (c.function.chunk.code, c.locals.map (fun l => l.name), c.scopeDepth)

/-- An empty function object. -/
def emptyFunction : ObjFunction :=
  { arity := 0, upvalueCount := 0, chunk := { code := [], lines := [], constants := [] },
    name := none }

/-- A frame of type `TYPE_FUNCTION` at scope depth 1 with the given locals after slot 0. -/
def demoFrame (ptr : Nat) (locals : List Local) : Compiler :=
  { function := emptyFunction, functionPtr := ptr, type := TYPE_FUNCTION,
    locals := { name := "", depth := 0, isCaptured := false } :: locals,
    upvalues := [], scopeDepth := 1 }

/-- The state inside `fun f() { var a; fun g() { ... } }`, while the body of `g` is
compiled: `current` is the frame of `g`, its enclosing frame is that of `f`, which owns the
local `a` in slot 1. -/
def captureDemo : State :=
  { parser :=
      { current := ⟨TOKEN_SEMICOLON, ";", 1⟩, previous := ⟨TOKEN_IDENTIFIER, "a", 1⟩,
        hadError := false, panicMode := false }
    source := []
    frames := [demoFrame 2 [], demoFrame 1 [{ name := "a", depth := 1, isCaptured := false }]]
    classes := [], stderr := [], allocated := 2, faults := [] }

/-- The state inside `fun f() { var a; fun g() { fun h() { ... } } }`, while the body of
`h` is compiled: the local `a` is owned by the frame two levels out. -/
def captureDemo2 : State :=
  { captureDemo with
    frames := [demoFrame 3 [], demoFrame 2 [],
      demoFrame 1 [{ name := "a", depth := 1, isCaptured := false }]]
    allocated := 3 }

/-- What the frames show of their upvalues and of the capture flags of their locals. -/
def capturesOf (s : State) : List (List Upvalue × List Bool) :=
  s.frames.map fun c => (c.upvalues, c.locals.map (fun l => l.isCaptured))

/-- The token stream of `class A {}`. -/
def classOnly : List Token :=
  [ ⟨TOKEN_CLASS, "class", 1⟩, ⟨TOKEN_IDENTIFIER, "A", 1⟩, ⟨TOKEN_LEFT_BRACE, "\x7b", 1⟩,
    ⟨TOKEN_RIGHT_BRACE, "\x7d", 1⟩, ⟨TOKEN_EOF, "", 1⟩ ]

/-- The token stream of `class B < A {}`. -/
def classWithSuper : List Token :=
  [ ⟨TOKEN_CLASS, "class", 1⟩, ⟨TOKEN_IDENTIFIER, "B", 1⟩, ⟨TOKEN_LESS, "<", 1⟩,
    ⟨TOKEN_IDENTIFIER, "A", 1⟩, ⟨TOKEN_LEFT_BRACE, "\x7b", 1⟩,
    ⟨TOKEN_RIGHT_BRACE, "\x7d", 1⟩, ⟨TOKEN_EOF, "", 1⟩ ]

/-- The state in which `super_` is entered for the `super.m` of
`class B < A { m() { super.m; } }` and, with `args` the tokens `(` `)`, for `super.m()`:
`current` is the frame of the method `m`, with `this` in slot 0; the enclosing frame is that
of the script, which holds the local `super` of the class scope; `currentClass` has a
superclass; the token `super` has just been consumed. -/
def superDemo (args : List Token) : State :=
  { parser :=
      { current := ⟨TOKEN_DOT, ".", 1⟩, previous := ⟨TOKEN_SUPER, "super", 1⟩,
        hadError := false, panicMode := false }
    source := [⟨TOKEN_IDENTIFIER, "m", 1⟩] ++ args ++ [⟨TOKEN_SEMICOLON, ";", 1⟩,
      ⟨TOKEN_RIGHT_BRACE, "\x7d", 1⟩, ⟨TOKEN_RIGHT_BRACE, "\x7d", 1⟩, ⟨TOKEN_EOF, "", 1⟩]
    frames :=
      [ { function := { emptyFunction with name := some 1001 }, functionPtr := 2001,
          type := TYPE_METHOD, locals := [{ name := "this", depth := 0, isCaptured := false }],
          upvalues := [], scopeDepth := 1 },
        { function := emptyFunction, functionPtr := 2000, type := TYPE_SCRIPT,
          locals := [{ name := "this", depth := 0, isCaptured := false },
            { name := "super", depth := 1, isCaptured := false }],
          upvalues := [], scopeDepth := 1 } ]
    classes := [{ name := ⟨TOKEN_IDENTIFIER, "B", 1⟩, hasSuperclass := true }]
    stderr := [], allocated := 2, faults := [] }

/-- An `Extern` whose `strtod` knows the literals `1`, `2` and `3` (the bit patterns of the
doubles 1.0, 2.0 and 3.0), whatever follows them. -/
def digitExtern : Extern :=
  { demoExtern with
    strtod := fun s _ =>
      if s = "1" then 4607182418800017408
      else if s = "2" then 4611686018427387904
      else if s = "3" then 4613937818241073152
      else 0 }

/-- The token of a number literal on line 1. -/
def numberToken (lexeme : String) : Token := ⟨TOKEN_NUMBER, lexeme, 1⟩

/-- The token of an operator or of a punctuation mark on line 1. -/
def symbolToken (type : TokenType) (lexeme : String) : Token := ⟨type, lexeme, 1⟩

/-- The token stream of a statement `print a op1 b op2 c;` with number literals for the
operands. -/
def printOps (a : String) (op1 : Token) (b : String) (op2 : Token) (c : String) :
    List Token :=
  [ symbolToken TOKEN_PRINT "print", numberToken a, op1, numberToken b, op2, numberToken c,
    symbolToken TOKEN_SEMICOLON ";", symbolToken TOKEN_EOF "" ]

/-- The state in which the compiler of the script is about to parse an expression: the
first token of the expression is the current token, the tokens after it are still to be
scanned. -/
def exprDemo (first : Token) (rest : List Token) : State :=
  { initCompiler digitExtern TYPE_SCRIPT startState with
    parser := { current := first, previous := symbolToken TOKEN_PRINT "print",
                hadError := false, panicMode := false }
    source := rest }

/-- The state in which a call returns that is given the fuel `fuel` (the state of the call
itself when the fuel does not suffice). -/
def stateAfter (x : Extern) (fuel : Nat) (p : Proc) (s : State) : State :=
  ((exec x fuel p s).getD (0, s)).2

/-- What a compiled top-level function shows of its code and of its constants. -/
def codeAndConstants (r : Option (Option Compiler × State)) :
    Option (Option (List Nat × List Value)) :=
  r.map fun r => r.1.map fun c => (c.function.chunk.code, c.function.chunk.constants)

/-- The state in which the expression `a op1 b op2 c` of `print a op1 b op2 c;` is about
to be parsed. -/
def opsDemo (a : String) (op1 : Token) (b : String) (op2 : Token) (c : String) : State :=
  exprDemo (numberToken a) ((printOps a op1 b op2 c).drop 2)

/-- The state after the parse of an operand of an operator of precedence `q - 1`. -/
def afterOperand (q : Nat) (s : State) : State :=
  stateAfter digitExtern 4 (Proc.parsePrecedence q) s

/-! ## Specification vocabulary for the compiler -/

/-- The number of tokens that the scanner delivers before the first `TOKEN_EOF`. -/
def tokensBeforeEOF : List Token → Nat
  | [] => 0
  | t :: rest => if t.type = TOKEN_EOF then 0 else tokensBeforeEOF rest + 1

/-- The number of tokens still to be parsed: the current token, unless it is `TOKEN_EOF`,
and the tokens that the scanner delivers before `TOKEN_EOF`. -/
def remaining (s : State) : Nat :=
  (if s.parser.current.type = TOKEN_EOF then 0 else 1) + tokensBeforeEOF s.source

/-- The address of the function object and the type of every frame, `current` first. -/
def frameIds (s : State) : List (Nat × FunctionType) :=
  s.frames.map fun c => (c.functionPtr, c.type)

/-- What every step of the compiler keeps between a state `s` and a later state `t`: the
frames are those of the same functions; `stderr` has not shrunk; `hadError` is not cleared;
`hadError` is newly set only together with a report on `stderr`, and every new report sets
it; no token is given back to the scanner. -/
structure Rel (s t : State) : Prop where
  ids : frameIds t = frameIds s
  errLe : s.stderr.length ≤ t.stderr.length
  errMono : s.parser.hadError = true → t.parser.hadError = true
  errNew : t.parser.hadError = true → s.parser.hadError = true ∨ s.stderr.length < t.stderr.length
  errSet : s.stderr.length < t.stderr.length → t.parser.hadError = true
  remLe : remaining t ≤ remaining s

/-- A bound on the depth of the calls that a procedure makes before a token is consumed. -/
def Proc.rank : Proc → Nat
  | Proc.parsePrecedence _ => 0
  | Proc.parsePrecedenceLoop _ _ => 0
  | Proc.literal _ => 0
  | Proc.number _ => 0
  | Proc.string _ => 0
  | Proc.and_ _ => 1
  | Proc.or_ _ => 1
  | Proc.unary _ => 1
  | Proc.binary _ => 1
  | Proc.expression => 1
  | Proc.grouping _ => 2
  | Proc.argumentListLoop _ => 2
  | Proc.namedVariable _ _ => 2
  | Proc.varDeclaration => 2
  | Proc.expressionStatement => 2
  | Proc.printStatement => 2
  | Proc.returnStatement => 2
  | Proc.argumentList => 3
  | Proc.variable_ _ => 3
  | Proc.statement => 3
  | Proc.call _ => 4
  | Proc.dot _ => 4
  | Proc.this_ _ => 4
  | Proc.super_ _ => 4
  | Proc.ifStatement => 4
  | Proc.whileStatement => 4
  | Proc.forStatement => 4
  | Proc.declaration => 4
  | Proc.block => 5
  | Proc.compileLoop => 5
  | Proc.function _ => 6
  | Proc.method => 7
  | Proc.funDeclaration => 7
  | Proc.classDeclarationLoop => 8
  | Proc.classDeclaration => 9

/-- The procedures that consume at least one token whenever the current token is not
`TOKEN_EOF`. -/
def Proc.consuming : Proc → Bool
  | Proc.parsePrecedence _ => true
  | Proc.expression => true
  | Proc.expressionStatement => true
  | Proc.statement => true
  | Proc.declaration => true
  | Proc.block => true
  | Proc.function _ => true
  | Proc.method => true
  | _ => false

/-- A primitive of the compiler that keeps the relation `Rel` to any earlier state: the
class lets one lemma, `rel_step`, stand for the whole family of primitives. -/
class RelStep (f : State → State) : Prop where
  step : ∀ {s t : State}, Rel s t → Rel s (f t)

/-- The same for a primitive that returns a value next to the new state. -/
class RelStep2 {α : Type} (f : State → α × State) : Prop where
  step : ∀ {s t : State}, Rel s t → Rel s (f t).2

/-- The parser of `t` looks at the same place of the input as that of `s`: the same current
token and the same source still to be scanned. -/
def Keeps (s t : State) : Prop :=
  t.parser.current = s.parser.current ∧ t.source = s.source

/-- Between `s` and `t` either a token was consumed, or the current token is of the same
type and none was given back. -/
def Prog (s t : State) : Prop :=
  remaining t < remaining s ∨
    (remaining t ≤ remaining s ∧ t.parser.current.type = s.parser.current.type)

/-- The global state with which `compile` starts to parse, before the frame of the script
is pushed: the source is installed and the error flags are cleared. -/
def compileStart (source : List Token) (g : State) : State :=
  { g with
    source := source
    parser := { g.parser with hadError := false, panicMode := false } }

/-- The code bytes of the chunk of the current frame. -/
def currentCode (s : State) : List Nat :=
  match s.frames with
  | [] => []
  | c :: _ => c.function.chunk.code

/-- The bytes of an implicit or bare return in a function of the given type. -/
def returnSequence (type : FunctionType) : List Nat :=
  if type = TYPE_INITIALIZER then [OP_GET_LOCAL, 0, OP_RETURN] else [OP_NIL, OP_RETURN]

/-- The result `a` is kept by `b`: when `a` is a value, `b` is the same value. This orders
the results of `exec` for growing fuel. -/
structure Below {α : Type} (a b : Option α) : Prop where
  le : ∀ r, a = some r → b = some r

/-- The procedure `p`, called in the state `s`, returns `r`: the recursive descent comes
back with the value `r.1` and the state `r.2` when it is given enough fuel. -/
def Runs (x : Extern) (p : Proc) (s : State) (r : Int × State) : Prop :=
  ∃ n, exec x n p s = some r

/-- The last statement of `parsePrecedence`: with `canAssign`, a `=` that is still the
current token is consumed and reported as an invalid assignment target. -/
def finishAssignment (canAssign : Bool) (s : State) : State :=
  if canAssign then
    let m := matchToken TOKEN_EQUAL s
    if m.1 then error "Invalid assignment target." m.2 else m.2
  else s

/-- The `switch` of `binary`: the instructions emitted for the operator. -/
def emitBinary (operatorType : TokenType) (s : State) : State :=
  match operatorType with
  | TOKEN_BANG_EQUAL => emitBytes OP_EQUAL OP_NOT s
  | TOKEN_EQUAL_EQUAL => emitByte OP_EQUAL s
  | TOKEN_GREATER => emitByte OP_GREATER s
  | TOKEN_GREATER_EQUAL => emitBytes OP_LESS OP_NOT s
  | TOKEN_LESS => emitByte OP_LESS s
  | TOKEN_LESS_EQUAL => emitBytes OP_GREATER OP_NOT s
  | TOKEN_PLUS => emitByte OP_ADD s
  | TOKEN_MINUS => emitByte OP_SUBTRACT s
  | TOKEN_STAR => emitByte OP_MULTIPLY s
  | TOKEN_SLASH => emitByte OP_DIVIDE s
  | _ => s

/-- The tokens from the current one of `s` on start with an operand of an operator of
precedence `q - 1`: the current token begins an expression, and `parsePrecedence(q)` parses
the operand and returns in the state `u`, whose current token is the one that follows the
operand. -/
def Operand (x : Extern) (q : Nat) (s u : State) : Prop :=
  (getRule s.parser.current.type).prefixRule ≠ none ∧ Runs x (Proc.parsePrecedence q) s (0, u)

/-- The instructions of a binary operator, as the claims write them: the opcode, followed
by `OP_NOT` for the three negated comparisons. -/
def binaryOpcodes (operatorType : TokenType) : List Nat :=
  match operatorType with
  | TOKEN_BANG_EQUAL => [OP_EQUAL, OP_NOT]
  | TOKEN_EQUAL_EQUAL => [OP_EQUAL]
  | TOKEN_GREATER => [OP_GREATER]
  | TOKEN_GREATER_EQUAL => [OP_LESS, OP_NOT]
  | TOKEN_LESS => [OP_LESS]
  | TOKEN_LESS_EQUAL => [OP_GREATER, OP_NOT]
  | TOKEN_PLUS => [OP_ADD]
  | TOKEN_MINUS => [OP_SUBTRACT]
  | TOKEN_STAR => [OP_MULTIPLY]
  | TOKEN_SLASH => [OP_DIVIDE]
  | _ => []

/-- A property of the state that the elementary steps of the compiler keep: reporting an
error, taking a token, and the stores to the frames other than the patch of a jump. -/
class StepInvariant (I : State → Prop) : Prop where
  errorAt_keeps : ∀ (token : Token) (message : String) (s : State), I s →
    I (errorAt token message s)
  advance_keeps : ∀ s : State, I s → I (advance s)
  synchronize_keeps : ∀ s : State, I s → I (synchronize s)
  faults_keeps : ∀ (faults : List Fault) (s : State), I s → I { s with faults := faults }
  classes_keeps : ∀ (classes : List ClassCompiler) (s : State), I s → I (setClasses classes s)
  emitByte_keeps : ∀ (byte : Nat) (s : State), I s → I (emitByte byte s)
  makeConstant_keeps : ∀ (value : Value) (s : State), I s → I (makeConstant value s).2
  beginScope_keeps : ∀ s : State, I s → I (beginScope s)
  endScope_keeps : ∀ s : State, I s → I (endScope s)
  addLocal_keeps : ∀ (name : String) (s : State), I s → I (addLocal name s)
  addUpvalue_keeps : ∀ (ci index : Nat) (isLocal : Bool) (s : State), I s →
    I (addUpvalue ci index isLocal s).2
  setCaptured_keeps : ∀ (ci : Nat) (index : Int) (s : State), I s → I (setCaptured ci index s)
  markInitialized_keeps : ∀ s : State, I s → I (markInitialized s)
  arity_keeps : ∀ s : State, I s → I (modifyCurrent (fun c => { c with
    function := { c.function with arity := c.function.arity + 1 } }) s)

/-- A property of the state that the elementary steps of the compiler other than
`synchronize` keep: the steps of `StepInvariant` without the one that leaves panic mode. -/
class SegmentInvariant (I : State → Prop) : Prop where
  errorAt_keeps : ∀ (token : Token) (message : String) (s : State), I s →
    I (errorAt token message s)
  advance_keeps : ∀ s : State, I s → I (advance s)
  faults_keeps : ∀ (faults : List Fault) (s : State), I s → I { s with faults := faults }
  classes_keeps : ∀ (classes : List ClassCompiler) (s : State), I s → I (setClasses classes s)
  emitByte_keeps : ∀ (byte : Nat) (s : State), I s → I (emitByte byte s)
  makeConstant_keeps : ∀ (value : Value) (s : State), I s → I (makeConstant value s).2
  beginScope_keeps : ∀ s : State, I s → I (beginScope s)
  endScope_keeps : ∀ s : State, I s → I (endScope s)
  addLocal_keeps : ∀ (name : String) (s : State), I s → I (addLocal name s)
  addUpvalue_keeps : ∀ (ci index : Nat) (isLocal : Bool) (s : State), I s →
    I (addUpvalue ci index isLocal s).2
  setCaptured_keeps : ∀ (ci : Nat) (index : Int) (s : State), I s → I (setCaptured ci index s)
  markInitialized_keeps : ∀ s : State, I s → I (markInitialized s)
  arity_keeps : ∀ s : State, I s → I (modifyCurrent (fun c => { c with
    function := { c.function with arity := c.function.arity + 1 } }) s)

instance (I : State → Prop) [StepInvariant I] : SegmentInvariant I where
  errorAt_keeps := StepInvariant.errorAt_keeps
  advance_keeps := StepInvariant.advance_keeps
  faults_keeps := StepInvariant.faults_keeps
  classes_keeps := StepInvariant.classes_keeps
  emitByte_keeps := StepInvariant.emitByte_keeps
  makeConstant_keeps := StepInvariant.makeConstant_keeps
  beginScope_keeps := StepInvariant.beginScope_keeps
  endScope_keeps := StepInvariant.endScope_keeps
  addLocal_keeps := StepInvariant.addLocal_keeps
  addUpvalue_keeps := StepInvariant.addUpvalue_keeps
  setCaptured_keeps := StepInvariant.setCaptured_keeps
  markInitialized_keeps := StepInvariant.markInitialized_keeps
  arity_keeps := StepInvariant.arity_keeps

/-- A property of the state that all the elementary steps of the compiler keep: those of
`StepInvariant`, the patch of a jump at any offset, and entering and leaving a function.
Every procedure of the recursive descent then keeps it (`exec_invariant`). -/
class Invariant (I : State → Prop) extends StepInvariant I : Prop where
  patchJump_keeps : ∀ (offset : Int) (s : State), I s → I (patchJump offset s)
  initCompiler_keeps : ∀ (x : Extern) (type : FunctionType) (s : State), I s →
    I (initCompiler x type s)
  endCompiler_keeps : ∀ s : State, I s → I (endCompiler s).2

/-- A primitive that keeps the property `I`. -/
class InvStep (I : State → Prop) (f : State → State) : Prop where
  step : ∀ {t : State}, I t → I (f t)

/-- The same for a primitive that returns a value next to the new state. -/
class InvStep2 (I : State → Prop) {α : Type} (f : State → α × State) : Prop where
  step : ∀ {t : State}, I t → I (f t).2

/-- The state of every value of `o` has the property `I`. -/
structure Post {α : Type} (I : State → Prop) (o : Option (α × State)) : Prop where
  out : ∀ r, o = some r → I r.2

/-- Panic mode is entered only together with `hadError`: what `errorAt` establishes and
what no procedure of the compiler breaks. -/
def PanicOK (s : State) : Prop :=
  s.parser.panicMode = true → s.parser.hadError = true

instance (s : State) : Decidable (PanicOK s) := by
  unfold PanicOK
  infer_instance

/-- The frame has recorded as many upvalues as `function->upvalueCount` says. -/
def FrameOK (c : Compiler) : Prop :=
  (c.upvalues.length : Int) = c.function.upvalueCount

instance (c : Compiler) : Decidable (FrameOK c) := by
  unfold FrameOK
  infer_instance

/-- Every frame of the chain of compilers satisfies `FrameOK`. -/
def UpvalOK (s : State) : Prop :=
  ∀ c ∈ s.frames, FrameOK c

instance (s : State) : Decidable (UpvalOK s) := by
  unfold UpvalOK
  infer_instance

/-- The operand pairs that the specification requires after `OP_CLOSURE` and the index of
the function constant: for each upvalue, in order, 1 or 0 for `isLocal`, then `index`. -/
def operandPairs : List Upvalue → List Nat
  | [] => []
  | u :: rest => (if u.isLocal then 1 else 0) :: u.index :: operandPairs rest

/-- The state in which `function` of `compiler.c` starts to compile the body: the frame of
the new function is pushed, its scope opened, and the parameter list and the opening brace
are consumed. -/
def functionEntry (x : Extern) (type : FunctionType) (s : State) : State :=
  let s := initCompiler x type s
  let s := beginScope s
  let s := consume TOKEN_LEFT_PAREN "Expect '(' after function name." s
  let s := if !check TOKEN_RIGHT_PAREN s then functionParams x (s.source.length + 2) s else s
  let s := consume TOKEN_RIGHT_PAREN "Expect ')' after parameters." s
  consume TOKEN_LEFT_BRACE "Expect '\x7b' before function body." s

/-- The errors that the specification gives to a `return` statement: one in top-level code,
one for a return value in an initializer, none otherwise. -/
def returnErrors (type : FunctionType) (valuePresent : Bool) : List String :=
  if type = TYPE_SCRIPT then ["Can't return from top-level code."]
  else if type = TYPE_INITIALIZER ∧ valuePresent = true then
    ["Can't return a value from an initializer."]
  else []

/-- The calls `error(m)` for the messages `m` of a list, in order. -/
def reportAll (messages : List String) (s : State) : State :=
  messages.foldl (fun s m => error m s) s

/-- The first part of `namedVariable` of `compiler.c`: the pair of the instructions that
read and write the variable, their operand, and the state after the name is resolved. -/
def resolveName (x : Extern) (name : String) (s : State) : (Nat × Nat) × (Int × State) :=
  let r := resolveLocal 0 name s
  if r.1 ≠ -1 then ((OP_GET_LOCAL, OP_SET_LOCAL), r)
  else
    let r := resolveUpvalue 0 name r.2
    if r.1 ≠ -1 then ((OP_GET_UPVALUE, OP_SET_UPVALUE), r)
    else
      let c := identifierConstant x name r.2
      ((OP_GET_GLOBAL, OP_SET_GLOBAL), ((c.1 : Int), c.2))

/-! ## Demonstration inputs for the expression claims -/

/-- The expression `1 + 2 * 3` about to be parsed, and the states after its operands. -/
def sumProduct : State :=
  opsDemo "1" (symbolToken TOKEN_PLUS "+") "2" (symbolToken TOKEN_STAR "*") "3"

def sumProductA : State := afterOperand (PREC_TERM + 1) sumProduct

def sumProductB : State := afterOperand (PREC_FACTOR + 1) (advance sumProductA)

def sumProductC : State := afterOperand (PREC_FACTOR + 1) (advance sumProductB)

/-- The expression `1 - 2 + 3` about to be parsed, and the states after its operands; the
third operand is parsed after `OP_SUBTRACT` has been emitted. -/
def diffSum : State :=
  opsDemo "1" (symbolToken TOKEN_MINUS "-") "2" (symbolToken TOKEN_PLUS "+") "3"

def diffSumA : State := afterOperand (PREC_TERM + 1) diffSum

def diffSumB : State := afterOperand (PREC_TERM + 1) (advance diffSumA)

def diffSumC : State :=
  afterOperand (PREC_TERM + 1) (advance (emitBinary TOKEN_MINUS diffSumB))

/-- The token stream of `print 1 op 2;`. -/
def printComparison (op : Token) : List Token :=
  [ symbolToken TOKEN_PRINT "print", numberToken "1", op, numberToken "2",
    symbolToken TOKEN_SEMICOLON ";", symbolToken TOKEN_EOF "" ]

/-- The token stream of `print !(1 op 2);`. -/
def printNegated (op : Token) : List Token :=
  [ symbolToken TOKEN_PRINT "print", symbolToken TOKEN_BANG "!",
    symbolToken TOKEN_LEFT_PAREN "(", numberToken "1", op, numberToken "2",
    symbolToken TOKEN_RIGHT_PAREN ")", symbolToken TOKEN_SEMICOLON ";",
    symbolToken TOKEN_EOF "" ]

/-- The expression `1 >= 2` about to be parsed, and the states after its operands. -/
def notLess : State := exprDemo (numberToken "1") ((printComparison
  (symbolToken TOKEN_GREATER_EQUAL ">=")).drop 2)

def notLessA : State := afterOperand (PREC_COMPARISON + 1) notLess

def notLessB : State := afterOperand (PREC_COMPARISON + 1) (advance notLessA)

/-- The expression `!(1 < 2)` about to be parsed, and the states after the operands. -/
def negatedLess : State := exprDemo (symbolToken TOKEN_BANG "!") ((printNegated
  (symbolToken TOKEN_LESS "<")).drop 2)

def negatedLessA : State := afterOperand (PREC_COMPARISON + 1) (advance (advance negatedLess))

def negatedLessB : State := afterOperand (PREC_COMPARISON + 1) (advance negatedLessA)

/-- The state inside `fun f() { var a; var b; fun g() { print b; print a; } }` when
`function` is entered for `g`: `current` is the frame of `f`, which owns the locals `a` and
`b` in the slots 1 and 2; the name `g` has just been consumed. -/
def closureDemo : State :=
  { parser :=
      { current := ⟨TOKEN_LEFT_PAREN, "(", 1⟩, previous := ⟨TOKEN_IDENTIFIER, "g", 1⟩,
        hadError := false, panicMode := false }
    source := [⟨TOKEN_RIGHT_PAREN, ")", 1⟩, ⟨TOKEN_LEFT_BRACE, "\x7b", 1⟩,
      ⟨TOKEN_PRINT, "print", 1⟩, ⟨TOKEN_IDENTIFIER, "b", 1⟩, ⟨TOKEN_SEMICOLON, ";", 1⟩,
      ⟨TOKEN_PRINT, "print", 1⟩, ⟨TOKEN_IDENTIFIER, "a", 1⟩, ⟨TOKEN_SEMICOLON, ";", 1⟩,
      ⟨TOKEN_RIGHT_BRACE, "\x7d", 1⟩, ⟨TOKEN_RIGHT_BRACE, "\x7d", 1⟩, ⟨TOKEN_EOF, "", 1⟩]
    frames := [demoFrame 1 [{ name := "a", depth := 1, isCaptured := false },
      { name := "b", depth := 1, isCaptured := false }]]
    classes := [], stderr := [], allocated := 2, faults := [] }

/-- The state in which `function` leaves `closureDemo`. -/
def closureDemoEnd : State :=
  stateAfter demoExtern 12 (Proc.function TYPE_FUNCTION) closureDemo

/-- The token stream of `class C { init() { return; } }`. -/
def initBareReturn : List Token :=
  [ ⟨TOKEN_CLASS, "class", 1⟩, ⟨TOKEN_IDENTIFIER, "C", 1⟩, ⟨TOKEN_LEFT_BRACE, "\x7b", 1⟩,
    ⟨TOKEN_IDENTIFIER, "init", 1⟩, ⟨TOKEN_LEFT_PAREN, "(", 1⟩, ⟨TOKEN_RIGHT_PAREN, ")", 1⟩,
    ⟨TOKEN_LEFT_BRACE, "\x7b", 1⟩, ⟨TOKEN_RETURN, "return", 1⟩, ⟨TOKEN_SEMICOLON, ";", 1⟩,
    ⟨TOKEN_RIGHT_BRACE, "\x7d", 1⟩, ⟨TOKEN_RIGHT_BRACE, "\x7d", 1⟩, ⟨TOKEN_EOF, "", 1⟩ ]

/-- The token stream of `class D { init() { return 1; } }`. -/
def initValueReturn : List Token :=
  [ ⟨TOKEN_CLASS, "class", 1⟩, ⟨TOKEN_IDENTIFIER, "D", 1⟩, ⟨TOKEN_LEFT_BRACE, "\x7b", 1⟩,
    ⟨TOKEN_IDENTIFIER, "init", 1⟩, ⟨TOKEN_LEFT_PAREN, "(", 1⟩, ⟨TOKEN_RIGHT_PAREN, ")", 1⟩,
    ⟨TOKEN_LEFT_BRACE, "\x7b", 1⟩, ⟨TOKEN_RETURN, "return", 1⟩, ⟨TOKEN_NUMBER, "1", 1⟩,
    ⟨TOKEN_SEMICOLON, ";", 1⟩,
    ⟨TOKEN_RIGHT_BRACE, "\x7d", 1⟩, ⟨TOKEN_RIGHT_BRACE, "\x7d", 1⟩, ⟨TOKEN_EOF, "", 1⟩ ]

/-- What a call of `compile` shows: whether it returned a function, `hadError`, and the
messages printed. -/
def outcome (r : Option (Option Compiler × State)) : Option (Bool × Bool × List String) :=
  r.map fun r => (r.1.isSome, r.2.parser.hadError, r.2.stderr.map (fun e => e.message))

/-- The state in which `returnStatement` is entered for the `return 1;` of
`class D { init() { return 1; } }`: `current` is the frame of the initializer; the token
`return` has just been consumed. -/
def returnDemo : State :=
  { parser :=
      { current := ⟨TOKEN_NUMBER, "1", 1⟩, previous := ⟨TOKEN_RETURN, "return", 1⟩,
        hadError := false, panicMode := false }
    source := [⟨TOKEN_SEMICOLON, ";", 1⟩,
      ⟨TOKEN_RIGHT_BRACE, "\x7d", 1⟩, ⟨TOKEN_RIGHT_BRACE, "\x7d", 1⟩, ⟨TOKEN_EOF, "", 1⟩]
    frames :=
      [ { function := { emptyFunction with name := some 1004 }, functionPtr := 2001,
          type := TYPE_INITIALIZER,
          locals := [{ name := "this", depth := 0, isCaptured := false }],
          upvalues := [], scopeDepth := 1 },
        { function := emptyFunction, functionPtr := 2000, type := TYPE_SCRIPT,
          locals := [{ name := "this", depth := 0, isCaptured := false },
            { name := "super", depth := 1, isCaptured := false }],
          upvalues := [], scopeDepth := 1 } ]
    classes := [{ name := ⟨TOKEN_IDENTIFIER, "D", 1⟩, hasSuperclass := false }]
    stderr := [], allocated := 2, faults := [] }

/-- The state `returnDemo` after the value `1` of the `return` has been compiled. -/
def returnDemoValue : State :=
  stateAfter digitExtern 4 Proc.expression
    (reportAll (returnErrors (currentType returnDemo) true) returnDemo)

/-- The token of an identifier on line 1. -/
def identifierToken (lexeme : String) : Token := ⟨TOKEN_IDENTIFIER, lexeme, 1⟩

/-- The token stream of `a + b = c;`. -/
def sumAssign : List Token :=
  [ identifierToken "a", symbolToken TOKEN_PLUS "+", identifierToken "b",
    symbolToken TOKEN_EQUAL "=", identifierToken "c", symbolToken TOKEN_SEMICOLON ";",
    symbolToken TOKEN_EOF "" ]

/-- The token stream of `1 = 2;`. -/
def numberAssign : List Token :=
  [ numberToken "1", symbolToken TOKEN_EQUAL "=", numberToken "2",
    symbolToken TOKEN_SEMICOLON ";", symbolToken TOKEN_EOF "" ]

/-- The token stream of `this = x;`. -/
def thisAssign : List Token :=
  [ symbolToken TOKEN_THIS "this", symbolToken TOKEN_EQUAL "=", identifierToken "x",
    symbolToken TOKEN_SEMICOLON ";", symbolToken TOKEN_EOF "" ]

/-- The token stream of `class A { m() { this = x; } }`. -/
def thisAssignMethod : List Token :=
  [ symbolToken TOKEN_CLASS "class", identifierToken "A", symbolToken TOKEN_LEFT_BRACE "\x7b",
    identifierToken "m", symbolToken TOKEN_LEFT_PAREN "(", symbolToken TOKEN_RIGHT_PAREN ")",
    symbolToken TOKEN_LEFT_BRACE "\x7b" ] ++ thisAssign.take 4 ++
  [ symbolToken TOKEN_RIGHT_BRACE "\x7d", symbolToken TOKEN_RIGHT_BRACE "\x7d",
    symbolToken TOKEN_EOF "" ]

/-- The state in which `compile` starts to parse `1 = 2;`. -/
def numberAssignStart : State :=
  advance (initCompiler digitExtern TYPE_SCRIPT (compileStart numberAssign startState))

/-- The state after the literal `1` of `1 = 2;` has been compiled. -/
def numberAssignOperand : State :=
  stateAfter digitExtern 1 (Proc.number true) (advance numberAssignStart)

/-- A state inside `fun f() { var a; { var b; var c; fun g() { b; } ...`: the frame is at
scope depth 2, the local `a` belongs to the enclosing scope, `b` (captured) and `c` to the
scope that is to be closed. -/
def scopeDemo : State :=
  { captureDemo with
    frames := [{ demoFrame 1 [{ name := "a", depth := 1, isCaptured := false },
      { name := "b", depth := 2, isCaptured := true },
      { name := "c", depth := 2, isCaptured := false }] with scopeDepth := 2 }] }

/-- A state inside `fun f() { var a; { var a; var b = ...`: the local `a` of the inner
scope (slot 2) shadows the `a` of the outer scope (slot 1); `b` (slot 3) is declared and not
yet initialized. -/
def shadowDemo : State :=
  { captureDemo with
    frames := [{ demoFrame 1 [{ name := "a", depth := 1, isCaptured := false },
      { name := "a", depth := 2, isCaptured := false },
      { name := "b", depth := -1, isCaptured := false }] with scopeDepth := 2 }] }

/-- The state `shadowDemo` before the inner `a` and `b` are declared: only the `a` of the
enclosing scope exists, and the name `a` has just been consumed. -/
def shadowStart : State :=
  { captureDemo with
    frames := [{ demoFrame 1 [{ name := "a", depth := 1, isCaptured := false }] with
      scopeDepth := 2 }] }

/-- The state `captureDemo` after the frame of `g` has captured the local in slot 1 of `f`
and the upvalue 3 of `f`. -/
def upvalueDemo : State :=
  { captureDemo with
    frames := [{ demoFrame 2 [] with
        upvalues := [{ index := 1, isLocal := true }, { index := 3, isLocal := false }]
        function := { emptyFunction with upvalueCount := 2 } },
      demoFrame 1 [{ name := "a", depth := 1, isCaptured := false }]] }

/-- The state in which `whileStatement` is entered for `while (1) print 2;`. -/
def whileDemo : State :=
  exprDemo (symbolToken TOKEN_LEFT_PAREN "(")
    [numberToken "1", symbolToken TOKEN_RIGHT_PAREN ")", symbolToken TOKEN_PRINT "print",
      numberToken "2", symbolToken TOKEN_SEMICOLON ";", symbolToken TOKEN_EOF ""]

/-- The state in which `whileStatement` leaves `whileDemo`. -/
def whileDemoEnd : State :=
  stateAfter digitExtern 12 Proc.whileStatement whileDemo

/-- The state in which `ifStatement` is entered for `if (1) print 2; else print 3;`. -/
def ifDemo : State :=
  exprDemo (symbolToken TOKEN_LEFT_PAREN "(")
    [numberToken "1", symbolToken TOKEN_RIGHT_PAREN ")", symbolToken TOKEN_PRINT "print",
      numberToken "2", symbolToken TOKEN_SEMICOLON ";", symbolToken TOKEN_ELSE "else",
      symbolToken TOKEN_PRINT "print", numberToken "3", symbolToken TOKEN_SEMICOLON ";",
      symbolToken TOKEN_EOF ""]

/-- The state in which `ifStatement` leaves `ifDemo`. -/
def ifDemoEnd : State :=
  stateAfter digitExtern 12 Proc.ifStatement ifDemo

/-- The state in which `forStatement` is entered for `for (var i = 1; 2; 3) print 3;`. -/
def forDemo : State :=
  exprDemo (symbolToken TOKEN_LEFT_PAREN "(")
    [symbolToken TOKEN_VAR "var", identifierToken "i", symbolToken TOKEN_EQUAL "=",
      numberToken "1", symbolToken TOKEN_SEMICOLON ";", numberToken "2",
      symbolToken TOKEN_SEMICOLON ";", numberToken "3", symbolToken TOKEN_RIGHT_PAREN ")",
      symbolToken TOKEN_PRINT "print", numberToken "3", symbolToken TOKEN_SEMICOLON ";",
      symbolToken TOKEN_EOF ""]

/-- The state in which `forStatement` leaves `forDemo`. -/
def forDemoEnd : State :=
  stateAfter digitExtern 12 Proc.forStatement forDemo

/-- The state in which `forStatement` is entered for `for (;;) print 3;`. -/
def foreverDemo : State :=
  exprDemo (symbolToken TOKEN_LEFT_PAREN "(")
    [symbolToken TOKEN_SEMICOLON ";", symbolToken TOKEN_SEMICOLON ";",
      symbolToken TOKEN_RIGHT_PAREN ")", symbolToken TOKEN_PRINT "print", numberToken "3",
      symbolToken TOKEN_SEMICOLON ";", symbolToken TOKEN_EOF ""]

/-- The state in which `forStatement` leaves `foreverDemo`. -/
def foreverDemoEnd : State :=
  stateAfter digitExtern 12 Proc.forStatement foreverDemo

/-- The state in which `forStatement` is entered for `for (;;) { class A {} }`. -/
def forClassDemo : State :=
  exprDemo (symbolToken TOKEN_LEFT_PAREN "(")
    [symbolToken TOKEN_SEMICOLON ";", symbolToken TOKEN_SEMICOLON ";",
      symbolToken TOKEN_RIGHT_PAREN ")", symbolToken TOKEN_LEFT_BRACE "\x7b",
      symbolToken TOKEN_CLASS "class", identifierToken "A",
      symbolToken TOKEN_LEFT_BRACE "\x7b", symbolToken TOKEN_RIGHT_BRACE "\x7d",
      symbolToken TOKEN_RIGHT_BRACE "\x7d", symbolToken TOKEN_EOF ""]

/-- The token stream of `for (;;) { class A {} }`. -/
def forClassTokens : List Token :=
  [symbolToken TOKEN_FOR "for", symbolToken TOKEN_LEFT_PAREN "(",
    symbolToken TOKEN_SEMICOLON ";", symbolToken TOKEN_SEMICOLON ";",
    symbolToken TOKEN_RIGHT_PAREN ")", symbolToken TOKEN_LEFT_BRACE "\x7b",
    symbolToken TOKEN_CLASS "class", identifierToken "A",
    symbolToken TOKEN_LEFT_BRACE "\x7b", symbolToken TOKEN_RIGHT_BRACE "\x7d",
    symbolToken TOKEN_RIGHT_BRACE "\x7d", symbolToken TOKEN_EOF ""]

/-- The token stream of `for (;;) { var a; }`. -/
def forVarTokens : List Token :=
  [symbolToken TOKEN_FOR "for", symbolToken TOKEN_LEFT_PAREN "(",
    symbolToken TOKEN_SEMICOLON ";", symbolToken TOKEN_SEMICOLON ";",
    symbolToken TOKEN_RIGHT_PAREN ")", symbolToken TOKEN_LEFT_BRACE "\x7b",
    symbolToken TOKEN_VAR "var", identifierToken "a", symbolToken TOKEN_SEMICOLON ";",
    symbolToken TOKEN_RIGHT_BRACE "\x7d", symbolToken TOKEN_EOF ""]

/-- The state in which `compile` calls `endCompiler`: the loop of `compile` has ended. -/
def compiledState (x : Extern) (fuel : Nat) (source : List Token) : State :=
  stateAfter x fuel Proc.compileLoop
    (advance (initCompiler x TYPE_SCRIPT (compileStart source startState)))

/-- The locals that leave when a scope is closed at the new depth `depth`: the trailing
locals that are deeper, the last one first. -/
def closedLocals (locals : List Local) (depth : Int) : List Local :=
  locals.reverse.takeWhile (fun l => decide (l.depth > depth))

/-- The locals that stay when a scope is closed at the new depth `depth`. -/
def keptLocals (locals : List Local) (depth : Int) : List Local :=
  (locals.reverse.dropWhile (fun l => decide (l.depth > depth))).reverse

/-- The instruction that the specification gives to a local that leaves its scope. -/
def closeOpcode (l : Local) : Nat :=
  if l.isCaptured then OP_CLOSE_UPVALUE else OP_POP

/-- The locals of the innermost scope as `declareVariable` finds them: the trailing locals
that do not belong to an enclosing scope (a local belongs to an enclosing scope when it is
initialized and its depth is below `depth`), the last one first. -/
def scopeLocals (locals : List Local) (depth : Int) : List Local :=
  locals.reverse.takeWhile (fun l => !(decide (l.depth ≠ -1 ∧ l.depth < depth)))

/-- One report for each local of the innermost scope that has the name. -/
def redeclarations (c : Compiler) (name : String) : List String :=
  ((scopeLocals c.locals c.scopeDepth).filter (fun l => identifiersEqual name l.name)).map
    (fun _ => "Already variable with this name in this scope.")

/-- Every frame of the chain of compilers has the property `P`. -/
def FramesAll (P : Compiler → Prop) (s : State) : Prop :=
  ∀ c ∈ s.frames, P c

/-- The table of upvalues of a frame is in order: it holds `upvalueCount` entries, no pair
(index, isLocal) twice, and at most 256 of them. -/
def UpvalueTable (c : Compiler) : Prop :=
  FrameOK c ∧ c.upvalues.Nodup ∧ c.upvalues.length ≤ 256

instance (c : Compiler) : Decidable (UpvalueTable c) := by
  unfold UpvalueTable
  infer_instance

instance (P : Compiler → Prop) [DecidablePred P] (s : State) : Decidable (FramesAll P s) := by
  unfold FramesAll
  infer_instance

/-- A property of a frame that looks only at its upvalues and `upvalueCount`, holds of a
new frame, and survives the one store that `addUpvalue` makes. -/
class UpvalueProperty (P : Compiler → Prop) : Prop where
  congr : ∀ c d : Compiler, d.upvalues = c.upvalues →
    d.function.upvalueCount = c.function.upvalueCount → P c → P d
  fresh : ∀ c : Compiler, c.upvalues = [] → c.function.upvalueCount = 0 → P c
  added : ∀ (c : Compiler) (index : Nat) (isLocal : Bool), P c →
    findUpvalue c.upvalues 0 index isLocal = none →
    ¬ (c.function.upvalueCount = UINT8_COUNT) →
    P { c with
      upvalues := c.upvalues ++ [{ index := index, isLocal := isLocal }]
      function := { c.function with upvalueCount := c.function.upvalueCount + 1 } }

/-- The code of the frame `d` starts with the code of the frame `c`. -/
def CodePrefix (c d : Compiler) : Prop :=
  c.function.chunk.code <+: d.function.chunk.code

/-- The frames of `t` are the frames of `s` with code appended: there are as many, and
frame by frame the code of `s` is the beginning of the code of `t`. -/
def Ext (s t : State) : Prop :=
  List.Forall₂ CodePrefix s.frames t.frames

/-- Modelled from the spec: the 16-bit operand of a jump instruction, read big-endian from
the two bytes at `offset` and `offset + 1` of the code. -/
def readShort (code : List Nat) (offset : Nat) : Option Nat :=
  (code[offset]?).bind fun hi => (code[offset + 1]?).map fun lo => (hi <<< 8) ||| lo

/-- The state has a current frame, and the code of its chunk is `code`. -/
structure HasCode (s : State) (code : List Nat) : Prop where
  ne : s.frames ≠ []
  eq : currentCode s = code

/-- What a reader of the code of a chunk expects next: an opcode, `count` more operand
bytes, or the argument count of `OP_CALL`. -/
inductive Expect where
  | opcode
  | operands (count : Nat)
  | argCount
deriving DecidableEq, Repr

/-- Modelled from the spec: the stack effects of the opcode table (section 4.4) for the
instructions of expressions, of `print`, of the pops and of the jumps. `stackAfter code e d`
is the depth of the stack after the instructions of `code`, taken one after the other,
from the depth `d`: CONSTANT, NIL, TRUE, FALSE +1; NOT, NEGATE 0 on one value; EQUAL,
GREATER, LESS, ADD, SUBTRACT, MULTIPLY, DIVIDE -1 on two values; POP, PRINT -1; JUMP and
LOOP 0; JUMP_IF_FALSE 0 on one value; CALL argc: -argc on argc + 1 values. The result is
`none` when an instruction finds fewer values than it takes, when the code ends inside an
instruction, and at any other opcode. -/
def stackAfter : List Nat → Expect → Nat → Option Nat
  | [], Expect.opcode, d => some d
  | [], Expect.operands _, _ => none
  | [], Expect.argCount, _ => none
  | _ :: rest, Expect.operands k, d =>
    stackAfter rest (if k ≤ 1 then Expect.opcode else Expect.operands (k - 1)) d
  | b :: rest, Expect.argCount, d =>
    if b + 1 ≤ d then stackAfter rest Expect.opcode (d - b) else none
  | b :: rest, Expect.opcode, d =>
    if b = OP_CONSTANT then stackAfter rest (Expect.operands 1) (d + 1)
    else if b = OP_NIL ∨ b = OP_TRUE ∨ b = OP_FALSE then stackAfter rest Expect.opcode (d + 1)
    else if b = OP_NOT ∨ b = OP_NEGATE then
      if 1 ≤ d then stackAfter rest Expect.opcode d else none
    else if b = OP_EQUAL ∨ b = OP_GREATER ∨ b = OP_LESS ∨ b = OP_ADD ∨ b = OP_SUBTRACT ∨
        b = OP_MULTIPLY ∨ b = OP_DIVIDE then
      if 2 ≤ d then stackAfter rest Expect.opcode (d - 1) else none
    else if b = OP_POP ∨ b = OP_PRINT then
      if 1 ≤ d then stackAfter rest Expect.opcode (d - 1) else none
    else if b = OP_JUMP ∨ b = OP_LOOP then stackAfter rest (Expect.operands 2) d
    else if b = OP_JUMP_IF_FALSE then
      if 1 ≤ d then stackAfter rest (Expect.operands 2) d else none
    else if b = OP_CALL then stackAfter rest Expect.argCount d
    else none

/-- The code runs from depth `d` to depth `d + k`, whatever `d` is, and is made of whole
instructions. -/
def Pushes (code : List Nat) (k : Nat) : Prop :=
  ∀ d, stackAfter code Expect.opcode d = some (d + k)

/-- The locals of the current frame, slot 0 first. -/
def currentLocals (s : State) : List Local :=
  match s.frames with
  | [] => []
  | c :: _ => c.locals

/-- The two operand bytes of the 16-bit distance `d`, the high byte first. -/
def shortOperand (d : Nat) : List Nat :=
  [asUInt8 ((d : Int) / 256), asUInt8 (d : Int)]

/-- The position to which a forward jump leads whose operand is at `offset`: the position
after the operand plus the operand. -/
def jumpTarget (code : List Nat) (offset : Nat) : Option Nat :=
  (readShort code offset).map fun d => offset + 2 + d

/-- The position to which an `OP_LOOP` leads whose operand is at `offset`: the position
after the operand minus the operand. -/
def loopTarget (code : List Nat) (offset : Nat) : Option Nat :=
  (readShort code offset).bind fun d => if d ≤ offset + 2 then some (offset + 2 - d) else none

/-- The number of bytes that the condition clause of a `for` statement takes: the code of
the condition, `OP_JUMP_IF_FALSE` with its operand and `OP_POP`; nothing without a
condition. -/
def conditionLength : Option (List Nat) → Nat
  | none => 0
  | some cond => cond.length + 4

/-- The number of bytes that the increment clause of a `for` statement takes: `OP_JUMP` with
its operand, the code of the increment, `OP_POP` and `OP_LOOP` with its operand; nothing
without an increment. -/
def incrementLength : Option (List Nat) → Nat
  | none => 0
  | some incr => incr.length + 7

/-- The code of a `for` statement as the specification lays it out, given the code of the
initializer, of the condition and of the increment (`none` for an omitted clause), of the
body, and of the instructions that close the scope. -/
def forLayout (init : List Nat) (cond incr : Option (List Nat)) (body close : List Nat) :
    List Nat :=
  init ++
  (match cond with
    | none => []
    | some c => c ++ [OP_JUMP_IF_FALSE] ++
        shortOperand (incrementLength incr + body.length + 4) ++ [OP_POP]) ++
  (match incr with
    | none => []
    | some i => [OP_JUMP] ++ shortOperand (i.length + 4) ++ i ++ [OP_POP, OP_LOOP] ++
        shortOperand (conditionLength cond + i.length + 7)) ++
  body ++ [OP_LOOP] ++
  shortOperand (match incr with
    | none => conditionLength cond + body.length + 3
    | some i => i.length + body.length + 7) ++
  (match cond with
    | none => []
    | some _ => [OP_POP]) ++
  close

/-- The initializer clause of `forStatement`, entered after the `(`: nothing for `;`, a
variable declaration after `var`, an expression statement otherwise. -/
def forInitializer (x : Extern) (n : Nat) (s : State) : Option (Int × State) :=
  let m := matchToken TOKEN_SEMICOLON s
  if m.1 then some (0, m.2)
  else
    let m := matchToken TOKEN_VAR m.2
    if m.1 then exec x n Proc.varDeclaration m.2
    else exec x n Proc.expressionStatement m.2

/-! ## Vocabulary for the stack effect of expressions -/

/-- The code takes the stack from the depth `d + before` to the depth `d + after`, whatever
`d` is: it is made of whole instructions, and none of them takes a value below the `before`
topmost ones. -/
def Effect (code : List Nat) (before after : Nat) : Prop :=
  ∀ d, stackAfter code Expect.opcode (d + before) = some (d + after)

/-- The assignment `parser.panicMode = false`, the first statement of `synchronize`. -/
def clearPanic (s : State) : State :=
  { s with parser := { s.parser with panicMode := false } }

/-- Between the states `s` and `t` panic mode has not been left, and at most one message has
been reported: none when `s` is in panic mode, and when one has been reported `t` is in
panic mode. -/
structure Plain (s t : State) : Prop where
  panic : s.parser.panicMode = true → t.parser.panicMode = true ∧ t.stderr = s.stderr
  calm : s.parser.panicMode = false →
    (t.parser.panicMode = false ∧ t.stderr = s.stderr) ∨
    (t.parser.panicMode = true ∧ ∃ e, t.stderr = s.stderr ++ [e])

/-- The run from `s` to `u` in which `synchronize` has been called in the states of `calls`,
in this order: every call finds the parser in panic mode, and from `s` to the first call,
from the clearing of panic mode in one call to the next call, and from the clearing in the
last call to `u`, the states are related by `Plain`. -/
def Segmented : State → List State → State → Prop
  | s, [], u => Plain s u
  | s, t :: calls, u =>
    (Plain s t ∧ t.parser.panicMode = true) ∧ Segmented (clearPanic t) calls u

/-- The result of a call together with the states in which the call has called
`synchronize`: a call that has not called it. -/
def liftLog (o : Option (Int × State)) : Option ((Int × State) × List State) :=
  o.map fun r => (r, [])

/-- A call followed by what is done with its result; the calls of `synchronize` of the two
follow each other. -/
def bindLog (o : Option ((Int × State) × List State))
    (f : Int × State → Option ((Int × State) × List State)) :
    Option ((Int × State) × List State) :=
  o.bind fun r => (f r.1).map fun q => (q.1, r.2 ++ q.2)

/-- The recursive descent of `exec` with a record of the calls of `synchronize`: next to the
result of `exec` it returns, in the order of the calls, the states in which `synchronize`
has been called. The only call of `synchronize` in `compiler.c` is the one at the end of
`declaration`; the procedures that lead to `declaration` are repeated here from `exec` with
the record passed on, and every other procedure is that of `exec`, with an empty record
(`execLog_erase` shows that the results are those of `exec`). -/
def execLog (x : Extern) : Nat → Proc → State → Option ((Int × State) × List State)
  | 0, _, _ => none
  | n + 1, Proc.forStatement, s =>
    let s := beginScope s
    let s := consume TOKEN_LEFT_PAREN "Expect '(' after 'for'." s
    let m := matchToken TOKEN_SEMICOLON s
    bindLog (if m.1 then some ((0, m.2), [])
      else
        let m := matchToken TOKEN_VAR m.2
        if m.1 then execLog x n Proc.varDeclaration m.2
        else execLog x n Proc.expressionStatement m.2) fun r =>
    let s := r.2
    let loopStart : Int := currentCount s
    let m := matchToken TOKEN_SEMICOLON s
    bindLog (if !m.1 then
        bindLog (execLog x n Proc.expression m.2) fun r =>
        let s := consume TOKEN_SEMICOLON "Expect ';' after loop condition." r.2
        let exitJump := emitJump OP_JUMP_IF_FALSE s
        some ((exitJump.1, emitByte OP_POP exitJump.2), [])
      else some ((-1, m.2), [])) fun r =>
    let exitJump : Int := r.1
    let s := r.2
    let m := matchToken TOKEN_RIGHT_PAREN s
    bindLog (if !m.1 then
        let bodyJump := emitJump OP_JUMP m.2
        let incrementStart : Int := currentCount bodyJump.2
        bindLog (execLog x n Proc.expression bodyJump.2) fun r =>
        let s := emitByte OP_POP r.2
        let s := consume TOKEN_RIGHT_PAREN "Expect ')' after for clauses." s
        let s := emitLoop loopStart s
        some ((incrementStart, patchJump bodyJump.1 s), [])
      else some ((loopStart, m.2), [])) fun r =>
    let loopStart : Int := r.1
    bindLog (execLog x n Proc.statement r.2) fun r =>
    let s := emitLoop loopStart r.2
    let s := if exitJump ≠ -1 then emitByte OP_POP (patchJump exitJump s) else s
    some ((0, endScope s), [])
  | n + 1, Proc.ifStatement, s =>
    let s := consume TOKEN_LEFT_PAREN "Expect '(' after 'if'." s
    bindLog (execLog x n Proc.expression s) fun r =>
    let s := consume TOKEN_RIGHT_PAREN "Expect ')' after condition." r.2
    let thenJump := emitJump OP_JUMP_IF_FALSE s
    let s := emitByte OP_POP thenJump.2
    bindLog (execLog x n Proc.statement s) fun r =>
    let elseJump := emitJump OP_JUMP r.2
    let s := patchJump thenJump.1 elseJump.2
    let s := emitByte OP_POP s
    let m := matchToken TOKEN_ELSE s
    bindLog (if m.1 then execLog x n Proc.statement m.2 else some ((0, m.2), [])) fun r =>
    some ((0, patchJump elseJump.1 r.2), [])
  | n + 1, Proc.whileStatement, s =>
    let loopStart : Int := currentCount s
    let s := consume TOKEN_LEFT_PAREN "Expect '(' after 'while'." s
    bindLog (execLog x n Proc.expression s) fun r =>
    let s := consume TOKEN_RIGHT_PAREN "Expect ')' after 'while'." r.2
    let exitJump := emitJump OP_JUMP_IF_FALSE s
    let s := emitByte OP_POP exitJump.2
    bindLog (execLog x n Proc.statement s) fun r =>
    let s := emitLoop loopStart r.2
    let s := patchJump exitJump.1 s
    some ((0, emitByte OP_POP s), [])
  | n + 1, Proc.declaration, s =>
    let m := matchToken TOKEN_CLASS s
    bindLog (if m.1 then execLog x n Proc.classDeclaration m.2
      else
        let m := matchToken TOKEN_FUN m.2
        if m.1 then execLog x n Proc.funDeclaration m.2
        else
          let m := matchToken TOKEN_VAR m.2
          if m.1 then execLog x n Proc.varDeclaration m.2
          else execLog x n Proc.statement m.2) fun r =>
    let s := r.2
    if s.parser.panicMode then some ((0, synchronize s), [s]) else some ((0, s), [])
  | n + 1, Proc.statement, s =>
    let m := matchToken TOKEN_PRINT s
    if m.1 then execLog x n Proc.printStatement m.2
    else
      let m := matchToken TOKEN_IF m.2
      if m.1 then execLog x n Proc.ifStatement m.2
      else
        let m := matchToken TOKEN_RETURN m.2
        if m.1 then execLog x n Proc.returnStatement m.2
        else
          let m := matchToken TOKEN_WHILE m.2
          if m.1 then execLog x n Proc.whileStatement m.2
          else
            let m := matchToken TOKEN_FOR m.2
            if m.1 then execLog x n Proc.forStatement m.2
            else
              let m := matchToken TOKEN_LEFT_BRACE m.2
              if m.1 then
                let s := beginScope m.2
                bindLog (execLog x n Proc.block s) fun r =>
                some ((0, endScope r.2), [])
              else execLog x n Proc.expressionStatement m.2
  | n + 1, Proc.block, s =>
    if !check TOKEN_RIGHT_BRACE s && !check TOKEN_EOF s then
      bindLog (execLog x n Proc.declaration s) fun r =>
      execLog x n Proc.block r.2
    else some ((0, consume TOKEN_RIGHT_BRACE "Expect '\x7d' after block." s), [])
  | n + 1, Proc.function type, s =>
    let s := initCompiler x type s
    let s := beginScope s
    let s := consume TOKEN_LEFT_PAREN "Expect '(' after function name." s
    let s := if !check TOKEN_RIGHT_PAREN s then functionParams x (s.source.length + 2) s else s
    let s := consume TOKEN_RIGHT_PAREN "Expect ')' after parameters." s
    let s := consume TOKEN_LEFT_BRACE "Expect '\x7b' before function body." s
    bindLog (execLog x n Proc.block s) fun r =>
    let ended := endCompiler r.2
    match ended.1 with
    | none => some ((0, ended.2), [])
    | some compiler =>
      let constant := makeConstant (OBJ_VAL compiler.functionPtr) ended.2
      let s := emitBytes OP_CLOSURE constant.1 constant.2
      some ((0, emitUpvalues compiler compiler.function.upvalueCount.toNat s), [])
  | n + 1, Proc.method, s =>
    let s := consume TOKEN_IDENTIFIER "Expect method name." s
    let constant := identifierConstant x s.parser.previous.lexeme s
    let s := constant.2
    let type : FunctionType :=
      if s.parser.previous.lexeme = "init" then TYPE_INITIALIZER else TYPE_METHOD
    bindLog (execLog x n (Proc.function type) s) fun r =>
    some ((0, emitBytes OP_METHOD constant.1 r.2), [])
  | n + 1, Proc.classDeclaration, s =>
    let s := consume TOKEN_IDENTIFIER "Expect class name." s
    let className : String := s.parser.previous.lexeme
    let nameConstant := identifierConstant x s.parser.previous.lexeme s
    let s := declareVariable nameConstant.2
    let s := emitBytes OP_CLASS nameConstant.1 s
    let s := defineVariable nameConstant.1 s
    let classCompiler : ClassCompiler := { name := s.parser.previous, hasSuperclass := false }
    let s := setClasses (classCompiler :: s.classes) s
    let m := matchToken TOKEN_LESS s
    bindLog (if m.1 then
        let s := consume TOKEN_IDENTIFIER "Expect superclass name." m.2
        bindLog (execLog x n (Proc.variable_ false) s) fun r =>
        let s := r.2
        let s :=
          if identifiersEqual className s.parser.previous.lexeme then
            error "A class can't inherit from itself." s
          else s
        bindLog (execLog x n (Proc.namedVariable className false) s) fun r =>
        let s := emitByte OP_INHERIT r.2
        let marked : List ClassCompiler :=
          match s.classes with
          | [] => []
          | c :: rest => { c with hasSuperclass := true } :: rest
        some ((0, setClasses marked s), [])
      else some ((0, m.2), [])) fun r =>
    let s := beginScope r.2
    let s := addLocal (syntheticToken "super") s
    let s := defineVariable 0 s
    bindLog (execLog x n (Proc.namedVariable className false) s) fun r =>
    let s := consume TOKEN_LEFT_BRACE "Expect '\x7b' before class body." r.2
    bindLog (execLog x n Proc.classDeclarationLoop s) fun r =>
    let s := consume TOKEN_RIGHT_BRACE "Expect '\x7d' after class body." r.2
    let s := emitByte OP_POP s
    let hasSuperclass : Bool :=
      match s.classes with
      | [] => false
      | c :: _ => c.hasSuperclass
    let s := if hasSuperclass then endScope s else s
    some ((0, setClasses s.classes.tail s), [])
  | n + 1, Proc.classDeclarationLoop, s =>
    if !check TOKEN_RIGHT_BRACE s && !check TOKEN_EOF s then
      bindLog (execLog x n Proc.method s) fun r =>
      execLog x n Proc.classDeclarationLoop r.2
    else some ((0, s), [])
  | n + 1, Proc.funDeclaration, s =>
    let global := parseVariable x "Expect function name." s
    let s := markInitialized global.2
    bindLog (execLog x n (Proc.function TYPE_FUNCTION) s) fun r =>
    some ((0, defineVariable global.1 r.2), [])
  | n + 1, Proc.compileLoop, s =>
    let m := matchToken TOKEN_EOF s
    if m.1 then some ((0, m.2), [])
    else
      bindLog (execLog x n Proc.declaration m.2) fun r =>
      execLog x n Proc.compileLoop r.2
  | n + 1, p, s => liftLog (exec x (n + 1) p s)

/-- The parser stands at a statement boundary, where the loop of `synchronize` returns: the
current token is `TOKEN_EOF`, or the previous token is a semicolon, or the current token
starts a declaration or a statement. -/
def atBoundary (s : State) : Bool :=
  decide (s.parser.current.type = TOKEN_EOF) ||
    decide (s.parser.previous.type = TOKEN_SEMICOLON) ||
    (match s.parser.current.type with
      | TOKEN_CLASS => true
      | TOKEN_FUN => true
      | TOKEN_VAR => true
      | TOKEN_FOR => true
      | TOKEN_IF => true
      | TOKEN_WHILE => true
      | TOKEN_PRINT => true
      | TOKEN_RETURN => true
      | _ => false)

/-- The state after `k` calls of `advance`. -/
def advanceTimes : Nat → State → State
  | 0, s => s
  | k + 1, s => advanceTimes k (advance s)

/-- The procedures from which no chain of calls leads to `declaration`, and so none to
`synchronize`: those of the expressions, and the statements made of expressions only. -/
def syncFree : Proc → Bool
  | Proc.forStatement => false
  | Proc.ifStatement => false
  | Proc.whileStatement => false
  | Proc.declaration => false
  | Proc.statement => false
  | Proc.block => false
  | Proc.function _ => false
  | Proc.method => false
  | Proc.classDeclaration => false
  | Proc.classDeclarationLoop => false
  | Proc.funDeclaration => false
  | Proc.compileLoop => false
  | _ => true

/-- Every value of `o` has the property `I` of the calls of `synchronize` so far, those of
`calls` and then its own, and of its state. -/
structure PostL (I : List State → State → Prop) (calls : List State)
    (o : Option ((Int × State) × List State)) : Prop where
  out : ∀ r, o = some r → I (calls ++ r.2) r.1.2

/-- The call `advance()` from the state `s` scans a `TOKEN_ERROR`: the first token that its
loop scans is one (the loop scans a further token only behind a `TOKEN_ERROR`). -/
def meetsError (s : State) : Bool :=
  decide ((scanToken s.source).1.type = TOKEN_ERROR)

/-! ## Worked examples for panic mode -/

/-- The token stream of `var 1 @ ; print 2;`: the scanner answers the character `@` with a
`TOKEN_ERROR` whose lexeme is its message. -/
def panicTokens : List Token :=
  [symbolToken TOKEN_VAR "var", numberToken "1",
    symbolToken TOKEN_ERROR "Unexpected character.", symbolToken TOKEN_SEMICOLON ";",
    symbolToken TOKEN_PRINT "print", numberToken "2", symbolToken TOKEN_SEMICOLON ";",
    symbolToken TOKEN_EOF ""]

/-- The state in which `compile` enters its loop for `panicTokens`. -/
def panicDemo : State :=
  advance (initCompiler digitExtern TYPE_SCRIPT (compileStart panicTokens startState))

/-- The state in which the `declaration` of `var 1` tests `parser.panicMode` and calls
`synchronize`. -/
def panicDemoCall : State :=
  stateAfter digitExtern 12 Proc.varDeclaration (matchToken TOKEN_VAR panicDemo).2

/-- The messages on `stderr`. -/
def messagesOf (s : State) : List String :=
  s.stderr.map fun e => e.message

/-- The token stream of `var 1 2; print 3;`. -/
def quietTokens : List Token :=
  [symbolToken TOKEN_VAR "var", numberToken "1", numberToken "2",
    symbolToken TOKEN_SEMICOLON ";", symbolToken TOKEN_PRINT "print", numberToken "3",
    symbolToken TOKEN_SEMICOLON ";", symbolToken TOKEN_EOF ""]

/-- The state in which the `declaration` of `var 1 2;` calls `synchronize`. -/
def quietDemoCall : State :=
  stateAfter digitExtern 12 Proc.varDeclaration (matchToken TOKEN_VAR
    (advance (initCompiler digitExtern TYPE_SCRIPT (compileStart quietTokens startState)))).2

/-- The run of the loop of `compile` on `panicTokens`: its result and the states in which it
has called `synchronize`. -/
def panicDemoRun : (Int × State) × List State :=
  (execLog digitExtern 20 Proc.compileLoop panicDemo).getD ((0, panicDemo), [])

/-! ## Theorems about the table -/

theorem findEntryLoop_step_stop {es : List Entry} {mask key fuel idx : Nat} {e : Entry}
    (he : es[idx]? = some e) (hs : e.stops key = true) :
    findEntryLoop es mask key (fuel + 1) idx = some idx := by
  obtain ⟨k, v⟩ := e
  cases k with
  | none =>
    cases v <;> simp_all [findEntryLoop, Entry.stops, Entry.isEmpty, IS_NIL]
  | some k =>
    simp_all [findEntryLoop, Entry.stops, Entry.isEmpty, IS_NIL]

theorem findEntryLoop_step_skip {es : List Entry} {mask key fuel idx : Nat} {e : Entry}
    (he : es[idx]? = some e) (hs : e.stops key = false) :
    findEntryLoop es mask key (fuel + 1) idx
      = findEntryLoop es mask key fuel ((idx + 1) &&& mask) := by
  obtain ⟨k, v⟩ := e
  cases k with
  | none =>
    cases v <;> simp_all [findEntryLoop, Entry.stops, Entry.isEmpty, IS_NIL]
  | some k =>
    simp_all [findEntryLoop, Entry.stops, Entry.isEmpty, IS_NIL]

theorem findEntryLoop_first {es : List Entry} {m key : Nat} :
    ∀ (j fuel idx : Nat), j < fuel →
      (∀ j', j' < j → ∃ e, es[(idx + j') % 2 ^ m]? = some e ∧ e.stops key = false) →
      (∃ e, es[(idx + j) % 2 ^ m]? = some e ∧ e.stops key = true) → idx < 2 ^ m →
      findEntryLoop es (2 ^ m - 1) key fuel idx = some ((idx + j) % 2 ^ m) := by
  intro j
  induction j with
  | zero =>
    intro fuel idx hf _ hstop hidx
    obtain ⟨e, he, hs⟩ := hstop
    obtain ⟨f, rfl⟩ : ∃ f, fuel = f + 1 := ⟨fuel - 1, by omega⟩
    simp only [Nat.add_zero, Nat.mod_eq_of_lt hidx] at he ⊢
    exact findEntryLoop_step_stop he hs
  | succ j ih =>
    intro fuel idx hf hskip hstop hidx
    obtain ⟨f, rfl⟩ : ∃ f, fuel = f + 1 := ⟨fuel - 1, by omega⟩
    obtain ⟨e0, he0, hs0⟩ := hskip 0 (by omega)
    simp only [Nat.add_zero, Nat.mod_eq_of_lt hidx] at he0
    rw [findEntryLoop_step_skip he0 hs0, Nat.and_pow_two_sub_one_eq_mod]
    have hmod : ∀ x, ((idx + 1) % 2 ^ m + x) % 2 ^ m = (idx + (x + 1)) % 2 ^ m := by
      intro x
      rw [Nat.add_mod, Nat.mod_mod, ← Nat.add_mod]
      congr 1
      omega
    have := ih f ((idx + 1) % 2 ^ m) (by omega)
      (fun j' hj' => by rw [hmod]; exact hskip (j' + 1) (by omega))
      (by rw [hmod]; exact hstop) (Nat.mod_lt _ (by positivity))
    rw [this, hmod]

theorem exists_probe_offset (a q n : Nat) (hq : q < n) : ∃ j, j < n ∧ (a + j) % n = q := by
  refine ⟨(q + n - a % n) % n, Nat.mod_lt _ (by omega), ?_⟩
  have ha : a % n < n := Nat.mod_lt _ (by omega)
  have h1 := Nat.add_mod (a % n) (q + n - a % n) n
  rw [Nat.mod_mod] at h1
  have h2 : a % n + (q + n - a % n) = q + n := by omega
  rw [Nat.add_mod, Nat.mod_mod, ← h1, h2, Nat.add_mod_right, Nat.mod_eq_of_lt hq]

theorem probe_offset_inj {a n j1 j2 : Nat} (h1 : j1 < n) (h2 : j2 < n)
    (heq : (a + j1) % n = (a + j2) % n) : j1 = j2 := by
  have key : ∀ x y, x ≤ y → y < n → (a + x) % n = (a + y) % n → x = y := by
    intro x y hxy hy hm
    have h3 : (a + y) % n = ((a + x) + (y - x)) % n := by congr 1; omega
    have h4 : (y - x) % n = 0 := by
      have h5 := (Nat.modEq_iff_dvd' (by omega : a + x ≤ a + y)).1 hm
      have h6 : a + y - (a + x) = y - x := by omega
      rw [h6] at h5
      exact Nat.mod_eq_zero_of_dvd h5
    rw [Nat.mod_eq_of_lt (by omega)] at h4
    omega
  rcases Nat.le_total j1 j2 with hle | hle
  · exact key j1 j2 hle h2 heq
  · exact (key j2 j1 hle h1 heq.symm).symm

theorem asUInt32_pow (capacity : Int) (m : Nat) (hc : capacity + 1 = 2 ^ m) :
    asUInt32 capacity = 2 ^ m - 1 := by
  have hpos : 0 < 2 ^ m := Nat.two_pow_pos m
  have hx : capacity + 1 = ((2 ^ m : Nat) : Int) := by push_cast; exact hc
  generalize 2 ^ m = x at hpos hx ⊢
  unfold asUInt32
  rw [if_pos (by omega)]
  omega

/-- What `findEntry` returns on a well-probed array with an empty slot: the first slot,
counted from the home slot of `key`, that is empty or holds `key`. -/
theorem findEntry_spec {h : Heap} {es : List Entry} {capacity : Int} {m : Nat}
    (hc : capacity + 1 = 2 ^ m) (hlen : es.length = 2 ^ m) (hp : ProbeOK h es)
    (hempty : ∃ (q : Nat) (e : Entry), es[q]? = some e ∧ e.isEmpty = true) (key : Nat) :
    ∃ i e, findEntry h es capacity key = some i ∧ es[i]? = some e ∧ e.stops key = true ∧
      (∃ j, j < 2 ^ m ∧ i = ((h key).hash + j) % 2 ^ m ∧
        ∀ j', j' < j → ∀ e', es[((h key).hash + j') % 2 ^ m]? = some e' → e'.stops key = false) ∧
      (e.isEmpty = true → ∀ v, ¬ Live es key v) := by
  classical
  have hn : 0 < 2 ^ m := by positivity
  obtain ⟨q, eq, hq, hqe⟩ := hempty
  have hqlt : q < 2 ^ m := by
    have := (List.getElem?_eq_some.1 hq).1
    omega
  let P : Nat → Prop := fun j => j < 2 ^ m ∧
    ∃ e, es[((h key).hash + j) % 2 ^ m]? = some e ∧ e.stops key = true
  have hex : ∃ j, P j := by
    obtain ⟨j, hj, hjq⟩ := exists_probe_offset (h key).hash q (2 ^ m) hqlt
    exact ⟨j, hj, eq, by rw [hjq]; exact hq, by simp [Entry.stops, hqe]⟩
  obtain ⟨hj0, e, he, hs⟩ := Nat.find_spec hex
  have hmin : ∀ j', j' < Nat.find hex → ∀ e',
      es[((h key).hash + j') % 2 ^ m]? = some e' → e'.stops key = false := by
    intro j' hj' e' he'
    have := Nat.find_min hex hj'
    by_contra hne
    exact this ⟨by omega, e', he', by simpa using hne⟩
  have hslot : ∀ x, ∃ e', es[x % 2 ^ m]? = some e' := by
    intro x
    have : x % 2 ^ m < es.length := by rw [hlen]; exact Nat.mod_lt _ hn
    exact ⟨es[x % 2 ^ m], List.getElem?_eq_getElem this⟩
  refine ⟨((h key).hash + Nat.find hex) % 2 ^ m, e, ?_, he, hs, ⟨Nat.find hex, hj0, rfl, hmin⟩, ?_⟩
  · unfold findEntry
    rw [asUInt32_pow capacity m hc, Nat.and_pow_two_sub_one_eq_mod, hlen]
    have := @findEntryLoop_first es m key (Nat.find hex) (2 ^ m) ((h key).hash % 2 ^ m) hj0
      (fun j' hj' => by
        obtain ⟨e', he'⟩ := hslot ((h key).hash % 2 ^ m + j')
        refine ⟨e', he', ?_⟩
        rw [Nat.mod_add_mod] at he'
        exact hmin j' hj' e' he')
      (by rw [Nat.mod_add_mod]; exact ⟨e, he, hs⟩) (Nat.mod_lt _ hn)
    rw [this, Nat.mod_add_mod]
  · intro hemp v ⟨p, hpv⟩
    have hplt : p < 2 ^ m := by
      have := (List.getElem?_eq_some.1 hpv).1
      omega
    obtain ⟨jp, hjp, hjpp⟩ := exists_probe_offset (h key).hash p (2 ^ m) hplt
    have hchain := hp.chain p key v hpv jp (by omega) (by rw [hlen]; exact hjpp)
    rw [hlen] at hchain
    rcases Nat.lt_trichotomy (Nat.find hex) jp with hlt | heq | hgt
    · have hne := hchain _ hlt e he
      simp [hne] at hemp
    · rw [heq, hjpp, hpv] at he
      cases he
      simp [Entry.isEmpty] at hemp
    · have := hmin jp hgt _ (by rw [hjpp]; exact hpv)
      simp [Entry.stops] at this

theorem getElem?_lt {es : List Entry} {i : Nat} {e : Entry} (h : es[i]? = some e) :
    i < es.length := (List.getElem?_eq_some.1 h).1

theorem getElem?_set_self_of_lt {es : List Entry} {i : Nat} (e : Entry) (hi : i < es.length) :
    (es.set i e)[i]? = some e := by
  rw [List.getElem?_set]; simp [hi]

theorem getElem?_set_other {es : List Entry} {i j : Nat} (e : Entry) (hij : i ≠ j) :
    (es.set i e)[j]? = es[j]? := by
  rw [List.getElem?_set]; simp [hij]

/-- Writing a non-empty entry into a slot keeps the probing invariant, provided that the key
written (if any) is stored nowhere else and is reachable from its home slot. -/
theorem ProbeOK.set {h : Heap} {es : List Entry} (hp : ProbeOK h es) {i : Nat}
    (hi : i < es.length) {e' : Entry} (hne : e'.isEmpty = false)
    (hkey : ∀ k, e'.key = some k →
      (∀ (j : Nat) (v : Value), es[j]? = some (Entry.mk (some k) v) → j = i) ∧
      (∀ j : Nat, j < es.length → ((h k).hash + j) % es.length = i → ∀ j', j' < j →
        ∀ e, es[((h k).hash + j') % es.length]? = some e → e.isEmpty = false)) :
    ProbeOK h (es.set i e') := by
  have hget : ∀ (p : Nat) (e : Entry), (es.set i e')[p]? = some e →
      (p = i ∧ e = e') ∨ (p ≠ i ∧ es[p]? = some e) := by
    intro p e hpe
    by_cases hpi : p = i
    · subst hpi
      rw [getElem?_set_self_of_lt e' hi] at hpe
      exact Or.inl ⟨rfl, (Option.some.inj hpe).symm⟩
    · rw [getElem?_set_other e' (Ne.symm hpi)] at hpe
      exact Or.inr ⟨hpi, hpe⟩
  have hmono : ∀ (p : Nat) (e : Entry), (es.set i e')[p]? = some e →
      (∀ e0, es[p]? = some e0 → e0.isEmpty = false) → e.isEmpty = false := by
    intro p e hpe hold
    rcases hget p e hpe with ⟨_, rfl⟩ | ⟨_, h2⟩
    · exact hne
    · exact hold e h2
  constructor
  · intro a b k v w ha hb
    rcases hget a _ ha with ⟨ha1, ha2⟩ | ⟨ha1, ha2⟩ <;>
      rcases hget b _ hb with ⟨hb1, hb2⟩ | ⟨hb1, hb2⟩
    · rw [ha1, hb1]
    · have := (hkey k (by rw [← ha2])).1 b w hb2
      exact absurd this hb1
    · have := (hkey k (by rw [← hb2])).1 a v ha2
      exact absurd this ha1
    · exact hp.uniq a b k v w ha2 hb2
  · intro p k v hpk j hj hjp j' hj' e he
    rw [List.length_set] at hj hjp he
    apply hmono _ e he
    intro e0 he0
    rcases hget p _ hpk with ⟨hp1, hp2⟩ | ⟨_, hp2⟩
    · exact (hkey k (by rw [← hp2])).2 j hj (by rw [hjp, hp1]) j' hj' e0 he0
    · exact hp.chain p k v hp2 j hj hjp j' hj' e0 he0

theorem live_set_iff {es : List Entry} {i : Nat} (hi : i < es.length) (e' : Entry)
    (k : Nat) (v : Value) :
    Live (es.set i e') k v ↔
      e' = Entry.mk (some k) v ∨ ∃ j : Nat, j ≠ i ∧ es[j]? = some (Entry.mk (some k) v) := by
  constructor
  · rintro ⟨p, hpe⟩
    by_cases hpi : p = i
    · subst hpi
      rw [getElem?_set_self_of_lt e' hi] at hpe
      exact Or.inl (Option.some.inj hpe)
    · rw [getElem?_set_other e' (Ne.symm hpi)] at hpe
      exact Or.inr ⟨p, hpi, hpe⟩
  · rintro (rfl | ⟨j, hji, hj⟩)
    · exact ⟨i, getElem?_set_self_of_lt _ hi⟩
    · exact ⟨j, by rw [getElem?_set_other _ (Ne.symm hji)]; exact hj⟩

theorem countP_set_nonEmpty {es : List Entry} {i : Nat} {e e' : Entry} (hie : es[i]? = some e)
    (hne : e'.isEmpty = false) :
    (es.set i e').countP (fun x => !x.isEmpty)
      = es.countP (fun x => !x.isEmpty) + (if e.isEmpty then 1 else 0) := by
  have hi := getElem?_lt hie
  have hget : es[i] = e := by
    have := List.getElem?_eq_getElem hi
    rw [this] at hie
    exact Option.some.inj hie
  rw [List.countP_set _ _ _ _ hi, hget]
  have hpos : e.isEmpty = false → 0 < es.countP (fun x => !x.isEmpty) := by
    intro hf
    apply List.countP_pos_iff.2
    exact ⟨e, by rw [← hget]; exact List.getElem_mem _, by simp [hf]⟩
  cases hemp : e.isEmpty <;> simp [hne, hemp]
  have := hpos hemp
  omega

theorem exists_empty_of_countP_lt {es : List Entry}
    (hlt : es.countP (fun x => !x.isEmpty) < es.length) :
    ∃ (q : Nat) (e : Entry), es[q]? = some e ∧ e.isEmpty = true := by
  by_contra hno
  have hall : ∀ a ∈ es, (fun x : Entry => !x.isEmpty) a = true := by
    intro a ha
    obtain ⟨q, hq⟩ := List.mem_iff_getElem?.1 ha
    by_contra hcon
    exact hno ⟨q, a, hq, by simpa using hcon⟩
  have := List.countP_eq_length.2 hall
  omega

theorem WF.exists_empty {h : Heap} {t : Table} (hw : WF h t) (hne : t.capacity ≠ -1) :
    ∃ (q : Nat) (e : Entry), t.entries[q]? = some e ∧ e.isEmpty = true := by
  apply exists_empty_of_countP_lt
  have h1 := hw.len
  have h2 := hw.count_eq
  have h3 := hw.load
  rcases hw.pow with hc | ⟨m, hm⟩
  · exact absurd hc hne
  · have hpos : (0 : Int) < 2 ^ m := by positivity
    omega

theorem WF.length_eq {h : Heap} {t : Table} (hw : WF h t) {m : Nat}
    (hm : t.capacity + 1 = 2 ^ m) : t.entries.length = 2 ^ m := by
  have h1 := hw.len
  rw [hm] at h1
  exact_mod_cast h1

theorem not_live_of_count_zero {h : Heap} {t : Table} (hw : WF h t) (hc : t.count = 0)
    (k : Nat) (v : Value) : ¬ Live t.entries k v := by
  rintro ⟨p, hp⟩
  have h2 := hw.count_eq
  rw [hc] at h2
  have h3 : 0 < t.entries.countP (fun e => !e.isEmpty) :=
    List.countP_pos_iff.2 ⟨_, List.mem_iff_getElem?.2 ⟨p, hp⟩, by simp [Entry.isEmpty]⟩
  omega

theorem capacity_ne_of_count_ne {h : Heap} {t : Table} (hw : WF h t) (hc : t.count ≠ 0) :
    ∃ m : Nat, t.capacity + 1 = 2 ^ m := by
  rcases hw.pow with h1 | h1
  · exfalso
    have h2 := hw.load
    have h3 := hw.count_eq
    rw [h1] at h2
    omega
  · exact h1

/-- On a well-formed table `tableGet` returns, and it returns `true` with value `v`
exactly for the live pairs `(key, v)`. -/
theorem tableGet_spec {h : Heap} {t : Table} (hw : WF h t) (key : Nat) :
    ∃ r, tableGet h t key = some r ∧ ∀ v, r = some v ↔ Live t.entries key v := by
  unfold tableGet
  by_cases hc : t.count = 0
  · rw [if_pos hc]
    exact ⟨none, rfl, fun v => ⟨fun hv => (by cases hv), fun hv =>
      absurd hv (not_live_of_count_zero hw hc key v)⟩⟩
  · rw [if_neg hc]
    obtain ⟨m, hm⟩ := capacity_ne_of_count_ne hw hc
    have hne : t.capacity ≠ -1 := by
      intro h1
      have hpos : (0 : Int) < 2 ^ m := by positivity
      omega
    obtain ⟨i, e, hfind, hie, hstop, _, hnot⟩ :=
      findEntry_spec hm (hw.length_eq hm) hw.probe (hw.exists_empty hne) key
    rw [hfind]
    simp only [hie]
    obtain ⟨ek, ev⟩ := e
    cases ek with
    | none =>
      have hemp : (Entry.mk none ev).isEmpty = true := by
        simpa [Entry.stops] using hstop
      exact ⟨none, rfl, fun v => ⟨fun hv => (by cases hv), fun hv => absurd hv (hnot hemp v)⟩⟩
    | some k =>
      have hk : k = key := by simpa [Entry.stops, Entry.isEmpty] using hstop
      subst hk
      refine ⟨some ev, rfl, fun v => ⟨fun hv => ?_, fun ⟨p, hp⟩ => ?_⟩⟩
      · cases hv
        exact ⟨i, hie⟩
      · have := hw.probe.uniq p i k v ev hp hie
        subst this
        rw [hie] at hp
        cases hp
        rfl

/-- Storing `(key, value)` in the slot that `findEntry` returns. -/
theorem findEntry_store {h : Heap} {es : List Entry} {capacity : Int} {m : Nat}
    (hc : capacity + 1 = 2 ^ m) (hlen : es.length = 2 ^ m) (hp : ProbeOK h es)
    (hempty : ∃ (q : Nat) (e : Entry), es[q]? = some e ∧ e.isEmpty = true)
    (key : Nat) (value : Value) :
    ∃ i e, findEntry h es capacity key = some i ∧ es[i]? = some e ∧
      (e.key = some key ∨ e.isEmpty = true) ∧
      (e.key.isNone = true ↔ ∀ v, ¬ Live es key v) ∧
      ProbeOK h (es.set i (Entry.mk (some key) value)) ∧
      ∀ k' v', Live (es.set i (Entry.mk (some key) value)) k' v' ↔
        (k' = key ∧ v' = value) ∨ (k' ≠ key ∧ Live es k' v') := by
  obtain ⟨i, e, hfind, hie, hstop, ⟨j, hj, hij, hfirst⟩, hnot⟩ :=
    findEntry_spec hc hlen hp hempty key
  have hi := getElem?_lt hie
  have hcase : e.key = some key ∨ e.isEmpty = true := by
    rcases Bool.eq_false_or_eq_true e.isEmpty with h1 | h1
    · exact Or.inr h1
    · left; simpa [Entry.stops, h1] using hstop
  have hother : ∀ (p : Nat) (w : Value), es[p]? = some (Entry.mk (some key) w) → p = i := by
    intro p w hpw
    rcases hcase with h1 | h1
    · obtain ⟨ek, ev⟩ := e
      simp only at h1
      subst h1
      exact hp.uniq p i key w ev hpw hie
    · exact absurd ⟨p, hpw⟩ (hnot h1 w)
  refine ⟨i, e, hfind, hie, hcase, ?_, ?_, ?_⟩
  · constructor
    · intro hnone
      apply hnot
      rcases hcase with h1 | h1
      · rw [h1] at hnone; cases hnone
      · exact h1
    · intro hno
      rcases hcase with h1 | h1
      · obtain ⟨ek, ev⟩ := e
        simp only at h1
        subst h1
        exact absurd ⟨i, hie⟩ (hno ev)
      · simp only [Entry.isEmpty, Bool.and_eq_true] at h1
        exact h1.1
  · apply hp.set hi (by simp [Entry.isEmpty])
    intro k hk
    simp only [Option.some.injEq] at hk
    subst hk
    refine ⟨fun p w hpw => hother p w hpw, ?_⟩
    intro j1 hj1 hj1i j' hj' e0 he0
    rw [hlen] at hj1 hj1i he0
    have hjj : j1 = j := probe_offset_inj hj1 hj (by rw [hj1i, hij])
    subst hjj
    have := hfirst j' hj' e0 he0
    simp only [Entry.stops, Bool.or_eq_false_iff] at this
    exact this.1
  · intro k' v'
    rw [live_set_iff hi]
    constructor
    · rintro (heq | ⟨p, hpi, hpe⟩)
      · cases heq
        exact Or.inl ⟨rfl, rfl⟩
      · by_cases hk : k' = key
        · subst hk
          exact absurd (hother p v' hpe) hpi
        · exact Or.inr ⟨hk, p, hpe⟩
    · rintro (⟨rfl, rfl⟩ | ⟨hk, p, hpe⟩)
      · exact Or.inl rfl
      · refine Or.inr ⟨p, ?_, hpe⟩
        rintro rfl
        rw [hie] at hpe
        cases hpe
        rcases hcase with h1 | h1
        · simp only [Option.some.injEq] at h1
          exact hk h1
        · simp [Entry.isEmpty] at h1

/-- Writing a tombstone over a live slot keeps the probing invariant and removes exactly the
pair stored there. -/
theorem tombstone_set {h : Heap} {es : List Entry} (hp : ProbeOK h es) {i key : Nat}
    {value : Value} (hie : es[i]? = some (Entry.mk (some key) value)) :
    ProbeOK h (es.set i tombstoneEntry) ∧
      (es.set i tombstoneEntry).countP (fun x => !x.isEmpty)
        = es.countP (fun x => !x.isEmpty) ∧
      ∀ k' v', Live (es.set i tombstoneEntry) k' v' ↔ (k' ≠ key ∧ Live es k' v') := by
  have hi := getElem?_lt hie
  refine ⟨?_, ?_, ?_⟩
  · apply hp.set hi (by simp [Entry.isEmpty, tombstoneEntry, BOOL_VAL, IS_NIL])
    intro k hk
    simp [tombstoneEntry] at hk
  · rw [countP_set_nonEmpty hie (by simp [Entry.isEmpty, tombstoneEntry, BOOL_VAL, IS_NIL])]
    simp [Entry.isEmpty]
  · intro k' v'
    rw [live_set_iff hi]
    constructor
    · rintro (heq | ⟨p, hpi, hpe⟩)
      · simp [tombstoneEntry] at heq
      · refine ⟨?_, p, hpe⟩
        rintro rfl
        exact hpi (hp.uniq p i k' v' value hpe hie)
    · rintro ⟨hk, p, hpe⟩
      refine Or.inr ⟨p, ?_, hpe⟩
      rintro rfl
      rw [hie] at hpe
      cases hpe
      exact hk rfl

/-- What `tableDelete` does on a well-formed table. -/
theorem tableDelete_spec {h : Heap} {t : Table} (hw : WF h t) (key : Nat) :
    (∃ (i : Nat) (v : Value), t.entries[i]? = some (Entry.mk (some key) v) ∧
      tableDelete h t key = some (true, { t with entries := t.entries.set i tombstoneEntry })) ∨
    ((∀ v, ¬ Live t.entries key v) ∧ tableDelete h t key = some (false, t)) := by
  unfold tableDelete
  by_cases hc : t.count = 0
  · rw [if_pos hc]
    exact Or.inr ⟨fun v => not_live_of_count_zero hw hc key v, rfl⟩
  · rw [if_neg hc]
    obtain ⟨m, hm⟩ := capacity_ne_of_count_ne hw hc
    have hne : t.capacity ≠ -1 := by
      intro h1
      have hpos : (0 : Int) < 2 ^ m := by positivity
      omega
    obtain ⟨i, e, hfind, hie, hstop, _, hnot⟩ :=
      findEntry_spec hm (hw.length_eq hm) hw.probe (hw.exists_empty hne) key
    rw [hfind]
    simp only [hie]
    obtain ⟨ek, ev⟩ := e
    cases ek with
    | none =>
      have hemp : (Entry.mk none ev).isEmpty = true := by
        simpa [Entry.stops] using hstop
      exact Or.inr ⟨hnot hemp, rfl⟩
    | some k =>
      have hk : k = key := by simpa [Entry.stops, Entry.isEmpty] using hstop
      subst hk
      exact Or.inl ⟨i, ev, hie, rfl⟩

/-- A tombstone write keeps a table well formed. -/
theorem WF.tombstone {h : Heap} {t : Table} (hw : WF h t) {i key : Nat} {value : Value}
    (hie : t.entries[i]? = some (Entry.mk (some key) value)) :
    WF h { t with entries := t.entries.set i tombstoneEntry } := by
  obtain ⟨h1, h2, _⟩ := tombstone_set hw.probe hie
  exact ⟨by simpa using hw.len, hw.pow, by simpa [h2] using hw.count_eq, hw.load, h1⟩

theorem WF.count_nonneg {h : Heap} {t : Table} (hw : WF h t) : 0 ≤ t.count := by
  rw [hw.count_eq]; positivity

/-- The second half of `tableSet`, after the growth test: the pair is stored in the slot
that `findEntry` returns in the (possibly grown) table `t1`. -/
theorem tableSet_store {h : Heap} {t t1 : Table} (key : Nat) (value : Value)
    (hg : (if exceedsMaxLoad t.count t.capacity then
        adjustCapacity h t (GROW_CAPACITY (t.capacity + 1) - 1) else some t) = some t1)
    (hw1 : WF h t1) (hroom : 5 * (t1.count + 1) ≤ 3 * (t1.capacity + 1)) :
    ∃ b t', tableSet h t key value = some (b, t') ∧ WF h t' ∧ t'.capacity = t1.capacity ∧
      (b = true ↔ ∀ v, ¬ Live t1.entries key v) ∧
      (∀ k' v', Live t'.entries k' v' ↔
        (k' = key ∧ v' = value) ∨ (k' ≠ key ∧ Live t1.entries k' v')) := by
  have hcnt := hw1.count_nonneg
  have hne : t1.capacity ≠ -1 := by intro h1; rw [h1] at hroom; omega
  obtain ⟨m, hm⟩ : ∃ m : Nat, t1.capacity + 1 = 2 ^ m := by
    rcases hw1.pow with h1 | h1
    · exact absurd h1 hne
    · exact h1
  obtain ⟨i, e, hfind, hie, hcase, hnew, hprobe, hlive⟩ :=
    findEntry_store hm (hw1.length_eq hm) hw1.probe (hw1.exists_empty hne) key value
  unfold tableSet
  simp only [hg, hfind, hie]
  refine ⟨_, _, rfl, ?_, rfl, ?_, hlive⟩
  · refine ⟨by simpa using hw1.len, hw1.pow, ?_, ?_, hprobe⟩
    · simp only
      rw [countP_set_nonEmpty hie (by simp [Entry.isEmpty])]
      have hce := hw1.count_eq
      rcases hcase with h1 | h1
      · have h2 : e.isEmpty = false := by simp [Entry.isEmpty, h1]
        simp [h1, h2, hce]
      · have h2 := h1
        simp only [Entry.isEmpty, Bool.and_eq_true] at h2
        simp [h1, h2.1, h2.2, hce]
    · simp only
      split <;> omega
  · exact hnew

theorem countP_take_succ (p : Entry → Bool) (es : List Entry) (i : Nat) (e : Entry)
    (hie : es[i]? = some e) :
    (es.take (i + 1)).countP p = (es.take i).countP p + (if p e then 1 else 0) := by
  rw [List.take_succ, hie, List.countP_append]
  simp [List.countP_cons]

theorem countP_take_le (p : Entry → Bool) (es : List Entry) (i : Nat) :
    (es.take i).countP p ≤ es.countP p :=
  (List.take_sublist i es).countP_le p

theorem replicate_empty_get {n q : Nat} {e : Entry}
    (hq : (List.replicate n (Entry.mk none NIL_VAL))[q]? = some e) :
    e = Entry.mk none NIL_VAL := by
  rw [List.getElem?_replicate] at hq
  split at hq
  · exact (Option.some.inj hq).symm
  · cases hq

theorem ProbeOK.replicate (h : Heap) (n : Nat) :
    ProbeOK h (List.replicate n (Entry.mk none NIL_VAL)) := by
  constructor
  · intro i j k v w hi _
    cases replicate_empty_get hi
  · intro p k v hpk
    cases replicate_empty_get hpk

/-- The invariant of the re-insertion loop of `adjustCapacity`, after the slots `0 .. i-1` of
the old array have been visited. -/
theorem adjustCapacity_fold {h : Heap} {old : List Entry} (hold : ProbeOK h old)
    {capacity : Int} {m : Nat} (hc : capacity + 1 = 2 ^ m)
    (hroom : old.countP (fun e => e.key.isSome) < 2 ^ m) :
    ∀ i, i ≤ old.length → ∃ acc c,
      (List.range i).foldlM (adjustCapacityStep h old capacity)
        (List.replicate (2 ^ m) (Entry.mk none NIL_VAL), 0) = some (acc, c) ∧
      acc.length = 2 ^ m ∧ ProbeOK h acc ∧
      (∀ (q : Nat) (e : Entry), acc[q]? = some e → e.isTombstone = false) ∧
      (∀ k v, Live acc k v ↔ ∃ p : Nat, p < i ∧ old[p]? = some (Entry.mk (some k) v)) ∧
      c = ((acc.countP (fun e => !e.isEmpty) : Nat) : Int) ∧
      acc.countP (fun e => !e.isEmpty) = (old.take i).countP (fun e => e.key.isSome) := by
  intro i
  induction i with
  | zero =>
    intro _
    refine ⟨_, _, rfl, by simp, ProbeOK.replicate h _, ?_, ?_, ?_, ?_⟩
    · intro q e hq
      rw [replicate_empty_get hq]
      simp [Entry.isTombstone, NIL_VAL, IS_NIL]
    · intro k v
      constructor
      · rintro ⟨q, hq⟩
        cases replicate_empty_get hq
      · rintro ⟨p, hp, _⟩
        omega
    · simp [List.countP_replicate, Entry.isEmpty, NIL_VAL, IS_NIL]
    · simp [List.countP_replicate, Entry.isEmpty, NIL_VAL, IS_NIL]
  | succ i ih =>
    intro hi
    obtain ⟨acc, c, hfold, hlen, hp, htomb, hlive, hcnt, hcnt2⟩ := ih (by omega)
    have hilt : i < old.length := by omega
    obtain ⟨e, hie⟩ : ∃ e, old[i]? = some e := ⟨old[i], List.getElem?_eq_getElem hilt⟩
    rw [List.range_succ, List.foldlM_append, hfold]
    simp only [Option.bind_eq_bind, Option.some_bind, List.foldlM_cons, List.foldlM_nil]
    obtain ⟨ek, ev⟩ := e
    have hpi : ∀ (P : Nat → Prop), (∃ p, p < i + 1 ∧ P p) ↔ (∃ p, p < i ∧ P p) ∨ P i := by
      intro P
      constructor
      · rintro ⟨p, hp1, hp2⟩
        by_cases hpe : p = i
        · subst hpe; exact Or.inr hp2
        · exact Or.inl ⟨p, by omega, hp2⟩
      · rintro (⟨p, hp1, hp2⟩ | hp2)
        · exact ⟨p, by omega, hp2⟩
        · exact ⟨i, by omega, hp2⟩
    cases ek with
    | none =>
      refine ⟨acc, c, by simp [adjustCapacityStep, hie], hlen, hp, htomb, ?_, hcnt, ?_⟩
      · intro k v
        rw [hlive, hpi]
        simp [hie]
      · rw [countP_take_succ _ _ _ _ hie, hcnt2]
        simp
    | some k =>
      have hnot : ∀ v, ¬ Live acc k v := by
        intro v hv
        obtain ⟨p, hp1, hp2⟩ := (hlive k v).1 hv
        have := hold.uniq p i k v ev hp2 hie
        omega
      have hempty : ∃ (q : Nat) (e : Entry), acc[q]? = some e ∧ e.isEmpty = true := by
        apply exists_empty_of_countP_lt
        have := countP_take_le (fun e => e.key.isSome) old i
        omega
      obtain ⟨d, e0, hfind, hde, hcase, hnew, hprobe, hlive2⟩ :=
        findEntry_store hc hlen hp hempty k ev
      have he0 : e0.isEmpty = true := by
        have := hnew.2 hnot
        rcases hcase with h1 | h1
        · rw [h1] at this; cases this
        · exact h1
      refine ⟨acc.set d (Entry.mk (some k) ev), c + 1,
        by simp [adjustCapacityStep, hie, hfind], by simpa using hlen, hprobe, ?_, ?_, ?_, ?_⟩
      · intro q e hq
        by_cases hqd : d = q
        · subst hqd
          rw [getElem?_set_self_of_lt _ (getElem?_lt hde)] at hq
          cases hq
          simp [Entry.isTombstone]
        · rw [getElem?_set_other _ hqd] at hq
          exact htomb q e hq
      · intro k' v'
        rw [hlive2, hlive, hpi, hie]
        constructor
        · rintro (⟨rfl, rfl⟩ | ⟨_, h2⟩)
          · exact Or.inr rfl
          · exact Or.inl h2
        · rintro (⟨p, hp1, hp2⟩ | h2)
          · refine Or.inr ⟨?_, p, hp1, hp2⟩
            rintro rfl
            have := hold.uniq p i k' v' ev hp2 hie
            omega
          · cases h2
            exact Or.inl ⟨rfl, rfl⟩
      · rw [countP_set_nonEmpty hde (by simp [Entry.isEmpty]), he0, hcnt]
        simp
      · rw [countP_set_nonEmpty hde (by simp [Entry.isEmpty]), he0,
          countP_take_succ _ _ _ _ hie, hcnt2]
        simp

/-- What `adjustCapacity` does on a well-formed table when the new array has room for the
live entries: the result holds exactly the live pairs, has no tombstone, and its `count`
is the number of live entries. -/
theorem adjustCapacity_spec {h : Heap} {t : Table} (hw : WF h t) {capacity : Int} {m : Nat}
    (hc : capacity + 1 = 2 ^ m)
    (hroom : t.entries.countP (fun e => e.key.isSome) < 2 ^ m) :
    ∃ t', adjustCapacity h t capacity = some t' ∧ t'.capacity = capacity ∧
      t'.entries.length = 2 ^ m ∧ ProbeOK h t'.entries ∧
      (∀ (q : Nat) (e : Entry), t'.entries[q]? = some e → e.isTombstone = false) ∧
      (∀ k v, Live t'.entries k v ↔ Live t.entries k v) ∧
      t'.count = ((t.entries.countP (fun e => e.key.isSome) : Nat) : Int) ∧
      t'.count = ((t'.entries.countP (fun e => !e.isEmpty) : Nat) : Int) := by
  have hlen : (t.capacity + 1).toNat = t.entries.length := by
    have := hw.len
    omega
  have hcap : (capacity + 1).toNat = 2 ^ m := by
    rw [hc]
    have : ((2 : Int) ^ m) = ((2 ^ m : Nat) : Int) := by push_cast; rfl
    rw [this, Int.toNat_ofNat]
  obtain ⟨acc, c, hfold, hl, hp, htomb, hlive, hcnt, hcnt2⟩ :=
    adjustCapacity_fold hw.probe hc hroom t.entries.length (le_refl _)
  unfold adjustCapacity
  simp only [hlen, hcap, hfold]
  refine ⟨_, rfl, rfl, hl, hp, htomb, ?_, ?_, hcnt⟩
  · intro k v
    rw [hlive]
    constructor
    · rintro ⟨p, _, hp2⟩
      exact ⟨p, hp2⟩
    · rintro ⟨p, hp2⟩
      exact ⟨p, getElem?_lt hp2, hp2⟩
  · simp only
    rw [hcnt, hcnt2, List.take_length]

theorem liveCount_le_nonEmpty (es : List Entry) :
    es.countP (fun e => e.key.isSome) ≤ es.countP (fun e => !e.isEmpty) := by
  apply List.countP_mono_left
  intro e _ he
  obtain ⟨k, v⟩ := e
  cases k <;> simp_all [Entry.isEmpty]

theorem GROW_CAPACITY_pow {capacity : Int} (hcap : capacity = 0 ∨ ∃ m : Nat, capacity = 2 ^ m) :
    ∃ m' : Nat, GROW_CAPACITY capacity = 2 ^ m' ∧ 8 ≤ GROW_CAPACITY capacity ∧
      (capacity ≤ 4 ∨ GROW_CAPACITY capacity = 2 * capacity) := by
  unfold GROW_CAPACITY
  rcases hcap with h0 | ⟨m, hm⟩
  · subst h0
    exact ⟨3, by norm_num, by norm_num, Or.inl (by norm_num)⟩
  · subst hm
    match m with
    | 0 => exact ⟨3, by norm_num, by norm_num, Or.inl (by norm_num)⟩
    | 1 => exact ⟨3, by norm_num, by norm_num, Or.inl (by norm_num)⟩
    | 2 => exact ⟨3, by norm_num, by norm_num, Or.inl (by norm_num)⟩
    | k + 3 =>
      have hpos : (0 : Int) < 2 ^ k := by positivity
      have h8 : (2 : Int) ^ (k + 3) = 8 * 2 ^ k := by ring
      rw [if_neg (by rw [h8]; omega)]
      refine ⟨k + 4, by ring, by rw [h8]; omega, Or.inr (by ring)⟩

/-- What `tableSet` does on a well-formed table. -/
theorem tableSet_spec {h : Heap} {t : Table} (hw : WF h t) (key : Nat) (value : Value) :
    ∃ b t', tableSet h t key value = some (b, t') ∧ WF h t' ∧
      (b = true ↔ ∀ v, ¬ Live t.entries key v) ∧
      (∀ k' v', Live t'.entries k' v' ↔
        (k' = key ∧ v' = value) ∨ (k' ≠ key ∧ Live t.entries k' v')) ∧
      t'.capacity = (if exceedsMaxLoad t.count t.capacity then
        GROW_CAPACITY (t.capacity + 1) - 1 else t.capacity) := by
  by_cases hx : exceedsMaxLoad t.count t.capacity = true
  · have hcap : t.capacity + 1 = 0 ∨ ∃ m : Nat, t.capacity + 1 = 2 ^ m := by
      rcases hw.pow with h1 | h1
      · left; omega
      · exact Or.inr h1
    obtain ⟨m', hm', h8, hdbl⟩ := GROW_CAPACITY_pow hcap
    have hL := liveCount_le_nonEmpty t.entries
    have hce := hw.count_eq
    have hload := hw.load
    have hm'' : ((2 : Int) ^ m') = ((2 ^ m' : Nat) : Int) := by push_cast; rfl
    rw [hm''] at hm'
    have hroom : t.entries.countP (fun e => e.key.isSome) < 2 ^ m' := by
      generalize (2 ^ m' : Nat) = x at hm'
      omega
    obtain ⟨t1, hadj, hcap1, hlen1, hp1, _, hlive1, hcnt1, hcnt1'⟩ :=
      @adjustCapacity_spec h t hw (GROW_CAPACITY (t.capacity + 1) - 1) m'
        (by rw [hm'']; omega) hroom
    have hw1 : WF h t1 := by
      refine ⟨by rw [hlen1, hcap1]; omega, Or.inr ⟨m', by rw [hcap1, hm'']; omega⟩,
        hcnt1', ?_, hp1⟩
      rw [hcnt1, hcap1]
      omega
    have hroom1 : 5 * (t1.count + 1) ≤ 3 * (t1.capacity + 1) := by
      rw [hcnt1, hcap1]
      omega
    obtain ⟨b, t', hset, hw', hcap', hb, hlive'⟩ :=
      tableSet_store key value (t := t) (by rw [if_pos hx]; exact hadj) hw1 hroom1
    refine ⟨b, t', hset, hw', ?_, ?_, by rw [if_pos hx, hcap', hcap1]⟩
    · rw [hb]
      exact forall_congr' fun v => not_congr (hlive1 key v)
    · intro k' v'
      rw [hlive', hlive1]
  · have hroom : 5 * (t.count + 1) ≤ 3 * (t.capacity + 1) := by
      simpa [exceedsMaxLoad] using hx
    obtain ⟨b, t', hset, hw', hcap', hb, hlive'⟩ :=
      tableSet_store key value (t := t) (by rw [if_neg hx]) hw hroom
    exact ⟨b, t', hset, hw', hb, hlive', by rw [if_neg hx, hcap']⟩

theorem WF.initTable (h : Heap) : WF h initTable := by
  refine ⟨by simp [CLox.initTable], Or.inl rfl, by simp [CLox.initTable],
    by simp [CLox.initTable], ?_⟩
  constructor
  · intro i j k v w hi
    simp [CLox.initTable] at hi
  · intro p k v hp
    simp [CLox.initTable] at hp

theorem WF.congr_heap {h h' : Heap} {t : Table} (hw : WF h t)
    (hh : ∀ p, (h' p).hash = (h p).hash) : WF h' t := by
  refine ⟨hw.len, hw.pow, hw.count_eq, hw.load, ⟨hw.probe.uniq, ?_⟩⟩
  intro p k v hpk j hj hjp j' hj' e he
  rw [hh] at hjp he
  exact hw.probe.chain p k v hpk j hj hjp j' hj' e he

/-- The invariant of the loop of `tableRemoveWhite`, after the slots `0 .. i-1` have been
visited. -/
theorem tableRemoveWhite_fold {h : Heap} {t : Table} (hw : WF h t) :
    ∀ i, i ≤ t.entries.length → ∃ ti,
      (List.range i).foldlM (tableRemoveWhiteStep h) t = some ti ∧ WF h ti ∧
      ti.capacity = t.capacity ∧ ti.count = t.count ∧
      (∀ p : Nat, i ≤ p → ti.entries[p]? = t.entries[p]?) ∧
      (∀ k v, Live ti.entries k v ↔
        ∃ p : Nat, t.entries[p]? = some (Entry.mk (some k) v) ∧
          (p < i → (h k).obj.isMarked = true)) := by
  intro i
  induction i with
  | zero =>
    intro _
    refine ⟨t, rfl, hw, rfl, rfl, fun _ _ => rfl, fun k v => ?_⟩
    constructor
    · rintro ⟨p, hp⟩
      exact ⟨p, hp, fun hlt => absurd hlt (Nat.not_lt_zero _)⟩
    · rintro ⟨p, hp, _⟩
      exact ⟨p, hp⟩
  | succ i ih =>
    intro hi
    obtain ⟨ti, hfold, hwi, hcap, hcnt, hrest, hlive⟩ := ih (by omega)
    have hilt : i < t.entries.length := by omega
    obtain ⟨e, hie⟩ : ∃ e, t.entries[i]? = some e :=
      ⟨t.entries[i], List.getElem?_eq_getElem hilt⟩
    have hie' : ti.entries[i]? = some e := by rw [hrest i (le_refl _)]; exact hie
    rw [List.range_succ, List.foldlM_append, hfold]
    simp only [Option.bind_eq_bind, Option.some_bind, List.foldlM_cons, List.foldlM_nil]
    obtain ⟨ek, ev⟩ := e
    have hkeep : ∀ ek ev, t.entries[i]? = some (Entry.mk ek ev) →
        (∀ k, ek = some k → (h k).obj.isMarked = true) →
        ∀ k v, Live ti.entries k v ↔
          ∃ p : Nat, t.entries[p]? = some (Entry.mk (some k) v) ∧
            (p < i + 1 → (h k).obj.isMarked = true) := by
      intro ek ev hie hm k v
      rw [hlive]
      constructor
      · rintro ⟨p, hp1, hp2⟩
        refine ⟨p, hp1, fun hlt => ?_⟩
        by_cases hpi : p = i
        · subst hpi
          rw [hie] at hp1
          cases hp1
          exact hm k rfl
        · exact hp2 (by omega)
      · rintro ⟨p, hp1, hp2⟩
        exact ⟨p, hp1, fun hlt => hp2 (by omega)⟩
    cases ek with
    | none =>
      refine ⟨ti, by simp [tableRemoveWhiteStep, hie'], hwi, hcap, hcnt,
        fun p hp => hrest p (by omega), hkeep none ev hie ?_⟩
      intro k hk
      cases hk
    | some k =>
      by_cases hm : (h k).obj.isMarked = true
      · refine ⟨ti, by simp [tableRemoveWhiteStep, hie', hm], hwi, hcap, hcnt,
          fun p hp => hrest p (by omega), hkeep (some k) ev hie ?_⟩
        intro k' hk'
        cases hk'
        exact hm
      · rcases tableDelete_spec hwi k with ⟨i', v, hi', hdel⟩ | ⟨hno, _⟩
        · have hii : i' = i := hwi.probe.uniq i' i k v ev hi' hie'
          subst hii
          obtain ⟨_, _, hlive2⟩ := tombstone_set hwi.probe hi'
          refine ⟨_, by simp [tableRemoveWhiteStep, hie', hm, hdel], hwi.tombstone hi',
            hcap, hcnt, ?_, ?_⟩
          · intro p hp
            simp only
            rw [getElem?_set_other _ (by omega)]
            exact hrest p (by omega)
          · intro k' v'
            simp only
            rw [hlive2, hlive]
            constructor
            · rintro ⟨hk, p, hp1, hp2⟩
              refine ⟨p, hp1, fun hlt => ?_⟩
              by_cases hpi : p = i'
              · subst hpi
                rw [hie] at hp1
                cases hp1
                exact absurd rfl hk
              · exact hp2 (by omega)
            · rintro ⟨p, hp1, hp2⟩
              refine ⟨?_, p, hp1, fun hlt => hp2 (by omega)⟩
              rintro rfl
              have := hw.probe.uniq p i' k' v' ev hp1 hie
              exact hm (hp2 (by omega))
        · exact absurd ⟨i, hie'⟩ (hno ev)

/-- What `tableRemoveWhite` does on a well-formed table: it returns, keeps the table well
formed with the same capacity and count, and keeps exactly the live pairs whose key is
marked. -/
theorem tableRemoveWhite_spec {h : Heap} {t : Table} (hw : WF h t) :
    ∃ t', tableRemoveWhite h t = some t' ∧ WF h t' ∧ t'.capacity = t.capacity ∧
      t'.count = t.count ∧
      ∀ k v, Live t'.entries k v ↔ (Live t.entries k v ∧ (h k).obj.isMarked = true) := by
  have hlen : (t.capacity + 1).toNat = t.entries.length := by
    have := hw.len
    omega
  obtain ⟨t', hfold, hw', hcap, hcnt, _, hlive⟩ :=
    tableRemoveWhite_fold hw t.entries.length (le_refl _)
  refine ⟨t', by unfold tableRemoveWhite; rw [hlen]; exact hfold, hw', hcap, hcnt, ?_⟩
  intro k v
  rw [hlive]
  constructor
  · rintro ⟨p, hp1, hp2⟩
    exact ⟨⟨p, hp1⟩, hp2 (getElem?_lt hp1)⟩
  · rintro ⟨⟨p, hp1⟩, hm⟩
    exact ⟨p, hp1, fun _ => hm⟩

/-- Every reachable table is well formed. -/
theorem Reachable.wf {h : Heap} {t : Table} (hr : Reachable h t) : WF h t := by
  induction hr with
  | init => exact WF.initTable h
  | set key value _ hset ih =>
    obtain ⟨b, t', hs, hw', _⟩ := tableSet_spec ih key value
    rw [hs] at hset
    cases hset
    exact hw'
  | delete key _ hdel ih =>
    rcases tableDelete_spec ih key with ⟨i, v, hi, hd⟩ | ⟨_, hd⟩
    · rw [hd] at hdel
      cases hdel
      exact ih.tombstone hi
    · rw [hd] at hdel
      cases hdel
      exact ih
  | removeWhite h' hh _ hrem ih =>
    obtain ⟨t', hr', hw', _⟩ := tableRemoveWhite_spec (ih.congr_heap hh)
    rw [hr'] at hrem
    cases hrem
    exact hw'.congr_heap (fun p => (hh p).symm)

theorem exists_first_stop (stop : Entry → Bool) {es : List Entry} {m : Nat}
    (hlen : es.length = 2 ^ m) (a : Nat)
    (hex : ∃ (q : Nat) (e : Entry), es[q]? = some e ∧ stop e = true) :
    ∃ (j : Nat) (e : Entry), j < 2 ^ m ∧ es[(a + j) % 2 ^ m]? = some e ∧ stop e = true ∧
      ∀ j', j' < j → ∃ e', es[(a + j') % 2 ^ m]? = some e' ∧ stop e' = false := by
  classical
  have hn : 0 < 2 ^ m := by positivity
  obtain ⟨q, eq, hq, hqe⟩ := hex
  have hqlt : q < 2 ^ m := by
    have := getElem?_lt hq
    omega
  let P : Nat → Prop := fun j => j < 2 ^ m ∧ ∃ e, es[(a + j) % 2 ^ m]? = some e ∧ stop e = true
  have hP : ∃ j, P j := by
    obtain ⟨j, hj, hjq⟩ := exists_probe_offset a q (2 ^ m) hqlt
    exact ⟨j, hj, eq, by rw [hjq]; exact hq, hqe⟩
  obtain ⟨hj0, e, he, hs⟩ := Nat.find_spec hP
  refine ⟨Nat.find hP, e, hj0, he, hs, ?_⟩
  intro j' hj'
  have hlt : (a + j') % 2 ^ m < es.length := by rw [hlen]; exact Nat.mod_lt _ hn
  refine ⟨es[(a + j') % 2 ^ m], List.getElem?_eq_getElem hlt, ?_⟩
  have := Nat.find_min hP hj'
  by_contra hne
  exact this ⟨by omega, _, List.getElem?_eq_getElem hlt, by simpa using hne⟩

theorem tableFindStringLoop_step_stop {h : Heap} {es : List Entry} {mask : Nat}
    {chars : List Nat} {length : Int} {hash fuel idx : Nat} {e : Entry}
    (he : es[idx]? = some e) (hs : e.stopsFind h chars length hash = true) :
    tableFindStringLoop h es mask chars length hash (fuel + 1) idx = some e.key := by
  obtain ⟨k, v⟩ := e
  cases k with
  | none =>
    cases v <;> simp_all [tableFindStringLoop, Entry.stopsFind, Entry.isEmpty, IS_NIL]
  | some k =>
    simp_all [tableFindStringLoop, Entry.stopsFind, Entry.isEmpty, IS_NIL]

theorem tableFindStringLoop_step_skip {h : Heap} {es : List Entry} {mask : Nat}
    {chars : List Nat} {length : Int} {hash fuel idx : Nat} {e : Entry}
    (he : es[idx]? = some e) (hs : e.stopsFind h chars length hash = false) :
    tableFindStringLoop h es mask chars length hash (fuel + 1) idx
      = tableFindStringLoop h es mask chars length hash fuel ((idx + 1) &&& mask) := by
  obtain ⟨k, v⟩ := e
  cases k with
  | none =>
    cases v <;> simp_all [tableFindStringLoop, Entry.stopsFind, Entry.isEmpty, IS_NIL]
  | some k =>
    simp_all [tableFindStringLoop, Entry.stopsFind, Entry.isEmpty, IS_NIL]

theorem tableFindStringLoop_first {h : Heap} {es : List Entry} {m : Nat} {chars : List Nat}
    {length : Int} {hash : Nat} :
    ∀ (j fuel idx : Nat) (e : Entry), j < fuel →
      (∀ j', j' < j → ∃ e', es[(idx + j') % 2 ^ m]? = some e' ∧
        e'.stopsFind h chars length hash = false) →
      es[(idx + j) % 2 ^ m]? = some e → e.stopsFind h chars length hash = true →
      idx < 2 ^ m →
      tableFindStringLoop h es (2 ^ m - 1) chars length hash fuel idx = some e.key := by
  intro j
  induction j with
  | zero =>
    intro fuel idx e hf _ he hs hidx
    obtain ⟨f, rfl⟩ : ∃ f, fuel = f + 1 := ⟨fuel - 1, by omega⟩
    simp only [Nat.add_zero, Nat.mod_eq_of_lt hidx] at he
    exact tableFindStringLoop_step_stop he hs
  | succ j ih =>
    intro fuel idx e hf hskip he hs hidx
    obtain ⟨f, rfl⟩ : ∃ f, fuel = f + 1 := ⟨fuel - 1, by omega⟩
    obtain ⟨e0, he0, hs0⟩ := hskip 0 (by omega)
    simp only [Nat.add_zero, Nat.mod_eq_of_lt hidx] at he0
    have hmod : ∀ x, ((idx + 1) % 2 ^ m + x) % 2 ^ m = (idx + (x + 1)) % 2 ^ m := by
      intro x
      rw [Nat.add_mod, Nat.mod_mod, ← Nat.add_mod]
      congr 1
      omega
    rw [tableFindStringLoop_step_skip he0 hs0, Nat.and_pow_two_sub_one_eq_mod]
    exact ih f ((idx + 1) % 2 ^ m) e (by omega)
      (fun j' hj' => by rw [hmod]; exact hskip (j' + 1) (by omega))
      (by rw [hmod]; exact he) hs (Nat.mod_lt _ (by positivity))

/-- What `tableFindString` does on a well-formed table: it returns; the result is `NULL`
exactly when no live key matches the query; any key returned is live and matches. -/
theorem tableFindString_spec {h : Heap} {t : Table} (hw : WF h t) (chars : List Nat)
    (length : Int) (hash : Nat) :
    ∃ r, tableFindString h t chars length hash = some r ∧
      (r = none ↔ ¬ ∃ k v, Live t.entries k v ∧ StringMatches h k chars length hash) ∧
      (∀ k, r = some k → (∃ v, Live t.entries k v) ∧ StringMatches h k chars length hash) := by
  unfold tableFindString
  by_cases hc : t.count = 0
  · rw [if_pos hc]
    refine ⟨none, rfl, ⟨fun _ => ?_, fun _ => rfl⟩, fun k hk => by cases hk⟩
    rintro ⟨k, v, hl, _⟩
    exact not_live_of_count_zero hw hc k v hl
  · rw [if_neg hc]
    obtain ⟨m, hm⟩ := capacity_ne_of_count_ne hw hc
    have hne : t.capacity ≠ -1 := by
      intro h1
      have hpos : (0 : Int) < 2 ^ m := by positivity
      omega
    have hlen := hw.length_eq hm
    have hn : 0 < 2 ^ m := Nat.two_pow_pos m
    obtain ⟨q, eq, hq, hqe⟩ := hw.exists_empty hne
    obtain ⟨j, e, hj, he, hs, hfirst⟩ :=
      exists_first_stop (Entry.stopsFind h chars length hash) hlen hash
        ⟨q, eq, hq, by simp [Entry.stopsFind, hqe]⟩
    have hloop := @tableFindStringLoop_first h t.entries m chars length hash
      j (2 ^ m) (hash % 2 ^ m) e hj
      (fun j' hj' => by rw [Nat.mod_add_mod]; exact hfirst j' hj')
      (by rw [Nat.mod_add_mod]; exact he) hs (Nat.mod_lt _ hn)
    rw [asUInt32_pow t.capacity m hm, Nat.and_pow_two_sub_one_eq_mod, hlen, hloop]
    refine ⟨e.key, rfl, ?_, ?_⟩
    · constructor
      · rintro hnone ⟨k, v, ⟨p, hp⟩, hmatch⟩
        have hemp : e.isEmpty = true := by
          simpa [Entry.stopsFind, hnone] using hs
        have hplt : p < 2 ^ m := by
          have := getElem?_lt hp
          omega
        obtain ⟨jp, hjp, hjpp⟩ := exists_probe_offset hash p (2 ^ m) hplt
        have hchain := hw.probe.chain p k v hp jp (by omega)
          (by rw [hlen, hmatch.2.1]; exact hjpp)
        rw [hlen, hmatch.2.1] at hchain
        rcases Nat.lt_trichotomy j jp with hlt | heq | hgt
        · have := hchain j hlt e he
          rw [this] at hemp
          cases hemp
        · subst heq
          rw [hjpp, hp] at he
          cases he
          simp [Entry.isEmpty] at hemp
        · obtain ⟨e', he', hs'⟩ := hfirst jp hgt
          rw [hjpp, hp] at he'
          cases he'
          have h1 := hmatch.1
          have h2 := hmatch.2.1
          have h3 := hmatch.2.2
          simp [Entry.stopsFind, Entry.isEmpty, h1, h2, h3] at hs'
      · intro hno
        by_contra hsome
        obtain ⟨k, hk⟩ := Option.ne_none_iff_exists'.1 hsome
        obtain ⟨ek, ev⟩ := e
        simp only at hk
        subst hk
        apply hno
        refine ⟨k, ev, ⟨_, he⟩, ?_⟩
        simpa [Entry.stopsFind, Entry.isEmpty, StringMatches] using hs
    · intro k hk
      obtain ⟨ek, ev⟩ := e
      simp only at hk
      subst hk
      refine ⟨⟨ev, _, he⟩, ?_⟩
      simpa [Entry.stopsFind, Entry.isEmpty, StringMatches] using hs

/-- The load test with the rational 3/5 agrees with the test in double arithmetic on every
capacity that fits an `int`. -/
theorem exceedsMaxLoad_eq_double (count capacity : Int) (m : Nat) (hm : m ≤ 31)
    (hc : capacity + 1 = 0 ∨ capacity + 1 = 2 ^ m) (h0 : 0 ≤ count) (h1 : count < 2 ^ 31) :
    exceedsMaxLoad count capacity = exceedsMaxLoadDouble count capacity := by
  unfold exceedsMaxLoad exceedsMaxLoadDouble
  rcases hc with hc | hc
  · rw [hc]
    simp only [decide_eq_decide]
    omega
  · rw [hc]
    simp only [decide_eq_decide]
    interval_cases m <;> omega

theorem demoTable_reachable : Reachable demoHeap demoTable :=
  Reachable.delete (b := true) 9
    (Reachable.set (b := true) 2 (Value.number 40)
      (Reachable.set (b := true) 17 (Value.number 30)
        (Reachable.set (b := true) 9 (Value.number 20)
          (Reachable.set (b := true) 1 (Value.number 10) Reachable.init rfl) rfl) rfl) rfl) rfl

theorem option_eq_of_some_iff {α : Type} {r r' : Option α}
    (hrr : ∀ v, r' = some v ↔ r = some v) : r' = r := by
  cases r with
  | none =>
    cases r' with
    | none => rfl
    | some a => exact absurd ((hrr a).1 rfl) (by simp)
  | some a => exact (hrr a).2 rfl

/-- C1: `tableSet` implements map update. For every table built from `initTable` by calls of
`tableSet`, `tableDelete` (and `tableRemoveWhite`), every key `k` and value `v`, the call
`tableSet(t, k, v)` returns, afterwards `tableGet(t, k)` returns true with value `v`, and for
every other key `tableGet` returns exactly what it returned before the call, whether or not
the call grew and re-probed the entry array. -/
theorem tableSet_is_map_update (h : Heap) (t : Table) (hr : Reachable h t) (k : Nat)
    (v : Value) :
    ∃ b t', tableSet h t k v = some (b, t') ∧ tableGet h t' k = some (some v) ∧
      ∀ k', k' ≠ k → tableGet h t' k' = tableGet h t k' := by
  obtain ⟨b, t', hset, hw', _, hlive, _⟩ := tableSet_spec hr.wf k v
  refine ⟨b, t', hset, ?_, ?_⟩
  · obtain ⟨r, hget, hr1⟩ := tableGet_spec hw' k
    rw [hget, (hr1 v).2 ((hlive k v).2 (Or.inl ⟨rfl, rfl⟩))]
  · intro k' hk'
    obtain ⟨r', hget', hr1'⟩ := tableGet_spec hw' k'
    obtain ⟨r, hget, hr1⟩ := tableGet_spec hr.wf k'
    rw [hget', hget]
    congr 1
    apply option_eq_of_some_iff
    intro v'
    rw [hr1', hr1, hlive]
    constructor
    · rintro (⟨h1, _⟩ | ⟨_, h2⟩)
      · exact absurd h1 hk'
      · exact h2
    · intro h2
      exact Or.inr ⟨hk', h2⟩

/-- Witness of C1: a colliding key is stored in the table `demoTable`, whose probe chain
holds a tombstone; the call grows the table. -/
theorem tableSet_is_map_update_witness :
    Reachable demoHeap demoTable ∧
    ∃ b t', tableSet demoHeap demoTable 25 (Value.number 50) = some (b, t') ∧
      tableGet demoHeap t' 25 = some (some (Value.number 50)) ∧
      ∀ k', k' ≠ 25 → tableGet demoHeap t' k' = tableGet demoHeap demoTable k' :=
  ⟨demoTable_reachable,
    tableSet_is_map_update demoHeap demoTable demoTable_reachable 25 (Value.number 50)⟩

/-- C2: `tableDelete` implements map erase with tombstones. For every table built from
`initTable` and every key `k`, `tableDelete(t, k)` returns, and it returns true iff
`tableGet(t, k)` succeeded before the call; afterwards `tableGet(t, k)` returns false, and
`tableGet` of every other key returns what it returned before, so every other key that was
retrievable is still retrievable with the same value. -/
theorem tableDelete_is_map_erase (h : Heap) (t : Table) (hr : Reachable h t) (k : Nat) :
    ∃ b t', tableDelete h t k = some (b, t') ∧
      (b = true ↔ ∃ v, tableGet h t k = some (some v)) ∧
      tableGet h t' k = some none ∧
      ∀ k', k' ≠ k → tableGet h t' k' = tableGet h t k' := by
  have hw := hr.wf
  obtain ⟨r, hget, hr1⟩ := tableGet_spec hw k
  rcases tableDelete_spec hw k with ⟨i, v, hi, hdel⟩ | ⟨hno, hdel⟩
  · have hw' := hw.tombstone hi
    obtain ⟨_, _, hlive⟩ := tombstone_set hw.probe hi
    refine ⟨true, _, hdel, ?_, ?_, ?_⟩
    · simp only [true_iff]
      exact ⟨v, by rw [hget, (hr1 v).2 ⟨i, hi⟩]⟩
    · obtain ⟨r', hget', hr1'⟩ := tableGet_spec hw' k
      rw [hget']
      congr 1
      cases r' with
      | none => rfl
      | some v' =>
        have := (hr1' v').1 rfl
        exact absurd rfl ((hlive k v').1 this).1
    · intro k' hk'
      obtain ⟨r', hget', hr1'⟩ := tableGet_spec hw' k'
      obtain ⟨r0, hget0, hr0⟩ := tableGet_spec hw k'
      rw [hget', hget0]
      congr 1
      apply option_eq_of_some_iff
      intro v'
      rw [hr1', hr0]
      rw [hlive]
      exact ⟨fun hx => hx.2, fun hx => ⟨hk', hx⟩⟩
  · have hrn : r = none := by
      cases r with
      | none => rfl
      | some v => exact absurd ((hr1 v).1 rfl) (hno v)
    refine ⟨false, t, hdel, ?_, by rw [hget, hrn], fun _ _ => rfl⟩
    rw [hget, hrn]
    simp

/-- Witness of C2: key 1 is deleted from `demoTable`, in whose probe chain the key 17
follows it. -/
theorem tableDelete_is_map_erase_witness :
    Reachable demoHeap demoTable ∧
    ∃ b t', tableDelete demoHeap demoTable 1 = some (b, t') ∧
      (b = true ↔ ∃ v, tableGet demoHeap demoTable 1 = some (some v)) ∧
      tableGet demoHeap t' 1 = some none ∧
      ∀ k', k' ≠ 1 → tableGet demoHeap t' k' = tableGet demoHeap demoTable k' :=
  ⟨demoTable_reachable, tableDelete_is_map_erase demoHeap demoTable demoTable_reachable 1⟩

/-- C3: `tableSet` returns true if and only if the key is new. For every well-formed table
and key `k`, `tableSet(t, k, v)` returns true exactly when `tableGet(t, k)` would have
returned false immediately before the call, and returns false exactly when it overwrites a
live entry. -/
theorem tableSet_returns_isNewKey (h : Heap) (t : Table) (hw : WF h t) (k : Nat) (v : Value) :
    ∃ b t', tableSet h t k v = some (b, t') ∧
      (b = true ↔ tableGet h t k = some none) ∧
      (b = false ↔ ∃ v0, tableGet h t k = some (some v0)) := by
  obtain ⟨b, t', hset, _, hb, _, _⟩ := tableSet_spec hw k v
  obtain ⟨r, hget, hr1⟩ := tableGet_spec hw k
  have hnone : r = none ↔ ∀ v0, ¬ Live t.entries k v0 := by
    constructor
    · rintro rfl v0 hl
      exact absurd ((hr1 v0).2 hl) (by simp)
    · intro hno
      cases r with
      | none => rfl
      | some v0 => exact absurd ((hr1 v0).1 rfl) (hno v0)
  refine ⟨b, t', hset, ?_, ?_⟩
  · rw [hb, hget, ← hnone]
    simp
  · rw [hget]
    cases b with
    | true =>
      have := hnone.2 (hb.1 rfl)
      subst this
      simp
    | false =>
      simp only [true_iff]
      cases r with
      | none => exact absurd (hb.2 (hnone.1 rfl)) (by simp)
      | some v0 => exact ⟨v0, rfl⟩

/-- Witness of C3: key 9 was inserted into `demoTable` and then deleted. -/
theorem tableSet_returns_isNewKey_witness :
    WF demoHeap demoTable ∧
    ∃ b t', tableSet demoHeap demoTable 9 Value.nil = some (b, t') ∧
      (b = true ↔ tableGet demoHeap demoTable 9 = some none) ∧
      (b = false ↔ ∃ v0, tableGet demoHeap demoTable 9 = some (some v0)) :=
  ⟨demoTable_reachable.wf,
    tableSet_returns_isNewKey demoHeap demoTable demoTable_reachable.wf 9 Value.nil⟩

theorem countP_nonEmpty_eq (es : List Entry) :
    es.countP (fun e => !e.isEmpty)
      = es.countP (fun e => e.key.isSome) + es.countP (fun e => e.isTombstone) := by
  induction es with
  | nil => rfl
  | cons e es ih =>
    obtain ⟨k, v⟩ := e
    simp only [List.countP_cons, ih]
    cases k <;> cases hv : IS_NIL v <;> simp [Entry.isEmpty, Entry.isTombstone, hv] <;> omega

theorem countP_tombstone_zero {es : List Entry}
    (hno : ∀ (q : Nat) (e : Entry), es[q]? = some e → e.isTombstone = false) :
    es.countP (fun e => e.isTombstone) = 0 := by
  apply List.countP_eq_zero.2
  intro e he
  obtain ⟨q, hq⟩ := List.mem_iff_getElem?.1 he
  simp [hno q e hq]

/-- C4: `tableFindString` finds the canonical interned string. For every well-formed table and
every query `(chars, length, hash)`, `tableFindString` returns; it returns `NULL` iff the
table holds no live key whose length, hash and bytes all equal the query; and otherwise it
returns a live key of the table whose length, hash and bytes equal the query. A deleted key
occupies no live slot, so it is never returned, and a tombstone does not end the search. -/
theorem tableFindString_finds_interned (h : Heap) (t : Table) (hw : WF h t)
    (chars : List Nat) (length : Int) (hash : Nat) :
    ∃ r, tableFindString h t chars length hash = some r ∧
      (r = none ↔ ¬ ∃ k v, Live t.entries k v ∧ StringMatches h k chars length hash) ∧
      (∀ k, r = some k → (∃ v, Live t.entries k v) ∧ StringMatches h k chars length hash) :=
  tableFindString_spec hw chars length hash

/-- Witness of C4: the string 17 is looked up in `demoTable`, behind the tombstone of the
deleted string 9. -/
theorem tableFindString_finds_interned_witness :
    WF demoHeap demoTable ∧
    ∃ r, tableFindString demoHeap demoTable [17] 1 1 = some r ∧
      (r = none ↔ ¬ ∃ k v, Live demoTable.entries k v ∧ StringMatches demoHeap k [17] 1 1) ∧
      (∀ k, r = some k →
        (∃ v, Live demoTable.entries k v) ∧ StringMatches demoHeap k [17] 1 1) :=
  ⟨demoTable_reachable.wf,
    tableFindString_finds_interned demoHeap demoTable demoTable_reachable.wf [17] 1 1⟩

/-- C5: the structural invariant of the table. For every table reachable from `initTable` by
calls of `tableSet`, `tableDelete` and `tableRemoveWhite`: the capacity is -1 (with the
`NULL` entry array and count 0) or capacity + 1 is a power of two; the array has
capacity + 1 slots; `count` is the number of non-empty slots, that is live entries plus
tombstones; `count <= 0.6 * (capacity + 1)`; and so every allocated entry array has at
least one empty slot. -/
theorem reachable_table_invariant (h : Heap) (t : Table) (hr : Reachable h t) :
    ((t.capacity = -1 ∧ t.entries = [] ∧ t.count = 0) ∨ ∃ m : Nat, t.capacity + 1 = 2 ^ m) ∧
    (t.entries.length : Int) = t.capacity + 1 ∧
    t.count = ((t.entries.countP (fun e => !e.isEmpty) : Nat) : Int) ∧
    t.count = ((t.entries.countP (fun e => e.key.isSome)
      + t.entries.countP (fun e => e.isTombstone) : Nat) : Int) ∧
    5 * t.count ≤ 3 * (t.capacity + 1) ∧
    (t.capacity = -1 ∨ ∃ (q : Nat) (e : Entry), t.entries[q]? = some e ∧ e.isEmpty = true) := by
  have hw := hr.wf
  refine ⟨?_, hw.len, hw.count_eq, by rw [← countP_nonEmpty_eq]; exact hw.count_eq,
    hw.load, ?_⟩
  · rcases hw.pow with h1 | h1
    · left
      have h2 := hw.len
      have h3 := hw.count_eq
      have h4 : t.entries = [] := List.length_eq_zero.1 (by omega)
      refine ⟨h1, h4, ?_⟩
      rw [h3, h4]
      rfl
    · exact Or.inr h1
  · by_cases hc : t.capacity = -1
    · exact Or.inl hc
    · exact Or.inr (hw.exists_empty hc)

/-- Witness of C5: the invariant of `demoTable`. -/
theorem reachable_table_invariant_witness :
    Reachable demoHeap demoTable ∧
    5 * demoTable.count ≤ 3 * (demoTable.capacity + 1) :=
  ⟨demoTable_reachable,
    (reachable_table_invariant demoHeap demoTable demoTable_reachable).2.2.2.2.1⟩

/-- C6: growth drops tombstones and recounts. On every well-formed table `tableSet` returns
and grows the table exactly when `count + 1 > 0.6 * (capacity + 1)`: the capacity becomes
`GROW_CAPACITY(capacity + 1) - 1`, which is larger, when the test holds and is unchanged
otherwise. The call `adjustCapacity(table, GROW_CAPACITY(capacity + 1) - 1)` made for the
growth returns a table with that capacity whose entry array contains no tombstone, contains
every live (key, value) pair of the old array and no other pair, and whose `count` equals
the number of live entries. -/
theorem growth_drops_tombstones (h : Heap) (t : Table) (hw : WF h t) (k : Nat) (v : Value) :
    (∃ b t', tableSet h t k v = some (b, t') ∧
      (t.capacity < t'.capacity ↔ 5 * (t.count + 1) > 3 * (t.capacity + 1)) ∧
      t'.capacity = (if 5 * (t.count + 1) > 3 * (t.capacity + 1)
        then GROW_CAPACITY (t.capacity + 1) - 1 else t.capacity)) ∧
    (∃ t1, adjustCapacity h t (GROW_CAPACITY (t.capacity + 1) - 1) = some t1 ∧
      t1.capacity = GROW_CAPACITY (t.capacity + 1) - 1 ∧
      (t1.entries.length : Int) = t1.capacity + 1 ∧
      (∀ (q : Nat) (e : Entry), t1.entries[q]? = some e → e.isTombstone = false) ∧
      (∀ k' v', Live t1.entries k' v' ↔ Live t.entries k' v') ∧
      t1.count = ((t1.entries.countP (fun e => e.key.isSome) : Nat) : Int) ∧
      t1.count = ((t.entries.countP (fun e => e.key.isSome) : Nat) : Int)) := by
  have hcap : t.capacity + 1 = 0 ∨ ∃ m : Nat, t.capacity + 1 = 2 ^ m := by
    rcases hw.pow with h1 | h1
    · left; omega
    · exact Or.inr h1
  obtain ⟨m', hm', h8, hdbl⟩ := GROW_CAPACITY_pow hcap
  have hlen := hw.len
  constructor
  · obtain ⟨b, t', hset, _, _, _, hc'⟩ := tableSet_spec hw k v
    refine ⟨b, t', hset, ?_, ?_⟩
    · rw [hc']
      by_cases hx : 5 * (t.count + 1) > 3 * (t.capacity + 1)
      · simp only [exceedsMaxLoad, hx, decide_True, if_true, iff_true]
        omega
      · simp only [exceedsMaxLoad, hx, decide_False, iff_false]
        simp
    · rw [hc']
      simp [exceedsMaxLoad]
  · have hL := liveCount_le_nonEmpty t.entries
    have hce := hw.count_eq
    have hload := hw.load
    have hm'' : ((2 : Int) ^ m') = ((2 ^ m' : Nat) : Int) := by push_cast; rfl
    rw [hm''] at hm'
    have hroom : t.entries.countP (fun e => e.key.isSome) < 2 ^ m' := by
      generalize (2 ^ m' : Nat) = x at hm'
      omega
    obtain ⟨t1, hadj, hcap1, hlen1, _, htomb, hlive1, hcnt1, hcnt1'⟩ :=
      @adjustCapacity_spec h t hw (GROW_CAPACITY (t.capacity + 1) - 1) m'
        (by rw [hm'']; omega) hroom
    refine ⟨t1, hadj, hcap1, by rw [hlen1, hcap1]; omega, htomb, hlive1, ?_, hcnt1⟩
    rw [hcnt1', countP_nonEmpty_eq, countP_tombstone_zero htomb]
    rfl

/-- Witness of C6: `demoTable` holds four non-empty slots out of eight, so the next
`tableSet` grows it and drops the tombstone. -/
theorem growth_drops_tombstones_witness :
    WF demoHeap demoTable ∧
    ∃ t1, adjustCapacity demoHeap demoTable (GROW_CAPACITY (demoTable.capacity + 1) - 1)
        = some t1 ∧
      t1.count = ((demoTable.entries.countP (fun e => e.key.isSome) : Nat) : Int) :=
  ⟨demoTable_reachable.wf,
    let ⟨t1, h1, _, _, _, _, _, h7⟩ :=
      (growth_drops_tombstones demoHeap demoTable demoTable_reachable.wf 25 Value.nil).2
    ⟨t1, h1, h7⟩⟩

/-- C7: `tableRemoveWhite` removes exactly the unmarked strings. For every well-formed table,
`tableRemoveWhite(t)` returns; afterwards no live key is unmarked, so an unmarked key is
retrievable neither by `tableGet` nor by `tableFindString`; and every marked key that was
live before is still live with the same value. -/
theorem tableRemoveWhite_removes_unmarked (h : Heap) (t : Table) (hw : WF h t) :
    ∃ t', tableRemoveWhite h t = some t' ∧
      (∀ k v, Live t'.entries k v → (h k).obj.isMarked = true) ∧
      (∀ k, (h k).obj.isMarked = false →
        tableGet h t' k = some none ∧
        ∀ chars length hash, tableFindString h t' chars length hash ≠ some (some k)) ∧
      (∀ k v, (h k).obj.isMarked = true → Live t.entries k v →
        Live t'.entries k v ∧ tableGet h t' k = some (some v)) := by
  obtain ⟨t', hrem, hw', _, _, hlive⟩ := tableRemoveWhite_spec hw
  refine ⟨t', hrem, fun k v hl => ((hlive k v).1 hl).2, ?_, ?_⟩
  · intro k hk
    have hno : ∀ v, ¬ Live t'.entries k v := by
      intro v hl
      rw [((hlive k v).1 hl).2] at hk
      cases hk
    constructor
    · obtain ⟨r, hget, hr1⟩ := tableGet_spec hw' k
      rw [hget]
      cases r with
      | none => rfl
      | some v => exact absurd ((hr1 v).1 rfl) (hno v)
    · intro chars length hash hfs
      obtain ⟨r, hfind, _, hsome⟩ := tableFindString_spec hw' chars length hash
      rw [hfind] at hfs
      cases hfs
      obtain ⟨⟨v, hl⟩, _⟩ := hsome k rfl
      exact hno v hl
  · intro k v hm hl
    have hl' := (hlive k v).2 ⟨hl, hm⟩
    refine ⟨hl', ?_⟩
    obtain ⟨r, hget, hr1⟩ := tableGet_spec hw' k
    rw [hget, (hr1 v).2 hl']

/-- Witness of C7: in `demoTable` the keys 1 and 17 are unmarked and the key 2 is marked. -/
theorem tableRemoveWhite_removes_unmarked_witness :
    WF demoHeap demoTable ∧
    ∃ t', tableRemoveWhite demoHeap demoTable = some t' ∧
      (∀ k v, Live t'.entries k v → (demoHeap k).obj.isMarked = true) ∧
      (∀ k, (demoHeap k).obj.isMarked = false →
        tableGet demoHeap t' k = some none ∧
        ∀ chars length hash, tableFindString demoHeap t' chars length hash ≠ some (some k)) ∧
      (∀ k v, (demoHeap k).obj.isMarked = true → Live demoTable.entries k v →
        Live t'.entries k v ∧ tableGet demoHeap t' k = some (some v)) :=
  ⟨demoTable_reachable.wf,
    tableRemoveWhite_removes_unmarked demoHeap demoTable demoTable_reachable.wf⟩

/-! ## Theorems about the compiler -/

set_option maxRecDepth 100000 in
/-- C9 (the code at the failing input): compiled from the start state, `var x = 1;` alone
becomes `OP_CONSTANT 1, OP_DEFINE_GLOBAL 0` and leaves the script frame with slot 0 only, but
after `class A {}` the same declaration becomes `OP_CONSTANT 2` with no `OP_DEFINE_GLOBAL`,
and the script frame ends at scope depth 1 with the locals `super` and `x`:
`classDeclaration` opens a scope and adds `super` whether or not there is a superclass, and
ends the scope only if there is one. -/
theorem toplevel_var_after_class_is_local :
    codeAndLocals (compile demoExtern 40 varOnly startState)
      = some (some ([OP_CONSTANT, 1, OP_DEFINE_GLOBAL, 0, OP_NIL, OP_RETURN], ["this"], 0)) ∧
    codeAndLocals (compile demoExtern 40 classThenVar startState)
      = some (some ([OP_CLASS, 0, OP_DEFINE_GLOBAL, 0, OP_GET_GLOBAL, 1, OP_POP,
          OP_CONSTANT, 2, OP_NIL, OP_RETURN], ["this", "super", "x"], 1)) := by
  constructor <;> decide

/-- C10 (the code at the failing input): when the name is a local of the immediately
enclosing frame (`captureDemo`, slot 1), `resolveUpvalue` adds the upvalue
`(index = 1, isLocal = true)` to the current frame and leaves `isCaptured` of that local
false; when the name is found one frame further out (`captureDemo2`), the upvalues
`(0, false)` and `(1, true)` are added, the store to `isCaptured` goes to `locals[-1]` of the
enclosing frame, and the local that owns the variable is again left unmarked. -/
theorem resolveUpvalue_leaves_local_unmarked :
    (resolveLocal 1 "a" captureDemo).1 = 1 ∧
    (resolveUpvalue 0 "a" captureDemo).1 = 0 ∧
    capturesOf (resolveUpvalue 0 "a" captureDemo).2
      = [([{ index := 1, isLocal := true }], [false]), ([], [false, false])] ∧
    (resolveUpvalue 0 "a" captureDemo).2.faults = [] ∧
    (resolveUpvalue 0 "a" captureDemo2).1 = 0 ∧
    capturesOf (resolveUpvalue 0 "a" captureDemo2).2
      = [([{ index := 0, isLocal := false }], [false]),
         ([{ index := 1, isLocal := true }], [false]), ([], [false, false])] ∧
    (resolveUpvalue 0 "a" captureDemo2).2.faults = [Fault.localsIndex (-1)] := by
  decide



theorem Rel.refl (s : State) : Rel s s :=
  ⟨rfl, le_refl _, id, Or.inl, fun h => absurd h (lt_irrefl _), le_refl _⟩

theorem Rel.trans {s t u : State} (h1 : Rel s t) (h2 : Rel t u) : Rel s u := by
  refine ⟨h2.ids.trans h1.ids, h1.errLe.trans h2.errLe, fun h => h2.errMono (h1.errMono h),
    ?_, ?_, h2.remLe.trans h1.remLe⟩
  · intro h
    rcases h2.errNew h with h3 | h3
    · rcases h1.errNew h3 with h4 | h4
      · exact Or.inl h4
      · exact Or.inr (lt_of_lt_of_le h4 h2.errLe)
    · exact Or.inr (lt_of_le_of_lt h1.errLe h3)
  · intro h
    by_cases h3 : t.stderr.length < u.stderr.length
    · exact h2.errSet h3
    · have h4 := h2.errLe
      exact h2.errMono (h1.errSet (by omega))

/-- A step that touches neither the parser, the scanner nor `stderr` and keeps the
identity of the frames. -/
theorem Rel.of_frames {t u : State} (hp : u.parser = t.parser) (hs : u.source = t.source)
    (he : u.stderr = t.stderr) (hi : frameIds u = frameIds t) : Rel t u := by
  refine ⟨hi, by rw [he], by rw [hp]; exact id, by rw [hp]; exact Or.inl, ?_, ?_⟩
  · rw [he]; exact fun h => absurd h (lt_irrefl _)
  · simp [remaining, hp, hs]

theorem rel_errorAt {s t : State} (token : Token) (message : String) (h : Rel s t) :
    Rel s (errorAt token message t) := by
  apply h.trans
  unfold errorAt
  split
  · exact Rel.refl t
  · refine ⟨rfl, by simp, by simp, by simp, by simp, by simp [remaining]⟩

theorem rel_error {s t : State} (message : String) (h : Rel s t) :
    Rel s (error message t) := rel_errorAt _ _ h

theorem rel_errorAtCurrent {s t : State} (message : String) (h : Rel s t) :
    Rel s (errorAtCurrent message t) := rel_errorAt _ _ h

theorem errorAt_current (token : Token) (message : String) (t : State) :
    (errorAt token message t).parser.current = t.parser.current := by
  unfold errorAt; split <;> rfl

theorem errorAt_source (token : Token) (message : String) (t : State) :
    (errorAt token message t).source = t.source := by
  unfold errorAt; split <;> rfl

theorem errorAt_previous (token : Token) (message : String) (t : State) :
    (errorAt token message t).parser.previous = t.parser.previous := by
  unfold errorAt; split <;> rfl

/-- One call of `scanToken`: the token delivered is counted among those remaining. -/
theorem tokensBeforeEOF_scanToken (source : List Token) :
    (if (scanToken source).1.type = TOKEN_EOF then 0 else 1)
      + tokensBeforeEOF (scanToken source).2 = tokensBeforeEOF source := by
  cases source with
  | nil => simp [scanToken, tokensBeforeEOF]
  | cons t rest =>
    by_cases ht : t.type = TOKEN_EOF
    · simp [scanToken, tokensBeforeEOF, ht]
    · simp [scanToken, tokensBeforeEOF, ht]
      omega

theorem scanToken_length (source : List Token) :
    (scanToken source).2.length ≤ source.length := by
  cases source with
  | nil => simp [scanToken]
  | cons t rest =>
    by_cases ht : t.type = TOKEN_EOF <;> simp [scanToken, ht]

theorem scanToken_length_lt (source : List Token)
    (h : (scanToken source).1.type ≠ TOKEN_EOF) :
    (scanToken source).2.length < source.length := by
  cases source with
  | nil => simp [scanToken] at h
  | cons t rest =>
    by_cases ht : t.type = TOKEN_EOF
    · simp [scanToken, ht] at h
    · simp [scanToken, ht]

/-- The loop of `advance`: the frames, the previous token and `stderr` up to new reports are
kept, and the tokens remaining afterwards are among those the scanner still had. -/
theorem advanceLoop_spec (fuel : Nat) (t : State) :
    frameIds (advanceLoop fuel t) = frameIds t ∧
    (advanceLoop fuel t).parser.previous = t.parser.previous ∧
    t.stderr.length ≤ (advanceLoop fuel t).stderr.length ∧
    (t.parser.hadError = true → (advanceLoop fuel t).parser.hadError = true) ∧
    ((advanceLoop fuel t).parser.hadError = true →
      t.parser.hadError = true ∨ t.stderr.length < (advanceLoop fuel t).stderr.length) ∧
    (t.stderr.length < (advanceLoop fuel t).stderr.length →
      (advanceLoop fuel t).parser.hadError = true) ∧
    (0 < fuel → remaining (advanceLoop fuel t) ≤ tokensBeforeEOF t.source) := by
  induction fuel generalizing t with
  | zero => exact ⟨rfl, rfl, le_refl _, id, Or.inl, fun h => absurd h (lt_irrefl _),
      fun h => absurd h (lt_irrefl _)⟩
  | succ fuel ih =>
    unfold advanceLoop
    simp only
    have hscan := tokensBeforeEOF_scanToken t.source
    generalize hs1 : ({ t with parser := { t.parser with current := (scanToken t.source).1 }, source := (scanToken t.source).2 } : State) = s1
    have e1 : s1.stderr = t.stderr := by rw [← hs1]
    have e2 : s1.parser.hadError = t.parser.hadError := by rw [← hs1]
    have e3 : s1.parser.previous = t.parser.previous := by rw [← hs1]
    have e4 : frameIds s1 = frameIds t := by rw [← hs1]; rfl
    have e5 : s1.source = (scanToken t.source).2 := by rw [← hs1]
    have e6 : s1.parser.current = (scanToken t.source).1 := by rw [← hs1]
    by_cases hty : (scanToken t.source).1.type = TOKEN_ERROR
    · rw [if_neg (by simpa using hty)]
      obtain ⟨h1, h2, h3, h4, h5, h6, h7⟩ := ih (errorAtCurrent (scanToken t.source).1.lexeme s1)
      have hr := rel_errorAtCurrent (scanToken t.source).1.lexeme (Rel.refl s1)
      have hr1 := hr.errLe
      have hr2 := hr.errMono
      have hr3 := hr.errNew
      have hr4 := hr.errSet
      rw [e1] at hr1 hr3 hr4
      rw [e2] at hr2 hr3
      refine ⟨h1.trans (hr.ids.trans e4), ?_, le_trans hr1 h3, fun h => h4 (hr2 h), ?_, ?_, ?_⟩
      · rw [h2]
        exact (errorAt_previous _ _ _).trans e3
      · intro h
        rcases h5 h with h8 | h8
        · rcases hr3 h8 with h9 | h9
          · exact Or.inl h9
          · exact Or.inr (lt_of_lt_of_le h9 h3)
        · exact Or.inr (lt_of_le_of_lt hr1 h8)
      · intro h
        by_cases h8 : (errorAtCurrent (scanToken t.source).1.lexeme s1).stderr.length
              < (advanceLoop fuel (errorAtCurrent (scanToken t.source).1.lexeme s1)).stderr.length
        · exact h6 h8
        · exact h4 (hr4 (by omega))
      · intro _
        rw [hty] at hscan
        simp only [reduceCtorEq, if_false] at hscan
        have hsrc : (errorAtCurrent (scanToken t.source).1.lexeme s1).source
            = (scanToken t.source).2 := (errorAt_source _ _ _).trans e5
        have hcur : (errorAtCurrent (scanToken t.source).1.lexeme s1).parser.current
            = (scanToken t.source).1 := (errorAt_current _ _ _).trans e6
        cases fuel with
        | zero =>
          simp only [advanceLoop, remaining, hsrc, hcur, hty, reduceCtorEq, if_false]
          omega
        | succ fuel =>
          have := h7 (Nat.succ_pos _)
          rw [hsrc] at this
          omega
    · rw [if_pos (by simpa using hty)]
      refine ⟨e4, e3, by rw [e1], by rw [e2]; exact id, by rw [e1, e2]; exact Or.inl,
        by rw [e1]; exact fun h => absurd h (lt_irrefl _), fun _ => ?_⟩
      simp only [remaining, e5, e6]
      omega

theorem advance_spec (t : State) :
    Rel t (advance t) ∧ (advance t).parser.previous = t.parser.current ∧
    remaining (advance t) ≤ tokensBeforeEOF t.source := by
  unfold advance
  generalize hs1 : ({ t with parser := { t.parser with previous := t.parser.current } } : State) = s1
  have e1 : s1.stderr = t.stderr := by rw [← hs1]
  have e2 : s1.parser.hadError = t.parser.hadError := by rw [← hs1]
  have e3 : s1.parser.previous = t.parser.current := by rw [← hs1]
  have e4 : frameIds s1 = frameIds t := by rw [← hs1]; rfl
  have e5 : s1.source = t.source := by rw [← hs1]
  obtain ⟨h1, h2, h3, h4, h5, h6, h7⟩ := advanceLoop_spec (t.source.length + 1) s1
  have h8 := h7 (Nat.succ_pos _)
  rw [e5] at h8
  rw [e1] at h3 h5 h6
  rw [e2] at h4 h5
  refine ⟨⟨h1.trans e4, h3, h4, h5, h6, ?_⟩, h2.trans e3, h8⟩
  simp only [remaining] at h8 ⊢
  omega

theorem rel_advance {s t : State} (h : Rel s t) : Rel s (advance t) :=
  h.trans (advance_spec t).1

/-- `advance` consumes the current token unless it is `TOKEN_EOF`. -/
theorem remaining_advance_lt (t : State) (h : t.parser.current.type ≠ TOKEN_EOF) :
    remaining (advance t) < remaining t := by
  have h8 := (advance_spec t).2.2
  simp only [remaining, if_neg h] at h8 ⊢
  omega

theorem advance_previous (t : State) : (advance t).parser.previous = t.parser.current :=
  (advance_spec t).2.1



theorem rel_faults {s t : State} (faults : List Fault) (h : Rel s t) :
    Rel s { t with faults := faults } :=
  h.trans (Rel.of_frames rfl rfl rfl rfl)

theorem rel_classes {s t : State} (classes : List ClassCompiler) (h : Rel s t) :
    Rel s { t with classes := classes } :=
  h.trans (Rel.of_frames rfl rfl rfl rfl)

theorem rel_recordFault {s t : State} (f : Fault) (h : Rel s t) :
    Rel s (recordFault f t) :=
  rel_faults _ h

theorem rel_setClasses {s t : State} (classes : List ClassCompiler) (h : Rel s t) :
    Rel s (setClasses classes t) :=
  rel_classes _ h

theorem rel_modifyCurrent {s t : State} (f : Compiler → Compiler)
    (hf : ∀ c, (f c).functionPtr = c.functionPtr ∧ (f c).type = c.type) (h : Rel s t) :
    Rel s (modifyCurrent f t) := by
  apply h.trans
  unfold modifyCurrent
  split
  · exact Rel.of_frames rfl rfl rfl rfl
  · next c rest hfr =>
    refine Rel.of_frames rfl rfl rfl ?_
    simp [frameIds, hfr, hf c]

theorem rel_setFrame {s t : State} (ci : Nat) (c c' : Compiler)
    (hc : t.frames[ci]? = some c)
    (hid : c'.functionPtr = c.functionPtr ∧ c'.type = c.type) (h : Rel s t) :
    Rel s { t with frames := t.frames.set ci c' } := by
  apply h.trans
  refine Rel.of_frames rfl rfl rfl ?_
  simp only [frameIds, List.map_set]
  have hlt := (List.getElem?_eq_some.1 hc).1
  have hget := (List.getElem?_eq_some.1 hc).2
  apply List.ext_getElem?
  intro i
  by_cases hi : ci = i
  · subst hi
    simp [List.getElem?_set, hlt, hc, hid, hget]
  · simp [List.getElem?_set, hi]

theorem rel_modifyFrame {s t : State} (ci : Nat) (f : Compiler → Compiler)
    (hf : ∀ c, (f c).functionPtr = c.functionPtr ∧ (f c).type = c.type) (h : Rel s t) :
    Rel s (modifyFrame ci f t) := by
  unfold modifyFrame
  split
  · exact rel_faults _ h
  · next c hfr => exact rel_setFrame ci c (f c) hfr (hf c) h

theorem rel_modifyChunk {s t : State} (f : Chunk → Chunk) (h : Rel s t) :
    Rel s (modifyChunk f t) :=
  rel_modifyCurrent _ (fun _ => ⟨rfl, rfl⟩) h

theorem rel_emitByte {s t : State} (byte : Nat) (h : Rel s t) : Rel s (emitByte byte t) :=
  rel_modifyChunk _ h

theorem rel_emitBytes {s t : State} (byte1 byte2 : Nat) (h : Rel s t) :
    Rel s (emitBytes byte1 byte2 t) :=
  rel_emitByte _ (rel_emitByte _ h)

theorem rel_ite {s a b : State} (c : Prop) [Decidable c] (ha : Rel s a) (hb : Rel s b) :
    Rel s (if c then a else b) := by
  split
  · exact ha
  · exact hb

theorem rel_emitLoop {s t : State} (loopStart : Int) (h : Rel s t) :
    Rel s (emitLoop loopStart t) := by
  unfold emitLoop
  exact rel_emitByte _ (rel_emitByte _ (rel_ite _ (rel_error _ (rel_emitByte _ h))
    (rel_emitByte _ h)))

theorem rel_emitReturn {s t : State} (h : Rel s t) : Rel s (emitReturn t) := by
  unfold emitReturn
  exact rel_emitByte _ (rel_ite _ (rel_emitBytes _ _ h) (rel_emitByte _ h))

theorem rel_emitJump {s t : State} (instruction : Nat) (h : Rel s t) :
    Rel s (emitJump instruction t).2 := by
  unfold emitJump
  exact rel_emitByte _ (rel_emitByte _ (rel_emitByte _ h))

theorem rel_makeConstant {s t : State} (value : Value) (h : Rel s t) :
    Rel s (makeConstant value t).2 := by
  unfold makeConstant
  simp only
  split
  · exact rel_error _ (rel_modifyChunk _ h)
  · dsimp only
    exact rel_modifyChunk _ h

theorem rel_emitConstant {s t : State} (value : Value) (h : Rel s t) :
    Rel s (emitConstant value t) := by
  unfold emitConstant
  exact rel_emitBytes _ _ (rel_makeConstant _ h)

theorem rel_patchJump {s t : State} (offset : Int) (h : Rel s t) :
    Rel s (patchJump offset t) := by
  unfold patchJump
  exact rel_modifyChunk _ (rel_ite _ (rel_error _ h) h)

theorem rel_beginScope {s t : State} (h : Rel s t) : Rel s (beginScope t) :=
  rel_modifyCurrent _ (fun _ => ⟨rfl, rfl⟩) h

theorem rel_endScopeLoop {s : State} (n : Nat) : ∀ {t : State}, Rel s t →
    Rel s (endScopeLoop n t) := by
  induction n with
  | zero => intro t h; exact h
  | succ n ih =>
    intro t h
    unfold endScopeLoop
    split
    · exact h
    · split
      · exact h
      · split
        · exact ih (rel_modifyCurrent _ (fun _ => ⟨rfl, rfl⟩)
            (rel_ite _ (rel_emitByte _ h) (rel_emitByte _ h)))
        · exact h

theorem rel_endScope {s t : State} (h : Rel s t) : Rel s (endScope t) := by
  unfold endScope
  exact rel_endScopeLoop _ (rel_modifyCurrent _ (fun _ => ⟨rfl, rfl⟩) h)

theorem rel_identifierConstant {s t : State} (x : Extern) (name : String) (h : Rel s t) :
    Rel s (identifierConstant x name t).2 :=
  rel_makeConstant _ h

theorem rel_addLocal {s t : State} (name : String) (h : Rel s t) : Rel s (addLocal name t) := by
  unfold addLocal
  exact rel_ite _ (rel_error _ h) (rel_modifyCurrent _ (fun _ => ⟨rfl, rfl⟩) h)

theorem rel_resolveLocal {s t : State} (ci : Nat) (name : String) (h : Rel s t) :
    Rel s (resolveLocal ci name t).2 := by
  unfold resolveLocal
  split
  · exact rel_faults _ h
  · split
    · exact h
    · exact rel_ite _ (rel_error _ h) h

theorem rel_addUpvalue {s t : State} (ci index : Nat) (isLocal : Bool) (h : Rel s t) :
    Rel s (addUpvalue ci index isLocal t).2 := by
  unfold addUpvalue
  split
  · exact rel_faults _ h
  · simp only
    split
    · exact h
    · split
      · exact rel_error _ h
      · exact rel_modifyFrame _ _ (fun _ => ⟨rfl, rfl⟩) h

theorem rel_setCaptured {s t : State} (ci : Nat) (index : Int) (h : Rel s t) :
    Rel s (setCaptured ci index t) := by
  unfold setCaptured
  split
  · exact rel_faults _ h
  · next c hc =>
    split
    · split
      · exact h
      · exact rel_setFrame ci c _ hc ⟨rfl, rfl⟩ h
    · exact rel_faults _ h

theorem rel_resolveUpvalueAux {s : State} (fuel : Nat) : ∀ (ci : Nat) (name : String)
    {t : State}, Rel s t → Rel s (resolveUpvalueAux fuel ci name t).2 := by
  induction fuel with
  | zero => intro ci name t h; exact h
  | succ fuel ih =>
    intro ci name t h
    unfold resolveUpvalueAux
    split
    · exact h
    · simp only
      split
      · exact rel_addUpvalue _ _ _ (rel_resolveLocal _ _ h)
      · split
        · exact rel_addUpvalue _ _ _ (rel_setCaptured _ _ (ih _ _ (rel_resolveLocal _ _ h)))
        · exact ih _ _ (rel_resolveLocal _ _ h)

theorem rel_resolveUpvalue {s t : State} (ci : Nat) (name : String) (h : Rel s t) :
    Rel s (resolveUpvalue ci name t).2 :=
  rel_resolveUpvalueAux _ _ _ h

theorem rel_declareVariableLoop {s : State} (name : String) (n : Nat) : ∀ {t : State},
    Rel s t → Rel s (declareVariableLoop name n t) := by
  induction n with
  | zero => intro t h; exact h
  | succ n ih =>
    intro t h
    unfold declareVariableLoop
    split
    · exact h
    · split
      · exact h
      · split
        · exact h
        · exact ih (rel_ite _ (rel_error _ h) h)

theorem rel_declareVariable {s t : State} (h : Rel s t) : Rel s (declareVariable t) := by
  unfold declareVariable
  split
  · exact h
  · exact rel_addLocal _ (rel_declareVariableLoop _ _ h)

theorem rel_consume {s t : State} (type : TokenType) (message : String) (h : Rel s t) :
    Rel s (consume type message t) := by
  unfold consume
  exact rel_ite _ (rel_advance h) (rel_errorAtCurrent _ h)

theorem rel_matchToken {s t : State} (type : TokenType) (h : Rel s t) :
    Rel s (matchToken type t).2 := by
  unfold matchToken
  split
  · exact h
  · exact rel_advance h

theorem rel_parseVariable {s t : State} (x : Extern) (errorMessage : String) (h : Rel s t) :
    Rel s (parseVariable x errorMessage t).2 := by
  unfold parseVariable
  simp only
  split
  · exact rel_declareVariable (rel_consume _ _ h)
  · exact rel_identifierConstant _ _ (rel_declareVariable (rel_consume _ _ h))

theorem rel_markInitialized {s t : State} (h : Rel s t) : Rel s (markInitialized t) := by
  unfold markInitialized
  split
  · exact h
  · split
    · exact rel_faults _ h
    · next c rest hfr =>
      split
      · exact rel_faults _ h
      · apply h.trans
        refine Rel.of_frames rfl rfl rfl ?_
        simp [frameIds, hfr]

theorem rel_defineVariable {s t : State} (global : Nat) (h : Rel s t) :
    Rel s (defineVariable global t) := by
  unfold defineVariable
  exact rel_ite _ (rel_markInitialized h) (rel_emitBytes _ _ h)

theorem rel_synchronizeLoop {s : State} (fuel : Nat) : ∀ {t : State}, Rel s t →
    Rel s (synchronizeLoop fuel t) := by
  induction fuel with
  | zero => intro t h; exact h
  | succ fuel ih =>
    intro t h
    unfold synchronizeLoop
    split
    · split
      · exact h
      · split <;> first | exact h | exact ih (rel_advance h)
    · exact h

/-- Clearing `panicMode` keeps the relation. -/
theorem rel_clearPanic {s t : State} (h : Rel s t) :
    Rel s { t with parser := { t.parser with panicMode := false } } := by
  apply h.trans
  exact ⟨rfl, le_refl _, id, Or.inl, fun h => absurd h (lt_irrefl _), le_refl _⟩

theorem rel_synchronize {s t : State} (h : Rel s t) : Rel s (synchronize t) := by
  unfold synchronize
  exact rel_synchronizeLoop _ (rel_clearPanic h)

theorem rel_functionParams {s : State} (x : Extern) (fuel : Nat) : ∀ {t : State}, Rel s t →
    Rel s (functionParams x fuel t) := by
  induction fuel with
  | zero => intro t h; exact h
  | succ fuel ih =>
    intro t h
    have h0 := rel_modifyCurrent (fun c => { c with
      function := { c.function with arity := c.function.arity + 1 } }) (fun _ => ⟨rfl, rfl⟩) h
    unfold functionParams
    simp only
    apply_rules [ih, rel_matchToken, rel_defineVariable, rel_parseVariable,
      rel_errorAtCurrent, rel_ite]

theorem rel_emitUpvalues {s t : State} (compiler : Compiler) (upvalueCount : Nat)
    (h : Rel s t) : Rel s (emitUpvalues compiler upvalueCount t) := by
  unfold emitUpvalues
  generalize List.range upvalueCount = l
  induction l generalizing t with
  | nil => exact h
  | cons i l ih =>
    simp only [List.foldl_cons]
    apply ih
    split
    · exact rel_faults _ h
    · exact rel_emitByte _ (rel_emitByte _ h)



theorem rel_step {f : State → State} [RelStep f] {s t : State} (h : Rel s t) : Rel s (f t) :=
  RelStep.step h

theorem rel_step2 {α : Type} {f : State → α × State} [RelStep2 f] {s t : State}
    (h : Rel s t) : Rel s (f t).2 :=
  RelStep2.step h

instance (token : Token) (message : String) : RelStep (errorAt token message) :=
  ⟨fun h => rel_errorAt token message h⟩

instance (message : String) : RelStep (error message) := ⟨fun h => rel_error message h⟩

instance (message : String) : RelStep (errorAtCurrent message) :=
  ⟨fun h => rel_errorAtCurrent message h⟩

instance : RelStep advance := ⟨fun h => rel_advance h⟩

instance (f : Fault) : RelStep (recordFault f) := ⟨fun h => rel_recordFault f h⟩

instance (classes : List ClassCompiler) : RelStep (setClasses classes) :=
  ⟨fun h => rel_setClasses classes h⟩

instance (byte : Nat) : RelStep (emitByte byte) := ⟨fun h => rel_emitByte byte h⟩

instance (byte1 byte2 : Nat) : RelStep (emitBytes byte1 byte2) :=
  ⟨fun h => rel_emitBytes byte1 byte2 h⟩

instance (loopStart : Int) : RelStep (emitLoop loopStart) := ⟨fun h => rel_emitLoop loopStart h⟩

instance : RelStep emitReturn := ⟨fun h => rel_emitReturn h⟩

instance (instruction : Nat) : RelStep2 (emitJump instruction) :=
  ⟨fun h => rel_emitJump instruction h⟩

instance (value : Value) : RelStep2 (makeConstant value) := ⟨fun h => rel_makeConstant value h⟩

instance (value : Value) : RelStep (emitConstant value) := ⟨fun h => rel_emitConstant value h⟩

instance (offset : Int) : RelStep (patchJump offset) := ⟨fun h => rel_patchJump offset h⟩

instance : RelStep beginScope := ⟨fun h => rel_beginScope h⟩

instance : RelStep endScope := ⟨fun h => rel_endScope h⟩

instance (x : Extern) (name : String) : RelStep2 (identifierConstant x name) :=
  ⟨fun h => rel_identifierConstant x name h⟩

instance (name : String) : RelStep (addLocal name) := ⟨fun h => rel_addLocal name h⟩

instance (ci : Nat) (name : String) : RelStep2 (resolveLocal ci name) :=
  ⟨fun h => rel_resolveLocal ci name h⟩

instance (ci : Nat) (name : String) : RelStep2 (resolveUpvalue ci name) :=
  ⟨fun h => rel_resolveUpvalue ci name h⟩

instance : RelStep declareVariable := ⟨fun h => rel_declareVariable h⟩

instance (type : TokenType) (message : String) : RelStep (consume type message) :=
  ⟨fun h => rel_consume type message h⟩

instance (type : TokenType) : RelStep2 (matchToken type) := ⟨fun h => rel_matchToken type h⟩

instance (x : Extern) (errorMessage : String) : RelStep2 (parseVariable x errorMessage) :=
  ⟨fun h => rel_parseVariable x errorMessage h⟩

instance : RelStep markInitialized := ⟨fun h => rel_markInitialized h⟩

instance (global : Nat) : RelStep (defineVariable global) :=
  ⟨fun h => rel_defineVariable global h⟩

instance : RelStep synchronize := ⟨fun h => rel_synchronize h⟩

instance (x : Extern) (fuel : Nat) : RelStep (functionParams x fuel) :=
  ⟨fun h => rel_functionParams x fuel h⟩

instance (compiler : Compiler) (upvalueCount : Nat) :
    RelStep (emitUpvalues compiler upvalueCount) :=
  ⟨fun h => rel_emitUpvalues compiler upvalueCount h⟩

theorem rel_pop_frame {s t : State} (x : Extern) (type : FunctionType)
    (h : Rel (initCompiler x type s) t) :
    ∃ c, (endCompiler t).1 = some c ∧ Rel s (endCompiler t).2 ∧
      c.type = type ∧ c.functionPtr = x.newFunction s.allocated := by
  have h2 := rel_emitReturn h
  have hids := h2.ids
  unfold endCompiler
  simp only
  generalize emitReturn t = t2 at h2 hids
  cases hfr : t2.frames with
  | nil => simp [frameIds, hfr, initCompiler] at hids
  | cons c rest =>
    simp only [frameIds, hfr, initCompiler, List.map_cons, List.cons.injEq, Prod.mk.injEq] at hids
    refine ⟨c, rfl, ⟨?_, h2.errLe, h2.errMono, h2.errNew, h2.errSet, h2.remLe⟩, hids.1.2, hids.1.1⟩
    simp only [frameIds]
    exact hids.2

theorem ite_eq_cases {α : Type} {c : Prop} [Decidable c] {a b r : α}
    (h : (if c then a else b) = r) : (c ∧ a = r) ∨ (¬c ∧ b = r) := by
  split at h
  · exact Or.inl ⟨‹_›, h⟩
  · exact Or.inr ⟨‹_›, h⟩

set_option maxHeartbeats 4000000 in
set_option linter.unusedTactic false in
set_option linter.unreachableTactic false in
/-- Every procedure of the compiler keeps the relation `Rel` between the state before the
call and the state after it. -/
theorem exec_rel (x : Extern) : ∀ (n : Nat) (p : Proc) (s : State) (i : Int) (u : State),
    exec x n p s = some (i, u) → Rel s u := by
  intro n
  induction n with
  | zero =>
    intro p s i u h
    simp [exec] at h
  | succ n ih0 =>
    intro p s i u h
    have ih : ∀ p t i u, exec x n p t = some (i, u) → ∀ s', Rel s' t → Rel s' u :=
      fun p t i u h s' hs => hs.trans (ih0 p t i u h)
    clear ih0
    cases p with
    | parsePrecedence precedence =>
      simp only [exec] at h
      split at h
      · cases h; (try dsimp only); clear ih; with_reducible (repeat' (first | assumption | apply c1 | apply c2 | apply c3 | apply c4 | apply c5 | apply c6 | apply cL | apply rel_step | apply rel_step2 | apply rel_ite | exact Rel.refl _))
      · obtain ⟨⟨i1, u1⟩, h1, h⟩ := Option.bind_eq_some.1 h
        have c1 := ih _ _ _ _ h1
        try dsimp only at h
        obtain ⟨⟨i2, u2⟩, h2, h⟩ := Option.bind_eq_some.1 h
        have c2 := ih _ _ _ _ h2
        try dsimp only at h
        split at h
        · split at h
          · cases h; (try dsimp only); clear ih; with_reducible (repeat' (first | assumption | apply c1 | apply c2 | apply c3 | apply c4 | apply c5 | apply c6 | apply cL | apply rel_step | apply rel_step2 | apply rel_ite | exact Rel.refl _))
          · cases h; (try dsimp only); clear ih; with_reducible (repeat' (first | assumption | apply c1 | apply c2 | apply c3 | apply c4 | apply c5 | apply c6 | apply cL | apply rel_step | apply rel_step2 | apply rel_ite | exact Rel.refl _))
        · cases h; (try dsimp only); clear ih; with_reducible (repeat' (first | assumption | apply c1 | apply c2 | apply c3 | apply c4 | apply c5 | apply c6 | apply cL | apply rel_step | apply rel_step2 | apply rel_ite | exact Rel.refl _))
    | parsePrecedenceLoop precedence canAssign =>
      simp only [exec] at h
      split at h
      · split at h
        · cases h; (try dsimp only); clear ih; with_reducible (repeat' (first | assumption | apply c1 | apply c2 | apply c3 | apply c4 | apply c5 | apply c6 | apply cL | apply rel_step | apply rel_step2 | apply rel_ite | exact Rel.refl _))
        · obtain ⟨⟨i1, u1⟩, h1, h⟩ := Option.bind_eq_some.1 h
          have c1 := ih _ _ _ _ h1
          try dsimp only at h
          first | (cases h; (try dsimp only); clear ih; with_reducible (repeat' (first | assumption | apply c1 | apply c2 | apply c3 | apply c4 | apply c5 | apply c6 | apply cL | apply rel_step | apply rel_step2 | apply rel_ite | exact Rel.refl _))) | (have cL := ih _ _ _ _ h; (try dsimp only); clear ih; with_reducible (repeat' (first | assumption | apply c1 | apply c2 | apply c3 | apply c4 | apply c5 | apply c6 | apply cL | apply rel_step | apply rel_step2 | apply rel_ite | exact Rel.refl _)))
      · cases h; (try dsimp only); clear ih; with_reducible (repeat' (first | assumption | apply c1 | apply c2 | apply c3 | apply c4 | apply c5 | apply c6 | apply cL | apply rel_step | apply rel_step2 | apply rel_ite | exact Rel.refl _))
    | and_ canAssign =>
      simp only [exec] at h
      obtain ⟨⟨i1, u1⟩, h1, h⟩ := Option.bind_eq_some.1 h
      have c1 := ih _ _ _ _ h1
      try dsimp only at h
      first | (cases h; (try dsimp only); clear ih; with_reducible (repeat' (first | assumption | apply c1 | apply c2 | apply c3 | apply c4 | apply c5 | apply c6 | apply cL | apply rel_step | apply rel_step2 | apply rel_ite | exact Rel.refl _))) | (have cL := ih _ _ _ _ h; (try dsimp only); clear ih; with_reducible (repeat' (first | assumption | apply c1 | apply c2 | apply c3 | apply c4 | apply c5 | apply c6 | apply cL | apply rel_step | apply rel_step2 | apply rel_ite | exact Rel.refl _)))
    | or_ canAssign =>
      simp only [exec] at h
      obtain ⟨⟨i1, u1⟩, h1, h⟩ := Option.bind_eq_some.1 h
      have c1 := ih _ _ _ _ h1
      try dsimp only at h
      first | (cases h; (try dsimp only); clear ih; with_reducible (repeat' (first | assumption | apply c1 | apply c2 | apply c3 | apply c4 | apply c5 | apply c6 | apply cL | apply rel_step | apply rel_step2 | apply rel_ite | exact Rel.refl _))) | (have cL := ih _ _ _ _ h; (try dsimp only); clear ih; with_reducible (repeat' (first | assumption | apply c1 | apply c2 | apply c3 | apply c4 | apply c5 | apply c6 | apply cL | apply rel_step | apply rel_step2 | apply rel_ite | exact Rel.refl _)))
    | expression =>
      simp only [exec] at h
      first | (cases h; (try dsimp only); clear ih; with_reducible (repeat' (first | assumption | apply c1 | apply c2 | apply c3 | apply c4 | apply c5 | apply c6 | apply cL | apply rel_step | apply rel_step2 | apply rel_ite | exact Rel.refl _))) | (have cL := ih _ _ _ _ h; (try dsimp only); clear ih; with_reducible (repeat' (first | assumption | apply c1 | apply c2 | apply c3 | apply c4 | apply c5 | apply c6 | apply cL | apply rel_step | apply rel_step2 | apply rel_ite | exact Rel.refl _)))
    | varDeclaration =>
      simp only [exec] at h
      obtain ⟨⟨i1, u1⟩, h1, h⟩ := Option.bind_eq_some.1 h
      try dsimp only at h
      split at h1
      · have c1 := ih _ _ _ _ h1
        first | (cases h; (try dsimp only); clear ih; with_reducible (repeat' (first | assumption | apply c1 | apply c2 | apply c3 | apply c4 | apply c5 | apply c6 | apply cL | apply rel_step | apply rel_step2 | apply rel_ite | exact Rel.refl _))) | (have cL := ih _ _ _ _ h; (try dsimp only); clear ih; with_reducible (repeat' (first | assumption | apply c1 | apply c2 | apply c3 | apply c4 | apply c5 | apply c6 | apply cL | apply rel_step | apply rel_step2 | apply rel_ite | exact Rel.refl _)))
      · cases h1
        first | (cases h; (try dsimp only); clear ih; with_reducible (repeat' (first | assumption | apply c1 | apply c2 | apply c3 | apply c4 | apply c5 | apply c6 | apply cL | apply rel_step | apply rel_step2 | apply rel_ite | exact Rel.refl _))) | (have cL := ih _ _ _ _ h; (try dsimp only); clear ih; with_reducible (repeat' (first | assumption | apply c1 | apply c2 | apply c3 | apply c4 | apply c5 | apply c6 | apply cL | apply rel_step | apply rel_step2 | apply rel_ite | exact Rel.refl _)))
    | expressionStatement =>
      simp only [exec] at h
      obtain ⟨⟨i1, u1⟩, h1, h⟩ := Option.bind_eq_some.1 h
      have c1 := ih _ _ _ _ h1
      try dsimp only at h
      first | (cases h; (try dsimp only); clear ih; with_reducible (repeat' (first | assumption | apply c1 | apply c2 | apply c3 | apply c4 | apply c5 | apply c6 | apply cL | apply rel_step | apply rel_step2 | apply rel_ite | exact Rel.refl _))) | (have cL := ih _ _ _ _ h; (try dsimp only); clear ih; with_reducible (repeat' (first | assumption | apply c1 | apply c2 | apply c3 | apply c4 | apply c5 | apply c6 | apply cL | apply rel_step | apply rel_step2 | apply rel_ite | exact Rel.refl _)))
    | forStatement =>
      simp only [exec] at h
      obtain ⟨⟨i1, u1⟩, h1, h⟩ := Option.bind_eq_some.1 h
      try dsimp only at h
      obtain ⟨⟨i2, u2⟩, h2, h⟩ := Option.bind_eq_some.1 h
      try dsimp only at h
      obtain ⟨⟨i3, u3⟩, h3, h⟩ := Option.bind_eq_some.1 h
      try dsimp only at h
      obtain ⟨⟨i4, u4⟩, h4, h⟩ := Option.bind_eq_some.1 h
      have c4 := ih _ _ _ _ h4
      try dsimp only at h
      cases h
      have k1 : Rel s u1 := by
        split at h1
        · cases h1; (try dsimp only); clear ih; with_reducible (repeat' (first | assumption | apply c1 | apply c2 | apply c3 | apply c4 | apply c5 | apply c6 | apply cL | apply rel_step | apply rel_step2 | apply rel_ite | exact Rel.refl _))
        · split at h1
          · have c1 := ih _ _ _ _ h1; (try dsimp only); clear ih; with_reducible (repeat' (first | assumption | apply c1 | apply c2 | apply c3 | apply c4 | apply c5 | apply c6 | apply cL | apply rel_step | apply rel_step2 | apply rel_ite | exact Rel.refl _))
          · have c1 := ih _ _ _ _ h1; (try dsimp only); clear ih; with_reducible (repeat' (first | assumption | apply c1 | apply c2 | apply c3 | apply c4 | apply c5 | apply c6 | apply cL | apply rel_step | apply rel_step2 | apply rel_ite | exact Rel.refl _))
      have k2 : Rel s u2 := by
        split at h2
        · obtain ⟨⟨i5, u5⟩, h5, h2⟩ := Option.bind_eq_some.1 h2
          have c5 := ih _ _ _ _ h5
          try dsimp only at h2
          cases h2; (try dsimp only); clear ih; with_reducible (repeat' (first | assumption | apply c1 | apply c2 | apply c3 | apply c4 | apply c5 | apply c6 | apply cL | apply rel_step | apply rel_step2 | apply rel_ite | exact Rel.refl _))
        · cases h2; (try dsimp only); clear ih; with_reducible (repeat' (first | assumption | apply c1 | apply c2 | apply c3 | apply c4 | apply c5 | apply c6 | apply cL | apply rel_step | apply rel_step2 | apply rel_ite | exact Rel.refl _))
      have k3 : Rel s u3 := by
        split at h3
        · obtain ⟨⟨i6, u6⟩, h6, h3⟩ := Option.bind_eq_some.1 h3
          have c6 := ih _ _ _ _ h6
          try dsimp only at h3
          cases h3; (try dsimp only); clear ih; with_reducible (repeat' (first | assumption | apply c1 | apply c2 | apply c3 | apply c4 | apply c5 | apply c6 | apply cL | apply rel_step | apply rel_step2 | apply rel_ite | exact Rel.refl _))
        · cases h3; (try dsimp only); clear ih; with_reducible (repeat' (first | assumption | apply c1 | apply c2 | apply c3 | apply c4 | apply c5 | apply c6 | apply cL | apply rel_step | apply rel_step2 | apply rel_ite | exact Rel.refl _))
      (try dsimp only); clear ih; with_reducible (repeat' (first | assumption | apply c1 | apply c2 | apply c3 | apply c4 | apply c5 | apply c6 | apply cL | apply rel_step | apply rel_step2 | apply rel_ite | exact Rel.refl _))
    | ifStatement =>
      simp only [exec] at h
      obtain ⟨⟨i1, u1⟩, h1, h⟩ := Option.bind_eq_some.1 h
      have c1 := ih _ _ _ _ h1
      try dsimp only at h
      obtain ⟨⟨i2, u2⟩, h2, h⟩ := Option.bind_eq_some.1 h
      have c2 := ih _ _ _ _ h2
      try dsimp only at h
      obtain ⟨⟨i3, u3⟩, h3, h⟩ := Option.bind_eq_some.1 h
      try dsimp only at h
      cases h
      split at h3
      · have c3 := ih _ _ _ _ h3
        (try dsimp only); clear ih; with_reducible (repeat' (first | assumption | apply c1 | apply c2 | apply c3 | apply c4 | apply c5 | apply c6 | apply cL | apply rel_step | apply rel_step2 | apply rel_ite | exact Rel.refl _))
      · cases h3
        (try dsimp only); clear ih; with_reducible (repeat' (first | assumption | apply c1 | apply c2 | apply c3 | apply c4 | apply c5 | apply c6 | apply cL | apply rel_step | apply rel_step2 | apply rel_ite | exact Rel.refl _))
    | whileStatement =>
      simp only [exec] at h
      obtain ⟨⟨i1, u1⟩, h1, h⟩ := Option.bind_eq_some.1 h
      have c1 := ih _ _ _ _ h1
      try dsimp only at h
      obtain ⟨⟨i2, u2⟩, h2, h⟩ := Option.bind_eq_some.1 h
      have c2 := ih _ _ _ _ h2
      try dsimp only at h
      first | (cases h; (try dsimp only); clear ih; with_reducible (repeat' (first | assumption | apply c1 | apply c2 | apply c3 | apply c4 | apply c5 | apply c6 | apply cL | apply rel_step | apply rel_step2 | apply rel_ite | exact Rel.refl _))) | (have cL := ih _ _ _ _ h; (try dsimp only); clear ih; with_reducible (repeat' (first | assumption | apply c1 | apply c2 | apply c3 | apply c4 | apply c5 | apply c6 | apply cL | apply rel_step | apply rel_step2 | apply rel_ite | exact Rel.refl _)))
    | printStatement =>
      simp only [exec] at h
      obtain ⟨⟨i1, u1⟩, h1, h⟩ := Option.bind_eq_some.1 h
      have c1 := ih _ _ _ _ h1
      try dsimp only at h
      first | (cases h; (try dsimp only); clear ih; with_reducible (repeat' (first | assumption | apply c1 | apply c2 | apply c3 | apply c4 | apply c5 | apply c6 | apply cL | apply rel_step | apply rel_step2 | apply rel_ite | exact Rel.refl _))) | (have cL := ih _ _ _ _ h; (try dsimp only); clear ih; with_reducible (repeat' (first | assumption | apply c1 | apply c2 | apply c3 | apply c4 | apply c5 | apply c6 | apply cL | apply rel_step | apply rel_step2 | apply rel_ite | exact Rel.refl _)))
    | returnStatement =>
      simp only [exec] at h
      rcases ite_eq_cases h with ⟨hc, h⟩ | ⟨hc, h⟩
      · cases h; (try dsimp only); clear ih; with_reducible (repeat' (first | assumption | apply c1 | apply c2 | apply c3 | apply c4 | apply c5 | apply c6 | apply cL | apply rel_step | apply rel_step2 | apply rel_ite | exact Rel.refl _))
      · obtain ⟨⟨i1, u1⟩, h1, h⟩ := Option.bind_eq_some.1 h
        have c1 := ih _ _ _ _ h1
        try dsimp only at h
        cases h; (try dsimp only); clear ih; with_reducible (repeat' (first | assumption | apply c1 | apply c2 | apply c3 | apply c4 | apply c5 | apply c6 | apply cL | apply rel_step | apply rel_step2 | apply rel_ite | exact Rel.refl _))
    | declaration =>
      simp only [exec] at h
      obtain ⟨⟨i1, u1⟩, h1, h⟩ := Option.bind_eq_some.1 h
      try dsimp only at h
      have k1 : Rel s u1 := by
        split at h1
        · have c1 := ih _ _ _ _ h1; (try dsimp only); clear ih; with_reducible (repeat' (first | assumption | apply c1 | apply c2 | apply c3 | apply c4 | apply c5 | apply c6 | apply cL | apply rel_step | apply rel_step2 | apply rel_ite | exact Rel.refl _))
        · split at h1
          · have c1 := ih _ _ _ _ h1; (try dsimp only); clear ih; with_reducible (repeat' (first | assumption | apply c1 | apply c2 | apply c3 | apply c4 | apply c5 | apply c6 | apply cL | apply rel_step | apply rel_step2 | apply rel_ite | exact Rel.refl _))
          · split at h1
            · have c1 := ih _ _ _ _ h1; (try dsimp only); clear ih; with_reducible (repeat' (first | assumption | apply c1 | apply c2 | apply c3 | apply c4 | apply c5 | apply c6 | apply cL | apply rel_step | apply rel_step2 | apply rel_ite | exact Rel.refl _))
            · have c1 := ih _ _ _ _ h1; (try dsimp only); clear ih; with_reducible (repeat' (first | assumption | apply c1 | apply c2 | apply c3 | apply c4 | apply c5 | apply c6 | apply cL | apply rel_step | apply rel_step2 | apply rel_ite | exact Rel.refl _))
      split at h
      · cases h; (try dsimp only); clear ih; with_reducible (repeat' (first | assumption | apply c1 | apply c2 | apply c3 | apply c4 | apply c5 | apply c6 | apply cL | apply rel_step | apply rel_step2 | apply rel_ite | exact Rel.refl _))
      · cases h; (try dsimp only); clear ih; with_reducible (repeat' (first | assumption | apply c1 | apply c2 | apply c3 | apply c4 | apply c5 | apply c6 | apply cL | apply rel_step | apply rel_step2 | apply rel_ite | exact Rel.refl _))
    | statement =>
      simp only [exec] at h
      split at h
      · first | (cases h; (try dsimp only); clear ih; with_reducible (repeat' (first | assumption | apply c1 | apply c2 | apply c3 | apply c4 | apply c5 | apply c6 | apply cL | apply rel_step | apply rel_step2 | apply rel_ite | exact Rel.refl _))) | (have cL := ih _ _ _ _ h; (try dsimp only); clear ih; with_reducible (repeat' (first | assumption | apply c1 | apply c2 | apply c3 | apply c4 | apply c5 | apply c6 | apply cL | apply rel_step | apply rel_step2 | apply rel_ite | exact Rel.refl _)))
      · split at h
        · first | (cases h; (try dsimp only); clear ih; with_reducible (repeat' (first | assumption | apply c1 | apply c2 | apply c3 | apply c4 | apply c5 | apply c6 | apply cL | apply rel_step | apply rel_step2 | apply rel_ite | exact Rel.refl _))) | (have cL := ih _ _ _ _ h; (try dsimp only); clear ih; with_reducible (repeat' (first | assumption | apply c1 | apply c2 | apply c3 | apply c4 | apply c5 | apply c6 | apply cL | apply rel_step | apply rel_step2 | apply rel_ite | exact Rel.refl _)))
        · split at h
          · first | (cases h; (try dsimp only); clear ih; with_reducible (repeat' (first | assumption | apply c1 | apply c2 | apply c3 | apply c4 | apply c5 | apply c6 | apply cL | apply rel_step | apply rel_step2 | apply rel_ite | exact Rel.refl _))) | (have cL := ih _ _ _ _ h; (try dsimp only); clear ih; with_reducible (repeat' (first | assumption | apply c1 | apply c2 | apply c3 | apply c4 | apply c5 | apply c6 | apply cL | apply rel_step | apply rel_step2 | apply rel_ite | exact Rel.refl _)))
          · split at h
            · first | (cases h; (try dsimp only); clear ih; with_reducible (repeat' (first | assumption | apply c1 | apply c2 | apply c3 | apply c4 | apply c5 | apply c6 | apply cL | apply rel_step | apply rel_step2 | apply rel_ite | exact Rel.refl _))) | (have cL := ih _ _ _ _ h; (try dsimp only); clear ih; with_reducible (repeat' (first | assumption | apply c1 | apply c2 | apply c3 | apply c4 | apply c5 | apply c6 | apply cL | apply rel_step | apply rel_step2 | apply rel_ite | exact Rel.refl _)))
            · split at h
              · first | (cases h; (try dsimp only); clear ih; with_reducible (repeat' (first | assumption | apply c1 | apply c2 | apply c3 | apply c4 | apply c5 | apply c6 | apply cL | apply rel_step | apply rel_step2 | apply rel_ite | exact Rel.refl _))) | (have cL := ih _ _ _ _ h; (try dsimp only); clear ih; with_reducible (repeat' (first | assumption | apply c1 | apply c2 | apply c3 | apply c4 | apply c5 | apply c6 | apply cL | apply rel_step | apply rel_step2 | apply rel_ite | exact Rel.refl _)))
              · split at h
                · obtain ⟨⟨i1, u1⟩, h1, h⟩ := Option.bind_eq_some.1 h
                  have c1 := ih _ _ _ _ h1
                  try dsimp only at h
                  first | (cases h; (try dsimp only); clear ih; with_reducible (repeat' (first | assumption | apply c1 | apply c2 | apply c3 | apply c4 | apply c5 | apply c6 | apply cL | apply rel_step | apply rel_step2 | apply rel_ite | exact Rel.refl _))) | (have cL := ih _ _ _ _ h; (try dsimp only); clear ih; with_reducible (repeat' (first | assumption | apply c1 | apply c2 | apply c3 | apply c4 | apply c5 | apply c6 | apply cL | apply rel_step | apply rel_step2 | apply rel_ite | exact Rel.refl _)))
                · first | (cases h; (try dsimp only); clear ih; with_reducible (repeat' (first | assumption | apply c1 | apply c2 | apply c3 | apply c4 | apply c5 | apply c6 | apply cL | apply rel_step | apply rel_step2 | apply rel_ite | exact Rel.refl _))) | (have cL := ih _ _ _ _ h; (try dsimp only); clear ih; with_reducible (repeat' (first | assumption | apply c1 | apply c2 | apply c3 | apply c4 | apply c5 | apply c6 | apply cL | apply rel_step | apply rel_step2 | apply rel_ite | exact Rel.refl _)))
    | block =>
      simp only [exec] at h
      split at h
      · obtain ⟨⟨i1, u1⟩, h1, h⟩ := Option.bind_eq_some.1 h
        have c1 := ih _ _ _ _ h1
        try dsimp only at h
        first | (cases h; (try dsimp only); clear ih; with_reducible (repeat' (first | assumption | apply c1 | apply c2 | apply c3 | apply c4 | apply c5 | apply c6 | apply cL | apply rel_step | apply rel_step2 | apply rel_ite | exact Rel.refl _))) | (have cL := ih _ _ _ _ h; (try dsimp only); clear ih; with_reducible (repeat' (first | assumption | apply c1 | apply c2 | apply c3 | apply c4 | apply c5 | apply c6 | apply cL | apply rel_step | apply rel_step2 | apply rel_ite | exact Rel.refl _)))
      · cases h; (try dsimp only); clear ih; with_reducible (repeat' (first | assumption | apply c1 | apply c2 | apply c3 | apply c4 | apply c5 | apply c6 | apply cL | apply rel_step | apply rel_step2 | apply rel_ite | exact Rel.refl _))
    | function type =>
      simp only [exec] at h
      obtain ⟨⟨i1, u1⟩, h1, h⟩ := Option.bind_eq_some.1 h
      have c1 := ih _ _ _ _ h1
      try dsimp only at h
      have k0 : Rel (initCompiler x type s) u1 := by
        apply c1
        with_reducible (repeat' (first | assumption | apply c1 | apply c2 | apply c3 | apply c4 | apply c5 | apply c6 | apply cL | apply rel_step | apply rel_step2 | apply rel_ite | exact Rel.refl _))
      obtain ⟨c, hc, hrel, _, _⟩ := rel_pop_frame x type k0
      rw [hc] at h
      dsimp only at h
      cases h
      (try dsimp only); clear ih; with_reducible (repeat' (first | assumption | apply c1 | apply c2 | apply c3 | apply c4 | apply c5 | apply c6 | apply cL | apply rel_step | apply rel_step2 | apply rel_ite | exact Rel.refl _))
    | method =>
      simp only [exec] at h
      obtain ⟨⟨i1, u1⟩, h1, h⟩ := Option.bind_eq_some.1 h
      have c1 := ih _ _ _ _ h1
      try dsimp only at h
      first | (cases h; (try dsimp only); clear ih; with_reducible (repeat' (first | assumption | apply c1 | apply c2 | apply c3 | apply c4 | apply c5 | apply c6 | apply cL | apply rel_step | apply rel_step2 | apply rel_ite | exact Rel.refl _))) | (have cL := ih _ _ _ _ h; (try dsimp only); clear ih; with_reducible (repeat' (first | assumption | apply c1 | apply c2 | apply c3 | apply c4 | apply c5 | apply c6 | apply cL | apply rel_step | apply rel_step2 | apply rel_ite | exact Rel.refl _)))
    | classDeclaration =>
      simp only [exec] at h
      obtain ⟨⟨i1, u1⟩, h1, h⟩ := Option.bind_eq_some.1 h
      try dsimp only at h
      obtain ⟨⟨i2, u2⟩, h2, h⟩ := Option.bind_eq_some.1 h
      have c2 := ih _ _ _ _ h2
      try dsimp only at h
      obtain ⟨⟨i3, u3⟩, h3, h⟩ := Option.bind_eq_some.1 h
      have c3 := ih _ _ _ _ h3
      try dsimp only at h
      cases h
      have k1 : Rel s u1 := by
        split at h1
        · obtain ⟨⟨i4, u4⟩, h4, h1⟩ := Option.bind_eq_some.1 h1
          have c4 := ih _ _ _ _ h4
          try dsimp only at h1
          obtain ⟨⟨i5, u5⟩, h5, h1⟩ := Option.bind_eq_some.1 h1
          have c5 := ih _ _ _ _ h5
          try dsimp only at h1
          cases h1; (try dsimp only); clear ih; with_reducible (repeat' (first | assumption | apply c1 | apply c2 | apply c3 | apply c4 | apply c5 | apply c6 | apply cL | apply rel_step | apply rel_step2 | apply rel_ite | exact Rel.refl _))
        · cases h1; (try dsimp only); clear ih; with_reducible (repeat' (first | assumption | apply c1 | apply c2 | apply c3 | apply c4 | apply c5 | apply c6 | apply cL | apply rel_step | apply rel_step2 | apply rel_ite | exact Rel.refl _))
      (try dsimp only); clear ih; with_reducible (repeat' (first | assumption | apply c1 | apply c2 | apply c3 | apply c4 | apply c5 | apply c6 | apply cL | apply rel_step | apply rel_step2 | apply rel_ite | exact Rel.refl _))
    | classDeclarationLoop =>
      simp only [exec] at h
      split at h
      · obtain ⟨⟨i1, u1⟩, h1, h⟩ := Option.bind_eq_some.1 h
        have c1 := ih _ _ _ _ h1
        try dsimp only at h
        first | (cases h; (try dsimp only); clear ih; with_reducible (repeat' (first | assumption | apply c1 | apply c2 | apply c3 | apply c4 | apply c5 | apply c6 | apply cL | apply rel_step | apply rel_step2 | apply rel_ite | exact Rel.refl _))) | (have cL := ih _ _ _ _ h; (try dsimp only); clear ih; with_reducible (repeat' (first | assumption | apply c1 | apply c2 | apply c3 | apply c4 | apply c5 | apply c6 | apply cL | apply rel_step | apply rel_step2 | apply rel_ite | exact Rel.refl _)))
      · cases h; (try dsimp only); clear ih; with_reducible (repeat' (first | assumption | apply c1 | apply c2 | apply c3 | apply c4 | apply c5 | apply c6 | apply cL | apply rel_step | apply rel_step2 | apply rel_ite | exact Rel.refl _))
    | funDeclaration =>
      simp only [exec] at h
      obtain ⟨⟨i1, u1⟩, h1, h⟩ := Option.bind_eq_some.1 h
      have c1 := ih _ _ _ _ h1
      try dsimp only at h
      first | (cases h; (try dsimp only); clear ih; with_reducible (repeat' (first | assumption | apply c1 | apply c2 | apply c3 | apply c4 | apply c5 | apply c6 | apply cL | apply rel_step | apply rel_step2 | apply rel_ite | exact Rel.refl _))) | (have cL := ih _ _ _ _ h; (try dsimp only); clear ih; with_reducible (repeat' (first | assumption | apply c1 | apply c2 | apply c3 | apply c4 | apply c5 | apply c6 | apply cL | apply rel_step | apply rel_step2 | apply rel_ite | exact Rel.refl _)))
    | binary canAssign =>
      simp only [exec] at h
      obtain ⟨⟨i1, u1⟩, h1, h⟩ := Option.bind_eq_some.1 h
      have c1 := ih _ _ _ _ h1
      try dsimp only at h
      split at h <;> (cases h; (try dsimp only); clear ih; with_reducible (repeat' (first | assumption | apply c1 | apply c2 | apply c3 | apply c4 | apply c5 | apply c6 | apply cL | apply rel_step | apply rel_step2 | apply rel_ite | exact Rel.refl _)))
    | argumentList =>
      simp only [exec] at h
      obtain ⟨⟨i1, u1⟩, h1, h⟩ := Option.bind_eq_some.1 h
      try dsimp only at h
      split at h1
      · have c1 := ih _ _ _ _ h1
        first | (cases h; (try dsimp only); clear ih; with_reducible (repeat' (first | assumption | apply c1 | apply c2 | apply c3 | apply c4 | apply c5 | apply c6 | apply cL | apply rel_step | apply rel_step2 | apply rel_ite | exact Rel.refl _))) | (have cL := ih _ _ _ _ h; (try dsimp only); clear ih; with_reducible (repeat' (first | assumption | apply c1 | apply c2 | apply c3 | apply c4 | apply c5 | apply c6 | apply cL | apply rel_step | apply rel_step2 | apply rel_ite | exact Rel.refl _)))
      · cases h1
        first | (cases h; (try dsimp only); clear ih; with_reducible (repeat' (first | assumption | apply c1 | apply c2 | apply c3 | apply c4 | apply c5 | apply c6 | apply cL | apply rel_step | apply rel_step2 | apply rel_ite | exact Rel.refl _))) | (have cL := ih _ _ _ _ h; (try dsimp only); clear ih; with_reducible (repeat' (first | assumption | apply c1 | apply c2 | apply c3 | apply c4 | apply c5 | apply c6 | apply cL | apply rel_step | apply rel_step2 | apply rel_ite | exact Rel.refl _)))
    | argumentListLoop argCount =>
      simp only [exec] at h
      obtain ⟨⟨i1, u1⟩, h1, h⟩ := Option.bind_eq_some.1 h
      have c1 := ih _ _ _ _ h1
      try dsimp only at h
      rcases ite_eq_cases h with ⟨hc, h⟩ | ⟨hc, h⟩
      · have cL := ih _ _ _ _ h; (try dsimp only); clear ih; with_reducible (repeat' (first | assumption | apply c1 | apply c2 | apply c3 | apply c4 | apply c5 | apply c6 | apply cL | apply rel_step | apply rel_step2 | apply rel_ite | exact Rel.refl _))
      · cases h; (try dsimp only); clear ih; with_reducible (repeat' (first | assumption | apply c1 | apply c2 | apply c3 | apply c4 | apply c5 | apply c6 | apply cL | apply rel_step | apply rel_step2 | apply rel_ite | exact Rel.refl _))
    | call canAssign =>
      simp only [exec] at h
      obtain ⟨⟨i1, u1⟩, h1, h⟩ := Option.bind_eq_some.1 h
      have c1 := ih _ _ _ _ h1
      try dsimp only at h
      first | (cases h; (try dsimp only); clear ih; with_reducible (repeat' (first | assumption | apply c1 | apply c2 | apply c3 | apply c4 | apply c5 | apply c6 | apply cL | apply rel_step | apply rel_step2 | apply rel_ite | exact Rel.refl _))) | (have cL := ih _ _ _ _ h; (try dsimp only); clear ih; with_reducible (repeat' (first | assumption | apply c1 | apply c2 | apply c3 | apply c4 | apply c5 | apply c6 | apply cL | apply rel_step | apply rel_step2 | apply rel_ite | exact Rel.refl _)))
    | dot canAssign =>
      cases canAssign <;> simp only [exec, Bool.false_eq_true, if_false, if_true] at h
      · rcases ite_eq_cases h with ⟨hc, h⟩ | ⟨hc, h⟩
        · obtain ⟨⟨i1, u1⟩, h1, h⟩ := Option.bind_eq_some.1 h
          have c1 := ih _ _ _ _ h1
          try dsimp only at h
          cases h; (try dsimp only); clear ih; with_reducible (repeat' (first | assumption | apply c1 | apply c2 | apply c3 | apply c4 | apply c5 | apply c6 | apply cL | apply rel_step | apply rel_step2 | apply rel_ite | exact Rel.refl _))
        · cases h; (try dsimp only); clear ih; with_reducible (repeat' (first | assumption | apply c1 | apply c2 | apply c3 | apply c4 | apply c5 | apply c6 | apply cL | apply rel_step | apply rel_step2 | apply rel_ite | exact Rel.refl _))
      · rcases ite_eq_cases h with ⟨hc, h⟩ | ⟨hc, h⟩
        · obtain ⟨⟨i1, u1⟩, h1, h⟩ := Option.bind_eq_some.1 h
          have c1 := ih _ _ _ _ h1
          try dsimp only at h
          cases h; (try dsimp only); clear ih; with_reducible (repeat' (first | assumption | apply c1 | apply c2 | apply c3 | apply c4 | apply c5 | apply c6 | apply cL | apply rel_step | apply rel_step2 | apply rel_ite | exact Rel.refl _))
        · rcases ite_eq_cases h with ⟨hc, h⟩ | ⟨hc, h⟩
          · obtain ⟨⟨i1, u1⟩, h1, h⟩ := Option.bind_eq_some.1 h
            have c1 := ih _ _ _ _ h1
            try dsimp only at h
            cases h; (try dsimp only); clear ih; with_reducible (repeat' (first | assumption | apply c1 | apply c2 | apply c3 | apply c4 | apply c5 | apply c6 | apply cL | apply rel_step | apply rel_step2 | apply rel_ite | exact Rel.refl _))
          · cases h; (try dsimp only); clear ih; with_reducible (repeat' (first | assumption | apply c1 | apply c2 | apply c3 | apply c4 | apply c5 | apply c6 | apply cL | apply rel_step | apply rel_step2 | apply rel_ite | exact Rel.refl _))
    | literal canAssign =>
      simp only [exec] at h
      split at h <;> (cases h; (try dsimp only); clear ih; with_reducible (repeat' (first | assumption | apply c1 | apply c2 | apply c3 | apply c4 | apply c5 | apply c6 | apply cL | apply rel_step | apply rel_step2 | apply rel_ite | exact Rel.refl _)))
    | number canAssign =>
      simp only [exec] at h
      cases h; (try dsimp only); clear ih; with_reducible (repeat' (first | assumption | apply c1 | apply c2 | apply c3 | apply c4 | apply c5 | apply c6 | apply cL | apply rel_step | apply rel_step2 | apply rel_ite | exact Rel.refl _))
    | string canAssign =>
      simp only [exec] at h
      cases h; (try dsimp only); clear ih; with_reducible (repeat' (first | assumption | apply c1 | apply c2 | apply c3 | apply c4 | apply c5 | apply c6 | apply cL | apply rel_step | apply rel_step2 | apply rel_ite | exact Rel.refl _))
    | namedVariable name canAssign =>
      cases canAssign <;> simp only [exec, Bool.false_eq_true, if_false, if_true] at h
      · cases h; (try dsimp only); clear ih; with_reducible (repeat' (first | assumption | apply c1 | apply c2 | apply c3 | apply c4 | apply c5 | apply c6 | apply cL | apply rel_step | apply rel_step2 | apply rel_ite | exact Rel.refl _)); split <;> (try split) <;> (try dsimp only) <;> with_reducible (repeat' (first | assumption | apply c1 | apply c2 | apply c3 | apply c4 | apply c5 | apply c6 | apply cL | apply rel_step | apply rel_step2 | apply rel_ite | exact Rel.refl _))
      · rcases ite_eq_cases h with ⟨hc, h⟩ | ⟨hc, h⟩
        · obtain ⟨⟨i1, u1⟩, h1, h⟩ := Option.bind_eq_some.1 h
          have c1 := ih _ _ _ _ h1
          try dsimp only at h
          cases h; (try dsimp only); clear ih; with_reducible (repeat' (first | assumption | apply c1 | apply c2 | apply c3 | apply c4 | apply c5 | apply c6 | apply cL | apply rel_step | apply rel_step2 | apply rel_ite | exact Rel.refl _)); split <;> (try split) <;> (try dsimp only) <;> with_reducible (repeat' (first | assumption | apply c1 | apply c2 | apply c3 | apply c4 | apply c5 | apply c6 | apply cL | apply rel_step | apply rel_step2 | apply rel_ite | exact Rel.refl _))
        · cases h; (try dsimp only); clear ih; with_reducible (repeat' (first | assumption | apply c1 | apply c2 | apply c3 | apply c4 | apply c5 | apply c6 | apply cL | apply rel_step | apply rel_step2 | apply rel_ite | exact Rel.refl _)); split <;> (try split) <;> (try dsimp only) <;> with_reducible (repeat' (first | assumption | apply c1 | apply c2 | apply c3 | apply c4 | apply c5 | apply c6 | apply cL | apply rel_step | apply rel_step2 | apply rel_ite | exact Rel.refl _))
    | variable_ canAssign =>
      simp only [exec] at h
      first | (cases h; (try dsimp only); clear ih; with_reducible (repeat' (first | assumption | apply c1 | apply c2 | apply c3 | apply c4 | apply c5 | apply c6 | apply cL | apply rel_step | apply rel_step2 | apply rel_ite | exact Rel.refl _))) | (have cL := ih _ _ _ _ h; (try dsimp only); clear ih; with_reducible (repeat' (first | assumption | apply c1 | apply c2 | apply c3 | apply c4 | apply c5 | apply c6 | apply cL | apply rel_step | apply rel_step2 | apply rel_ite | exact Rel.refl _)))
    | super_ canAssign =>
      simp only [exec] at h
      obtain ⟨⟨i1, u1⟩, h1, h⟩ := Option.bind_eq_some.1 h
      have c1 := ih _ _ _ _ h1
      try dsimp only at h
      obtain ⟨⟨i2, u2⟩, h2, h⟩ := Option.bind_eq_some.1 h
      have c2 := ih _ _ _ _ h2
      try dsimp only at h
      rcases ite_eq_cases h with ⟨hc, h⟩ | ⟨hc, h⟩
      · obtain ⟨⟨i3, u3⟩, h3, h⟩ := Option.bind_eq_some.1 h
        have c3 := ih _ _ _ _ h3
        try dsimp only at h
        obtain ⟨⟨i4, u4⟩, h4, h⟩ := Option.bind_eq_some.1 h
        have c4 := ih _ _ _ _ h4
        try dsimp only at h
        cases h; (try dsimp only); clear ih; with_reducible (repeat' (first | assumption | apply c1 | apply c2 | apply c3 | apply c4 | apply c5 | apply c6 | apply cL | apply rel_step | apply rel_step2 | apply rel_ite | exact Rel.refl _)); split <;> (try split) <;> (try dsimp only) <;> with_reducible (repeat' (first | assumption | apply c1 | apply c2 | apply c3 | apply c4 | apply c5 | apply c6 | apply cL | apply rel_step | apply rel_step2 | apply rel_ite | exact Rel.refl _))
      · obtain ⟨⟨i3, u3⟩, h3, h⟩ := Option.bind_eq_some.1 h
        have c3 := ih _ _ _ _ h3
        try dsimp only at h
        cases h; (try dsimp only); clear ih; with_reducible (repeat' (first | assumption | apply c1 | apply c2 | apply c3 | apply c4 | apply c5 | apply c6 | apply cL | apply rel_step | apply rel_step2 | apply rel_ite | exact Rel.refl _)); split <;> (try split) <;> (try dsimp only) <;> with_reducible (repeat' (first | assumption | apply c1 | apply c2 | apply c3 | apply c4 | apply c5 | apply c6 | apply cL | apply rel_step | apply rel_step2 | apply rel_ite | exact Rel.refl _))
    | this_ canAssign =>
      simp only [exec] at h
      split at h
      · cases h; (try dsimp only); clear ih; with_reducible (repeat' (first | assumption | apply c1 | apply c2 | apply c3 | apply c4 | apply c5 | apply c6 | apply cL | apply rel_step | apply rel_step2 | apply rel_ite | exact Rel.refl _))
      · first | (cases h; (try dsimp only); clear ih; with_reducible (repeat' (first | assumption | apply c1 | apply c2 | apply c3 | apply c4 | apply c5 | apply c6 | apply cL | apply rel_step | apply rel_step2 | apply rel_ite | exact Rel.refl _))) | (have cL := ih _ _ _ _ h; (try dsimp only); clear ih; with_reducible (repeat' (first | assumption | apply c1 | apply c2 | apply c3 | apply c4 | apply c5 | apply c6 | apply cL | apply rel_step | apply rel_step2 | apply rel_ite | exact Rel.refl _)))
    | unary canAssign =>
      simp only [exec] at h
      obtain ⟨⟨i1, u1⟩, h1, h⟩ := Option.bind_eq_some.1 h
      have c1 := ih _ _ _ _ h1
      try dsimp only at h
      split at h <;> (cases h; (try dsimp only); clear ih; with_reducible (repeat' (first | assumption | apply c1 | apply c2 | apply c3 | apply c4 | apply c5 | apply c6 | apply cL | apply rel_step | apply rel_step2 | apply rel_ite | exact Rel.refl _)))
    | grouping canAssign =>
      simp only [exec] at h
      obtain ⟨⟨i1, u1⟩, h1, h⟩ := Option.bind_eq_some.1 h
      have c1 := ih _ _ _ _ h1
      try dsimp only at h
      first | (cases h; (try dsimp only); clear ih; with_reducible (repeat' (first | assumption | apply c1 | apply c2 | apply c3 | apply c4 | apply c5 | apply c6 | apply cL | apply rel_step | apply rel_step2 | apply rel_ite | exact Rel.refl _))) | (have cL := ih _ _ _ _ h; (try dsimp only); clear ih; with_reducible (repeat' (first | assumption | apply c1 | apply c2 | apply c3 | apply c4 | apply c5 | apply c6 | apply cL | apply rel_step | apply rel_step2 | apply rel_ite | exact Rel.refl _)))
    | compileLoop =>
      simp only [exec] at h
      split at h
      · cases h; (try dsimp only); clear ih; with_reducible (repeat' (first | assumption | apply c1 | apply c2 | apply c3 | apply c4 | apply c5 | apply c6 | apply cL | apply rel_step | apply rel_step2 | apply rel_ite | exact Rel.refl _))
      · obtain ⟨⟨i1, u1⟩, h1, h⟩ := Option.bind_eq_some.1 h
        have c1 := ih _ _ _ _ h1
        try dsimp only at h
        first | (cases h; (try dsimp only); clear ih; with_reducible (repeat' (first | assumption | apply c1 | apply c2 | apply c3 | apply c4 | apply c5 | apply c6 | apply cL | apply rel_step | apply rel_step2 | apply rel_ite | exact Rel.refl _))) | (have cL := ih _ _ _ _ h; (try dsimp only); clear ih; with_reducible (repeat' (first | assumption | apply c1 | apply c2 | apply c3 | apply c4 | apply c5 | apply c6 | apply cL | apply rel_step | apply rel_step2 | apply rel_ite | exact Rel.refl _)))



theorem keeps_refl (s : State) : Keeps s s := ⟨rfl, rfl⟩

theorem keeps_trans {s t u : State} (h1 : Keeps s t) (h2 : Keeps t u) : Keeps s u :=
  ⟨h2.1.trans h1.1, h2.2.trans h1.2⟩

theorem Keeps.remaining_eq {s t : State} (h : Keeps s t) : remaining t = remaining s := by
  simp only [remaining, h.1, h.2]

theorem keeps_ite {s a b : State} (c : Prop) [Decidable c] (ha : Keeps s a) (hb : Keeps s b) :
    Keeps s (if c then a else b) := by
  split
  · exact ha
  · exact hb

theorem keeps_errorAt {s t : State} (token : Token) (message : String) (h : Keeps s t) :
    Keeps s (errorAt token message t) :=
  keeps_trans h ⟨errorAt_current _ _ _, errorAt_source _ _ _⟩

theorem keeps_error {s t : State} (message : String) (h : Keeps s t) :
    Keeps s (error message t) := keeps_errorAt _ _ h

theorem keeps_errorAtCurrent {s t : State} (message : String) (h : Keeps s t) :
    Keeps s (errorAtCurrent message t) := keeps_errorAt _ _ h

theorem keeps_modifyCurrent {s t : State} (f : Compiler → Compiler) (h : Keeps s t) :
    Keeps s (modifyCurrent f t) := by
  unfold modifyCurrent
  split <;> exact h

theorem keeps_emitByte {s t : State} (byte : Nat) (h : Keeps s t) : Keeps s (emitByte byte t) :=
  keeps_modifyCurrent _ h

theorem keeps_emitBytes {s t : State} (byte1 byte2 : Nat) (h : Keeps s t) :
    Keeps s (emitBytes byte1 byte2 t) :=
  keeps_emitByte _ (keeps_emitByte _ h)

theorem keeps_makeConstant {s t : State} (value : Value) (h : Keeps s t) :
    Keeps s (makeConstant value t).2 := by
  unfold makeConstant
  simp only
  split
  · exact keeps_error _ (keeps_modifyCurrent _ h)
  · exact keeps_modifyCurrent _ h

theorem keeps_identifierConstant {s t : State} (x : Extern) (name : String) (h : Keeps s t) :
    Keeps s (identifierConstant x name t).2 :=
  keeps_makeConstant _ h

theorem keeps_addLocal {s t : State} (name : String) (h : Keeps s t) :
    Keeps s (addLocal name t) := by
  unfold addLocal
  exact keeps_ite _ (keeps_error _ h) (keeps_modifyCurrent _ h)

theorem keeps_declareVariableLoop {s : State} (name : String) (n : Nat) : ∀ {t : State},
    Keeps s t → Keeps s (declareVariableLoop name n t) := by
  induction n with
  | zero => intro t h; exact h
  | succ n ih =>
    intro t h
    unfold declareVariableLoop
    split
    · exact h
    · split
      · exact h
      · split
        · exact h
        · exact ih (keeps_ite _ (keeps_error _ h) h)

theorem keeps_declareVariable {s t : State} (h : Keeps s t) : Keeps s (declareVariable t) := by
  unfold declareVariable
  split
  · exact h
  · exact keeps_addLocal _ (keeps_declareVariableLoop _ _ h)

theorem keeps_markInitialized {s t : State} (h : Keeps s t) : Keeps s (markInitialized t) := by
  unfold markInitialized
  split
  · exact h
  · split
    · exact h
    · split <;> exact h

theorem keeps_defineVariable {s t : State} (global : Nat) (h : Keeps s t) :
    Keeps s (defineVariable global t) := by
  unfold defineVariable
  exact keeps_ite _ (keeps_markInitialized h) (keeps_emitBytes _ _ h)

theorem keeps_beginScope {s t : State} (h : Keeps s t) : Keeps s (beginScope t) :=
  keeps_modifyCurrent _ h

theorem keeps_initCompiler {s t : State} (x : Extern) (type : FunctionType) (h : Keeps s t) :
    Keeps s (initCompiler x type t) := h

theorem prog_refl (s : State) : Prog s s := Or.inr ⟨le_rfl, rfl⟩

theorem Prog.le {s t : State} (h : Prog s t) : remaining t ≤ remaining s := by
  rcases h with h | h
  · exact h.le
  · exact h.1

theorem Prog.keeps {s t u : State} (h : Prog s t) (hk : Keeps t u) : Prog s u := by
  unfold Prog at *
  rw [hk.remaining_eq, hk.1]
  exact h

/-- The use of `Prog`: a step from `t` that consumes a token when the current one is not
`TOKEN_EOF` has consumed one since `s`. -/
theorem Prog.lt {s t : State} {m : Nat} (h : Prog s t)
    (hs : s.parser.current.type ≠ TOKEN_EOF) (hle : m ≤ remaining t)
    (hm : t.parser.current.type ≠ TOKEN_EOF → m < remaining t) : m < remaining s := by
  rcases h with h | ⟨h1, h2⟩
  · exact lt_of_le_of_lt hle h
  · rw [← h2] at hs
    exact (hm hs).trans_le h1

theorem prog_ite {s a b : State} {c : Prop} [Decidable c] (ha : Prog s a) (hb : Prog s b) :
    Prog s (if c then a else b) := by
  split
  · exact ha
  · exact hb

theorem prog_advance {s t : State} (hs : s.parser.current.type ≠ TOKEN_EOF) (h : Prog s t) :
    remaining (advance t) < remaining s :=
  h.lt hs (rel_advance (Rel.refl t)).remLe (remaining_advance_lt t)

theorem prog_consume {s t : State} (type : TokenType) (message : String)
    (hs : s.parser.current.type ≠ TOKEN_EOF) (h : Prog s t) :
    Prog s (consume type message t) := by
  unfold consume
  split
  · exact Or.inl (prog_advance hs h)
  · exact h.keeps (keeps_errorAtCurrent _ (keeps_refl t))

theorem prog_matchToken {s t : State} (type : TokenType)
    (hs : s.parser.current.type ≠ TOKEN_EOF) (h : Prog s t) :
    Prog s (matchToken type t).2 := by
  unfold matchToken
  split
  · exact h
  · exact Or.inl (prog_advance hs h)

theorem prog_parseVariable {s t : State} (x : Extern) (errorMessage : String)
    (hs : s.parser.current.type ≠ TOKEN_EOF) (h : Prog s t) :
    Prog s (parseVariable x errorMessage t).2 := by
  unfold parseVariable
  simp only
  have h1 := (prog_consume TOKEN_IDENTIFIER errorMessage hs h).keeps
    (keeps_declareVariable (keeps_refl _))
  split
  · exact h1
  · exact h1.keeps (keeps_identifierConstant _ _ (keeps_refl _))

theorem prog_functionParams {s : State} (x : Extern) (fuel : Nat)
    (hs : s.parser.current.type ≠ TOKEN_EOF) : ∀ {t : State}, Prog s t →
    Prog s (functionParams x fuel t) := by
  induction fuel with
  | zero => intro t h; exact h
  | succ fuel ih =>
    intro t h
    have h0 := h.keeps (keeps_modifyCurrent (fun c => { c with
      function := { c.function with arity := c.function.arity + 1 } }) (keeps_refl t))
    unfold functionParams
    simp only
    generalize modifyCurrent _ t = t0 at h0
    apply prog_ite
    · apply ih
      apply prog_matchToken _ hs
      refine Prog.keeps ?_ (keeps_defineVariable _ (keeps_refl _))
      apply prog_parseVariable _ _ hs
      exact h0.keeps (keeps_ite _ (keeps_errorAtCurrent _ (keeps_refl _)) (keeps_refl _))
    · apply prog_matchToken _ hs
      refine Prog.keeps ?_ (keeps_defineVariable _ (keeps_refl _))
      apply prog_parseVariable _ _ hs
      exact h0.keeps (keeps_ite _ (keeps_errorAtCurrent _ (keeps_refl _)) (keeps_refl _))

/-- A successful `match` of a token type other than `TOKEN_EOF` consumes a token. -/
theorem matchToken_lt {type : TokenType} {t : State} (h : (matchToken type t).1 = true)
    (hne : type ≠ TOKEN_EOF) : remaining (matchToken type t).2 < remaining t := by
  unfold matchToken at h ⊢
  split at h
  · cases h
  · next hc =>
    rw [if_neg hc]
    apply remaining_advance_lt
    simp only [check, Bool.not_eq_true, Bool.not_eq_true', decide_eq_false_iff_not, not_not] at hc
    rw [hc]
    exact hne

/-- A failed `match` leaves the state alone. -/
theorem matchToken_snd {type : TokenType} {t : State} (h : ¬(matchToken type t).1 = true) :
    (matchToken type t).2 = t := by
  unfold matchToken at h ⊢
  split
  · rfl
  · next hc => rw [if_neg hc] at h; exact absurd rfl h

theorem cur_ne_eof_of_prefixRule {t : State} {f : ParseFn}
    (h : (getRule (advance t).parser.previous.type).prefixRule = some f) :
    t.parser.current.type ≠ TOKEN_EOF := by
  rw [advance_previous] at h
  intro he
  rw [he] at h
  cases h

theorem cur_ne_eof_of_infixRule {t : State} {f : ParseFn}
    (h : (getRule (advance t).parser.previous.type).infixRule = some f) :
    t.parser.current.type ≠ TOKEN_EOF := by
  rw [advance_previous] at h
  intro he
  rw [he] at h
  cases h

theorem remaining_endCompiler (t : State) : remaining (endCompiler t).2 ≤ remaining t := by
  have h := (rel_emitReturn (Rel.refl t)).remLe
  unfold endCompiler
  simp only
  split
  · exact h
  · exact h

/-- The step to the bound of a call: the callee is of lower rank, or a token was consumed
before the call. -/
theorem bound_step {n rq rp mt ms : Nat} (ih : n ≤ rq + 10 * mt) (hq : rq ≤ 9)
    (hle : mt ≤ ms) (hr : rq < rp ∨ mt < ms) : n + 1 ≤ rp + 10 * ms := by
  omega

theorem Proc.rank_le (p : Proc) : p.rank ≤ 9 := by
  cases p <;> simp [Proc.rank]

theorem bind_eq_none_cases {α β : Type} {o : Option α} {k : α → Option β}
    (h : o.bind k = none) : o = none ∨ ∃ a, o = some a ∧ k a = none := by
  cases o with
  | none => exact Or.inl rfl
  | some a => exact Or.inr ⟨a, rfl, h⟩



/-- The procedures marked `consuming` consume at least one token when they are entered
with a current token other than `TOKEN_EOF`. -/
theorem exec_consumes (x : Extern) : ∀ (n : Nat) (p : Proc) (s : State) (i : Int) (u : State),
    exec x n p s = some (i, u) → p.consuming = true → s.parser.current.type ≠ TOKEN_EOF →
    remaining u < remaining s := by
  intro n
  induction n with
  | zero =>
    intro p s i u h
    simp [exec] at h
  | succ n ih =>
    intro p s i u h hp hs
    cases p with
    | parsePrecedence precedence =>
      simp only [exec] at h
      have h0 := remaining_advance_lt s hs
      have hr : Rel (advance s) u := by
        split at h
        · cases h
          exact rel_error _ (Rel.refl _)
        · obtain ⟨⟨i1, u1⟩, h1, h⟩ := Option.bind_eq_some.1 h
          have k1 := exec_rel x _ _ _ _ _ h1
          dsimp only at h
          obtain ⟨⟨i2, u2⟩, h2, h⟩ := Option.bind_eq_some.1 h
          have k2 := k1.trans (exec_rel x _ _ _ _ _ h2)
          dsimp only at h
          rcases ite_eq_cases h with ⟨_, h⟩ | ⟨_, h⟩
          · rcases ite_eq_cases h with ⟨_, h⟩ | ⟨_, h⟩
            · cases h
              exact rel_error _ (rel_matchToken _ k2)
            · cases h
              exact rel_matchToken _ k2
          · cases h
            exact k2
      have h3 := hr.remLe
      omega
    | expression =>
      simp only [exec] at h
      exact ih _ _ _ _ h rfl hs
    | expressionStatement =>
      simp only [exec] at h
      obtain ⟨⟨i1, u1⟩, h1, h⟩ := Option.bind_eq_some.1 h
      have l1 := ih _ _ _ _ h1 rfl hs
      cases h
      exact lt_of_le_of_lt (rel_emitByte _ (rel_consume _ _ (Rel.refl u1))).remLe l1
    | statement =>
      simp only [exec] at h
      rcases ite_eq_cases h with ⟨hc, h⟩ | ⟨hc, h⟩
      · exact lt_of_le_of_lt (exec_rel x _ _ _ _ _ h).remLe (matchToken_lt hc (by decide))
      rw [matchToken_snd hc] at h
      rcases ite_eq_cases h with ⟨hc, h⟩ | ⟨hc, h⟩
      · exact lt_of_le_of_lt (exec_rel x _ _ _ _ _ h).remLe (matchToken_lt hc (by decide))
      rw [matchToken_snd hc] at h
      rcases ite_eq_cases h with ⟨hc, h⟩ | ⟨hc, h⟩
      · exact lt_of_le_of_lt (exec_rel x _ _ _ _ _ h).remLe (matchToken_lt hc (by decide))
      rw [matchToken_snd hc] at h
      rcases ite_eq_cases h with ⟨hc, h⟩ | ⟨hc, h⟩
      · exact lt_of_le_of_lt (exec_rel x _ _ _ _ _ h).remLe (matchToken_lt hc (by decide))
      rw [matchToken_snd hc] at h
      rcases ite_eq_cases h with ⟨hc, h⟩ | ⟨hc, h⟩
      · exact lt_of_le_of_lt (exec_rel x _ _ _ _ _ h).remLe (matchToken_lt hc (by decide))
      rw [matchToken_snd hc] at h
      rcases ite_eq_cases h with ⟨hc, h⟩ | ⟨hc, h⟩
      · obtain ⟨⟨i1, u1⟩, h1, h⟩ := Option.bind_eq_some.1 h
        cases h
        have l0 := matchToken_lt hc (by decide)
        have l1 := (exec_rel x _ _ _ _ _ h1).remLe
        have l2 := (rel_beginScope (Rel.refl (matchToken TOKEN_LEFT_BRACE s).2)).remLe
        have l3 := (rel_endScope (Rel.refl u1)).remLe
        dsimp only
        omega
      rw [matchToken_snd hc] at h
      exact ih _ _ _ _ h rfl hs
    | declaration =>
      simp only [exec] at h
      obtain ⟨⟨i1, u1⟩, h1, h⟩ := Option.bind_eq_some.1 h
      have l1 : remaining u1 < remaining s := by
        rcases ite_eq_cases h1 with ⟨hc, h1⟩ | ⟨hc, h1⟩
        · exact lt_of_le_of_lt (exec_rel x _ _ _ _ _ h1).remLe (matchToken_lt hc (by decide))
        rw [matchToken_snd hc] at h1
        rcases ite_eq_cases h1 with ⟨hc, h1⟩ | ⟨hc, h1⟩
        · exact lt_of_le_of_lt (exec_rel x _ _ _ _ _ h1).remLe (matchToken_lt hc (by decide))
        rw [matchToken_snd hc] at h1
        rcases ite_eq_cases h1 with ⟨hc, h1⟩ | ⟨hc, h1⟩
        · exact lt_of_le_of_lt (exec_rel x _ _ _ _ _ h1).remLe (matchToken_lt hc (by decide))
        rw [matchToken_snd hc] at h1
        exact ih _ _ _ _ h1 rfl hs
      rcases ite_eq_cases h with ⟨_, h⟩ | ⟨_, h⟩
      · cases h
        exact lt_of_le_of_lt (rel_synchronize (Rel.refl u1)).remLe l1
      · cases h
        exact l1
    | block =>
      simp only [exec] at h
      rcases ite_eq_cases h with ⟨hc, h⟩ | ⟨hc, h⟩
      · obtain ⟨⟨i1, u1⟩, h1, h⟩ := Option.bind_eq_some.1 h
        exact lt_of_le_of_lt (exec_rel x _ _ _ _ _ h).remLe (ih _ _ _ _ h1 rfl hs)
      · cases h
        have hrb : s.parser.current.type = TOKEN_RIGHT_BRACE := by
          simpa [check, hs] using hc
        unfold consume
        rw [if_pos hrb]
        exact remaining_advance_lt s hs
    | function type =>
      simp only [exec] at h
      obtain ⟨⟨i1, u1⟩, h1, h⟩ := Option.bind_eq_some.1 h
      have l1 : remaining u1 < remaining s := by
        refine Prog.lt ?_ hs (exec_rel x _ _ _ _ _ h1).remLe (fun ht => ih _ _ _ _ h1 rfl ht)
        have p0 := prog_consume TOKEN_LEFT_PAREN "Expect '(' after function name." hs
          ((prog_refl s).keeps (keeps_beginScope (keeps_initCompiler x type (keeps_refl s))))
        apply prog_consume _ _ hs
        apply prog_consume _ _ hs
        apply prog_ite
        · exact prog_functionParams _ _ hs p0
        · exact p0
      have l2 : remaining u ≤ remaining u1 := by
        have e := remaining_endCompiler u1
        dsimp only at h
        split at h
        · cases h
          exact e
        · cases h
          exact le_trans (rel_emitUpvalues _ _ (rel_emitBytes _ _
            (rel_makeConstant _ (Rel.refl _)))).remLe e
      omega
    | method =>
      simp only [exec] at h
      obtain ⟨⟨i1, u1⟩, h1, h⟩ := Option.bind_eq_some.1 h
      have l1 : remaining u1 < remaining s := by
        refine Prog.lt ?_ hs (exec_rel x _ _ _ _ _ h1).remLe (fun ht => ih _ _ _ _ h1 rfl ht)
        exact (prog_consume _ _ hs (prog_refl s)).keeps
          (keeps_identifierConstant _ _ (keeps_refl _))
      cases h
      exact lt_of_le_of_lt (rel_emitBytes _ _ (Rel.refl u1)).remLe l1
    | _ => simp [Proc.consuming] at hp



theorem exec_rel_from (x : Extern) {n : Nat} {p : Proc} {t : State} {i : Int} {u : State}
    (h : exec x n p t = some (i, u)) : ∀ s, Rel s t → Rel s u :=
  fun _ hs => hs.trans (exec_rel x _ _ _ _ _ h)

theorem matchToken_fst (type : TokenType) (t : State) :
    (matchToken type t).1 = true ↔ t.parser.current.type = type := by
  unfold matchToken
  by_cases h : t.parser.current.type = type <;> simp [check, h]

set_option maxHeartbeats 4000000 in
set_option linter.unusedTactic false in
set_option linter.unreachableTactic false in
/-- A call that runs out of fuel was given less fuel than the rank of the procedure plus
ten times the number of tokens still to be parsed: with more fuel every call returns. -/
theorem exec_bound (x : Extern) : ∀ (n : Nat) (p : Proc) (s : State),
    exec x n p s = none → n ≤ p.rank + 10 * remaining s := by
  intro n
  induction n with
  | zero =>
    intro p s _
    exact Nat.zero_le _
  | succ n ih =>
    intro p s h
    cases p with
    | parsePrecedence precedence =>
      simp only [exec] at h
      split at h
      · cases h
      · rename_i f heq
        have l0 := remaining_advance_lt s (cur_ne_eof_of_prefixRule heq)
        rcases bind_eq_none_cases h with h1 | ⟨⟨i1, u1⟩, h1, h⟩
        · exact bound_step (ih _ _ h1) (Proc.rank_le _) (Rel.remLe (s := s) (by with_reducible (repeat' (first | assumption | exact Rel.refl _ | apply c1 | apply c2 | apply c3 | apply c4 | apply c5 | apply c6 | apply rel_step | apply rel_step2 | apply rel_ite)))) (Or.inr (l0))
        have c1 := exec_rel_from x h1
        try dsimp only at h
        rcases bind_eq_none_cases h with h2 | ⟨⟨i2, u2⟩, h2, h⟩
        · exact bound_step (ih _ _ h2) (Proc.rank_le _) (Rel.remLe (s := s) (by with_reducible (repeat' (first | assumption | exact Rel.refl _ | apply c1 | apply c2 | apply c3 | apply c4 | apply c5 | apply c6 | apply rel_step | apply rel_step2 | apply rel_ite)))) (Or.inr (lt_of_le_of_lt (exec_rel x _ _ _ _ _ h1).remLe l0))
        have c2 := exec_rel_from x h2
        try dsimp only at h
        rcases ite_eq_cases h with ⟨_, h⟩ | ⟨_, h⟩
        · rcases ite_eq_cases h with ⟨_, h⟩ | ⟨_, h⟩ <;> cases h
        · cases h
    | parsePrecedenceLoop precedence canAssign =>
      simp only [exec] at h
      rcases ite_eq_cases h with ⟨hc, h⟩ | ⟨hc, h⟩
      · split at h
        · cases h
        · rename_i f heq
          have l0 := remaining_advance_lt s (cur_ne_eof_of_infixRule heq)
          rcases bind_eq_none_cases h with h1 | ⟨⟨i1, u1⟩, h1, h⟩
          · exact bound_step (ih _ _ h1) (Proc.rank_le _) (Rel.remLe (s := s) (by with_reducible (repeat' (first | assumption | exact Rel.refl _ | apply c1 | apply c2 | apply c3 | apply c4 | apply c5 | apply c6 | apply rel_step | apply rel_step2 | apply rel_ite)))) (Or.inr (l0))
          have c1 := exec_rel_from x h1
          try dsimp only at h
          exact bound_step (ih _ _ h) (Proc.rank_le _) (Rel.remLe (s := s) (by with_reducible (repeat' (first | assumption | exact Rel.refl _ | apply c1 | apply c2 | apply c3 | apply c4 | apply c5 | apply c6 | apply rel_step | apply rel_step2 | apply rel_ite)))) (Or.inr (lt_of_le_of_lt (exec_rel x _ _ _ _ _ h1).remLe l0))
      · cases h
    | and_ canAssign =>
      simp only [exec] at h
      rcases bind_eq_none_cases h with h1 | ⟨⟨i1, u1⟩, h1, h⟩
      · exact bound_step (ih _ _ h1) (Proc.rank_le _) (Rel.remLe (s := s) (by with_reducible (repeat' (first | assumption | exact Rel.refl _ | apply c1 | apply c2 | apply c3 | apply c4 | apply c5 | apply c6 | apply rel_step | apply rel_step2 | apply rel_ite)))) (Or.inl (by simp [Proc.rank]))
      have c1 := exec_rel_from x h1
      try dsimp only at h
      cases h
    | or_ canAssign =>
      simp only [exec] at h
      rcases bind_eq_none_cases h with h1 | ⟨⟨i1, u1⟩, h1, h⟩
      · exact bound_step (ih _ _ h1) (Proc.rank_le _) (Rel.remLe (s := s) (by with_reducible (repeat' (first | assumption | exact Rel.refl _ | apply c1 | apply c2 | apply c3 | apply c4 | apply c5 | apply c6 | apply rel_step | apply rel_step2 | apply rel_ite)))) (Or.inl (by simp [Proc.rank]))
      have c1 := exec_rel_from x h1
      try dsimp only at h
      cases h
    | expression =>
      simp only [exec] at h
      exact bound_step (ih _ _ h) (Proc.rank_le _) (Rel.remLe (s := s) (by with_reducible (repeat' (first | assumption | exact Rel.refl _ | apply c1 | apply c2 | apply c3 | apply c4 | apply c5 | apply c6 | apply rel_step | apply rel_step2 | apply rel_ite)))) (Or.inl (by simp [Proc.rank]))
    | varDeclaration =>
      simp only [exec] at h
      rcases bind_eq_none_cases h with h1 | ⟨⟨i1, u1⟩, h1, h⟩
      · rcases ite_eq_cases h1 with ⟨_, h1⟩ | ⟨_, h1⟩
        · exact bound_step (ih _ _ h1) (Proc.rank_le _) (Rel.remLe (s := s) (by with_reducible (repeat' (first | assumption | exact Rel.refl _ | apply c1 | apply c2 | apply c3 | apply c4 | apply c5 | apply c6 | apply rel_step | apply rel_step2 | apply rel_ite)))) (Or.inl (by simp [Proc.rank]))
        · cases h1
      cases h
    | expressionStatement =>
      simp only [exec] at h
      rcases bind_eq_none_cases h with h1 | ⟨⟨i1, u1⟩, h1, h⟩
      · exact bound_step (ih _ _ h1) (Proc.rank_le _) (Rel.remLe (s := s) (by with_reducible (repeat' (first | assumption | exact Rel.refl _ | apply c1 | apply c2 | apply c3 | apply c4 | apply c5 | apply c6 | apply rel_step | apply rel_step2 | apply rel_ite)))) (Or.inl (by simp [Proc.rank]))
      have c1 := exec_rel_from x h1
      try dsimp only at h
      cases h
    | forStatement =>
      simp only [exec] at h
      rcases bind_eq_none_cases h with h1 | ⟨⟨i1, u1⟩, h1, h⟩
      · rcases ite_eq_cases h1 with ⟨_, h1⟩ | ⟨_, h1⟩
        · cases h1
        · rcases ite_eq_cases h1 with ⟨_, h1⟩ | ⟨_, h1⟩
          · exact bound_step (ih _ _ h1) (Proc.rank_le _) (Rel.remLe (s := s) (by with_reducible (repeat' (first | assumption | exact Rel.refl _ | apply c1 | apply c2 | apply c3 | apply c4 | apply c5 | apply c6 | apply rel_step | apply rel_step2 | apply rel_ite)))) (Or.inl (by simp [Proc.rank]))
          · exact bound_step (ih _ _ h1) (Proc.rank_le _) (Rel.remLe (s := s) (by with_reducible (repeat' (first | assumption | exact Rel.refl _ | apply c1 | apply c2 | apply c3 | apply c4 | apply c5 | apply c6 | apply rel_step | apply rel_step2 | apply rel_ite)))) (Or.inl (by simp [Proc.rank]))
      have k1 : Rel s u1 := by
        rcases ite_eq_cases h1 with ⟨_, h1⟩ | ⟨_, h1⟩
        · cases h1; (try dsimp only); with_reducible (repeat' (first | assumption | exact Rel.refl _ | apply c1 | apply c2 | apply c3 | apply c4 | apply c5 | apply c6 | apply rel_step | apply rel_step2 | apply rel_ite))
        · rcases ite_eq_cases h1 with ⟨_, h1⟩ | ⟨_, h1⟩
          · have c1 := exec_rel_from x h1; (try dsimp only); with_reducible (repeat' (first | assumption | exact Rel.refl _ | apply c1 | apply c2 | apply c3 | apply c4 | apply c5 | apply c6 | apply rel_step | apply rel_step2 | apply rel_ite))
          · have c1 := exec_rel_from x h1; (try dsimp only); with_reducible (repeat' (first | assumption | exact Rel.refl _ | apply c1 | apply c2 | apply c3 | apply c4 | apply c5 | apply c6 | apply rel_step | apply rel_step2 | apply rel_ite))
      try dsimp only at h
      rcases bind_eq_none_cases h with h2 | ⟨⟨i2, u2⟩, h2, h⟩
      · rcases ite_eq_cases h2 with ⟨_, h2⟩ | ⟨_, h2⟩
        · rcases bind_eq_none_cases h2 with h5 | ⟨⟨i5, u5⟩, h5, h2⟩
          · exact bound_step (ih _ _ h5) (Proc.rank_le _) (Rel.remLe (s := s) (by with_reducible (repeat' (first | assumption | exact Rel.refl _ | apply c1 | apply c2 | apply c3 | apply c4 | apply c5 | apply c6 | apply rel_step | apply rel_step2 | apply rel_ite)))) (Or.inl (by simp [Proc.rank]))
          · cases h2
        · cases h2
      have k2 : Rel s u2 := by
        rcases ite_eq_cases h2 with ⟨_, h2⟩ | ⟨_, h2⟩
        · obtain ⟨⟨i5, u5⟩, h5, h2⟩ := Option.bind_eq_some.1 h2
          have c5 := exec_rel_from x h5
          try dsimp only at h2
          cases h2; (try dsimp only); with_reducible (repeat' (first | assumption | exact Rel.refl _ | apply c1 | apply c2 | apply c3 | apply c4 | apply c5 | apply c6 | apply rel_step | apply rel_step2 | apply rel_ite))
        · cases h2; (try dsimp only); with_reducible (repeat' (first | assumption | exact Rel.refl _ | apply c1 | apply c2 | apply c3 | apply c4 | apply c5 | apply c6 | apply rel_step | apply rel_step2 | apply rel_ite))
      try dsimp only at h
      rcases bind_eq_none_cases h with h3 | ⟨⟨i3, u3⟩, h3, h⟩
      · rcases ite_eq_cases h3 with ⟨_, h3⟩ | ⟨_, h3⟩
        · rcases bind_eq_none_cases h3 with h6 | ⟨⟨i6, u6⟩, h6, h3⟩
          · exact bound_step (ih _ _ h6) (Proc.rank_le _) (Rel.remLe (s := s) (by with_reducible (repeat' (first | assumption | exact Rel.refl _ | apply c1 | apply c2 | apply c3 | apply c4 | apply c5 | apply c6 | apply rel_step | apply rel_step2 | apply rel_ite)))) (Or.inl (by simp [Proc.rank]))
          · cases h3
        · cases h3
      have k3 : Rel s u3 := by
        rcases ite_eq_cases h3 with ⟨_, h3⟩ | ⟨_, h3⟩
        · obtain ⟨⟨i6, u6⟩, h6, h3⟩ := Option.bind_eq_some.1 h3
          have c6 := exec_rel_from x h6
          try dsimp only at h3
          cases h3; (try dsimp only); with_reducible (repeat' (first | assumption | exact Rel.refl _ | apply c1 | apply c2 | apply c3 | apply c4 | apply c5 | apply c6 | apply rel_step | apply rel_step2 | apply rel_ite))
        · cases h3; (try dsimp only); with_reducible (repeat' (first | assumption | exact Rel.refl _ | apply c1 | apply c2 | apply c3 | apply c4 | apply c5 | apply c6 | apply rel_step | apply rel_step2 | apply rel_ite))
      try dsimp only at h
      rcases bind_eq_none_cases h with h4 | ⟨⟨i4, u4⟩, h4, h⟩
      · exact bound_step (ih _ _ h4) (Proc.rank_le _) (Rel.remLe (s := s) (by with_reducible (repeat' (first | assumption | exact Rel.refl _ | apply c1 | apply c2 | apply c3 | apply c4 | apply c5 | apply c6 | apply rel_step | apply rel_step2 | apply rel_ite)))) (Or.inl (by simp [Proc.rank]))
      have c4 := exec_rel_from x h4
      try dsimp only at h
      cases h
    | ifStatement =>
      simp only [exec] at h
      rcases bind_eq_none_cases h with h1 | ⟨⟨i1, u1⟩, h1, h⟩
      · exact bound_step (ih _ _ h1) (Proc.rank_le _) (Rel.remLe (s := s) (by with_reducible (repeat' (first | assumption | exact Rel.refl _ | apply c1 | apply c2 | apply c3 | apply c4 | apply c5 | apply c6 | apply rel_step | apply rel_step2 | apply rel_ite)))) (Or.inl (by simp [Proc.rank]))
      have c1 := exec_rel_from x h1
      try dsimp only at h
      rcases bind_eq_none_cases h with h2 | ⟨⟨i2, u2⟩, h2, h⟩
      · exact bound_step (ih _ _ h2) (Proc.rank_le _) (Rel.remLe (s := s) (by with_reducible (repeat' (first | assumption | exact Rel.refl _ | apply c1 | apply c2 | apply c3 | apply c4 | apply c5 | apply c6 | apply rel_step | apply rel_step2 | apply rel_ite)))) (Or.inl (by simp [Proc.rank]))
      have c2 := exec_rel_from x h2
      try dsimp only at h
      rcases bind_eq_none_cases h with h3 | ⟨⟨i3, u3⟩, h3, h⟩
      · rcases ite_eq_cases h3 with ⟨_, h3⟩ | ⟨_, h3⟩
        · exact bound_step (ih _ _ h3) (Proc.rank_le _) (Rel.remLe (s := s) (by with_reducible (repeat' (first | assumption | exact Rel.refl _ | apply c1 | apply c2 | apply c3 | apply c4 | apply c5 | apply c6 | apply rel_step | apply rel_step2 | apply rel_ite)))) (Or.inl (by simp [Proc.rank]))
        · cases h3
      cases h
    | whileStatement =>
      simp only [exec] at h
      rcases bind_eq_none_cases h with h1 | ⟨⟨i1, u1⟩, h1, h⟩
      · exact bound_step (ih _ _ h1) (Proc.rank_le _) (Rel.remLe (s := s) (by with_reducible (repeat' (first | assumption | exact Rel.refl _ | apply c1 | apply c2 | apply c3 | apply c4 | apply c5 | apply c6 | apply rel_step | apply rel_step2 | apply rel_ite)))) (Or.inl (by simp [Proc.rank]))
      have c1 := exec_rel_from x h1
      try dsimp only at h
      rcases bind_eq_none_cases h with h2 | ⟨⟨i2, u2⟩, h2, h⟩
      · exact bound_step (ih _ _ h2) (Proc.rank_le _) (Rel.remLe (s := s) (by with_reducible (repeat' (first | assumption | exact Rel.refl _ | apply c1 | apply c2 | apply c3 | apply c4 | apply c5 | apply c6 | apply rel_step | apply rel_step2 | apply rel_ite)))) (Or.inl (by simp [Proc.rank]))
      have c2 := exec_rel_from x h2
      try dsimp only at h
      cases h
    | printStatement =>
      simp only [exec] at h
      rcases bind_eq_none_cases h with h1 | ⟨⟨i1, u1⟩, h1, h⟩
      · exact bound_step (ih _ _ h1) (Proc.rank_le _) (Rel.remLe (s := s) (by with_reducible (repeat' (first | assumption | exact Rel.refl _ | apply c1 | apply c2 | apply c3 | apply c4 | apply c5 | apply c6 | apply rel_step | apply rel_step2 | apply rel_ite)))) (Or.inl (by simp [Proc.rank]))
      have c1 := exec_rel_from x h1
      try dsimp only at h
      cases h
    | returnStatement =>
      simp only [exec] at h
      rcases ite_eq_cases h with ⟨hc, h⟩ | ⟨hc, h⟩
      · cases h
      · rcases bind_eq_none_cases h with h1 | ⟨⟨i1, u1⟩, h1, h⟩
        · exact bound_step (ih _ _ h1) (Proc.rank_le _) (Rel.remLe (s := s) (by with_reducible (repeat' (first | assumption | exact Rel.refl _ | apply c1 | apply c2 | apply c3 | apply c4 | apply c5 | apply c6 | apply rel_step | apply rel_step2 | apply rel_ite)))) (Or.inl (by simp [Proc.rank]))
        have c1 := exec_rel_from x h1
        try dsimp only at h
        cases h
    | declaration =>
      simp only [exec] at h
      rcases bind_eq_none_cases h with h | ⟨⟨i1, u1⟩, h1, h⟩
      · rcases ite_eq_cases h with ⟨hc, h⟩ | ⟨hc, h⟩
        · exact bound_step (ih _ _ h) (Proc.rank_le _) (Rel.remLe (s := s) (by with_reducible (repeat' (first | assumption | exact Rel.refl _ | apply c1 | apply c2 | apply c3 | apply c4 | apply c5 | apply c6 | apply rel_step | apply rel_step2 | apply rel_ite)))) (Or.inr (matchToken_lt hc (by decide)))
        rw [matchToken_snd hc] at h
        rcases ite_eq_cases h with ⟨hc, h⟩ | ⟨hc, h⟩
        · exact bound_step (ih _ _ h) (Proc.rank_le _) (Rel.remLe (s := s) (by with_reducible (repeat' (first | assumption | exact Rel.refl _ | apply c1 | apply c2 | apply c3 | apply c4 | apply c5 | apply c6 | apply rel_step | apply rel_step2 | apply rel_ite)))) (Or.inr (matchToken_lt hc (by decide)))
        rw [matchToken_snd hc] at h
        rcases ite_eq_cases h with ⟨hc, h⟩ | ⟨hc, h⟩
        · exact bound_step (ih _ _ h) (Proc.rank_le _) (Rel.remLe (s := s) (by with_reducible (repeat' (first | assumption | exact Rel.refl _ | apply c1 | apply c2 | apply c3 | apply c4 | apply c5 | apply c6 | apply rel_step | apply rel_step2 | apply rel_ite)))) (Or.inr (matchToken_lt hc (by decide)))
        rw [matchToken_snd hc] at h
        exact bound_step (ih _ _ h) (Proc.rank_le _) (Rel.remLe (s := s) (by with_reducible (repeat' (first | assumption | exact Rel.refl _ | apply c1 | apply c2 | apply c3 | apply c4 | apply c5 | apply c6 | apply rel_step | apply rel_step2 | apply rel_ite)))) (Or.inl (by simp [Proc.rank]))
      try dsimp only at h
      rcases ite_eq_cases h with ⟨_, h⟩ | ⟨_, h⟩ <;> cases h
    | statement =>
      simp only [exec] at h
      rcases ite_eq_cases h with ⟨hc, h⟩ | ⟨hc, h⟩
      · exact bound_step (ih _ _ h) (Proc.rank_le _) (Rel.remLe (s := s) (by with_reducible (repeat' (first | assumption | exact Rel.refl _ | apply c1 | apply c2 | apply c3 | apply c4 | apply c5 | apply c6 | apply rel_step | apply rel_step2 | apply rel_ite)))) (Or.inr (matchToken_lt hc (by decide)))
      rw [matchToken_snd hc] at h
      rcases ite_eq_cases h with ⟨hc, h⟩ | ⟨hc, h⟩
      · exact bound_step (ih _ _ h) (Proc.rank_le _) (Rel.remLe (s := s) (by with_reducible (repeat' (first | assumption | exact Rel.refl _ | apply c1 | apply c2 | apply c3 | apply c4 | apply c5 | apply c6 | apply rel_step | apply rel_step2 | apply rel_ite)))) (Or.inr (matchToken_lt hc (by decide)))
      rw [matchToken_snd hc] at h
      rcases ite_eq_cases h with ⟨hc, h⟩ | ⟨hc, h⟩
      · exact bound_step (ih _ _ h) (Proc.rank_le _) (Rel.remLe (s := s) (by with_reducible (repeat' (first | assumption | exact Rel.refl _ | apply c1 | apply c2 | apply c3 | apply c4 | apply c5 | apply c6 | apply rel_step | apply rel_step2 | apply rel_ite)))) (Or.inr (matchToken_lt hc (by decide)))
      rw [matchToken_snd hc] at h
      rcases ite_eq_cases h with ⟨hc, h⟩ | ⟨hc, h⟩
      · exact bound_step (ih _ _ h) (Proc.rank_le _) (Rel.remLe (s := s) (by with_reducible (repeat' (first | assumption | exact Rel.refl _ | apply c1 | apply c2 | apply c3 | apply c4 | apply c5 | apply c6 | apply rel_step | apply rel_step2 | apply rel_ite)))) (Or.inr (matchToken_lt hc (by decide)))
      rw [matchToken_snd hc] at h
      rcases ite_eq_cases h with ⟨hc, h⟩ | ⟨hc, h⟩
      · exact bound_step (ih _ _ h) (Proc.rank_le _) (Rel.remLe (s := s) (by with_reducible (repeat' (first | assumption | exact Rel.refl _ | apply c1 | apply c2 | apply c3 | apply c4 | apply c5 | apply c6 | apply rel_step | apply rel_step2 | apply rel_ite)))) (Or.inr (matchToken_lt hc (by decide)))
      rw [matchToken_snd hc] at h
      rcases ite_eq_cases h with ⟨hc, h⟩ | ⟨hc, h⟩
      · rcases bind_eq_none_cases h with h1 | ⟨⟨i1, u1⟩, h1, h⟩
        · exact bound_step (ih _ _ h1) (Proc.rank_le _) (Rel.remLe (s := s) (by with_reducible (repeat' (first | assumption | exact Rel.refl _ | apply c1 | apply c2 | apply c3 | apply c4 | apply c5 | apply c6 | apply rel_step | apply rel_step2 | apply rel_ite)))) (Or.inr (lt_of_le_of_lt (rel_beginScope (Rel.refl _)).remLe (matchToken_lt hc (by decide))))
        have c1 := exec_rel_from x h1
        try dsimp only at h
        cases h
      rw [matchToken_snd hc] at h
      exact bound_step (ih _ _ h) (Proc.rank_le _) (Rel.remLe (s := s) (by with_reducible (repeat' (first | assumption | exact Rel.refl _ | apply c1 | apply c2 | apply c3 | apply c4 | apply c5 | apply c6 | apply rel_step | apply rel_step2 | apply rel_ite)))) (Or.inl (by simp [Proc.rank]))
    | block =>
      simp only [exec] at h
      rcases ite_eq_cases h with ⟨hc, h⟩ | ⟨hc, h⟩
      · have hne : s.parser.current.type ≠ TOKEN_EOF := by
          simp [check] at hc
          exact hc.2
        rcases bind_eq_none_cases h with h1 | ⟨⟨i1, u1⟩, h1, h⟩
        · exact bound_step (ih _ _ h1) (Proc.rank_le _) (Rel.remLe (s := s) (by with_reducible (repeat' (first | assumption | exact Rel.refl _ | apply c1 | apply c2 | apply c3 | apply c4 | apply c5 | apply c6 | apply rel_step | apply rel_step2 | apply rel_ite)))) (Or.inl (by simp [Proc.rank]))
        have c1 := exec_rel_from x h1
        try dsimp only at h
        exact bound_step (ih _ _ h) (Proc.rank_le _) (Rel.remLe (s := s) (by with_reducible (repeat' (first | assumption | exact Rel.refl _ | apply c1 | apply c2 | apply c3 | apply c4 | apply c5 | apply c6 | apply rel_step | apply rel_step2 | apply rel_ite)))) (Or.inr (exec_consumes x _ _ _ _ _ h1 rfl hne))
      · cases h
    | function type =>
      simp only [exec] at h
      rcases bind_eq_none_cases h with h1 | ⟨⟨i1, u1⟩, h1, h⟩
      · have e0 : remaining (initCompiler x type s) = remaining s := rfl
        rw [← e0]
        exact bound_step (ih _ _ h1) (Proc.rank_le _)
          (Rel.remLe (s := initCompiler x type s) (by with_reducible (repeat' (first | assumption | exact Rel.refl _ | apply c1 | apply c2 | apply c3 | apply c4 | apply c5 | apply c6 | apply rel_step | apply rel_step2 | apply rel_ite)))) (Or.inl (by simp [Proc.rank]))
      try dsimp only at h
      split at h <;> cases h
    | method =>
      simp only [exec] at h
      rcases bind_eq_none_cases h with h1 | ⟨⟨i1, u1⟩, h1, h⟩
      · exact bound_step (ih _ _ h1) (Proc.rank_le _) (Rel.remLe (s := s) (by with_reducible (repeat' (first | assumption | exact Rel.refl _ | apply c1 | apply c2 | apply c3 | apply c4 | apply c5 | apply c6 | apply rel_step | apply rel_step2 | apply rel_ite)))) (Or.inl (by simp [Proc.rank]))
      have c1 := exec_rel_from x h1
      try dsimp only at h
      cases h
    | classDeclaration =>
      simp only [exec] at h
      rcases bind_eq_none_cases h with h1 | ⟨⟨i1, u1⟩, h1, h⟩
      · rcases ite_eq_cases h1 with ⟨_, h1⟩ | ⟨_, h1⟩
        · rcases bind_eq_none_cases h1 with h4 | ⟨⟨i4, u4⟩, h4, h1⟩
          · exact bound_step (ih _ _ h4) (Proc.rank_le _) (Rel.remLe (s := s) (by with_reducible (repeat' (first | assumption | exact Rel.refl _ | apply c1 | apply c2 | apply c3 | apply c4 | apply c5 | apply c6 | apply rel_step | apply rel_step2 | apply rel_ite)))) (Or.inl (by simp [Proc.rank]))
          have c4 := exec_rel_from x h4
          try dsimp only at h1
          rcases bind_eq_none_cases h1 with h5 | ⟨⟨i5, u5⟩, h5, h1⟩
          · exact bound_step (ih _ _ h5) (Proc.rank_le _) (Rel.remLe (s := s) (by with_reducible (repeat' (first | assumption | exact Rel.refl _ | apply c1 | apply c2 | apply c3 | apply c4 | apply c5 | apply c6 | apply rel_step | apply rel_step2 | apply rel_ite)))) (Or.inl (by simp [Proc.rank]))
          have c5 := exec_rel_from x h5
          try dsimp only at h1
          cases h1
        · cases h1
      have k1 : Rel s u1 := by
        rcases ite_eq_cases h1 with ⟨_, h1⟩ | ⟨_, h1⟩
        · obtain ⟨⟨i4, u4⟩, h4, h1⟩ := Option.bind_eq_some.1 h1
          have c4 := exec_rel_from x h4
          try dsimp only at h1
          obtain ⟨⟨i5, u5⟩, h5, h1⟩ := Option.bind_eq_some.1 h1
          have c5 := exec_rel_from x h5
          try dsimp only at h1
          cases h1; (try dsimp only); with_reducible (repeat' (first | assumption | exact Rel.refl _ | apply c1 | apply c2 | apply c3 | apply c4 | apply c5 | apply c6 | apply rel_step | apply rel_step2 | apply rel_ite))
        · cases h1; (try dsimp only); with_reducible (repeat' (first | assumption | exact Rel.refl _ | apply c1 | apply c2 | apply c3 | apply c4 | apply c5 | apply c6 | apply rel_step | apply rel_step2 | apply rel_ite))
      try dsimp only at h
      rcases bind_eq_none_cases h with h2 | ⟨⟨i2, u2⟩, h2, h⟩
      · exact bound_step (ih _ _ h2) (Proc.rank_le _) (Rel.remLe (s := s) (by with_reducible (repeat' (first | assumption | exact Rel.refl _ | apply c1 | apply c2 | apply c3 | apply c4 | apply c5 | apply c6 | apply rel_step | apply rel_step2 | apply rel_ite)))) (Or.inl (by simp [Proc.rank]))
      have c2 := exec_rel_from x h2
      try dsimp only at h
      rcases bind_eq_none_cases h with h3 | ⟨⟨i3, u3⟩, h3, h⟩
      · exact bound_step (ih _ _ h3) (Proc.rank_le _) (Rel.remLe (s := s) (by with_reducible (repeat' (first | assumption | exact Rel.refl _ | apply c1 | apply c2 | apply c3 | apply c4 | apply c5 | apply c6 | apply rel_step | apply rel_step2 | apply rel_ite)))) (Or.inl (by simp [Proc.rank]))
      have c3 := exec_rel_from x h3
      try dsimp only at h
      cases h
    | classDeclarationLoop =>
      simp only [exec] at h
      rcases ite_eq_cases h with ⟨hc, h⟩ | ⟨hc, h⟩
      · have hne : s.parser.current.type ≠ TOKEN_EOF := by
          simp [check] at hc
          exact hc.2
        rcases bind_eq_none_cases h with h1 | ⟨⟨i1, u1⟩, h1, h⟩
        · exact bound_step (ih _ _ h1) (Proc.rank_le _) (Rel.remLe (s := s) (by with_reducible (repeat' (first | assumption | exact Rel.refl _ | apply c1 | apply c2 | apply c3 | apply c4 | apply c5 | apply c6 | apply rel_step | apply rel_step2 | apply rel_ite)))) (Or.inl (by simp [Proc.rank]))
        have c1 := exec_rel_from x h1
        try dsimp only at h
        exact bound_step (ih _ _ h) (Proc.rank_le _) (Rel.remLe (s := s) (by with_reducible (repeat' (first | assumption | exact Rel.refl _ | apply c1 | apply c2 | apply c3 | apply c4 | apply c5 | apply c6 | apply rel_step | apply rel_step2 | apply rel_ite)))) (Or.inr (exec_consumes x _ _ _ _ _ h1 rfl hne))
      · cases h
    | funDeclaration =>
      simp only [exec] at h
      rcases bind_eq_none_cases h with h1 | ⟨⟨i1, u1⟩, h1, h⟩
      · exact bound_step (ih _ _ h1) (Proc.rank_le _) (Rel.remLe (s := s) (by with_reducible (repeat' (first | assumption | exact Rel.refl _ | apply c1 | apply c2 | apply c3 | apply c4 | apply c5 | apply c6 | apply rel_step | apply rel_step2 | apply rel_ite)))) (Or.inl (by simp [Proc.rank]))
      have c1 := exec_rel_from x h1
      try dsimp only at h
      cases h
    | binary canAssign =>
      simp only [exec] at h
      rcases bind_eq_none_cases h with h1 | ⟨⟨i1, u1⟩, h1, h⟩
      · exact bound_step (ih _ _ h1) (Proc.rank_le _) (Rel.remLe (s := s) (by with_reducible (repeat' (first | assumption | exact Rel.refl _ | apply c1 | apply c2 | apply c3 | apply c4 | apply c5 | apply c6 | apply rel_step | apply rel_step2 | apply rel_ite)))) (Or.inl (by simp [Proc.rank]))
      have c1 := exec_rel_from x h1
      try dsimp only at h
      split at h <;> cases h
    | argumentList =>
      simp only [exec] at h
      rcases bind_eq_none_cases h with h1 | ⟨⟨i1, u1⟩, h1, h⟩
      · rcases ite_eq_cases h1 with ⟨_, h1⟩ | ⟨_, h1⟩
        · exact bound_step (ih _ _ h1) (Proc.rank_le _) (Rel.remLe (s := s) (by with_reducible (repeat' (first | assumption | exact Rel.refl _ | apply c1 | apply c2 | apply c3 | apply c4 | apply c5 | apply c6 | apply rel_step | apply rel_step2 | apply rel_ite)))) (Or.inl (by simp [Proc.rank]))
        · cases h1
      cases h
    | argumentListLoop argCount =>
      simp only [exec] at h
      rcases bind_eq_none_cases h with h1 | ⟨⟨i1, u1⟩, h1, h⟩
      · exact bound_step (ih _ _ h1) (Proc.rank_le _) (Rel.remLe (s := s) (by with_reducible (repeat' (first | assumption | exact Rel.refl _ | apply c1 | apply c2 | apply c3 | apply c4 | apply c5 | apply c6 | apply rel_step | apply rel_step2 | apply rel_ite)))) (Or.inl (by simp [Proc.rank]))
      have c1 := exec_rel_from x h1
      try dsimp only at h
      rcases ite_eq_cases h with ⟨hc, h⟩ | ⟨hc, h⟩
      · exact bound_step (ih _ _ h) (Proc.rank_le _) (Rel.remLe (s := s) (by with_reducible (repeat' (first | assumption | exact Rel.refl _ | apply c1 | apply c2 | apply c3 | apply c4 | apply c5 | apply c6 | apply rel_step | apply rel_step2 | apply rel_ite)))) (Or.inr (lt_of_lt_of_le (matchToken_lt hc (by decide)) (Rel.remLe (s := s) (by with_reducible (repeat' (first | assumption | exact Rel.refl _ | apply c1 | apply c2 | apply c3 | apply c4 | apply c5 | apply c6 | apply rel_step | apply rel_step2 | apply rel_ite))))))
      · cases h
    | call canAssign =>
      simp only [exec] at h
      rcases bind_eq_none_cases h with h1 | ⟨⟨i1, u1⟩, h1, h⟩
      · exact bound_step (ih _ _ h1) (Proc.rank_le _) (Rel.remLe (s := s) (by with_reducible (repeat' (first | assumption | exact Rel.refl _ | apply c1 | apply c2 | apply c3 | apply c4 | apply c5 | apply c6 | apply rel_step | apply rel_step2 | apply rel_ite)))) (Or.inl (by simp [Proc.rank]))
      have c1 := exec_rel_from x h1
      try dsimp only at h
      cases h
    | dot canAssign =>
      cases canAssign <;> simp only [exec, Bool.false_eq_true, if_false, if_true] at h
      · rcases ite_eq_cases h with ⟨hc, h⟩ | ⟨hc, h⟩
        · rcases bind_eq_none_cases h with h1 | ⟨⟨i1, u1⟩, h1, h⟩
          · exact bound_step (ih _ _ h1) (Proc.rank_le _) (Rel.remLe (s := s) (by with_reducible (repeat' (first | assumption | exact Rel.refl _ | apply c1 | apply c2 | apply c3 | apply c4 | apply c5 | apply c6 | apply rel_step | apply rel_step2 | apply rel_ite)))) (Or.inl (by simp [Proc.rank]))
          have c1 := exec_rel_from x h1
          try dsimp only at h
          cases h
        · cases h
      · rcases ite_eq_cases h with ⟨hc, h⟩ | ⟨hc, h⟩
        · rcases bind_eq_none_cases h with h1 | ⟨⟨i1, u1⟩, h1, h⟩
          · exact bound_step (ih _ _ h1) (Proc.rank_le _) (Rel.remLe (s := s) (by with_reducible (repeat' (first | assumption | exact Rel.refl _ | apply c1 | apply c2 | apply c3 | apply c4 | apply c5 | apply c6 | apply rel_step | apply rel_step2 | apply rel_ite)))) (Or.inl (by simp [Proc.rank]))
          have c1 := exec_rel_from x h1
          try dsimp only at h
          cases h
        · rcases ite_eq_cases h with ⟨hc, h⟩ | ⟨hc, h⟩
          · rcases bind_eq_none_cases h with h1 | ⟨⟨i1, u1⟩, h1, h⟩
            · exact bound_step (ih _ _ h1) (Proc.rank_le _) (Rel.remLe (s := s) (by with_reducible (repeat' (first | assumption | exact Rel.refl _ | apply c1 | apply c2 | apply c3 | apply c4 | apply c5 | apply c6 | apply rel_step | apply rel_step2 | apply rel_ite)))) (Or.inl (by simp [Proc.rank]))
            have c1 := exec_rel_from x h1
            try dsimp only at h
            cases h
          · cases h
    | literal canAssign =>
      simp only [exec] at h
      split at h <;> cases h
    | number canAssign =>
      simp only [exec] at h
      cases h
    | string canAssign =>
      simp only [exec] at h
      cases h
    | namedVariable name canAssign =>
      cases canAssign <;> simp only [exec, Bool.false_eq_true, if_false, if_true] at h
      · cases h
      · rcases ite_eq_cases h with ⟨hc, h⟩ | ⟨hc, h⟩
        · rcases bind_eq_none_cases h with h1 | ⟨⟨i1, u1⟩, h1, h⟩
          · exact bound_step (ih _ _ h1) (Proc.rank_le _) (Rel.remLe (s := s) (by with_reducible (repeat' (first | assumption | exact Rel.refl _ | apply c1 | apply c2 | apply c3 | apply c4 | apply c5 | apply c6 | apply rel_step | apply rel_step2 | apply rel_ite)); split <;> (try split) <;> (try dsimp only) <;> with_reducible (repeat' (first | assumption | exact Rel.refl _ | apply c1 | apply c2 | apply c3 | apply c4 | apply c5 | apply c6 | apply rel_step | apply rel_step2 | apply rel_ite)))) (Or.inl (by simp [Proc.rank]))
          have c1 := exec_rel_from x h1
          try dsimp only at h
          cases h
        · cases h
    | variable_ canAssign =>
      simp only [exec] at h
      exact bound_step (ih _ _ h) (Proc.rank_le _) (Rel.remLe (s := s) (by with_reducible (repeat' (first | assumption | exact Rel.refl _ | apply c1 | apply c2 | apply c3 | apply c4 | apply c5 | apply c6 | apply rel_step | apply rel_step2 | apply rel_ite)))) (Or.inl (by simp [Proc.rank]))
    | super_ canAssign =>
      simp only [exec] at h
      rcases bind_eq_none_cases h with h1 | ⟨⟨i1, u1⟩, h1, h⟩
      · exact bound_step (ih _ _ h1) (Proc.rank_le _) (Rel.remLe (s := s) (by with_reducible (repeat' (first | assumption | exact Rel.refl _ | apply c1 | apply c2 | apply c3 | apply c4 | apply c5 | apply c6 | apply rel_step | apply rel_step2 | apply rel_ite)); split <;> (try split) <;> (try dsimp only) <;> with_reducible (repeat' (first | assumption | exact Rel.refl _ | apply c1 | apply c2 | apply c3 | apply c4 | apply c5 | apply c6 | apply rel_step | apply rel_step2 | apply rel_ite)))) (Or.inl (by simp [Proc.rank]))
      have c1 := exec_rel_from x h1
      try dsimp only at h
      rcases bind_eq_none_cases h with h2 | ⟨⟨i2, u2⟩, h2, h⟩
      · exact bound_step (ih _ _ h2) (Proc.rank_le _) (Rel.remLe (s := s) (by with_reducible (repeat' (first | assumption | exact Rel.refl _ | apply c1 | apply c2 | apply c3 | apply c4 | apply c5 | apply c6 | apply rel_step | apply rel_step2 | apply rel_ite)); split <;> (try split) <;> (try dsimp only) <;> with_reducible (repeat' (first | assumption | exact Rel.refl _ | apply c1 | apply c2 | apply c3 | apply c4 | apply c5 | apply c6 | apply rel_step | apply rel_step2 | apply rel_ite)))) (Or.inl (by simp [Proc.rank]))
      have c2 := exec_rel_from x h2
      try dsimp only at h
      rcases ite_eq_cases h with ⟨hc, h⟩ | ⟨hc, h⟩
      · rcases bind_eq_none_cases h with h3 | ⟨⟨i3, u3⟩, h3, h⟩
        · exact bound_step (ih _ _ h3) (Proc.rank_le _) (Rel.remLe (s := s) (by with_reducible (repeat' (first | assumption | exact Rel.refl _ | apply c1 | apply c2 | apply c3 | apply c4 | apply c5 | apply c6 | apply rel_step | apply rel_step2 | apply rel_ite)); split <;> (try split) <;> (try dsimp only) <;> with_reducible (repeat' (first | assumption | exact Rel.refl _ | apply c1 | apply c2 | apply c3 | apply c4 | apply c5 | apply c6 | apply rel_step | apply rel_step2 | apply rel_ite)))) (Or.inl (by simp [Proc.rank]))
        have c3 := exec_rel_from x h3
        try dsimp only at h
        rcases bind_eq_none_cases h with h4 | ⟨⟨i4, u4⟩, h4, h⟩
        · exact bound_step (ih _ _ h4) (Proc.rank_le _) (Rel.remLe (s := s) (by with_reducible (repeat' (first | assumption | exact Rel.refl _ | apply c1 | apply c2 | apply c3 | apply c4 | apply c5 | apply c6 | apply rel_step | apply rel_step2 | apply rel_ite)); split <;> (try split) <;> (try dsimp only) <;> with_reducible (repeat' (first | assumption | exact Rel.refl _ | apply c1 | apply c2 | apply c3 | apply c4 | apply c5 | apply c6 | apply rel_step | apply rel_step2 | apply rel_ite)))) (Or.inl (by simp [Proc.rank]))
        have c4 := exec_rel_from x h4
        try dsimp only at h
        cases h
      · rcases bind_eq_none_cases h with h3 | ⟨⟨i3, u3⟩, h3, h⟩
        · exact bound_step (ih _ _ h3) (Proc.rank_le _) (Rel.remLe (s := s) (by with_reducible (repeat' (first | assumption | exact Rel.refl _ | apply c1 | apply c2 | apply c3 | apply c4 | apply c5 | apply c6 | apply rel_step | apply rel_step2 | apply rel_ite)); split <;> (try split) <;> (try dsimp only) <;> with_reducible (repeat' (first | assumption | exact Rel.refl _ | apply c1 | apply c2 | apply c3 | apply c4 | apply c5 | apply c6 | apply rel_step | apply rel_step2 | apply rel_ite)))) (Or.inl (by simp [Proc.rank]))
        have c3 := exec_rel_from x h3
        try dsimp only at h
        cases h
    | this_ canAssign =>
      simp only [exec] at h
      split at h
      · cases h
      · exact bound_step (ih _ _ h) (Proc.rank_le _) (Rel.remLe (s := s) (by with_reducible (repeat' (first | assumption | exact Rel.refl _ | apply c1 | apply c2 | apply c3 | apply c4 | apply c5 | apply c6 | apply rel_step | apply rel_step2 | apply rel_ite)))) (Or.inl (by simp [Proc.rank]))
    | unary canAssign =>
      simp only [exec] at h
      rcases bind_eq_none_cases h with h1 | ⟨⟨i1, u1⟩, h1, h⟩
      · exact bound_step (ih _ _ h1) (Proc.rank_le _) (Rel.remLe (s := s) (by with_reducible (repeat' (first | assumption | exact Rel.refl _ | apply c1 | apply c2 | apply c3 | apply c4 | apply c5 | apply c6 | apply rel_step | apply rel_step2 | apply rel_ite)))) (Or.inl (by simp [Proc.rank]))
      have c1 := exec_rel_from x h1
      try dsimp only at h
      split at h <;> cases h
    | grouping canAssign =>
      simp only [exec] at h
      rcases bind_eq_none_cases h with h1 | ⟨⟨i1, u1⟩, h1, h⟩
      · exact bound_step (ih _ _ h1) (Proc.rank_le _) (Rel.remLe (s := s) (by with_reducible (repeat' (first | assumption | exact Rel.refl _ | apply c1 | apply c2 | apply c3 | apply c4 | apply c5 | apply c6 | apply rel_step | apply rel_step2 | apply rel_ite)))) (Or.inl (by simp [Proc.rank]))
      have c1 := exec_rel_from x h1
      try dsimp only at h
      cases h
    | compileLoop =>
      simp only [exec] at h
      rcases ite_eq_cases h with ⟨hc, h⟩ | ⟨hc, h⟩
      · cases h
      · have hne : s.parser.current.type ≠ TOKEN_EOF := fun he => hc ((matchToken_fst _ _).2 he)
        rw [matchToken_snd hc] at h
        rcases bind_eq_none_cases h with h1 | ⟨⟨i1, u1⟩, h1, h⟩
        · exact bound_step (ih _ _ h1) (Proc.rank_le _) (Rel.remLe (s := s) (by with_reducible (repeat' (first | assumption | exact Rel.refl _ | apply c1 | apply c2 | apply c3 | apply c4 | apply c5 | apply c6 | apply rel_step | apply rel_step2 | apply rel_ite)))) (Or.inl (by simp [Proc.rank]))
        have c1 := exec_rel_from x h1
        try dsimp only at h
        exact bound_step (ih _ _ h) (Proc.rank_le _) (Rel.remLe (s := s) (by with_reducible (repeat' (first | assumption | exact Rel.refl _ | apply c1 | apply c2 | apply c3 | apply c4 | apply c5 | apply c6 | apply rel_step | apply rel_step2 | apply rel_ite)))) (Or.inr (exec_consumes x _ _ _ _ _ h1 rfl hne))



theorem tokensBeforeEOF_le_length (source : List Token) :
    tokensBeforeEOF source ≤ source.length := by
  induction source with
  | nil => simp [tokensBeforeEOF]
  | cons t rest ih =>
    simp only [tokensBeforeEOF, List.length_cons]
    split <;> omega

/-- The body of `compile`, seen from the state in which parsing starts. -/
theorem compile_eq (x : Extern) (fuel : Nat) (source : List Token) (g : State) :
    compile x fuel source g =
      (exec x fuel Proc.compileLoop
        (advance (initCompiler x TYPE_SCRIPT (compileStart source g)))).bind
        fun r => some (if (endCompiler r.2).2.parser.hadError then none else (endCompiler r.2).1,
          (endCompiler r.2).2) := rfl

/-- On the source `var ;` the compiler reports the missing variable name once, sets
`hadError` and returns `NULL`. -/
theorem compile_reports_missing_name :
    (compile demoExtern 30 [⟨TOKEN_VAR, "var", 1⟩, ⟨TOKEN_SEMICOLON, ";", 1⟩, ⟨TOKEN_EOF, "", 1⟩]
      startState).map (fun r => (r.1.isNone, r.2.parser.hadError, r.2.stderr.map (fun e => e.message)))
      = some (true, true, ["Expect variable name."]) := by
  decide

/-- C8: `compile` returns for every token stream (any fuel above ten times the length of
the stream plus five is enough), and it returns `NULL` exactly when an error was reported
during the call, that is when `errorAt` was reached outside panic mode and printed to
`stderr`; `hadError` is set at the return exactly in that case; when no error was reported
the value returned is the function of the frame that `compile` pushed for the script; and
no procedure of the compiler clears `hadError` once it is set. -/
theorem compile_fails_iff_error_reported (x : Extern) (source : List Token) (g : State)
    (fuel : Nat) (hfuel : 10 * source.length + 5 < fuel) :
    (∃ res s', compile x fuel source g = some (res, s') ∧
      (res = none ↔ g.stderr.length < s'.stderr.length) ∧
      (s'.parser.hadError = true ↔ g.stderr.length < s'.stderr.length) ∧
      (¬ g.stderr.length < s'.stderr.length → ∃ c, res = some c ∧ c.type = TYPE_SCRIPT ∧
        c.functionPtr = x.newFunction g.allocated)) ∧
    ∀ n p s i u, exec x n p s = some (i, u) →
      s.parser.hadError = true → u.parser.hadError = true := by
  refine ⟨?_, fun n p s i u h => (exec_rel x n p s i u h).errMono⟩
  rw [compile_eq]
  have hadv := advance_spec (initCompiler x TYPE_SCRIPT (compileStart source g))
  cases hex : exec x fuel Proc.compileLoop
      (advance (initCompiler x TYPE_SCRIPT (compileStart source g))) with
  | none =>
    exfalso
    have hb := exec_bound x _ _ _ hex
    have h1 := hadv.2.2
    have h2 : tokensBeforeEOF (initCompiler x TYPE_SCRIPT (compileStart source g)).source
        ≤ source.length := tokensBeforeEOF_le_length source
    have h3 : Proc.compileLoop.rank = 5 := rfl
    omega
  | some r =>
    obtain ⟨i, u⟩ := r
    have hrel : Rel (initCompiler x TYPE_SCRIPT (compileStart source g)) u :=
      hadv.1.trans (exec_rel x _ _ _ _ _ hex)
    obtain ⟨c, hc, hfin, hty, hptr⟩ := rel_pop_frame x TYPE_SCRIPT hrel
    have hiff : (endCompiler u).2.parser.hadError = true ↔
        g.stderr.length < (endCompiler u).2.stderr.length := by
      constructor
      · intro he
        rcases hfin.errNew he with h0 | h0
        · cases h0
        · exact h0
      · intro hl
        exact hfin.errSet hl
    refine ⟨_, _, rfl, ?_, hiff, ?_⟩
    · dsimp only
      rw [← hiff, hc]
      cases (endCompiler u).2.parser.hadError <;> simp
    · intro hno
      rw [← hiff] at hno
      refine ⟨c, ?_, hty, hptr⟩
      dsimp only
      rw [hc]
      simp [hno]

theorem compile_fails_iff_error_reported_witness :
    10 * classThenVar.length + 5 < 106 ∧
    ((∃ res s', compile demoExtern 106 classThenVar startState = some (res, s') ∧
      (res = none ↔ startState.stderr.length < s'.stderr.length) ∧
      (s'.parser.hadError = true ↔ startState.stderr.length < s'.stderr.length) ∧
      (¬ startState.stderr.length < s'.stderr.length → ∃ c, res = some c ∧
        c.type = TYPE_SCRIPT ∧ c.functionPtr = demoExtern.newFunction startState.allocated)) ∧
    ∀ n p s i u, exec demoExtern n p s = some (i, u) →
      s.parser.hadError = true → u.parser.hadError = true) :=
  ⟨by decide, compile_fails_iff_error_reported demoExtern classThenVar startState 106 (by decide)⟩




/-! ## Classes, `super` and upvalue indices at concrete inputs -/

set_option maxRecDepth 100000 in
/-- C17 (the code at the failing input): compiled from the start state, `class A {}` leaves
the frame of the script at scope depth 1 with the local `super` added, although there is no
superclass clause; with a superclass clause (`class B < A {}`) the scope is closed again and
the locals are those from before the declaration. -/
theorem class_without_superclass_leaves_scope_open :
    codeAndLocals (compile demoExtern 40 classOnly startState)
      = some (some ([OP_CLASS, 0, OP_DEFINE_GLOBAL, 0, OP_GET_GLOBAL, 1, OP_POP,
          OP_NIL, OP_RETURN], ["this", "super"], 1)) ∧
    codeAndLocals (compile demoExtern 40 classWithSuper startState)
      = some (some ([OP_CLASS, 0, OP_DEFINE_GLOBAL, 0, OP_GET_GLOBAL, 1, OP_GET_GLOBAL, 2,
          OP_INHERIT, OP_GET_GLOBAL, 3, OP_POP, OP_POP, OP_NIL, OP_RETURN], ["this"], 0)) := by
  constructor <;> decide

set_option maxRecDepth 100000 in
/-- C18 (the code at the failing input): for `super.m` in a method of a class with a
superclass, `super_` emits the load of `this` (`OP_GET_LOCAL 0`), then the load of `super`
(`OP_GET_UPVALUE 0`) twice, then `OP_GET_SUPER 0`; for `super.m()` it emits the load of
`this`, the load of `super` twice and `OP_SUPER_INVOKE 0 0`. No error is reported. -/
theorem super_loads_superclass_twice :
    (exec demoExtern 10 (Proc.super_ false) (superDemo [])).map
        (fun r => (currentCode r.2, r.2.stderr))
      = some ([OP_GET_LOCAL, 0, OP_GET_UPVALUE, 0, OP_GET_UPVALUE, 0, OP_GET_SUPER, 0], []) ∧
    (exec demoExtern 10 (Proc.super_ false)
        (superDemo [⟨TOKEN_LEFT_PAREN, "(", 1⟩, ⟨TOKEN_RIGHT_PAREN, ")", 1⟩])).map
        (fun r => (currentCode r.2, r.2.stderr))
      = some ([OP_GET_LOCAL, 0, OP_GET_UPVALUE, 0, OP_GET_UPVALUE, 0,
          OP_SUPER_INVOKE, 0, 0], []) := by
  constructor <;> decide

/-- C20 (the code at the failing input): in `captureDemo2` the name `a` is not a local of
the frame that encloses `current` (`resolveLocal` returns -1 there) and is found one frame
further out; `resolveUpvalue` then stores to `locals[-1]` of the enclosing frame, which has
one local: the store is outside `locals[0 .. localCount-1]`. -/
theorem resolveUpvalue_stores_at_minus_one :
    (resolveLocal 1 "a" captureDemo2).1 = -1 ∧
    (captureDemo2.frames.map fun c => c.locals.length) = [1, 1, 2] ∧
    captureDemo2.faults = [] ∧
    (resolveUpvalue 0 "a" captureDemo2).1 = 0 ∧
    (resolveUpvalue 0 "a" captureDemo2).2.faults = [Fault.localsIndex (-1)] := by
  decide



/-! ## The code that the primitives append -/

theorem modifyCurrent_frames (f : Compiler → Compiler) {s : State} {c : Compiler}
    {rest : List Compiler} (h : s.frames = c :: rest) :
    (modifyCurrent f s).frames = f c :: rest := by
  unfold modifyCurrent
  rw [h]

theorem emitByte_frames (byte : Nat) {s : State} {c : Compiler} {rest : List Compiler}
    (h : s.frames = c :: rest) :
    (emitByte byte s).frames =
      { c with function := { c.function with
          chunk := writeChunk c.function.chunk byte s.parser.previous.line } } :: rest :=
  modifyCurrent_frames _ h

theorem modifyCurrent_parserEq (f : Compiler → Compiler) (s : State) :
    (modifyCurrent f s).parser = s.parser := by
  unfold modifyCurrent
  split <;> rfl

theorem emitByte_parserEq (byte : Nat) (s : State) : (emitByte byte s).parser = s.parser :=
  modifyCurrent_parserEq _ s

theorem errorAt_frames (token : Token) (message : String) (s : State) :
    (errorAt token message s).frames = s.frames := by
  unfold errorAt
  split <;> rfl

theorem advanceLoop_frames (fuel : Nat) : ∀ s : State, (advanceLoop fuel s).frames = s.frames := by
  induction fuel with
  | zero => intro s; rfl
  | succ fuel ih =>
    intro s
    unfold advanceLoop
    simp only
    split
    · rfl
    · rw [ih, errorAtCurrent, errorAt_frames]

theorem advance_frames (s : State) : (advance s).frames = s.frames := by
  unfold advance
  rw [advanceLoop_frames]

theorem currentCode_eq {s : State} {c : Compiler} {rest : List Compiler}
    (h : s.frames = c :: rest) : currentCode s = c.function.chunk.code := by
  unfold currentCode
  rw [h]

theorem currentCode_congr {s t : State} (h : t.frames = s.frames) :
    currentCode t = currentCode s := by
  unfold currentCode
  rw [h]

theorem currentType_congr {s t : State} (h : t.frames = s.frames) :
    currentType t = currentType s := by
  unfold currentType
  rw [h]

/-- With a current frame, `emitByte` appends the byte to the code of its chunk and changes
nothing else of the frame but the line table. -/
theorem emitByte_code (byte : Nat) {s : State} (h : s.frames ≠ []) :
    currentCode (emitByte byte s) = currentCode s ++ [byte] ∧
    currentType (emitByte byte s) = currentType s ∧ (emitByte byte s).frames ≠ [] := by
  cases hfr : s.frames with
  | nil => exact absurd hfr h
  | cons c rest =>
    have e := emitByte_frames byte hfr
    simp [currentCode, currentType, e, writeChunk, hfr]

/-- The bytes that `emitReturn` appends. -/
theorem emitReturn_code {s : State} (h : s.frames ≠ []) :
    currentCode (emitReturn s) = currentCode s ++ returnSequence (currentType s) ∧
    currentType (emitReturn s) = currentType s ∧ (emitReturn s).frames ≠ [] := by
  unfold emitReturn
  simp only
  by_cases ht : currentType s = TYPE_INITIALIZER
  · rw [if_pos ht]
    unfold emitBytes
    have h1 := emitByte_code OP_GET_LOCAL h
    have h2 := emitByte_code 0 h1.2.2
    have h3 := emitByte_code OP_RETURN h2.2.2
    refine ⟨?_, by rw [h3.2.1, h2.2.1, h1.2.1], h3.2.2⟩
    rw [h3.1, h2.1, h1.1]
    simp [returnSequence, ht]
  · rw [if_neg ht]
    have h1 := emitByte_code OP_NIL h
    have h3 := emitByte_code OP_RETURN h1.2.2
    refine ⟨?_, by rw [h3.2.1, h1.2.1], h3.2.2⟩
    rw [h3.1, h1.1]
    simp [returnSequence, ht]

/-- The function that `endCompiler` returns ends with the return sequence of its type. -/
theorem endCompiler_code {s : State} (h : s.frames ≠ []) :
    ∃ c, (endCompiler s).1 = some c ∧ c.type = currentType s ∧
      c.function.chunk.code = currentCode s ++ returnSequence (currentType s) := by
  obtain ⟨h1, h2, h3⟩ := emitReturn_code h
  unfold endCompiler
  simp only
  cases hfr : (emitReturn s).frames with
  | nil => exact absurd hfr h3
  | cons c rest =>
    refine ⟨c, rfl, ?_, ?_⟩
    · rw [← h2]; simp [currentType, hfr]
    · rw [← h1]; simp [currentCode, hfr]

/-- C16: with a current frame, `emitReturn` appends exactly `OP_GET_LOCAL 0, OP_RETURN` to
the chunk when the function type is `TYPE_INITIALIZER` and exactly `OP_NIL, OP_RETURN` for
every other type (`returnSequence`); a bare `return;` (the token after `return` is `;`)
returns and appends exactly that sequence; at the end of a function body `endCompiler`
appends it and returns the function, whose chunk therefore ends with it; and the chunk of
the function that `compile` returns ends with `OP_NIL, OP_RETURN`. -/
theorem return_sequence_ends_function (x : Extern) (s : State) (h : s.frames ≠ []) :
    currentCode (emitReturn s) = currentCode s ++ returnSequence (currentType s) ∧
    (s.parser.current.type = TOKEN_SEMICOLON → ∀ n, ∃ u,
      exec x (n + 1) Proc.returnStatement s = some (0, u) ∧
      currentCode u = currentCode s ++ returnSequence (currentType s)) ∧
    (∃ c, (endCompiler s).1 = some c ∧ c.type = currentType s ∧
      c.function.chunk.code = currentCode s ++ returnSequence (currentType s)) ∧
    (∀ fuel source g c s', compile x fuel source g = some (some c, s') →
      ∃ code, c.function.chunk.code = code ++ [OP_NIL, OP_RETURN]) := by
  refine ⟨(emitReturn_code h).1, ?_, endCompiler_code h, ?_⟩
  · intro hsemi n
    have key : ∀ t : State, t.frames = s.frames → t.parser.current = s.parser.current →
        ∃ u, (if (matchToken TOKEN_SEMICOLON t).1 = true
            then some ((0 : Int), emitReturn (matchToken TOKEN_SEMICOLON t).2)
            else (exec x n Proc.expression
              (if currentType (matchToken TOKEN_SEMICOLON t).2 = TYPE_INITIALIZER then
                error "Can't return a value from an initializer." (matchToken TOKEN_SEMICOLON t).2
              else (matchToken TOKEN_SEMICOLON t).2)).bind fun r =>
              some (0, emitByte OP_RETURN
                (consume TOKEN_SEMICOLON "Expect ';' after return value." r.2))) = some (0, u) ∧
          currentCode u = currentCode s ++ returnSequence (currentType s) := by
      intro t hfr hcur
      have hm : (matchToken TOKEN_SEMICOLON t).1 = true :=
        (matchToken_fst _ _).2 (by rw [hcur]; exact hsemi)
      have hm2 : (matchToken TOKEN_SEMICOLON t).2 = advance t := by
        unfold matchToken
        simp [check, hcur, hsemi]
      rw [if_pos hm, hm2]
      refine ⟨_, rfl, ?_⟩
      have hfr2 : (advance t).frames = s.frames := by rw [advance_frames, hfr]
      have hne : (advance t).frames ≠ [] := by rw [hfr2]; exact h
      rw [(emitReturn_code hne).1, currentCode_congr hfr2, currentType_congr hfr2]
    simp only [exec]
    by_cases hty : currentType s = TYPE_SCRIPT
    · rw [if_pos hty]
      exact key _ (errorAt_frames _ _ _) (errorAt_current _ _ _)
    · rw [if_neg hty]
      exact key s rfl rfl
  · intro fuel source g c s' hc
    rw [compile_eq] at hc
    obtain ⟨⟨i, u⟩, hex, hc⟩ := Option.bind_eq_some.1 hc
    have hadv := advance_spec (initCompiler x TYPE_SCRIPT (compileStart source g))
    have hrel : Rel (initCompiler x TYPE_SCRIPT (compileStart source g)) u :=
      hadv.1.trans (exec_rel x _ _ _ _ _ hex)
    have hne : u.frames ≠ [] := by
      intro hnil
      have := hrel.ids
      simp [frameIds, hnil, initCompiler] at this
    have hty : currentType u = TYPE_SCRIPT := by
      have := hrel.ids
      cases hfr : u.frames with
      | nil => exact absurd hfr hne
      | cons c0 rest0 =>
        simp only [frameIds, hfr, initCompiler, List.map_cons, List.cons.injEq,
          Prod.mk.injEq] at this
        simp [currentType, hfr, this.1.2]
    obtain ⟨c', hc1, _, hc3⟩ := endCompiler_code hne
    simp only [Option.some.injEq, Prod.mk.injEq] at hc
    rw [hc1] at hc
    split at hc
    · cases hc.1
    · cases hc.1
      refine ⟨currentCode u, ?_⟩
      rw [hc3, hty]
      simp [returnSequence]

theorem return_sequence_ends_function_witness :
    captureDemo.frames ≠ [] ∧
    (currentCode (emitReturn captureDemo)
        = currentCode captureDemo ++ returnSequence (currentType captureDemo) ∧
    (captureDemo.parser.current.type = TOKEN_SEMICOLON → ∀ n, ∃ u,
      exec demoExtern (n + 1) Proc.returnStatement captureDemo = some (0, u) ∧
      currentCode u = currentCode captureDemo ++ returnSequence (currentType captureDemo)) ∧
    (∃ c, (endCompiler captureDemo).1 = some c ∧ c.type = currentType captureDemo ∧
      c.function.chunk.code
        = currentCode captureDemo ++ returnSequence (currentType captureDemo)) ∧
    (∀ fuel source g c s', compile demoExtern fuel source g = some (some c, s') →
      ∃ code, c.function.chunk.code = code ++ [OP_NIL, OP_RETURN])) :=
  ⟨by decide, return_sequence_ends_function demoExtern captureDemo (by decide)⟩



/-! ## More fuel gives the same result -/

theorem below_refl {α : Type} (a : Option α) : Below a a := ⟨fun _ h => h⟩

theorem below_bind {α β : Type} {a b : Option α} {f g : α → Option β} (h1 : Below a b)
    (h2 : ∀ r, Below (f r) (g r)) : Below (a.bind f) (b.bind g) := by
  constructor
  intro r h
  obtain ⟨v, hv, hf⟩ := Option.bind_eq_some.1 h
  rw [h1.le v hv]
  exact (h2 v).le r hf

theorem below_ite {α : Type} {a b a' b' : Option α} (c : Prop) [Decidable c] (h1 : Below a b)
    (h2 : Below a' b') : Below (if c then a else a') (if c then b else b') := by
  split
  · exact h1
  · exact h2

theorem exec_below (x : Extern) : ∀ (n m : Nat), n ≤ m → ∀ (p : Proc) (s : State),
    Below (exec x n p s) (exec x m p s) := by
  intro n
  induction n with
  | zero =>
    intro m _ p s
    constructor
    intro r h
    simp [exec] at h
  | succ n ih0 =>
    intro m hm p s
    obtain ⟨m, rfl⟩ : ∃ k, m = k + 1 := ⟨m - 1, by omega⟩
    have ih := ih0 m (by omega)
    clear ih0 hm
    cases p <;> simp only [exec] <;> with_reducible
      (repeat' (first | exact below_refl _ | exact ih _ _ | apply below_bind | apply below_ite | intro _ | split))



theorem exec_mono (x : Extern) {n m : Nat} {p : Proc} {s : State} {r : Int × State}
    (h : exec x n p s = some r) (hnm : n ≤ m) : exec x m p s = some r :=
  (exec_below x n m hnm p s).le r h

/-- The result of a call does not depend on the fuel that lets it return. -/
theorem Runs.unique {x : Extern} {p : Proc} {s : State} {r r' : Int × State}
    (h : Runs x p s r) (h' : Runs x p s r') : r = r' := by
  obtain ⟨n, hn⟩ := h
  obtain ⟨m, hm⟩ := h'
  have e1 := exec_mono x hn (le_max_left n m)
  have e2 := exec_mono x hm (le_max_right n m)
  rw [e1] at e2
  exact Option.some.inj e2

theorem exec_parsePrecedence (x : Extern) (n precedence : Nat) (s : State) :
    exec x (n + 1) (Proc.parsePrecedence precedence) s =
      match (getRule (advance s).parser.previous.type).prefixRule with
      | none => some (0, error "Expect expression." (advance s))
      | some prefixRule =>
        (exec x n (prefixRule.proc (decide (precedence ≤ PREC_ASSIGNMENT))) (advance s)).bind
          fun r =>
        (exec x n (Proc.parsePrecedenceLoop precedence (decide (precedence ≤ PREC_ASSIGNMENT)))
          r.2).bind fun r =>
        some (0, finishAssignment (decide (precedence ≤ PREC_ASSIGNMENT)) r.2) := by
  simp only [exec]
  cases (getRule (advance s).parser.previous.type).prefixRule with
  | none => rfl
  | some f =>
    simp only
    congr 1
    funext r
    congr 1
    funext r
    unfold finishAssignment
    split
    · simp only
      split <;> rfl
    · rfl

theorem exec_binary (x : Extern) (n : Nat) (canAssign : Bool) (s : State) :
    exec x (n + 1) (Proc.binary canAssign) s =
      (exec x n (Proc.parsePrecedence ((getRule s.parser.previous.type).precedence + 1)) s).bind
        fun r => some (0, emitBinary s.parser.previous.type r.2) := by
  simp only [exec]
  congr 1
  funext r
  unfold emitBinary
  split <;> rfl

theorem exec_loop_stop (x : Extern) (n precedence : Nat) (canAssign : Bool) (s : State)
    (h : ¬ precedence ≤ (getRule s.parser.current.type).precedence) :
    exec x (n + 1) (Proc.parsePrecedenceLoop precedence canAssign) s = some (0, s) := by
  simp only [exec, if_neg h]

theorem exec_loop_step (x : Extern) (n precedence : Nat) (canAssign : Bool) (s : State)
    (infixRule : ParseFn) (h : precedence ≤ (getRule s.parser.current.type).precedence)
    (hi : (getRule s.parser.current.type).infixRule = some infixRule) :
    exec x (n + 1) (Proc.parsePrecedenceLoop precedence canAssign) s =
      (exec x n (infixRule.proc canAssign) (advance s)).bind fun r =>
        exec x n (Proc.parsePrecedenceLoop precedence canAssign) r.2 := by
  rw [← advance_previous] at hi
  simp only [exec, if_pos h, hi]

theorem matchToken_of_ne {type : TokenType} {s : State} (h : s.parser.current.type ≠ type) :
    matchToken type s = (false, s) := by
  unfold matchToken
  simp [check, h]

theorem matchToken_of_eq {type : TokenType} {s : State} (h : s.parser.current.type = type) :
    matchToken type s = (true, advance s) := by
  unfold matchToken
  simp [check, h]

theorem emitBytes_parserEq (byte1 byte2 : Nat) (s : State) :
    (emitBytes byte1 byte2 s).parser = s.parser := by
  unfold emitBytes
  rw [emitByte_parserEq, emitByte_parserEq]

theorem emitBinary_parserEq (operatorType : TokenType) (s : State) :
    (emitBinary operatorType s).parser = s.parser := by
  unfold emitBinary
  split <;> first | exact emitByte_parserEq _ _ | exact emitBytes_parserEq _ _ _ | rfl

/-- Every token with a precedence above `PREC_NONE` has an infix rule. -/
theorem infixRule_of_precedence (t : TokenType) (h : 1 ≤ (getRule t).precedence) :
    (getRule t).infixRule ≠ none := by
  cases t <;> first | decide | exact absurd h (by decide)

/-- The operators that `binary` compiles have a precedence of `PREC_EQUALITY` at least and
are not `=`. -/
theorem binary_precedence (t : TokenType) (h : (getRule t).infixRule = some ParseFn.binary) :
    PREC_EQUALITY ≤ (getRule t).precedence ∧ t ≠ TOKEN_EQUAL := by
  cases t <;> first | exact ⟨by decide, by decide⟩ | exact absurd h (by decide)

/-- A parse function that does not look at `canAssign`. -/
theorem exec_proc_canAssign (x : Extern) (n : Nat) (f : ParseFn) (a b : Bool) (s : State)
    (hv : f ≠ ParseFn.variable_) (hd : f ≠ ParseFn.dot) :
    exec x n (f.proc a) s = exec x n (f.proc b) s := by
  cases n with
  | zero => simp [exec]
  | succ n =>
    cases f <;> first | exact absurd rfl hv | exact absurd rfl hd | simp only [ParseFn.proc, exec]

/-- With no `=` as the current token at its end, a parse function has not looked at
`canAssign`. -/
theorem exec_proc_true_of_false (x : Extern) (n : Nat) (f : ParseFn) (s : State)
    (i : Int) (v : State) (h : exec x n (f.proc false) s = some (i, v))
    (hv : v.parser.current.type ≠ TOKEN_EQUAL) : exec x n (f.proc true) s = some (i, v) := by
  by_cases h1 : f = ParseFn.variable_
  · subst h1
    cases n with
    | zero => simp [ParseFn.proc, exec] at h
    | succ n =>
      simp only [ParseFn.proc, exec] at h ⊢
      cases n with
      | zero => simp [exec] at h
      | succ n =>
        simp only [exec, Bool.false_eq_true, if_false, if_true] at h ⊢
        cases h
        rw [emitBytes_parserEq] at hv
        rw [matchToken_of_ne hv]
        simp
  · by_cases h2 : f = ParseFn.dot
    · subst h2
      cases n with
      | zero => simp [ParseFn.proc, exec] at h
      | succ n =>
        simp only [ParseFn.proc, exec, Bool.false_eq_true, if_false, if_true] at h ⊢
        generalize identifierConstant x
          (consume TOKEN_IDENTIFIER "Expect property name after '.'." s).parser.previous.lexeme
          (consume TOKEN_IDENTIFIER "Expect property name after '.'." s) = name at h ⊢
        by_cases hE : name.2.parser.current.type = TOKEN_EQUAL
        · exfalso
          have hne : name.2.parser.current.type ≠ TOKEN_LEFT_PAREN := by rw [hE]; decide
          rw [matchToken_of_ne hne] at h
          simp only [Bool.false_eq_true, if_false] at h
          cases h
          rw [emitBytes_parserEq] at hv
          exact hv hE
        · rw [matchToken_of_ne hE]
          exact h
    · rw [exec_proc_canAssign x n f true false s h1 h2]
      exact h

/-- At a `=` the loop of `parsePrecedence` stops. -/
theorem loop_stops_at_equal (x : Extern) (n q : Nat) (canAssign : Bool) (v u : State) (i : Int)
    (h : exec x n (Proc.parsePrecedenceLoop q canAssign) v = some (i, u)) (hq : 1 ≤ q)
    (hv : v.parser.current.type = TOKEN_EQUAL) : u = v := by
  cases n with
  | zero => simp [exec] at h
  | succ n =>
    have hq' : ¬ q ≤ (getRule v.parser.current.type).precedence := by
      rw [hv]
      have : (getRule TOKEN_EQUAL).precedence = 0 := rfl
      omega
    rw [exec_loop_stop x n q canAssign v hq'] at h
    cases h
    rfl



/-! ## The loop of `parsePrecedence` at two thresholds -/

theorem runs_loop_stop (x : Extern) (q : Nat) (canAssign : Bool) (s : State)
    (h : (getRule s.parser.current.type).precedence < q) :
    Runs x (Proc.parsePrecedenceLoop q canAssign) s (0, s) :=
  ⟨1, exec_loop_stop x 0 q canAssign s (by omega)⟩

theorem runs_loop_step (x : Extern) (q : Nat) (canAssign : Bool) (s v : State) (i : Int)
    (g : ParseFn) (r : Int × State) (h : q ≤ (getRule s.parser.current.type).precedence)
    (hi : (getRule s.parser.current.type).infixRule = some g)
    (h1 : Runs x (g.proc canAssign) (advance s) (i, v))
    (h2 : Runs x (Proc.parsePrecedenceLoop q canAssign) v r) :
    Runs x (Proc.parsePrecedenceLoop q canAssign) s r := by
  obtain ⟨n, hn⟩ := h1
  obtain ⟨m, hm⟩ := h2
  refine ⟨max n m + 1, ?_⟩
  rw [exec_loop_step x _ q canAssign s g h hi, exec_mono x hn (le_max_left n m)]
  exact exec_mono x hm (le_max_right n m)

theorem runs_binary (x : Extern) (canAssign : Bool) (s u : State) (i : Int)
    (h : Runs x (Proc.parsePrecedence ((getRule s.parser.previous.type).precedence + 1)) s
      (i, u)) :
    Runs x (Proc.binary canAssign) s (0, emitBinary s.parser.previous.type u) := by
  obtain ⟨n, hn⟩ := h
  refine ⟨n + 1, ?_⟩
  rw [exec_binary, hn]
  rfl

/-- The iterations that the loop makes at the threshold `q'` are also made at a lower
threshold `q`, which then goes on from the state in which the loop at `q'` stopped. -/
theorem loop_lower (x : Extern) (q q' : Nat) (canAssign : Bool) (hq : q ≤ q') (hq' : 1 ≤ q') :
    ∀ (n : Nat) (u1 u : State) (i : Int),
      exec x n (Proc.parsePrecedenceLoop q' false) u1 = some (i, u) →
      u.parser.current.type ≠ TOKEN_EQUAL → ∀ r,
      Runs x (Proc.parsePrecedenceLoop q canAssign) u r →
      Runs x (Proc.parsePrecedenceLoop q canAssign) u1 r := by
  intro n
  induction n with
  | zero =>
    intro u1 u i h
    simp [exec] at h
  | succ n ih =>
    intro u1 u i h hu r hr
    by_cases hc : q' ≤ (getRule u1.parser.current.type).precedence
    · cases hin : (getRule u1.parser.current.type).infixRule with
      | none => exact absurd hin (infixRule_of_precedence _ (by omega))
      | some g =>
        rw [exec_loop_step x n q' false u1 g hc hin] at h
        obtain ⟨⟨i1, v⟩, h1, h⟩ := Option.bind_eq_some.1 h
        dsimp only at h
        have hv : v.parser.current.type ≠ TOKEN_EQUAL := by
          intro hv
          have := loop_stops_at_equal x n q' false v u i h hq' hv
          rw [this] at hu
          exact hu hv
        have h1' : Runs x (g.proc canAssign) (advance u1) (i1, v) := by
          cases canAssign with
          | false => exact ⟨n, h1⟩
          | true => exact ⟨n, exec_proc_true_of_false x n g _ i1 v h1 hv⟩
        exact runs_loop_step x q canAssign u1 v i1 g r (by omega) hin h1' (ih v u i h hu r hr)
    · rw [exec_loop_stop x n q' false u1 hc] at h
      cases h
      exact hr

/-- An operand of precedence `q'` is the start of what `parsePrecedence` parses at a lower
precedence `q`: `parsePrecedence(q)` parses the operand, goes on with its loop from the
state after the operand, and ends with the check for an invalid assignment target. -/
theorem parsePrecedence_lower (x : Extern) (q q' : Nat) (hq : q ≤ q')
    (hq' : PREC_ASSIGNMENT < q') {s u : State} (hop : Operand x q' s u)
    (hu : u.parser.current.type ≠ TOKEN_EQUAL) {r : Int × State}
    (hr : Runs x (Proc.parsePrecedenceLoop q (decide (q ≤ PREC_ASSIGNMENT))) u r) :
    Runs x (Proc.parsePrecedence q) s
      (0, finishAssignment (decide (q ≤ PREC_ASSIGNMENT)) r.2) := by
  obtain ⟨hpre, n, h⟩ := hop
  have hq1 : 1 < q' := hq'
  cases n with
  | zero => simp [exec] at h
  | succ n =>
    rw [exec_parsePrecedence] at h
    rw [← advance_previous] at hpre
    cases hf : (getRule (advance s).parser.previous.type).prefixRule with
    | none => exact absurd hf hpre
    | some f =>
      have hd : decide (q' ≤ PREC_ASSIGNMENT) = false := by
        simp only [decide_eq_false_iff_not, not_le]
        exact hq'
      rw [hf, hd] at h
      dsimp only at h
      obtain ⟨⟨i1, u1⟩, h1, h⟩ := Option.bind_eq_some.1 h
      obtain ⟨⟨i2, u2⟩, h2, h⟩ := Option.bind_eq_some.1 h
      dsimp only at h2 h
      have hu2 : u2 = u := by
        simp only [finishAssignment, Bool.false_eq_true, if_false, Option.some.injEq,
          Prod.mk.injEq, true_and] at h
        exact h
      subst hu2
      have hu1 : u1.parser.current.type ≠ TOKEN_EQUAL := by
        intro hv
        have := loop_stops_at_equal x n q' false u1 u2 i2 h2 (by omega) hv
        rw [this] at hu
        exact hu hv
      have h1' : exec x n (f.proc (decide (q ≤ PREC_ASSIGNMENT))) (advance s) = some (i1, u1) := by
        cases decide (q ≤ PREC_ASSIGNMENT) with
        | false => exact h1
        | true => exact exec_proc_true_of_false x n f _ i1 u1 h1 hu1
      obtain ⟨m, hm⟩ := loop_lower x q q' _ hq (by omega) n u1 u2 i2 h2 hu r hr
      refine ⟨max n m + 1, ?_⟩
      rw [exec_parsePrecedence, hf]
      dsimp only
      rw [exec_mono x h1' (le_max_left n m)]
      dsimp only [Option.bind]
      rw [exec_mono x hm (le_max_right n m)]



/-! ## Precedence and associativity of the binary operators -/

theorem matchToken_frames (type : TokenType) (s : State) :
    (matchToken type s).2.frames = s.frames := by
  unfold matchToken
  split
  · rfl
  · exact advance_frames s

theorem finishAssignment_frames (canAssign : Bool) (s : State) :
    (finishAssignment canAssign s).frames = s.frames := by
  unfold finishAssignment
  split
  · simp only
    split
    · rw [error, errorAt_frames, matchToken_frames]
    · exact matchToken_frames _ _
  · rfl

theorem emitBytes_code (byte1 byte2 : Nat) {s : State} (h : s.frames ≠ []) :
    currentCode (emitBytes byte1 byte2 s) = currentCode s ++ [byte1, byte2] ∧
    currentType (emitBytes byte1 byte2 s) = currentType s ∧
    (emitBytes byte1 byte2 s).frames ≠ [] := by
  unfold emitBytes
  have h1 := emitByte_code byte1 h
  have h2 := emitByte_code byte2 h1.2.2
  refine ⟨?_, by rw [h2.2.1, h1.2.1], h2.2.2⟩
  rw [h2.1, h1.1]
  simp

/-- With a current frame, `binary` appends the instructions of its operator. -/
theorem emitBinary_code (operatorType : TokenType) {s : State} (h : s.frames ≠ []) :
    currentCode (emitBinary operatorType s) = currentCode s ++ binaryOpcodes operatorType ∧
    (emitBinary operatorType s).frames ≠ [] := by
  cases operatorType <;>
    first
    | exact ⟨(emitByte_code _ h).1, (emitByte_code _ h).2.2⟩
    | exact ⟨(emitBytes_code _ _ h).1, (emitBytes_code _ _ h).2.2⟩
    | exact ⟨by simp [emitBinary, binaryOpcodes], h⟩

/-- One operator of the loop: at the operator `op`, whose precedence is at least `q`, the
loop consumes it, lets `binary` parse the right operand and emit the operator, and goes on
from there. -/
theorem runs_loop_binary (x : Extern) (q : Nat) (canAssign : Bool) (op : TokenType)
    (s u : State) (r : Int × State) (hb : (getRule op).infixRule = some ParseFn.binary)
    (hs : s.parser.current.type = op) (hq : q ≤ (getRule op).precedence)
    (h1 : Runs x (Proc.parsePrecedence ((getRule op).precedence + 1)) (advance s) (0, u))
    (h2 : Runs x (Proc.parsePrecedenceLoop q canAssign) (emitBinary op u) r) :
    Runs x (Proc.parsePrecedenceLoop q canAssign) s r := by
  have hprev : (advance s).parser.previous.type = op := by rw [advance_previous, hs]
  have hbin := runs_binary x canAssign (advance s) u 0 (by rw [hprev]; exact h1)
  rw [hprev] at hbin
  exact runs_loop_step x q canAssign s _ 0 ParseFn.binary r (by rw [hs]; exact hq)
    (by rw [hs]; exact hb) hbin h2

set_option maxRecDepth 100000 in
/-- C11: operator precedence. Let `op1` and `op2` be binary operators of the rules table
with `op2` of higher precedence, let `a` be an operand of `op1` followed by `op1`, `b` an
operand of `op2` followed by `op2`, and `c` an operand of `op2` followed by a token of a
precedence below `p`, where `p` is at most the precedence of `op1`. Then
`parsePrecedence(p)` parses `a op1 b op2 c` and returns in the state after the parse of `c`
with the instructions of `op2` and then those of `op1` emitted, followed by the check for an
invalid assignment: code(a) code(b) code(c) OP2 OP1. In particular `print 1 + 2 * 3;`
compiles to `OP_CONSTANT` 1.0, `OP_CONSTANT` 2.0, `OP_CONSTANT` 3.0, `OP_MULTIPLY`,
`OP_ADD`, `OP_PRINT` (and the return of the script). -/
theorem binary_operator_precedence (x : Extern) (p : Nat) (op1 op2 : TokenType)
    (s sa sb sc : State)
    (h1 : (getRule op1).infixRule = some ParseFn.binary)
    (h2 : (getRule op2).infixRule = some ParseFn.binary)
    (hp : p ≤ (getRule op1).precedence)
    (hprec : (getRule op1).precedence < (getRule op2).precedence)
    (ha : Operand x ((getRule op1).precedence + 1) s sa) (hsa : sa.parser.current.type = op1)
    (hb : Operand x ((getRule op2).precedence + 1) (advance sa) sb)
    (hsb : sb.parser.current.type = op2)
    (hc : Operand x ((getRule op2).precedence + 1) (advance sb) sc)
    (hsc : (getRule sc.parser.current.type).precedence < p) :
    Runs x (Proc.parsePrecedence p) s
      (0, finishAssignment (decide (p ≤ PREC_ASSIGNMENT)) (emitBinary op1 (emitBinary op2 sc))) ∧
    (sc.frames ≠ [] →
      currentCode (finishAssignment (decide (p ≤ PREC_ASSIGNMENT))
          (emitBinary op1 (emitBinary op2 sc)))
        = currentCode sc ++ binaryOpcodes op2 ++ binaryOpcodes op1) ∧
    codeAndConstants (compile digitExtern 40
        (printOps "1" (symbolToken TOKEN_PLUS "+") "2" (symbolToken TOKEN_STAR "*") "3")
        startState)
      = some (some ([OP_CONSTANT, 0, OP_CONSTANT, 1, OP_CONSTANT, 2, OP_MULTIPLY, OP_ADD,
          OP_PRINT, OP_NIL, OP_RETURN],
        [NUMBER_VAL 4607182418800017408, NUMBER_VAL 4611686018427387904,
          NUMBER_VAL 4613937818241073152])) := by
  have b1 := binary_precedence op1 h1
  have b2 := binary_precedence op2 h2
  have e4 : PREC_EQUALITY = 4 := rfl
  have e1 : PREC_ASSIGNMENT = 1 := rfl
  refine ⟨?_, ?_, by decide⟩
  · -- the loop at `op1 + 1`, entered after `b`
    have hd : decide ((getRule op1).precedence + 1 ≤ PREC_ASSIGNMENT) = false := by
      simp only [decide_eq_false_iff_not, not_le]
      omega
    have inner : Runs x (Proc.parsePrecedenceLoop ((getRule op1).precedence + 1) false) sb
        (0, emitBinary op2 sc) :=
      runs_loop_binary x _ false op2 sb sc _ h2 hsb (by omega) hc.2
        (runs_loop_stop x _ false _ (by rw [emitBinary_parserEq]; omega))
    have hB := parsePrecedence_lower x ((getRule op1).precedence + 1)
      ((getRule op2).precedence + 1) (by omega) (by omega) hb (by rw [hsb]; exact b2.2)
      (by rw [hd]; exact inner)
    rw [hd] at hB
    simp only [finishAssignment, Bool.false_eq_true, if_false] at hB
    have outer : Runs x (Proc.parsePrecedenceLoop p (decide (p ≤ PREC_ASSIGNMENT))) sa
        (0, emitBinary op1 (emitBinary op2 sc)) :=
      runs_loop_binary x p _ op1 sa _ _ h1 hsa hp hB
        (runs_loop_stop x _ _ _ (by rw [emitBinary_parserEq, emitBinary_parserEq]; exact hsc))
    exact parsePrecedence_lower x p ((getRule op1).precedence + 1) (by omega) (by omega) ha
      (by rw [hsa]; exact b1.2) outer
  · intro hfr
    have c2 := emitBinary_code op2 hfr
    have c1 := emitBinary_code op1 c2.2
    rw [currentCode_congr (finishAssignment_frames _ _), c1.1, c2.1]

set_option maxRecDepth 100000 in
theorem binary_operator_precedence_witness :
    Operand digitExtern (PREC_TERM + 1) sumProduct sumProductA ∧
    Operand digitExtern (PREC_FACTOR + 1) (advance sumProductA) sumProductB ∧
    Operand digitExtern (PREC_FACTOR + 1) (advance sumProductB) sumProductC ∧
    currentCode (finishAssignment true (emitBinary TOKEN_PLUS (emitBinary TOKEN_STAR
      sumProductC)))
      = [OP_CONSTANT, 0, OP_CONSTANT, 1, OP_CONSTANT, 2, OP_MULTIPLY, OP_ADD] :=
  ⟨⟨by decide, 4, by decide⟩, ⟨by decide, 4, by decide⟩, ⟨by decide, 4, by decide⟩,
    ((binary_operator_precedence digitExtern PREC_ASSIGNMENT TOKEN_PLUS TOKEN_STAR
      sumProduct sumProductA sumProductB sumProductC (by decide) (by decide) (by decide)
      (by decide) ⟨by decide, 4, by decide⟩ (by decide) ⟨by decide, 4, by decide⟩ (by decide)
      ⟨by decide, 4, by decide⟩ (by decide)).2.1 (by decide)).trans (by decide)⟩



set_option maxRecDepth 100000 in
/-- C12: binary operators are left-associative. Let `op1` and `op2` be binary operators of
the rules table of equal precedence, let `a` be an operand of `op1` followed by `op1`, `b`
an operand of `op1` followed by `op2`, and `c` an operand of `op2`, parsed after the
instructions of `op1` have been emitted, followed by a token of a precedence below `p`,
where `p` is at most the precedence of the operators. Then `parsePrecedence(p)` parses
`a op1 b op2 c` and returns in the state after the parse of `c` with the instructions of
`op2` emitted: code(a) code(b) OP1 code(c) OP2, the grouping `(a op1 b) op2 c`. For example
`print 1 - 2 + 3;` compiles to the three constants with `OP_SUBTRACT` after the second and
`OP_ADD` after the third. -/
theorem binary_operators_left_associative (x : Extern) (p : Nat) (op1 op2 : TokenType)
    (s sa sb sc : State)
    (h1 : (getRule op1).infixRule = some ParseFn.binary)
    (h2 : (getRule op2).infixRule = some ParseFn.binary)
    (hp : p ≤ (getRule op1).precedence)
    (hprec : (getRule op1).precedence = (getRule op2).precedence)
    (ha : Operand x ((getRule op1).precedence + 1) s sa) (hsa : sa.parser.current.type = op1)
    (hb : Operand x ((getRule op1).precedence + 1) (advance sa) sb)
    (hsb : sb.parser.current.type = op2)
    (hc : Operand x ((getRule op2).precedence + 1) (advance (emitBinary op1 sb)) sc)
    (hsc : (getRule sc.parser.current.type).precedence < p) :
    Runs x (Proc.parsePrecedence p) s
      (0, finishAssignment (decide (p ≤ PREC_ASSIGNMENT)) (emitBinary op2 sc)) ∧
    (sb.frames ≠ [] → currentCode (emitBinary op1 sb) = currentCode sb ++ binaryOpcodes op1) ∧
    (sc.frames ≠ [] →
      currentCode (finishAssignment (decide (p ≤ PREC_ASSIGNMENT)) (emitBinary op2 sc))
        = currentCode sc ++ binaryOpcodes op2) ∧
    codeAndConstants (compile digitExtern 40
        (printOps "1" (symbolToken TOKEN_MINUS "-") "2" (symbolToken TOKEN_PLUS "+") "3")
        startState)
      = some (some ([OP_CONSTANT, 0, OP_CONSTANT, 1, OP_SUBTRACT, OP_CONSTANT, 2, OP_ADD,
          OP_PRINT, OP_NIL, OP_RETURN],
        [NUMBER_VAL 4607182418800017408, NUMBER_VAL 4611686018427387904,
          NUMBER_VAL 4613937818241073152])) := by
  have b1 := binary_precedence op1 h1
  have e4 : PREC_EQUALITY = 4 := rfl
  have e1 : PREC_ASSIGNMENT = 1 := rfl
  refine ⟨?_, fun hfr => (emitBinary_code op1 hfr).1, ?_, by decide⟩
  · have second : Runs x (Proc.parsePrecedenceLoop p (decide (p ≤ PREC_ASSIGNMENT)))
        (emitBinary op1 sb) (0, emitBinary op2 sc) :=
      runs_loop_binary x p _ op2 _ sc _ h2 (by rw [emitBinary_parserEq]; exact hsb)
        (by omega) hc.2
        (runs_loop_stop x _ _ _ (by rw [emitBinary_parserEq]; exact hsc))
    have first : Runs x (Proc.parsePrecedenceLoop p (decide (p ≤ PREC_ASSIGNMENT))) sa
        (0, emitBinary op2 sc) :=
      runs_loop_binary x p _ op1 sa sb _ h1 hsa hp hb.2 second
    exact parsePrecedence_lower x p ((getRule op1).precedence + 1) (by omega) (by omega) ha
      (by rw [hsa]; exact b1.2) first
  · intro hfr
    rw [currentCode_congr (finishAssignment_frames _ _), (emitBinary_code op2 hfr).1]

set_option maxRecDepth 100000 in
theorem binary_operators_left_associative_witness :
    Operand digitExtern (PREC_TERM + 1) diffSum diffSumA ∧
    Operand digitExtern (PREC_TERM + 1) (advance diffSumA) diffSumB ∧
    Operand digitExtern (PREC_TERM + 1) (advance (emitBinary TOKEN_MINUS diffSumB)) diffSumC ∧
    currentCode (finishAssignment true (emitBinary TOKEN_PLUS diffSumC))
      = [OP_CONSTANT, 0, OP_CONSTANT, 1, OP_SUBTRACT, OP_CONSTANT, 2, OP_ADD] :=
  ⟨⟨by decide, 4, by decide⟩, ⟨by decide, 4, by decide⟩, ⟨by decide, 4, by decide⟩,
    ((binary_operators_left_associative digitExtern PREC_ASSIGNMENT TOKEN_MINUS TOKEN_PLUS
      diffSum diffSumA diffSumB diffSumC (by decide) (by decide) (by decide)
      (by decide) ⟨by decide, 4, by decide⟩ (by decide) ⟨by decide, 4, by decide⟩ (by decide)
      ⟨by decide, 4, by decide⟩ (by decide)).2.2.1 (by decide)).trans (by decide)⟩



/-! ## Negated comparisons -/

theorem runs_parsePrecedence (x : Extern) (p : Nat) (s u1 : State) (f : ParseFn) (i1 : Int)
    (r : Int × State) (hf : (getRule s.parser.current.type).prefixRule = some f)
    (h1 : Runs x (f.proc (decide (p ≤ PREC_ASSIGNMENT))) (advance s) (i1, u1))
    (h2 : Runs x (Proc.parsePrecedenceLoop p (decide (p ≤ PREC_ASSIGNMENT))) u1 r) :
    Runs x (Proc.parsePrecedence p) s
      (0, finishAssignment (decide (p ≤ PREC_ASSIGNMENT)) r.2) := by
  obtain ⟨n, hn⟩ := h1
  obtain ⟨m, hm⟩ := h2
  refine ⟨max n m + 1, ?_⟩
  rw [← advance_previous] at hf
  rw [exec_parsePrecedence, hf]
  dsimp only
  rw [exec_mono x hn (le_max_left n m)]
  dsimp only [Option.bind]
  rw [exec_mono x hm (le_max_right n m)]

theorem runs_expression (x : Extern) (s : State) (r : Int × State)
    (h : Runs x (Proc.parsePrecedence PREC_ASSIGNMENT) s r) : Runs x Proc.expression s r := by
  obtain ⟨n, hn⟩ := h
  exact ⟨n + 1, by simp only [exec]; exact hn⟩

theorem runs_grouping (x : Extern) (canAssign : Bool) (s u : State) (i : Int)
    (h : Runs x Proc.expression s (i, u)) :
    Runs x (Proc.grouping canAssign) s
      (0, consume TOKEN_RIGHT_PAREN "Expect ')' after expression." u) := by
  obtain ⟨n, hn⟩ := h
  exact ⟨n + 1, by simp only [exec, hn]; rfl⟩

theorem runs_unary_not (x : Extern) (canAssign : Bool) (s u : State) (i : Int)
    (hs : s.parser.previous.type = TOKEN_BANG)
    (h : Runs x (Proc.parsePrecedence PREC_UNARY) s (i, u)) :
    Runs x (Proc.unary canAssign) s (0, emitByte OP_NOT u) := by
  obtain ⟨n, hn⟩ := h
  exact ⟨n + 1, by simp only [exec, hn, hs]; rfl⟩

theorem finishAssignment_of_ne (canAssign : Bool) {s : State}
    (h : s.parser.current.type ≠ TOKEN_EQUAL) : finishAssignment canAssign s = s := by
  unfold finishAssignment
  rw [matchToken_of_ne h]
  simp

/-- One binary operator between two operands. -/
theorem runs_binary_once (x : Extern) (p : Nat) (op : TokenType) (s sa sb : State)
    (h1 : (getRule op).infixRule = some ParseFn.binary) (hp : p ≤ (getRule op).precedence)
    (ha : Operand x ((getRule op).precedence + 1) s sa) (hsa : sa.parser.current.type = op)
    (hb : Operand x ((getRule op).precedence + 1) (advance sa) sb)
    (hsb : (getRule sb.parser.current.type).precedence < p) :
    Runs x (Proc.parsePrecedence p) s
      (0, finishAssignment (decide (p ≤ PREC_ASSIGNMENT)) (emitBinary op sb)) := by
  have b1 := binary_precedence op h1
  have e4 : PREC_EQUALITY = 4 := rfl
  have e1 : PREC_ASSIGNMENT = 1 := rfl
  exact parsePrecedence_lower x p ((getRule op).precedence + 1) (by omega) (by omega) ha
    (by rw [hsa]; exact b1.2)
    (runs_loop_binary x p _ op sa sb _ h1 hsa hp hb.2
      (runs_loop_stop x _ _ _ (by rw [emitBinary_parserEq]; exact hsb)))

theorem errorAt_parser_congr (token : Token) (message : String) {s t : State}
    (h : s.parser = t.parser) (h' : s.source = t.source) :
    (errorAt token message s).parser = (errorAt token message t).parser ∧
    (errorAt token message s).source = (errorAt token message t).source := by
  unfold errorAt
  rw [h]
  split
  · exact ⟨h, h'⟩
  · exact ⟨by simp only [h], h'⟩

theorem advanceLoop_parser_congr (fuel : Nat) : ∀ {s t : State}, s.parser = t.parser →
    s.source = t.source →
    (advanceLoop fuel s).parser = (advanceLoop fuel t).parser ∧
    (advanceLoop fuel s).source = (advanceLoop fuel t).source := by
  induction fuel with
  | zero => intro s t h h'; exact ⟨h, h'⟩
  | succ fuel ih =>
    intro s t h h'
    unfold advanceLoop
    simp only
    rw [h']
    split
    · exact ⟨by simp only [h], rfl⟩
    · unfold errorAtCurrent
      refine ih ?_ ?_
      · refine (errorAt_parser_congr _ _ ?_ ?_).1
        · simp only [h]
        · rfl
      · refine (errorAt_parser_congr _ _ ?_ ?_).2
        · simp only [h]
        · rfl

/-- What `advance` does to the parser depends on the parser and on the source alone. -/
theorem advance_parser_congr {s t : State} (h : s.parser = t.parser) (h' : s.source = t.source) :
    (advance s).parser = (advance t).parser := by
  unfold advance
  rw [h']
  refine (advanceLoop_parser_congr _ ?_ ?_).1
  · simp only [h]
  · rfl

theorem modifyCurrent_source (f : Compiler → Compiler) (s : State) :
    (modifyCurrent f s).source = s.source := by
  unfold modifyCurrent
  split <;> rfl

theorem emitBinary_source (operatorType : TokenType) (s : State) :
    (emitBinary operatorType s).source = s.source := by
  cases operatorType <;> simp only [emitBinary, emitBytes, emitByte, modifyChunk,
    modifyCurrent_source]



theorem consume_of_eq {type : TokenType} (message : String) {s : State}
    (h : s.parser.current.type = type) : consume type message s = advance s := by
  unfold consume
  rw [if_pos h]

set_option maxRecDepth 100000 in
/-- C14: negated comparisons. Let `op` be `!=`, `>=` or `<=` and `base` the complementary
operator `==`, `<` or `>` with the opcode `opcode`. For operands `a` and `b` of these
operators, `parsePrecedence(p)` compiles `a op b` to the code of the operands followed by
`opcode, OP_NOT`, and it compiles `!(a base b)` to the code of the operands followed by the
same two bytes: the instruction of `base` from `binary`, `OP_NOT` from `unary`. With the
literals `1` and `2` for the operands the whole chunks of `print 1 op 2;` and of
`print !(1 base 2);` are equal. -/
theorem negated_comparison_lowering (x : Extern) (p : Nat) (op base : TokenType) (opcode : Nat)
    (s sa sb t ta tb : State)
    (hop : (op, base, opcode) ∈ [(TOKEN_BANG_EQUAL, TOKEN_EQUAL_EQUAL, OP_EQUAL),
      (TOKEN_GREATER_EQUAL, TOKEN_LESS, OP_LESS), (TOKEN_LESS_EQUAL, TOKEN_GREATER, OP_GREATER)])
    (hp : p ≤ (getRule op).precedence)
    (ha : Operand x ((getRule op).precedence + 1) s sa) (hsa : sa.parser.current.type = op)
    (hb : Operand x ((getRule op).precedence + 1) (advance sa) sb)
    (hsb : (getRule sb.parser.current.type).precedence < p) (hsbf : sb.frames ≠ [])
    (ht : t.parser.current.type = TOKEN_BANG)
    (ht' : (advance t).parser.current.type = TOKEN_LEFT_PAREN)
    (ha' : Operand x ((getRule base).precedence + 1) (advance (advance t)) ta)
    (hta : ta.parser.current.type = base)
    (hb' : Operand x ((getRule base).precedence + 1) (advance ta) tb)
    (htb : tb.parser.current.type = TOKEN_RIGHT_PAREN)
    (htb' : (getRule (advance tb).parser.current.type).precedence < p)
    (htbf : tb.frames ≠ []) :
    (∃ u, Runs x (Proc.parsePrecedence p) s (0, u) ∧
      currentCode u = currentCode sb ++ [opcode, OP_NOT]) ∧
    (∃ u, Runs x (Proc.parsePrecedence p) t (0, u) ∧
      currentCode u = currentCode tb ++ [opcode, OP_NOT]) ∧
    (∀ ops ∈ [(symbolToken TOKEN_BANG_EQUAL "!=", symbolToken TOKEN_EQUAL_EQUAL "=="),
        (symbolToken TOKEN_GREATER_EQUAL ">=", symbolToken TOKEN_LESS "<"),
        (symbolToken TOKEN_LESS_EQUAL "<=", symbolToken TOKEN_GREATER ">")],
      codeAndConstants (compile digitExtern 40 (printComparison ops.1) startState)
        = codeAndConstants (compile digitExtern 40 (printNegated ops.2) startState)) := by
  have hbin : (getRule op).infixRule = some ParseFn.binary ∧
      (getRule base).infixRule = some ParseFn.binary ∧
      (getRule base).precedence = (getRule op).precedence ∧
      binaryOpcodes op = [opcode, OP_NOT] ∧ binaryOpcodes base = [opcode] ∧
      (getRule op).precedence ≤ 5 := by
    simp only [List.mem_cons, Prod.mk.injEq, List.mem_singleton, List.not_mem_nil,
      or_false] at hop
    rcases hop with ⟨rfl, rfl, rfl⟩ | ⟨rfl, rfl, rfl⟩ | ⟨rfl, rfl, rfl⟩ <;> decide
  obtain ⟨h1, h2, hprec, hc1, hc2, hle⟩ := hbin
  have e1 : PREC_ASSIGNMENT = 1 := rfl
  have e8 : PREC_UNARY = 8 := rfl
  have b2 := binary_precedence base h2
  have e4 : PREC_EQUALITY = 4 := rfl
  refine ⟨⟨_, runs_binary_once x p op s sa sb h1 hp ha hsa hb hsb, ?_⟩, ?_, by decide⟩
  · rw [currentCode_congr (finishAssignment_frames _ _), (emitBinary_code op hsbf).1, hc1]
  · -- the expression between the parentheses
    have hrp : (getRule TOKEN_RIGHT_PAREN).precedence = 0 := rfl
    have inner := runs_binary_once x PREC_ASSIGNMENT base _ ta tb h2 (by omega) ha' hta hb'
      (by rw [htb, hrp]; omega)
    rw [finishAssignment_of_ne _ (by rw [emitBinary_parserEq, htb]; decide)] at inner
    have hgroup := runs_grouping x (decide (PREC_UNARY ≤ PREC_ASSIGNMENT)) _ _ _
      (runs_expression x _ _ inner)
    rw [consume_of_eq _ (by rw [emitBinary_parserEq, htb])] at hgroup
    have hpar : (advance (emitBinary base tb)).parser = (advance tb).parser :=
      advance_parser_congr (emitBinary_parserEq _ _) (emitBinary_source _ _)
    have hunary := runs_parsePrecedence x PREC_UNARY (advance t) _ ParseFn.grouping 0 _
      (by rw [ht']; rfl) hgroup
      (runs_loop_stop x _ _ _ (by rw [hpar]; omega))
    have hf8 : decide (PREC_UNARY ≤ PREC_ASSIGNMENT) = false := by decide
    rw [hf8] at hunary
    simp only [finishAssignment, Bool.false_eq_true, if_false] at hunary
    have hnot := runs_unary_not x (decide (p ≤ PREC_ASSIGNMENT)) (advance t) _ 0
      (by rw [advance_previous, ht]) hunary
    have houter := runs_parsePrecedence x p t _ ParseFn.unary 0 _ (by rw [ht]; rfl) hnot
      (runs_loop_stop x _ _ _ (by rw [emitByte_parserEq, hpar]; exact htb'))
    refine ⟨_, houter, ?_⟩
    have f1 := emitBinary_code base htbf
    have f2 : (advance (emitBinary base tb)).frames ≠ [] := by
      rw [advance_frames]; exact f1.2
    rw [currentCode_congr (finishAssignment_frames _ _), (emitByte_code OP_NOT f2).1,
      currentCode_congr (advance_frames _), f1.1, hc2]
    simp

set_option maxRecDepth 100000 in
theorem negated_comparison_lowering_witness :
    Operand digitExtern (PREC_COMPARISON + 1) notLess notLessA ∧
    Operand digitExtern (PREC_COMPARISON + 1) (advance (advance negatedLess)) negatedLessA ∧
    (∃ u, Runs digitExtern (Proc.parsePrecedence PREC_ASSIGNMENT) notLess (0, u) ∧
      currentCode u = currentCode notLessB ++ [OP_LESS, OP_NOT]) ∧
    (∃ u, Runs digitExtern (Proc.parsePrecedence PREC_ASSIGNMENT) negatedLess (0, u) ∧
      currentCode u = currentCode negatedLessB ++ [OP_LESS, OP_NOT]) ∧
    currentCode notLessB = currentCode negatedLessB :=
  have h := negated_comparison_lowering digitExtern PREC_ASSIGNMENT TOKEN_GREATER_EQUAL
    TOKEN_LESS OP_LESS notLess notLessA notLessB negatedLess negatedLessA negatedLessB
    (by decide) (by decide) ⟨by decide, 4, by decide⟩ (by decide) ⟨by decide, 4, by decide⟩
    (by decide) (by decide) (by decide) (by decide) ⟨by decide, 4, by decide⟩ (by decide)
    ⟨by decide, 4, by decide⟩ (by decide) (by decide) (by decide)
  ⟨⟨by decide, 4, by decide⟩, ⟨by decide, 4, by decide⟩, h.1, h.2.1, by decide⟩



/-! ## Properties of the state that every procedure keeps -/

theorem inv_ite {I : State → Prop} {a b : State} (c : Prop) [Decidable c] (ha : I a)
    (hb : I b) : I (if c then a else b) := by
  split
  · exact ha
  · exact hb

section
variable {I : State → Prop} [SegmentInvariant I]

theorem inv_error (message : String) {t : State} (h : I t) : I (error message t) :=
  SegmentInvariant.errorAt_keeps _ _ _ h

theorem inv_errorAtCurrent (message : String) {t : State} (h : I t) :
    I (errorAtCurrent message t) :=
  SegmentInvariant.errorAt_keeps _ _ _ h

theorem inv_consume (type : TokenType) (message : String) {t : State} (h : I t) :
    I (consume type message t) := by
  unfold consume
  exact inv_ite _ (SegmentInvariant.advance_keeps _ h) (inv_errorAtCurrent _ h)

theorem inv_matchToken (type : TokenType) {t : State} (h : I t) : I (matchToken type t).2 := by
  unfold matchToken
  split
  · exact h
  · exact SegmentInvariant.advance_keeps _ h

theorem inv_recordFault (f : Fault) {t : State} (h : I t) : I (recordFault f t) :=
  SegmentInvariant.faults_keeps _ _ h

theorem inv_emitBytes (byte1 byte2 : Nat) {t : State} (h : I t) :
    I (emitBytes byte1 byte2 t) :=
  SegmentInvariant.emitByte_keeps _ _ (SegmentInvariant.emitByte_keeps _ _ h)

theorem inv_emitLoop (loopStart : Int) {t : State} (h : I t) : I (emitLoop loopStart t) := by
  unfold emitLoop
  exact SegmentInvariant.emitByte_keeps _ _ (SegmentInvariant.emitByte_keeps _ _
    (inv_ite _ (inv_error _ (SegmentInvariant.emitByte_keeps _ _ h)) (SegmentInvariant.emitByte_keeps _ _ h)))

theorem inv_emitReturn {t : State} (h : I t) : I (emitReturn t) := by
  unfold emitReturn
  exact SegmentInvariant.emitByte_keeps _ _ (inv_ite _ (inv_emitBytes _ _ h)
    (SegmentInvariant.emitByte_keeps _ _ h))

theorem inv_emitJump (instruction : Nat) {t : State} (h : I t) :
    I (emitJump instruction t).2 := by
  unfold emitJump
  exact SegmentInvariant.emitByte_keeps _ _ (SegmentInvariant.emitByte_keeps _ _
    (SegmentInvariant.emitByte_keeps _ _ h))

theorem inv_emitConstant (value : Value) {t : State} (h : I t) : I (emitConstant value t) := by
  unfold emitConstant
  exact inv_emitBytes _ _ (SegmentInvariant.makeConstant_keeps _ _ h)

theorem inv_identifierConstant (x : Extern) (name : String) {t : State} (h : I t) :
    I (identifierConstant x name t).2 :=
  SegmentInvariant.makeConstant_keeps _ _ h

theorem inv_resolveLocal (ci : Nat) (name : String) {t : State} (h : I t) :
    I (resolveLocal ci name t).2 := by
  unfold resolveLocal
  split
  · exact SegmentInvariant.faults_keeps _ _ h
  · split
    · exact h
    · exact inv_ite _ (inv_error _ h) h

theorem inv_resolveUpvalueAux (fuel : Nat) : ∀ (ci : Nat) (name : String) {t : State},
    I t → I (resolveUpvalueAux fuel ci name t).2 := by
  induction fuel with
  | zero => intro ci name t h; exact h
  | succ fuel ih =>
    intro ci name t h
    unfold resolveUpvalueAux
    split
    · exact h
    · simp only
      split
      · exact SegmentInvariant.addUpvalue_keeps _ _ _ _ (inv_resolveLocal _ _ h)
      · split
        · exact SegmentInvariant.addUpvalue_keeps _ _ _ _ (SegmentInvariant.setCaptured_keeps _ _ _
            (ih _ _ (inv_resolveLocal _ _ h)))
        · exact ih _ _ (inv_resolveLocal _ _ h)

theorem inv_resolveUpvalue (ci : Nat) (name : String) {t : State} (h : I t) :
    I (resolveUpvalue ci name t).2 :=
  inv_resolveUpvalueAux _ _ _ h

theorem inv_declareVariableLoop (name : String) (n : Nat) : ∀ {t : State},
    I t → I (declareVariableLoop name n t) := by
  induction n with
  | zero => intro t h; exact h
  | succ n ih =>
    intro t h
    unfold declareVariableLoop
    split
    · exact h
    · split
      · exact h
      · split
        · exact h
        · exact ih (inv_ite _ (inv_error _ h) h)

theorem inv_declareVariable {t : State} (h : I t) : I (declareVariable t) := by
  unfold declareVariable
  split
  · exact h
  · exact SegmentInvariant.addLocal_keeps _ _ (inv_declareVariableLoop _ _ h)

theorem inv_parseVariable (x : Extern) (errorMessage : String) {t : State} (h : I t) :
    I (parseVariable x errorMessage t).2 := by
  unfold parseVariable
  simp only
  split
  · exact inv_declareVariable (inv_consume _ _ h)
  · exact inv_identifierConstant _ _ (inv_declareVariable (inv_consume _ _ h))

theorem inv_defineVariable (global : Nat) {t : State} (h : I t) :
    I (defineVariable global t) := by
  unfold defineVariable
  exact inv_ite _ (SegmentInvariant.markInitialized_keeps _ h) (inv_emitBytes _ _ h)

theorem inv_functionParams (x : Extern) (fuel : Nat) : ∀ {t : State}, I t →
    I (functionParams x fuel t) := by
  induction fuel with
  | zero => intro t h; exact h
  | succ fuel ih =>
    intro t h
    have h0 := SegmentInvariant.arity_keeps _ h
    unfold functionParams
    simp only
    generalize modifyCurrent _ t = t0 at h0
    have h1 : ∀ (c : Prop) [Decidable c], I (matchToken TOKEN_COMMA (defineVariable
        (parseVariable x "Expect parameter name."
          (if c then errorAtCurrent "Can't have more than 255 parameters." t0 else t0)).1
        (parseVariable x "Expect parameter name."
          (if c then errorAtCurrent "Can't have more than 255 parameters." t0 else t0)).2)).2 :=
      fun c _ => inv_matchToken _ (inv_defineVariable _ (inv_parseVariable _ _
        (inv_ite c (inv_errorAtCurrent _ h0) h0)))
    exact inv_ite _ (ih (h1 _)) (h1 _)

theorem inv_emitUpvalues (compiler : Compiler) (upvalueCount : Nat) {t : State} (h : I t) :
    I (emitUpvalues compiler upvalueCount t) := by
  unfold emitUpvalues
  generalize List.range upvalueCount = l
  induction l generalizing t with
  | nil => exact h
  | cons i l ih =>
    simp only [List.foldl_cons]
    apply ih
    split
    · exact SegmentInvariant.faults_keeps _ _ h
    · exact SegmentInvariant.emitByte_keeps _ _ (SegmentInvariant.emitByte_keeps _ _ h)

instance (token : Token) (message : String) : InvStep I (errorAt token message) :=
  ⟨fun h => SegmentInvariant.errorAt_keeps _ _ _ h⟩

instance (message : String) : InvStep I (error message) := ⟨fun h => inv_error message h⟩

instance (message : String) : InvStep I (errorAtCurrent message) :=
  ⟨fun h => inv_errorAtCurrent message h⟩

instance : InvStep I advance := ⟨fun h => SegmentInvariant.advance_keeps _ h⟩

instance (f : Fault) : InvStep I (recordFault f) := ⟨fun h => inv_recordFault f h⟩

instance (classes : List ClassCompiler) : InvStep I (setClasses classes) :=
  ⟨fun h => SegmentInvariant.classes_keeps _ _ h⟩

instance (byte : Nat) : InvStep I (emitByte byte) := ⟨fun h => SegmentInvariant.emitByte_keeps _ _ h⟩

instance (byte1 byte2 : Nat) : InvStep I (emitBytes byte1 byte2) :=
  ⟨fun h => inv_emitBytes _ _ h⟩

instance (loopStart : Int) : InvStep I (emitLoop loopStart) := ⟨fun h => inv_emitLoop _ h⟩

instance : InvStep I emitReturn := ⟨fun h => inv_emitReturn h⟩

instance (instruction : Nat) : InvStep2 I (emitJump instruction) := ⟨fun h => inv_emitJump _ h⟩

instance (value : Value) : InvStep2 I (makeConstant value) :=
  ⟨fun h => SegmentInvariant.makeConstant_keeps _ _ h⟩

instance (value : Value) : InvStep I (emitConstant value) := ⟨fun h => inv_emitConstant _ h⟩

instance : InvStep I beginScope := ⟨fun h => SegmentInvariant.beginScope_keeps _ h⟩

instance : InvStep I endScope := ⟨fun h => SegmentInvariant.endScope_keeps _ h⟩

instance (x : Extern) (name : String) : InvStep2 I (identifierConstant x name) :=
  ⟨fun h => inv_identifierConstant _ _ h⟩

instance (name : String) : InvStep I (addLocal name) :=
  ⟨fun h => SegmentInvariant.addLocal_keeps _ _ h⟩

instance (ci : Nat) (name : String) : InvStep2 I (resolveLocal ci name) :=
  ⟨fun h => inv_resolveLocal _ _ h⟩

instance (ci : Nat) (name : String) : InvStep2 I (resolveUpvalue ci name) :=
  ⟨fun h => inv_resolveUpvalue _ _ h⟩

instance : InvStep I declareVariable := ⟨fun h => inv_declareVariable h⟩

instance (type : TokenType) (message : String) : InvStep I (consume type message) :=
  ⟨fun h => inv_consume _ _ h⟩

instance (type : TokenType) : InvStep2 I (matchToken type) := ⟨fun h => inv_matchToken _ h⟩

instance (x : Extern) (errorMessage : String) : InvStep2 I (parseVariable x errorMessage) :=
  ⟨fun h => inv_parseVariable _ _ h⟩

instance : InvStep I markInitialized := ⟨fun h => SegmentInvariant.markInitialized_keeps _ h⟩

instance (global : Nat) : InvStep I (defineVariable global) :=
  ⟨fun h => inv_defineVariable _ h⟩

instance (x : Extern) (fuel : Nat) : InvStep I (functionParams x fuel) :=
  ⟨fun h => inv_functionParams _ _ h⟩

instance (compiler : Compiler) (upvalueCount : Nat) :
    InvStep I (emitUpvalues compiler upvalueCount) :=
  ⟨fun h => inv_emitUpvalues _ _ h⟩

end

instance {I : State → Prop} [StepInvariant I] : InvStep I synchronize :=
  ⟨fun h => StepInvariant.synchronize_keeps _ h⟩

instance {I : State → Prop} [Invariant I] (offset : Int) : InvStep I (patchJump offset) :=
  ⟨fun h => Invariant.patchJump_keeps _ _ h⟩

instance {I : State → Prop} [Invariant I] (x : Extern) (type : FunctionType) :
    InvStep I (initCompiler x type) :=
  ⟨fun h => Invariant.initCompiler_keeps _ _ _ h⟩

instance {I : State → Prop} [Invariant I] : InvStep2 I endCompiler :=
  ⟨fun h => Invariant.endCompiler_keeps _ h⟩

theorem inv_step {I : State → Prop} {f : State → State} [InvStep I f] {t : State} (h : I t) :
    I (f t) :=
  InvStep.step h

theorem inv_step2 {I : State → Prop} {α : Type} {f : State → α × State} [InvStep2 I f]
    {t : State} (h : I t) : I (f t).2 :=
  InvStep2.step h

theorem post_some {α : Type} {I : State → Prop} {i : α} {t : State} (h : I t) :
    Post I (some (i, t)) :=
  ⟨fun r hr => by cases hr; exact h⟩

theorem post_bind {α β : Type} {I : State → Prop} {a : Option (α × State)}
    {f : α × State → Option (β × State)} (ha : Post I a)
    (hf : ∀ r, I r.2 → Post I (f r)) : Post I (a.bind f) := by
  constructor
  intro r h
  obtain ⟨v, hv, hr⟩ := Option.bind_eq_some.1 h
  exact (hf v (ha.out v hv)).out r hr

theorem post_ite {α : Type} {I : State → Prop} {a b : Option (α × State)} (c : Prop) [Decidable c]
    (ha : Post I a) (hb : Post I b) : Post I (if c then a else b) := by
  split
  · exact ha
  · exact hb

set_option maxHeartbeats 4000000 in
/-- Every procedure of the compiler keeps a property that the elementary steps keep. -/
theorem exec_post (x : Extern) (I : State → Prop) [Invariant I] :
    ∀ (n : Nat) (p : Proc) (s : State), I s → Post I (exec x n p s) := by
  intro n
  induction n with
  | zero =>
    intro p s _
    constructor
    intro r h
    simp [exec] at h
  | succ n ih =>
    intro p s hs
    cases p <;> simp only [exec] <;> with_reducible
      (repeat' (first | assumption | apply ih | apply post_bind | apply post_ite | apply post_some | intro _ | apply inv_ite | dsimp only | apply inv_step | apply inv_step2 | split))

theorem exec_invariant (x : Extern) (I : State → Prop) [Invariant I] {n : Nat} {p : Proc}
    {s u : State} {i : Int} (h : exec x n p s = some (i, u)) (hs : I s) : I u :=
  (exec_post x I n p s hs).out (i, u) h



/-! ## Panic mode implies `hadError` -/

theorem panicOK_of_parserEq {s t : State} (h : t.parser = s.parser) (hs : PanicOK s) :
    PanicOK t := by
  unfold PanicOK at *
  rw [h]
  exact hs

theorem panicOK_of_flags {s t : State} (h1 : t.parser.panicMode = s.parser.panicMode)
    (h2 : t.parser.hadError = s.parser.hadError) (hs : PanicOK s) : PanicOK t := by
  unfold PanicOK at *
  rw [h1, h2]
  exact hs

theorem panicOK_errorAt (token : Token) (message : String) {s : State} (hs : PanicOK s) :
    PanicOK (errorAt token message s) := by
  unfold errorAt
  split
  · exact hs
  · intro _
    rfl

theorem panicOK_advanceLoop (fuel : Nat) : ∀ {s : State}, PanicOK s →
    PanicOK (advanceLoop fuel s) := by
  induction fuel with
  | zero => intro s hs; exact hs
  | succ fuel ih =>
    intro s hs
    unfold advanceLoop
    simp only
    split
    · exact hs
    · exact ih (panicOK_errorAt _ _ hs)

theorem panicOK_advance {s : State} (hs : PanicOK s) : PanicOK (advance s) :=
  panicOK_advanceLoop _ hs

theorem panicOK_synchronizeLoop (fuel : Nat) : ∀ {s : State}, PanicOK s →
    PanicOK (synchronizeLoop fuel s) := by
  induction fuel with
  | zero => intro s hs; exact hs
  | succ fuel ih =>
    intro s hs
    unfold synchronizeLoop
    split
    · split
      · exact hs
      · split <;> first | exact hs | exact ih (panicOK_advance hs)
    · exact hs

theorem panicOK_modifyCurrent (f : Compiler → Compiler) {s : State} (hs : PanicOK s) :
    PanicOK (modifyCurrent f s) :=
  panicOK_of_parserEq (modifyCurrent_parserEq f s) hs

theorem panicOK_modifyFrame (ci : Nat) (f : Compiler → Compiler) {s : State} (hs : PanicOK s) :
    PanicOK (modifyFrame ci f s) := by
  unfold modifyFrame
  split <;> exact hs

theorem panicOK_endScopeLoop (n : Nat) : ∀ {s : State}, PanicOK s →
    PanicOK (endScopeLoop n s) := by
  induction n with
  | zero => intro s hs; exact hs
  | succ n ih =>
    intro s hs
    unfold endScopeLoop
    split
    · exact hs
    · split
      · exact hs
      · split
        · apply ih
          apply panicOK_modifyCurrent
          split <;> exact panicOK_modifyCurrent _ hs
        · exact hs

theorem emitReturn_parserEq (s : State) : (emitReturn s).parser = s.parser := by
  unfold emitReturn emitBytes
  split <;> simp only [emitByte_parserEq]

theorem endCompiler_parserEq (s : State) : (endCompiler s).2.parser = s.parser := by
  unfold endCompiler
  simp only
  split <;> exact emitReturn_parserEq s

instance : Invariant PanicOK where
  errorAt_keeps token message s hs := panicOK_errorAt token message hs
  advance_keeps s hs := panicOK_advance hs
  synchronize_keeps s hs := panicOK_synchronizeLoop _ (fun _ => by simp at *)
  faults_keeps faults s hs := hs
  classes_keeps classes s hs := hs
  emitByte_keeps byte s hs := panicOK_modifyCurrent _ hs
  makeConstant_keeps value s hs := by
    unfold makeConstant
    simp only
    split
    · exact panicOK_errorAt _ _ (panicOK_modifyCurrent _ hs)
    · exact panicOK_modifyCurrent _ hs
  patchJump_keeps offset s hs := by
    unfold patchJump
    apply panicOK_modifyCurrent
    split
    · exact panicOK_errorAt _ _ hs
    · exact hs
  beginScope_keeps s hs := panicOK_modifyCurrent _ hs
  endScope_keeps s hs := panicOK_endScopeLoop _ (panicOK_modifyCurrent _ hs)
  addLocal_keeps name s hs := by
    unfold addLocal
    split
    · exact panicOK_errorAt _ _ hs
    · exact panicOK_modifyCurrent _ hs
  addUpvalue_keeps ci index isLocal s hs := by
    unfold addUpvalue
    split
    · exact hs
    · split
      · exact hs
      · simp only
        split
        · exact panicOK_errorAt _ _ hs
        · exact panicOK_modifyFrame _ _ hs
  setCaptured_keeps ci index s hs := by
    unfold setCaptured
    split
    · exact hs
    · split
      · split <;> exact hs
      · exact hs
  markInitialized_keeps s hs := by
    unfold markInitialized
    split
    · exact hs
    · split
      · exact hs
      · split <;> exact hs
  arity_keeps s hs := panicOK_modifyCurrent _ hs
  initCompiler_keeps x type s hs := hs
  endCompiler_keeps s hs := by
    exact panicOK_of_parserEq (endCompiler_parserEq s) hs



/-! ## The upvalues of a frame are as many as its `upvalueCount` -/

theorem upvalOK_of_frames {s t : State} (h : t.frames = s.frames) (hs : UpvalOK s) :
    UpvalOK t := by
  unfold UpvalOK at *
  rw [h]
  exact hs

theorem upvalOK_modifyCurrent (f : Compiler → Compiler)
    (hf : ∀ c, FrameOK c → FrameOK (f c)) {s : State} (hs : UpvalOK s) :
    UpvalOK (modifyCurrent f s) := by
  unfold modifyCurrent
  split
  · exact hs
  · rename_i c rest hfr
    intro d hd
    simp only [List.mem_cons] at hd
    rcases hd with rfl | hd
    · exact hf c (hs c (by rw [hfr]; exact List.mem_cons_self _ _))
    · exact hs d (by rw [hfr]; exact List.mem_cons_of_mem _ hd)

theorem upvalOK_modifyCurrent_same (f : Compiler → Compiler)
    (h1 : ∀ c, (f c).upvalues = c.upvalues)
    (h2 : ∀ c, (f c).function.upvalueCount = c.function.upvalueCount) {s : State}
    (hs : UpvalOK s) : UpvalOK (modifyCurrent f s) := by
  apply upvalOK_modifyCurrent f _ hs
  intro c hc
  unfold FrameOK at *
  rw [h1, h2]
  exact hc

theorem upvalOK_modifyFrame (ci : Nat) (f : Compiler → Compiler)
    (hf : ∀ c, FrameOK c → FrameOK (f c)) {s : State} (hs : UpvalOK s) :
    UpvalOK (modifyFrame ci f s) := by
  unfold modifyFrame
  split
  · exact hs
  · rename_i c hc
    intro d hd
    rcases List.mem_or_eq_of_mem_set hd with hd | rfl
    · exact hs d hd
    · exact hf c (hs c (List.getElem?_mem hc))

theorem upvalOK_errorAt (token : Token) (message : String) {s : State} (hs : UpvalOK s) :
    UpvalOK (errorAt token message s) :=
  upvalOK_of_frames (errorAt_frames token message s) hs

theorem upvalOK_advance {s : State} (hs : UpvalOK s) : UpvalOK (advance s) :=
  upvalOK_of_frames (advance_frames s) hs

theorem upvalOK_synchronizeLoop (fuel : Nat) : ∀ {s : State}, UpvalOK s →
    UpvalOK (synchronizeLoop fuel s) := by
  induction fuel with
  | zero => intro s hs; exact hs
  | succ fuel ih =>
    intro s hs
    unfold synchronizeLoop
    split
    · split
      · exact hs
      · split <;> first | exact hs | exact ih (upvalOK_advance hs)
    · exact hs

theorem upvalOK_emitByte (byte : Nat) {s : State} (hs : UpvalOK s) :
    UpvalOK (emitByte byte s) :=
  (by apply upvalOK_modifyCurrent_same _ _ _ hs <;> intro _ <;> rfl)

theorem upvalOK_endScopeLoop (n : Nat) : ∀ {s : State}, UpvalOK s →
    UpvalOK (endScopeLoop n s) := by
  induction n with
  | zero => intro s hs; exact hs
  | succ n ih =>
    intro s hs
    unfold endScopeLoop
    split
    · exact hs
    · split
      · exact hs
      · split
        · apply ih
          rename_i l _ _
          have h : UpvalOK (if l.isCaptured = true then emitByte OP_CLOSE_UPVALUE s
              else emitByte OP_POP s) := by
            split <;> exact upvalOK_emitByte _ hs
          apply upvalOK_modifyCurrent_same _ _ _ h <;> intro _ <;> rfl
        · exact hs

theorem upvalOK_tail {s : State} (hs : UpvalOK s) {c : Compiler} {rest : List Compiler}
    (h : s.frames = c :: rest) {t : State} (ht : t.frames = rest) : UpvalOK t := by
  intro d hd
  rw [ht] at hd
  exact hs d (by rw [h]; exact List.mem_cons_of_mem _ hd)

instance : Invariant UpvalOK where
  errorAt_keeps token message s hs := upvalOK_errorAt token message hs
  advance_keeps s hs := upvalOK_advance hs
  synchronize_keeps s hs := upvalOK_synchronizeLoop _ hs
  faults_keeps faults s hs := hs
  classes_keeps classes s hs := hs
  emitByte_keeps byte s hs := upvalOK_emitByte byte hs
  makeConstant_keeps value s hs := by
    unfold makeConstant
    simp only
    split
    · exact upvalOK_errorAt _ _ ((by apply upvalOK_modifyCurrent_same _ _ _ hs <;> intro _ <;> rfl))
    · exact (by apply upvalOK_modifyCurrent_same _ _ _ hs <;> intro _ <;> rfl)
  patchJump_keeps offset s hs := by
    unfold patchJump
    have h : UpvalOK (if currentCount s - offset - 2 > UINT16_MAX then
        error "Too much code to jump over." s else s) := by
      split
      · exact upvalOK_errorAt _ _ hs
      · exact hs
    apply upvalOK_modifyCurrent_same _ _ _ h <;> intro _ <;> rfl
  beginScope_keeps s hs := (by apply upvalOK_modifyCurrent_same _ _ _ hs <;> intro _ <;> rfl)
  endScope_keeps s hs := upvalOK_endScopeLoop _ ((by apply upvalOK_modifyCurrent_same _ _ _ hs <;> intro _ <;> rfl))
  addLocal_keeps name s hs := by
    unfold addLocal
    split
    · exact upvalOK_errorAt _ _ hs
    · exact (by apply upvalOK_modifyCurrent_same _ _ _ hs <;> intro _ <;> rfl)
  addUpvalue_keeps ci index isLocal s hs := by
    unfold addUpvalue
    split
    · exact hs
    · split
      · exact hs
      · simp only
        split
        · exact upvalOK_errorAt _ _ hs
        · apply upvalOK_modifyFrame _ _ _ hs
          intro c hc
          unfold FrameOK at *
          simp only [List.length_append, List.length_singleton, Nat.cast_add, Nat.cast_one, hc]
  setCaptured_keeps ci index s hs := by
    unfold setCaptured
    split
    · exact hs
    · rename_i c hc
      split
      · split
        · exact hs
        · intro d hd
          rcases List.mem_or_eq_of_mem_set hd with hd | rfl
          · exact hs d hd
          · exact hs c (List.getElem?_mem hc)
      · exact hs
  markInitialized_keeps s hs := by
    unfold markInitialized
    split
    · exact hs
    · split
      · exact hs
      · rename_i c rest hfr
        split
        · exact hs
        · intro d hd
          simp only [List.mem_cons] at hd
          rcases hd with rfl | hd
          · exact hs c (by rw [hfr]; exact List.mem_cons_self _ _)
          · exact hs d (by rw [hfr]; exact List.mem_cons_of_mem _ hd)
  arity_keeps s hs := (by apply upvalOK_modifyCurrent_same _ _ _ hs <;> intro _ <;> rfl)
  initCompiler_keeps x type s hs := by
    intro d hd
    simp only [initCompiler, List.mem_cons] at hd
    rcases hd with rfl | hd
    · rfl
    · exact hs d hd
  endCompiler_keeps s hs := by
    have h : UpvalOK (emitReturn s) := by
      unfold emitReturn emitBytes
      split <;> repeat (first | exact hs | apply upvalOK_emitByte)
    unfold endCompiler
    simp only
    split
    · exact h
    · rename_i c rest hfr
      exact upvalOK_tail h hfr rfl



/-! ## The operands of `OP_CLOSURE` -/

theorem exec_function (x : Extern) (n : Nat) (type : FunctionType) (s : State)
    {r : Int × State} {c : Compiler}
    (hb : exec x n Proc.block (functionEntry x type s) = some r)
    (hc : (endCompiler r.2).1 = some c) :
    exec x (n + 1) (Proc.function type) s =
      some (0, emitUpvalues c c.function.upvalueCount.toNat
        (emitBytes OP_CLOSURE (makeConstant (OBJ_VAL c.functionPtr) (endCompiler r.2).2).1
          (makeConstant (OBJ_VAL c.functionPtr) (endCompiler r.2).2).2)) := by
  simp only [exec]
  change (exec x n Proc.block (functionEntry x type s)).bind _ = _
  rw [hb]
  simp only [Option.some_bind, hc]

theorem exec_function_block (x : Extern) (n : Nat) (type : FunctionType) (s : State)
    {r : Int × State} (h : exec x (n + 1) (Proc.function type) s = some r) :
    ∃ b, exec x n Proc.block (functionEntry x type s) = some b := by
  simp only [exec] at h
  change (exec x n Proc.block (functionEntry x type s)).bind _ = _ at h
  cases hb : exec x n Proc.block (functionEntry x type s) with
  | none => rw [hb] at h; simp at h
  | some b => exact ⟨b, rfl⟩

theorem rel_functionEntry (x : Extern) (type : FunctionType) (s : State) :
    Rel (initCompiler x type s) (functionEntry x type s) := by
  unfold functionEntry
  with_reducible (repeat' (first | apply rel_step | apply rel_ite | exact Rel.refl _))

theorem frames_ne_nil_of_rel {s t : State} (h : Rel s t) (hs : s.frames ≠ []) :
    t.frames ≠ [] := by
  intro ht
  have := h.ids
  simp only [frameIds, ht, List.map_nil] at this
  exact hs (List.map_eq_nil_iff.1 this.symm)

theorem makeConstant_code (value : Value) {s : State} (h : s.frames ≠ []) :
    currentCode (makeConstant value s).2 = currentCode s ∧
    (makeConstant value s).2.frames ≠ [] := by
  cases hfr : s.frames with
  | nil => exact absurd hfr h
  | cons c rest =>
    have e : (modifyChunk (fun chunk => (addConstant chunk value).2) s).frames =
        { c with function := { c.function with
            chunk := (addConstant c.function.chunk value).2 } } :: rest :=
      modifyCurrent_frames _ hfr
    have e1 : currentCode (modifyChunk (fun chunk => (addConstant chunk value).2) s) =
        currentCode s := by
      unfold currentCode
      rw [e, hfr]
      rfl
    have e2 : (modifyChunk (fun chunk => (addConstant chunk value).2) s).frames ≠ [] := by
      rw [e]
      exact List.cons_ne_nil _ _
    unfold makeConstant
    simp only
    split
    · simp only [error]
      rw [currentCode_congr (errorAt_frames _ _ _), errorAt_frames]
      exact ⟨e1, e2⟩
    · exact ⟨e1, e2⟩

theorem emitUpvalues_succ {compiler : Compiler} {k : Nat} {u : Upvalue}
    (h : compiler.upvalues[k]? = some u) (s : State) :
    emitUpvalues compiler (k + 1) s =
      emitByte u.index (emitByte (if u.isLocal then 1 else 0) (emitUpvalues compiler k s)) := by
  simp only [emitUpvalues, List.range_succ, List.foldl_append, List.foldl_cons, List.foldl_nil, h]

theorem operandPairs_append (a b : List Upvalue) :
    operandPairs (a ++ b) = operandPairs a ++ operandPairs b := by
  induction a with
  | nil => rfl
  | cons u rest ih => simp [operandPairs, ih]

theorem operandPairs_length (a : List Upvalue) : (operandPairs a).length = 2 * a.length := by
  induction a with
  | nil => rfl
  | cons u rest ih => simp [operandPairs, ih]; omega

theorem emitByte_faults (byte : Nat) {s : State} (h : s.frames ≠ []) :
    (emitByte byte s).faults = s.faults := by
  cases hfr : s.frames with
  | nil => exact absurd hfr h
  | cons c rest => simp [emitByte, modifyChunk, modifyCurrent, hfr]

/-- With a current frame, the loop at the end of `function` appends the operand pairs of
the first `k` upvalues of the frame and meets no index out of range. -/
theorem emitUpvalues_code (compiler : Compiler) {s : State} (h : s.frames ≠ []) :
    ∀ k, k ≤ compiler.upvalues.length →
      currentCode (emitUpvalues compiler k s) =
        currentCode s ++ operandPairs (compiler.upvalues.take k) ∧
      (emitUpvalues compiler k s).frames ≠ [] ∧
      (emitUpvalues compiler k s).faults = s.faults := by
  intro k
  induction k with
  | zero =>
    intro _
    simp [emitUpvalues, operandPairs]
    exact h
  | succ k ih =>
    intro hk
    obtain ⟨h1, h2, h3⟩ := ih (by omega)
    have hlt : k < compiler.upvalues.length := by omega
    rw [emitUpvalues_succ (List.getElem?_eq_getElem hlt)]
    have e1 := emitByte_code (if compiler.upvalues[k].isLocal then 1 else 0) h2
    have e2 := emitByte_code compiler.upvalues[k].index e1.2.2
    refine ⟨?_, e2.2.2, ?_⟩
    · rw [e2.1, e1.1, h1, List.take_succ, List.getElem?_eq_getElem hlt, operandPairs_append]
      simp [operandPairs]
    · rw [emitByte_faults _ e1.2.2, emitByte_faults _ h2, h3]

/-- C19: `OP_CLOSURE` carries one operand pair per upvalue. Whenever `function` returns,
entered with an enclosing frame in a state in which every frame has recorded as many
upvalues as its `upvalueCount` says (true of the state in which `compile` starts, and kept
by every procedure), the body was compiled in the new frame `c`, which `endCompiler`
popped; `c` holds exactly `function->upvalueCount` upvalues; and the enclosing frame
received `OP_CLOSURE`, the index of the function constant, and then for each upvalue of `c`
in order the two bytes 1 or 0 for `isLocal` and `index`: twice `upvalueCount` bytes, read
without leaving the array. The property of the frames holds again afterwards. -/
theorem closure_operand_pairs (x : Extern) (n : Nat) (type : FunctionType) (s u : State)
    (i : Int) (hs : UpvalOK s) (hfr : s.frames ≠ [])
    (h : exec x n (Proc.function type) s = some (i, u)) :
    ∃ (j : Int) (t : State) (c : Compiler) (idx : Nat),
      Runs x Proc.block (functionEntry x type s) (j, t) ∧
      (endCompiler t).1 = some c ∧ c.type = type ∧
      c.functionPtr = x.newFunction s.allocated ∧
      (c.upvalues.length : Int) = c.function.upvalueCount ∧
      idx = (makeConstant (OBJ_VAL c.functionPtr) (endCompiler t).2).1 ∧
      currentCode u =
        currentCode (endCompiler t).2 ++ [OP_CLOSURE, idx] ++ operandPairs c.upvalues ∧
      (operandPairs c.upvalues).length = 2 * c.function.upvalueCount.toNat ∧
      u.faults = (makeConstant (OBJ_VAL c.functionPtr) (endCompiler t).2).2.faults ∧
      UpvalOK u := by
  cases n with
  | zero => simp [exec] at h
  | succ n =>
    obtain ⟨⟨j, t⟩, hb⟩ := exec_function_block x n type s h
    have hrel : Rel (initCompiler x type s) t :=
      (rel_functionEntry x type s).trans (exec_rel x _ _ _ _ _ hb)
    obtain ⟨c, hc, hrel2, hty, hptr⟩ := rel_pop_frame x type hrel
    have hentry : UpvalOK (functionEntry x type s) := by
      unfold functionEntry
      with_reducible (repeat' (first | exact hs | apply inv_ite | apply inv_step))
    have ht : UpvalOK t := exec_invariant x UpvalOK hb hentry
    have hret : UpvalOK (emitReturn t) := inv_emitReturn ht
    have hcOK : FrameOK c := by
      have hc2 := hc
      unfold endCompiler at hc2
      simp only at hc2
      cases hfr2 : (emitReturn t).frames with
      | nil => rw [hfr2] at hc2; simp at hc2
      | cons d rest =>
        rw [hfr2] at hc2
        simp only [Option.some.injEq] at hc2
        subst hc2
        exact hret d (by rw [hfr2]; exact List.mem_cons_self _ _)
    have hlen : c.function.upvalueCount.toNat = c.upvalues.length := by
      unfold FrameOK at hcOK
      omega
    have hne : (endCompiler t).2.frames ≠ [] := frames_ne_nil_of_rel hrel2 hfr
    have hk := makeConstant_code (OBJ_VAL c.functionPtr) hne
    have hb2 := emitBytes_code OP_CLOSURE
      (makeConstant (OBJ_VAL c.functionPtr) (endCompiler t).2).1 hk.2
    have hup := emitUpvalues_code c hb2.2.2 c.upvalues.length (le_refl _)
    have hu := exec_function x n type s hb hc
    rw [h] at hu
    simp only [Option.some.injEq, Prod.mk.injEq] at hu
    obtain ⟨_, hu⟩ := hu
    rw [hlen] at hu
    have hend : UpvalOK (endCompiler t).2 := inv_step2 ht
    refine ⟨j, t, c, _, ⟨n, hb⟩, hc, hty, hptr, hcOK, rfl, ?_, ?_, ?_, ?_⟩
    · rw [hu, hup.1, hb2.1, hk.1, List.take_length]
    · rw [operandPairs_length, hlen]
    · rw [hu, hup.2.2]
      unfold emitBytes
      rw [emitByte_faults _ (emitByte_code _ hk.2).2.2, emitByte_faults _ hk.2]
    · rw [hu]
      exact inv_emitUpvalues _ _ (inv_emitBytes _ _ (inv_step2 hend))

set_option maxRecDepth 100000 in
theorem closure_operand_pairs_witness :
    UpvalOK closureDemo ∧ closureDemo.frames ≠ [] ∧
    exec demoExtern 12 (Proc.function TYPE_FUNCTION) closureDemo = some (0, closureDemoEnd) ∧
    currentCode closureDemoEnd = [OP_CLOSURE, 0, 1, 2, 1, 1] ∧
    ∃ (j : Int) (t : State) (c : Compiler) (idx : Nat),
      Runs demoExtern Proc.block (functionEntry demoExtern TYPE_FUNCTION closureDemo) (j, t) ∧
      (endCompiler t).1 = some c ∧ c.type = TYPE_FUNCTION ∧
      c.functionPtr = demoExtern.newFunction closureDemo.allocated ∧
      (c.upvalues.length : Int) = c.function.upvalueCount ∧
      idx = (makeConstant (OBJ_VAL c.functionPtr) (endCompiler t).2).1 ∧
      currentCode closureDemoEnd =
        currentCode (endCompiler t).2 ++ [OP_CLOSURE, idx] ++ operandPairs c.upvalues ∧
      (operandPairs c.upvalues).length = 2 * c.function.upvalueCount.toNat ∧
      closureDemoEnd.faults = (makeConstant (OBJ_VAL c.functionPtr) (endCompiler t).2).2.faults ∧
      UpvalOK closureDemoEnd :=
  ⟨by decide, by decide, by decide, by decide,
    closure_operand_pairs demoExtern 12 TYPE_FUNCTION closureDemo closureDemoEnd 0
      (by decide) (by decide) (by decide)⟩



/-! ## The errors of `return` -/

theorem errorAt_stderr (token : Token) (message : String) {s : State}
    (h : s.parser.panicMode = false) :
    (errorAt token message s).stderr.map (fun e => e.message) =
      s.stderr.map (fun e => e.message) ++ [message] ∧
    (errorAt token message s).stderr.length = s.stderr.length + 1 ∧
    (errorAt token message s).parser.hadError = true := by
  unfold errorAt
  simp [h]

theorem emitByte_stderr (byte : Nat) (s : State) : (emitByte byte s).stderr = s.stderr := by
  unfold emitByte modifyChunk modifyCurrent
  split <;> rfl

theorem emitReturn_stderr (s : State) : (emitReturn s).stderr = s.stderr := by
  unfold emitReturn emitBytes
  split <;> simp only [emitByte_stderr]

theorem advance_stderr {s : State} (h : (scanToken s.source).1.type ≠ TOKEN_ERROR) :
    (advance s).stderr = s.stderr := by
  unfold advance advanceLoop
  simp only
  rw [if_pos h]

theorem returnErrors_ne_nil (type : FunctionType) (valuePresent : Bool) :
    returnErrors type valuePresent ≠ [] ↔
      type = TYPE_SCRIPT ∨ (type = TYPE_INITIALIZER ∧ valuePresent = true) := by
  unfold returnErrors
  cases type <;> cases valuePresent <;> simp

theorem returnErrors_length (type : FunctionType) (valuePresent : Bool) :
    (returnErrors type valuePresent).length =
      if type = TYPE_SCRIPT ∨ (type = TYPE_INITIALIZER ∧ valuePresent = true) then 1 else 0 := by
  unfold returnErrors
  cases type <;> cases valuePresent <;> simp

/-- The two checks of `returnStatement` are the calls of `error` for `returnErrors`. -/
theorem returnChecks_eq (s : State) (valuePresent : Bool) :
    reportAll (returnErrors (currentType s) valuePresent) s =
      if currentType s = TYPE_SCRIPT then error "Can't return from top-level code." s
      else if currentType s = TYPE_INITIALIZER ∧ valuePresent = true then
        error "Can't return a value from an initializer." s
      else s := by
  unfold returnErrors reportAll
  split
  · rfl
  · split <;> rfl

theorem reportAll_frames (messages : List String) : ∀ s : State,
    (reportAll messages s).frames = s.frames := by
  induction messages with
  | nil => intro s; rfl
  | cons m rest ih =>
    intro s
    have := ih (error m s)
    unfold reportAll at *
    simp only [List.foldl_cons]
    rw [this, error, errorAt_frames]

theorem reportAll_source (messages : List String) : ∀ s : State,
    (reportAll messages s).source = s.source := by
  induction messages with
  | nil => intro s; rfl
  | cons m rest ih =>
    intro s
    have := ih (error m s)
    unfold reportAll at *
    simp only [List.foldl_cons]
    rw [this, error, errorAt_source]

theorem reportAll_current (messages : List String) : ∀ s : State,
    (reportAll messages s).parser.current = s.parser.current := by
  induction messages with
  | nil => intro s; rfl
  | cons m rest ih =>
    intro s
    have := ih (error m s)
    unfold reportAll at *
    simp only [List.foldl_cons]
    rw [this, error, errorAt_current]

/-- Outside panic mode the errors of a `return` statement are printed: at most one. -/
theorem reportAll_returnErrors_stderr (type : FunctionType) (valuePresent : Bool) {s : State}
    (h : s.parser.panicMode = false) :
    (reportAll (returnErrors type valuePresent) s).stderr.map (fun e => e.message) =
      s.stderr.map (fun e => e.message) ++ returnErrors type valuePresent ∧
    (reportAll (returnErrors type valuePresent) s).stderr.length =
      s.stderr.length + (returnErrors type valuePresent).length := by
  unfold returnErrors reportAll
  split
  · simp only [List.foldl_cons, List.foldl_nil, error, List.length_singleton]
    exact ⟨(errorAt_stderr _ _ h).1, (errorAt_stderr _ _ h).2.1⟩
  · split
    · simp only [List.foldl_cons, List.foldl_nil, error, List.length_singleton]
      exact ⟨(errorAt_stderr _ _ h).1, (errorAt_stderr _ _ h).2.1⟩
    · simp

/-- The body of `returnStatement`, seen from the state after its own checks. -/
theorem exec_returnStatement (x : Extern) (n : Nat) (s : State) :
    exec x (n + 1) Proc.returnStatement s =
      if s.parser.current.type = TOKEN_SEMICOLON then
        some (0, emitReturn (advance (reportAll (returnErrors (currentType s) false) s)))
      else
        (exec x n Proc.expression (reportAll (returnErrors (currentType s) true) s)).bind
          fun r => some (0, emitByte OP_RETURN
            (consume TOKEN_SEMICOLON "Expect ';' after return value." r.2)) := by
  simp only [exec]
  have hc : ∀ m, (if currentType s = TYPE_SCRIPT then error m s else s).parser.current =
      s.parser.current := by
    intro m
    split
    · exact errorAt_current _ _ _
    · rfl
  have hf : ∀ m, currentType (if currentType s = TYPE_SCRIPT then error m s else s) =
      currentType s := by
    intro m
    split
    · exact currentType_congr (errorAt_frames _ _ _)
    · rfl
  by_cases hsemi : s.parser.current.type = TOKEN_SEMICOLON
  · rw [if_pos hsemi, matchToken_of_eq (by rw [hc]; exact hsemi)]
    simp only [if_true]
    rw [returnChecks_eq s]
    by_cases hty : currentType s = TYPE_SCRIPT
    · simp only [if_pos hty]
    · simp [if_neg hty]
  · rw [if_neg hsemi, matchToken_of_ne (by rw [hc]; exact hsemi)]
    simp only [Bool.false_eq_true, if_false, hf]
    rw [returnChecks_eq s]
    by_cases hty : currentType s = TYPE_SCRIPT
    · have hne : ¬ currentType s = TYPE_INITIALIZER := by rw [hty]; decide
      simp only [if_pos hty, if_neg hne]
    · by_cases hin : currentType s = TYPE_INITIALIZER
      · simp [if_neg hty, hin]
      · simp [if_neg hty, hin]

set_option maxRecDepth 100000 in
/-- C15: the errors of a `return` statement. Entered outside panic mode, `returnStatement`
first makes exactly the calls of `error` that `returnErrors` lists, which are printed: one
error if and only if the type of the current function is `TYPE_SCRIPT`, or it is
`TYPE_INITIALIZER` and a value is present (the token after `return` is not `;`); then it
goes on with the rest of the statement. For a bare `return;` whose `;` is not followed by a
scan error, and for a `return` with a value whose expression reports nothing and is
followed by `;`, the call returns and has printed something if and only if that condition
holds. `class C { init() { return; } }` compiles to a function with nothing printed,
and `class D { init() { return 1; } }` returns `NULL` after printing "Can't return a
value from an initializer.". -/
theorem return_statement_errors (x : Extern) (s : State) (hpm : s.parser.panicMode = false) :
    (∀ v, returnErrors (currentType s) v ≠ [] ↔
      currentType s = TYPE_SCRIPT ∨ (currentType s = TYPE_INITIALIZER ∧ v = true)) ∧
    (∀ v, (reportAll (returnErrors (currentType s) v) s).stderr.map (fun e => e.message) =
      s.stderr.map (fun e => e.message) ++ returnErrors (currentType s) v) ∧
    (∀ n, exec x (n + 1) Proc.returnStatement s =
      if s.parser.current.type = TOKEN_SEMICOLON then
        some (0, emitReturn (advance (reportAll (returnErrors (currentType s) false) s)))
      else
        (exec x n Proc.expression (reportAll (returnErrors (currentType s) true) s)).bind
          fun r => some (0, emitByte OP_RETURN
            (consume TOKEN_SEMICOLON "Expect ';' after return value." r.2))) ∧
    (s.parser.current.type = TOKEN_SEMICOLON → (scanToken s.source).1.type ≠ TOKEN_ERROR →
      ∃ u, (∀ n, exec x (n + 1) Proc.returnStatement s = some (0, u)) ∧
        (s.stderr.length < u.stderr.length ↔
          currentType s = TYPE_SCRIPT ∨
            (currentType s = TYPE_INITIALIZER ∧ s.parser.current.type ≠ TOKEN_SEMICOLON)) ∧
        u.stderr.map (fun e => e.message) =
          s.stderr.map (fun e => e.message) ++ returnErrors (currentType s) false) ∧
    (∀ j t, s.parser.current.type ≠ TOKEN_SEMICOLON →
      Runs x Proc.expression (reportAll (returnErrors (currentType s) true) s) (j, t) →
      t.stderr = (reportAll (returnErrors (currentType s) true) s).stderr →
      t.parser.current.type = TOKEN_SEMICOLON → (scanToken t.source).1.type ≠ TOKEN_ERROR →
      ∃ u, Runs x Proc.returnStatement s (0, u) ∧
        (s.stderr.length < u.stderr.length ↔
          currentType s = TYPE_SCRIPT ∨
            (currentType s = TYPE_INITIALIZER ∧ s.parser.current.type ≠ TOKEN_SEMICOLON)) ∧
        u.stderr.map (fun e => e.message) =
          s.stderr.map (fun e => e.message) ++ returnErrors (currentType s) true) ∧
    outcome (compile demoExtern 20 initBareReturn startState) = some (true, false, []) ∧
    outcome (compile demoExtern 20 initValueReturn startState) =
      some (false, true, ["Can't return a value from an initializer."]) := by
  refine ⟨fun v => returnErrors_ne_nil _ v,
    fun v => (reportAll_returnErrors_stderr _ v hpm).1,
    fun n => exec_returnStatement x n s, ?_, ?_, by decide, by decide⟩
  · intro hsemi hscan
    have hscan2 : (scanToken (reportAll (returnErrors (currentType s) false) s).source).1.type
        ≠ TOKEN_ERROR := by
      rw [reportAll_source]
      exact hscan
    have hst : (emitReturn (advance (reportAll (returnErrors (currentType s) false) s))).stderr
        = (reportAll (returnErrors (currentType s) false) s).stderr := by
      rw [emitReturn_stderr, advance_stderr hscan2]
    refine ⟨_, fun n => by rw [exec_returnStatement, if_pos hsemi], ?_, ?_⟩
    · rw [hst, (reportAll_returnErrors_stderr _ false hpm).2, returnErrors_length]
      by_cases hty : currentType s = TYPE_SCRIPT
      · simp [hty]
      · simp [hty, hsemi]
    · rw [hst]
      exact (reportAll_returnErrors_stderr _ false hpm).1
  · intro j t hsemi hrun hquiet hcur hscan
    obtain ⟨n, hn⟩ := hrun
    have hst : (emitByte OP_RETURN
        (consume TOKEN_SEMICOLON "Expect ';' after return value." t)).stderr =
        (reportAll (returnErrors (currentType s) true) s).stderr := by
      rw [emitByte_stderr, consume_of_eq _ hcur, advance_stderr hscan, hquiet]
    refine ⟨_, ⟨n + 1, by rw [exec_returnStatement, if_neg hsemi, hn]; rfl⟩, ?_, ?_⟩
    · rw [hst, (reportAll_returnErrors_stderr _ true hpm).2, returnErrors_length]
      by_cases hty : currentType s = TYPE_SCRIPT
      · simp [hty]
      · by_cases hin : currentType s = TYPE_INITIALIZER
        · simp [hin, hsemi]
        · simp [hty, hin]
    · rw [hst]
      exact (reportAll_returnErrors_stderr _ true hpm).1

set_option maxRecDepth 100000 in
theorem return_statement_errors_witness :
    returnDemo.parser.panicMode = false ∧
    ∃ u, Runs digitExtern Proc.returnStatement returnDemo (0, u) ∧
      (returnDemo.stderr.length < u.stderr.length ↔
        currentType returnDemo = TYPE_SCRIPT ∨
          (currentType returnDemo = TYPE_INITIALIZER ∧
            returnDemo.parser.current.type ≠ TOKEN_SEMICOLON)) ∧
      u.stderr.map (fun e => e.message) =
        returnDemo.stderr.map (fun e => e.message) ++
          returnErrors (currentType returnDemo) true :=
  ⟨rfl, (return_statement_errors digitExtern returnDemo rfl).2.2.2.2.1 0 returnDemoValue
    (by decide) ⟨4, by decide⟩ (by decide) (by decide) (by decide)⟩



/-! ## Invalid assignment targets -/

/-- Every call returns when it is given enough fuel. -/
theorem exec_total (x : Extern) (p : Proc) (s : State) : ∃ r, Runs x p s r := by
  cases h : exec x (p.rank + 10 * remaining s + 1) p s with
  | none =>
    have := exec_bound x _ _ _ h
    omega
  | some r => exact ⟨r, _, h⟩

/-- With as much fuel as `exec_bound` asks for, a call returns what it returns with any
fuel. -/
theorem exec_of_runs (x : Extern) {p : Proc} {s : State} {r : Int × State} (h : Runs x p s r)
    {n : Nat} (hn : p.rank + 10 * remaining s < n) : exec x n p s = some r := by
  cases h2 : exec x n p s with
  | none =>
    have := exec_bound x _ _ _ h2
    omega
  | some r2 => rw [Runs.unique h ⟨n, h2⟩]

theorem runs_expressionStatement (x : Extern) (s u : State) (i : Int)
    (h : Runs x Proc.expression s (i, u)) :
    Runs x Proc.expressionStatement s
      (0, emitByte OP_POP (consume TOKEN_SEMICOLON "Expect ';' after expression." u)) := by
  obtain ⟨n, hn⟩ := h
  exact ⟨n + 1, by simp only [exec, hn]; rfl⟩

/-- A token that starts an expression starts neither a declaration nor another kind of
statement, and is not the end of the source. -/
theorem prefixRule_starts_expression {type : TokenType} {f : ParseFn}
    (h : (getRule type).prefixRule = some f) :
    type ≠ TOKEN_EOF ∧ type ≠ TOKEN_CLASS ∧ type ≠ TOKEN_FUN ∧ type ≠ TOKEN_VAR ∧
    type ≠ TOKEN_PRINT ∧ type ≠ TOKEN_IF ∧ type ≠ TOKEN_RETURN ∧ type ≠ TOKEN_WHILE ∧
    type ≠ TOKEN_FOR ∧ type ≠ TOKEN_LEFT_BRACE := by
  cases type <;> first | decide | exact absurd h (by simp [getRule])

theorem runs_statement_expression (x : Extern) (s : State) (r : Int × State) {f : ParseFn}
    (hf : (getRule s.parser.current.type).prefixRule = some f)
    (h : Runs x Proc.expressionStatement s r) : Runs x Proc.statement s r := by
  obtain ⟨n, hn⟩ := h
  obtain ⟨_, _, _, _, h1, h2, h3, h4, h5, h6⟩ := prefixRule_starts_expression hf
  refine ⟨n + 1, ?_⟩
  simp only [exec, matchToken_of_ne h1, matchToken_of_ne h2, matchToken_of_ne h3,
    matchToken_of_ne h4, matchToken_of_ne h5, matchToken_of_ne h6, Bool.false_eq_true, if_false]
  exact hn

theorem runs_declaration_statement (x : Extern) (s u : State) (i : Int) {f : ParseFn}
    (hf : (getRule s.parser.current.type).prefixRule = some f)
    (h : Runs x Proc.statement s (i, u)) :
    Runs x Proc.declaration s (0, if u.parser.panicMode then synchronize u else u) := by
  obtain ⟨n, hn⟩ := h
  obtain ⟨_, h1, h2, h3, _⟩ := prefixRule_starts_expression hf
  refine ⟨n + 1, ?_⟩
  simp only [exec, matchToken_of_ne h1, matchToken_of_ne h2, matchToken_of_ne h3,
    Bool.false_eq_true, if_false, hn, Option.some_bind]
  split <;> rfl

theorem runs_compileLoop_step (x : Extern) (s u : State) (i : Int) (r : Int × State)
    (hne : s.parser.current.type ≠ TOKEN_EOF)
    (h1 : Runs x Proc.declaration s (i, u)) (h2 : Runs x Proc.compileLoop u r) :
    Runs x Proc.compileLoop s r := by
  obtain ⟨n, hn⟩ := h1
  obtain ⟨m, hm⟩ := h2
  refine ⟨max n m + 1, ?_⟩
  simp only [exec, matchToken_of_ne hne, Bool.false_eq_true, if_false,
    exec_mono x hn (le_max_left n m), Option.some_bind]
  exact exec_mono x hm (le_max_right n m)

theorem runs_invariant (x : Extern) (I : State → Prop) [Invariant I] {p : Proc} {s u : State}
    {i : Int} (h : Runs x p s (i, u)) (hs : I s) : I u := by
  obtain ⟨n, hn⟩ := h
  exact exec_invariant x I hn hs

theorem runs_rel (x : Extern) {p : Proc} {s u : State} {i : Int} (h : Runs x p s (i, u)) :
    Rel s u := by
  obtain ⟨n, hn⟩ := h
  exact exec_rel x _ _ _ _ _ hn

/-- In a state in which panic mode implies `hadError`, a call of `errorAt` leaves
`hadError` set. -/
theorem errorAt_hadError (token : Token) (message : String) {s : State} (hs : PanicOK s) :
    (errorAt token message s).parser.hadError = true := by
  unfold errorAt
  split
  · rename_i hp
    exact hs hp
  · rfl

/-- With `canAssign` false, `namedVariable` emits the instruction that reads the
variable. -/
theorem exec_namedVariable_false (x : Extern) (n : Nat) (name : String) (s : State) :
    exec x (n + 1) (Proc.namedVariable name false) s =
      some (0, emitBytes (resolveName x name s).1.1 (asUInt8 (resolveName x name s).2.1)
        (resolveName x name s).2.2) := by
  simp only [exec, resolveName, Bool.false_eq_true, if_false]

theorem resolveName_ops (x : Extern) (name : String) (s : State) :
    (resolveName x name s).1 = (OP_GET_LOCAL, OP_SET_LOCAL) ∨
    (resolveName x name s).1 = (OP_GET_UPVALUE, OP_SET_UPVALUE) ∨
    (resolveName x name s).1 = (OP_GET_GLOBAL, OP_SET_GLOBAL) := by
  unfold resolveName
  simp only
  split
  · exact Or.inl rfl
  · split
    · exact Or.inr (Or.inl rfl)
    · exact Or.inr (Or.inr rfl)

/-- With `canAssign` false, `dot` ends with `OP_GET_PROPERTY` or with `OP_INVOKE` and the
number of arguments. -/
theorem exec_dot_false (x : Extern) (n : Nat) (s : State) (r : Int × State)
    (h : exec x n (Proc.dot false) s = some r) :
    (∃ name t, r.2 = emitBytes OP_GET_PROPERTY name t) ∨
    (∃ name argCount t, r.2 = emitByte argCount (emitBytes OP_INVOKE name t)) := by
  cases n with
  | zero => simp [exec] at h
  | succ n =>
    simp only [exec, Bool.false_eq_true, if_false] at h
    split at h
    · obtain ⟨v, _, hv⟩ := Option.bind_eq_some.1 h
      cases hv
      exact Or.inr ⟨_, _, _, rfl⟩
    · cases h
      exact Or.inl ⟨_, _, rfl⟩

/-- Above `PREC_ASSIGNMENT`, `parsePrecedence` passes `canAssign` false to the prefix
function and to the loop of the infix functions, and leaves a `=` alone. -/
theorem exec_parsePrecedence_above (x : Extern) (n q : Nat) (s : State) (f : ParseFn)
    (hq : PREC_ASSIGNMENT < q) (hf : (getRule s.parser.current.type).prefixRule = some f) :
    exec x (n + 1) (Proc.parsePrecedence q) s =
      (exec x n (f.proc false) (advance s)).bind fun r =>
        (exec x n (Proc.parsePrecedenceLoop q false) r.2).bind fun r => some (0, r.2) := by
  have hd : decide (q ≤ PREC_ASSIGNMENT) = false := by
    simp only [decide_eq_false_iff_not]
    omega
  rw [← advance_previous] at hf
  rw [exec_parsePrecedence, hf, hd]
  rfl

theorem finishAssignment_of_eq {s : State} (h : s.parser.current.type = TOKEN_EQUAL) :
    finishAssignment true s = error "Invalid assignment target." (advance s) := by
  unfold finishAssignment
  rw [matchToken_of_eq h]
  simp

/-- When the first statement of a program is an expression whose parse leaves a `=` as the
current token, `compile` returns `NULL`. -/
theorem compile_fails_of_assignment (x : Extern) (source : List Token) (g : State)
    (fuel : Nat) (hfuel : 10 * source.length + 5 < fuel) (u : State)
    {f : ParseFn}
    (hf : (getRule (advance (initCompiler x TYPE_SCRIPT
      (compileStart source g))).parser.current.type).prefixRule = some f)
    (hrun : Runs x (Proc.parsePrecedence PREC_ASSIGNMENT)
      (advance (initCompiler x TYPE_SCRIPT (compileStart source g))) (0, u))
    (herr : u.parser.hadError = true) :
    ∃ s', compile x fuel source g = some (none, s') ∧ s'.parser.hadError = true := by
  generalize hs0 : advance (initCompiler x TYPE_SCRIPT (compileStart source g)) = s0 at hf hrun
  have h1 := runs_expressionStatement x s0 u 0 (runs_expression x s0 _ hrun)
  have h2 := runs_statement_expression x s0 _ hf h1
  have h3 := runs_declaration_statement x s0 _ 0 hf h2
  obtain ⟨r, h4⟩ := exec_total x Proc.compileLoop
    (if (emitByte OP_POP (consume TOKEN_SEMICOLON "Expect ';' after expression."
        u)).parser.panicMode = true
      then synchronize (emitByte OP_POP (consume TOKEN_SEMICOLON "Expect ';' after expression." u))
      else emitByte OP_POP (consume TOKEN_SEMICOLON "Expect ';' after expression." u))
  have h5 := runs_compileLoop_step x s0 _ 0 r (prefixRule_starts_expression hf).1 h3 h4
  have hbound : Proc.compileLoop.rank + 10 * remaining s0 < fuel := by
    have hadv := (advance_spec (initCompiler x TYPE_SCRIPT (compileStart source g))).2.2
    have h2 : tokensBeforeEOF (initCompiler x TYPE_SCRIPT (compileStart source g)).source
        ≤ source.length := tokensBeforeEOF_le_length source
    have h3 : Proc.compileLoop.rank = 5 := rfl
    rw [hs0] at hadv
    omega
  have h6 := exec_of_runs x h5 hbound
  obtain ⟨i, t⟩ := r
  have hrel : Rel u t := by
    have r1 := runs_rel x h3
    have r2 := runs_rel x h4
    have r0 : Rel u (if (emitByte OP_POP (consume TOKEN_SEMICOLON
        "Expect ';' after expression." u)).parser.panicMode = true
      then synchronize (emitByte OP_POP (consume TOKEN_SEMICOLON "Expect ';' after expression." u))
      else emitByte OP_POP (consume TOKEN_SEMICOLON "Expect ';' after expression." u)) := by
      with_reducible (repeat' (first | apply rel_ite | apply rel_step | exact Rel.refl _))
    exact r0.trans r2
  have ht : t.parser.hadError = true := hrel.errMono herr
  have hend : (endCompiler t).2.parser.hadError = true := by
    rw [endCompiler_parserEq]
    exact ht
  refine ⟨(endCompiler t).2, ?_, hend⟩
  rw [compile_eq, hs0, h6]
  simp only [Option.some_bind, hend, if_true]

set_option maxRecDepth 100000 in
/-- C13: invalid assignment targets are rejected. Let `parsePrecedence(p)` be called with
`p <= PREC_ASSIGNMENT` at a token with a prefix rule, in a state in which panic mode
implies `hadError` (every state that the compiler reaches). If the prefix function and the
loop of the infix functions return and leave a `=` as the current token, that is, the `=`
follows a form that did not take it as its assignment, then `parsePrecedence` returns
after consuming the `=` and calling `error("Invalid assignment target.")`; `hadError` is
set, and the message is printed unless the parser is in panic mode. When that call is the
expression of the first statement of a program, `compile` returns `NULL`. A form is
compiled as an assignment only with `canAssign`: above `PREC_ASSIGNMENT`,
`parsePrecedence` passes `canAssign` false to the prefix function and to the infix
functions and leaves the `=` to its caller; with `canAssign` false, `namedVariable` emits
the instruction that reads the variable and `dot` ends with `OP_GET_PROPERTY` or
`OP_INVOKE`. `a + b = c;`, `1 = 2;` and `this = x;` inside a method fail to compile with
the message; at top level `this = x;` fails to compile with the message of `this_`, which
starts the panic mode that suppresses the second message. -/
theorem invalid_assignment_target_rejected (x : Extern) (p : Nat) (s u1 u2 : State)
    (f : ParseFn) (i1 i2 : Int) (hI : PanicOK s) (hp : p ≤ PREC_ASSIGNMENT)
    (hf : (getRule s.parser.current.type).prefixRule = some f)
    (h1 : Runs x (f.proc true) (advance s) (i1, u1))
    (h2 : Runs x (Proc.parsePrecedenceLoop p true) u1 (i2, u2))
    (heq : u2.parser.current.type = TOKEN_EQUAL) :
    Runs x (Proc.parsePrecedence p) s (0, error "Invalid assignment target." (advance u2)) ∧
    (error "Invalid assignment target." (advance u2)).parser.hadError = true ∧
    ((advance u2).parser.panicMode = false →
      (error "Invalid assignment target." (advance u2)).stderr.map (fun e => e.message) =
        (advance u2).stderr.map (fun e => e.message) ++ ["Invalid assignment target."]) ∧
    (∀ source g fuel, 10 * source.length + 5 < fuel → p = PREC_ASSIGNMENT →
      s = advance (initCompiler x TYPE_SCRIPT (compileStart source g)) →
      ∃ s', compile x fuel source g = some (none, s') ∧ s'.parser.hadError = true) ∧
    (∀ n q t g, PREC_ASSIGNMENT < q → (getRule t.parser.current.type).prefixRule = some g →
      exec x (n + 1) (Proc.parsePrecedence q) t =
        (exec x n (g.proc false) (advance t)).bind fun r =>
          (exec x n (Proc.parsePrecedenceLoop q false) r.2).bind fun r => some (0, r.2)) ∧
    (∀ n name t, exec x (n + 1) (Proc.namedVariable name false) t =
      some (0, emitBytes (resolveName x name t).1.1 (asUInt8 (resolveName x name t).2.1)
        (resolveName x name t).2.2) ∧
      ((resolveName x name t).1 = (OP_GET_LOCAL, OP_SET_LOCAL) ∨
       (resolveName x name t).1 = (OP_GET_UPVALUE, OP_SET_UPVALUE) ∨
       (resolveName x name t).1 = (OP_GET_GLOBAL, OP_SET_GLOBAL))) ∧
    (∀ n t r, exec x n (Proc.dot false) t = some r →
      (∃ name v, r.2 = emitBytes OP_GET_PROPERTY name v) ∨
      (∃ name argCount v, r.2 = emitByte argCount (emitBytes OP_INVOKE name v))) ∧
    outcome (compile digitExtern 100 sumAssign startState) =
      some (false, true, ["Invalid assignment target."]) ∧
    outcome (compile digitExtern 100 numberAssign startState) =
      some (false, true, ["Invalid assignment target."]) ∧
    outcome (compile digitExtern 100 thisAssignMethod startState) =
      some (false, true, ["Invalid assignment target."]) ∧
    outcome (compile digitExtern 100 thisAssign startState) =
      some (false, true, ["Can't use 'this' outside of a class."]) := by
  have hd : decide (p ≤ PREC_ASSIGNMENT) = true := decide_eq_true hp
  have hrun : Runs x (Proc.parsePrecedence p) s
      (0, error "Invalid assignment target." (advance u2)) := by
    have := runs_parsePrecedence x p s u1 f i1 (i2, u2) hf (by rw [hd]; exact h1)
      (by rw [hd]; exact h2)
    rw [hd, finishAssignment_of_eq heq] at this
    exact this
  have hu2 : PanicOK (advance u2) :=
    inv_step (runs_invariant x PanicOK h2 (runs_invariant x PanicOK h1 (inv_step hI)))
  have herr : (error "Invalid assignment target." (advance u2)).parser.hadError = true :=
    errorAt_hadError _ _ hu2
  refine ⟨hrun, herr, fun hpm => (errorAt_stderr _ _ hpm).1, ?_,
    fun n q t g hq hg => exec_parsePrecedence_above x n q t g hq hg,
    fun n name t => ⟨exec_namedVariable_false x n name t, resolveName_ops x name t⟩,
    fun n t r h => exec_dot_false x n t r h, by decide, by decide, by decide, by decide⟩
  intro source g fuel hfuel hpa hs
  subst hpa
  subst hs
  exact compile_fails_of_assignment x source g fuel hfuel _ hf hrun herr

set_option maxRecDepth 100000 in
theorem invalid_assignment_target_rejected_witness :
    PanicOK numberAssignStart ∧ PREC_ASSIGNMENT ≤ PREC_ASSIGNMENT ∧
    (getRule numberAssignStart.parser.current.type).prefixRule = some ParseFn.number ∧
    numberAssignOperand.parser.current.type = TOKEN_EQUAL ∧
    Runs digitExtern (Proc.parsePrecedence PREC_ASSIGNMENT) numberAssignStart
      (0, error "Invalid assignment target." (advance numberAssignOperand)) ∧
    ∃ s', compile digitExtern 100 numberAssign startState = some (none, s') ∧
      s'.parser.hadError = true :=
  have h := invalid_assignment_target_rejected digitExtern PREC_ASSIGNMENT numberAssignStart
    numberAssignOperand numberAssignOperand ParseFn.number 0 0 (by decide) (by decide)
    (by decide) ⟨1, by decide⟩ ⟨1, by decide⟩ (by decide)
  ⟨by decide, by decide, by decide, by decide, h.1,
    h.2.2.2.1 numberAssign startState 100 (by decide) rfl rfl⟩



/-! ## `endScope` -/

theorem closedLocals_concat_pos (locals : List Local) (l : Local) (depth : Int)
    (h : l.depth > depth) :
    closedLocals (locals ++ [l]) depth = l :: closedLocals locals depth ∧
    keptLocals (locals ++ [l]) depth = keptLocals locals depth := by
  simp [closedLocals, keptLocals, List.takeWhile, List.dropWhile, h]

theorem closedLocals_concat_neg (locals : List Local) (l : Local) (depth : Int)
    (h : ¬ l.depth > depth) :
    closedLocals (locals ++ [l]) depth = [] ∧
    keptLocals (locals ++ [l]) depth = locals ++ [l] := by
  simp [closedLocals, keptLocals, List.takeWhile, List.dropWhile, h]

theorem endScopeLoop_frames (rest : List Compiler) (depth : Int) :
    ∀ (n : Nat) (s : State) (c : Compiler), s.frames = c :: rest → c.scopeDepth = depth →
      c.locals.length ≤ n →
      (endScopeLoop n s).frames =
        { c with
          locals := keptLocals c.locals depth
          function := { c.function with chunk := { c.function.chunk with
            code := c.function.chunk.code ++ (closedLocals c.locals depth).map closeOpcode
            lines := c.function.chunk.lines ++
              List.replicate (closedLocals c.locals depth).length s.parser.previous.line } } }
          :: rest ∧
      (endScopeLoop n s).parser = s.parser ∧ (endScopeLoop n s).stderr = s.stderr ∧
      (endScopeLoop n s).faults = s.faults ∧ (endScopeLoop n s).source = s.source ∧
      (endScopeLoop n s).classes = s.classes ∧ (endScopeLoop n s).allocated = s.allocated := by
  intro n
  induction n with
  | zero =>
    intro s c hfr hd hlen
    have hnil : c.locals = [] := List.length_eq_zero.1 (Nat.le_zero.1 hlen)
    obtain ⟨⟨a, uc, ⟨code, lines, consts⟩, nm⟩, ptr, ty, locals, ups, sd⟩ := c
    simp only at hnil
    subst hnil
    simp [endScopeLoop, hfr, keptLocals, closedLocals]
  | succ n ih =>
    intro s c hfr hd hlen
    rcases List.eq_nil_or_concat c.locals with hnil | ⟨L, l, hL⟩
    · obtain ⟨⟨a, uc, ⟨code, lines, consts⟩, nm⟩, ptr, ty, locals, ups, sd⟩ := c
      simp only at hnil
      subst hnil
      simp [endScopeLoop, hfr, keptLocals, closedLocals]
    · rw [List.concat_eq_append] at hL
      have hlast : (L ++ [l]).getLast? = some l := by simp
      have hdrop : (L ++ [l]).dropLast = L := by simp
      by_cases hdep : l.depth > depth
      · obtain ⟨e1, e2⟩ := closedLocals_concat_pos L l depth hdep
        have hstep : endScopeLoop (n + 1) s =
            endScopeLoop n (modifyCurrent (fun c => { c with locals := c.locals.dropLast })
              (emitByte (closeOpcode l) s)) := by
          rw [endScopeLoop]
          simp only [hfr, hL, hlast, hd, hdep, if_true, closeOpcode]
          split <;> rfl
        have hfr2 : (modifyCurrent (fun c => { c with locals := c.locals.dropLast })
            (emitByte (closeOpcode l) s)).frames =
            { c with
              locals := L
              function := { c.function with
                chunk := writeChunk c.function.chunk (closeOpcode l) s.parser.previous.line } }
              :: rest := by
          rw [modifyCurrent_frames _ (emitByte_frames _ hfr)]
          simp only [hL, hdrop]
        have hp2 : (modifyCurrent (fun c => { c with locals := c.locals.dropLast })
            (emitByte (closeOpcode l) s)).parser = s.parser := by
          rw [modifyCurrent_parserEq, emitByte_parserEq]
        obtain ⟨i1, i2, i3, i4, i5, i6, i7⟩ := ih _ _ hfr2 hd (by
          have := congrArg List.length hL
          simp at this
          simp only
          omega)
        rw [hstep, hL, e1, e2]
        refine ⟨?_, ?_, ?_, ?_, ?_, ?_, ?_⟩
        · rw [i1, hp2]
          simp [writeChunk, List.replicate_succ]
        · rw [i2, hp2]
        · rw [i3]; simp [modifyCurrent, emitByte, modifyChunk, hfr]
        · rw [i4]; simp [modifyCurrent, emitByte, modifyChunk, hfr]
        · rw [i5]; simp [modifyCurrent, emitByte, modifyChunk, hfr]
        · rw [i6]; simp [modifyCurrent, emitByte, modifyChunk, hfr]
        · rw [i7]; simp [modifyCurrent, emitByte, modifyChunk, hfr]
      · obtain ⟨e1, e2⟩ := closedLocals_concat_neg L l depth hdep
        have hstep : endScopeLoop (n + 1) s = s := by
          rw [endScopeLoop]
          simp only [hfr, hL, hlast, hd, hdep, if_false]
        rw [hstep, hL, e1, e2, hfr]
        obtain ⟨⟨a, uc, ⟨code, lines, consts⟩, nm⟩, ptr, ty, locals, ups, sd⟩ := c
        simp only at hL
        subst hL
        simp

theorem keptLocals_append_closed (locals : List Local) (depth : Int) :
    locals = keptLocals locals depth ++ (closedLocals locals depth).reverse := by
  unfold keptLocals closedLocals
  rw [← List.reverse_append, List.takeWhile_append_dropWhile, List.reverse_reverse]

theorem keptLocals_last (locals : List Local) (depth : Int) (l : Local)
    (h : (keptLocals locals depth).getLast? = some l) : ¬ l.depth > depth := by
  unfold keptLocals at h
  rw [List.getLast?_reverse] at h
  have := List.head?_dropWhile_not (fun l : Local => decide (l.depth > depth)) locals.reverse
  rw [h] at this
  simpa using this

/-- C21: `endScope` pops exactly the locals of the closed scope. With a current frame `c`,
`endScope` leaves a frame `c'` in its place whose `scopeDepth` is one less; the locals of
`c` are those of `c'` followed by the removed ones, which are exactly the trailing locals
deeper than the new depth (every removed local is deeper, the last kept one is not); the
chunk has received one byte per removed local, in the order of removal (last local first):
`OP_CLOSE_UPVALUE` for a captured local, `OP_POP` otherwise; the kept locals, the upvalues,
the constants, the enclosing frames, the parser and `stderr` are unchanged, and no fault
occurs. -/
theorem endScope_pops_closed_scope (s : State) (c : Compiler) (rest : List Compiler)
    (h : s.frames = c :: rest) :
    ∃ c', (endScope s).frames = c' :: rest ∧
      c'.scopeDepth = c.scopeDepth - 1 ∧
      c'.locals = keptLocals c.locals (c.scopeDepth - 1) ∧
      c.locals = c'.locals ++ (closedLocals c.locals (c.scopeDepth - 1)).reverse ∧
      (∀ l ∈ closedLocals c.locals (c.scopeDepth - 1), l.depth > c.scopeDepth - 1) ∧
      (∀ l, c'.locals.getLast? = some l → ¬ l.depth > c.scopeDepth - 1) ∧
      c'.function.chunk.code = c.function.chunk.code ++
        (closedLocals c.locals (c.scopeDepth - 1)).map closeOpcode ∧
      (∀ l, closeOpcode l = if l.isCaptured then OP_CLOSE_UPVALUE else OP_POP) ∧
      c'.function.chunk.constants = c.function.chunk.constants ∧
      c'.upvalues = c.upvalues ∧ c'.type = c.type ∧ c'.functionPtr = c.functionPtr ∧
      (endScope s).parser = s.parser ∧ (endScope s).stderr = s.stderr ∧
      (endScope s).faults = s.faults := by
  have hfr1 : (modifyCurrent (fun c => { c with scopeDepth := c.scopeDepth - 1 }) s).frames =
      { c with scopeDepth := c.scopeDepth - 1 } :: rest := modifyCurrent_frames _ h
  have hcount : localCount (modifyCurrent (fun c => { c with scopeDepth := c.scopeDepth - 1 }) s)
      = c.locals.length := by
    simp only [localCount, hfr1]
  obtain ⟨i1, i2, i3, i4, _⟩ := endScopeLoop_frames rest (c.scopeDepth - 1)
    (localCount (modifyCurrent (fun c => { c with scopeDepth := c.scopeDepth - 1 }) s))
    _ _ hfr1 rfl (by rw [hcount])
  have e1 : (modifyCurrent (fun c => { c with scopeDepth := c.scopeDepth - 1 }) s).stderr =
      s.stderr := by
    simp only [modifyCurrent, h]
  have e2 : (modifyCurrent (fun c => { c with scopeDepth := c.scopeDepth - 1 }) s).faults =
      s.faults := by
    simp only [modifyCurrent, h]
  refine ⟨_, i1, rfl, rfl, keptLocals_append_closed _ _, ?_, keptLocals_last _ _, rfl,
    fun _ => rfl, rfl, rfl, rfl, rfl, ?_, ?_, ?_⟩
  · intro l hl
    simpa using List.mem_takeWhile_imp hl
  · rw [endScope, i2, modifyCurrent_parserEq]
  · rw [endScope, i3, e1]
  · rw [endScope, i4, e2]

theorem endScope_pops_closed_scope_witness :
    (endScope scopeDemo).frames.map
      (fun c => (c.scopeDepth, c.locals.map (fun l => l.name), c.function.chunk.code)) =
      [(1, ["", "a"], [OP_POP, OP_CLOSE_UPVALUE])] ∧
    ∃ c', (endScope scopeDemo).frames = c' :: [] ∧
      c'.scopeDepth = (2 : Int) - 1 ∧
      c'.function.chunk.code = [] ++ (closedLocals
        [{ name := "", depth := 0, isCaptured := false },
          { name := "a", depth := 1, isCaptured := false },
          { name := "b", depth := 2, isCaptured := true },
          { name := "c", depth := 2, isCaptured := false }] ((2 : Int) - 1)).map closeOpcode :=
  ⟨by decide,
    (endScope_pops_closed_scope scopeDemo _ [] rfl).imp
      fun _ hc => ⟨hc.1, hc.2.1, hc.2.2.2.2.2.2.1⟩⟩



/-! ## Slot 0 of a new frame -/

/-- Counterexample to C22: the frame that `initCompiler` pushes for the script names its
slot 0 `this`, not the empty name; `compile` pushes such a frame for every program. -/
theorem script_slot_zero_named_this :
    (initCompiler demoExtern TYPE_SCRIPT startState).frames.map
      (fun c => (c.type, c.locals.map (fun l => (l.name, l.depth, l.isCaptured)))) =
      [(TYPE_SCRIPT, [("this", 0, false)])] ∧
    (compile demoExtern 10 [⟨TOKEN_EOF, "", 1⟩] startState).map
      (fun r => r.1.map (fun c => (c.type, c.locals.map (fun l => l.name)))) =
      some (some (TYPE_SCRIPT, ["this"])) := by
  decide

/-- C22 (amended): `initCompiler` pushes a frame of the given type whose only local is
slot 0, with depth 0 and `isCaptured` false; the name of slot 0 is empty for a frame of
type `TYPE_FUNCTION` and `this` for every other type: `TYPE_METHOD`, `TYPE_INITIALIZER`
and also `TYPE_SCRIPT`. The enclosing frames are unchanged. -/
theorem initCompiler_reserves_slot_zero (x : Extern) (type : FunctionType) (s : State) :
    ∃ c, (initCompiler x type s).frames = c :: s.frames ∧ c.type = type ∧
      c.scopeDepth = 0 ∧
      c.locals = [⟨(if type = TYPE_FUNCTION then "" else "this"), 0, false⟩] ∧
      c.locals.map (fun l => l.name) =
        [(match type with
          | TYPE_FUNCTION => ""
          | TYPE_METHOD => "this"
          | TYPE_INITIALIZER => "this"
          | TYPE_SCRIPT => "this")] := by
  refine ⟨_, rfl, rfl, rfl, ?_, ?_⟩ <;> cases type <;> rfl



/-! ## `resolveLocal` -/

/-- The loop of `resolveLocal` finds the last local below `k` that has the name. -/
theorem resolveLocalLoop_spec (locals : List Local) (name : String) :
    ∀ k, k ≤ locals.length →
      (resolveLocalLoop locals name k = none ∧
        ∀ j l, j < k → locals[j]? = some l → l.name ≠ name) ∨
      (∃ i l, resolveLocalLoop locals name k = some (i, l) ∧ i < k ∧ locals[i]? = some l ∧
        l.name = name ∧ ∀ j l', i < j → j < k → locals[j]? = some l' → l'.name ≠ name) := by
  intro k
  induction k with
  | zero =>
    intro _
    exact Or.inl ⟨rfl, fun j l hj => absurd hj (Nat.not_lt_zero _)⟩
  | succ k ih =>
    intro hk
    have hlt : k < locals.length := by omega
    have hget : locals[k]? = some locals[k] := List.getElem?_eq_getElem hlt
    by_cases hname : name = locals[k].name
    · refine Or.inr ⟨k, locals[k], ?_, by omega, hget, hname.symm, ?_⟩
      · simp [resolveLocalLoop, hget, identifiersEqual, hname]
      · intro j l' h1 h2
        omega
    · have hstep : resolveLocalLoop locals name (k + 1) = resolveLocalLoop locals name k := by
        simp [resolveLocalLoop, hget, identifiersEqual, hname]
      rw [hstep]
      rcases ih (by omega) with ⟨h1, h2⟩ | ⟨i, l, h1, h2, h3, h4, h5⟩
      · refine Or.inl ⟨h1, ?_⟩
        intro j l hj hl
        by_cases hjk : j = k
        · subst hjk
          rw [hget] at hl
          cases hl
          exact fun h => hname h.symm
        · exact h2 j l (by omega) hl
      · refine Or.inr ⟨i, l, h1, by omega, h3, h4, ?_⟩
        intro j l' hij hj hl
        by_cases hjk : j = k
        · subst hjk
          rw [hget] at hl
          cases hl
          exact fun h => hname h.symm
        · exact h5 j l' hij (by omega) hl

/-- C24: `resolveLocal` returns the innermost declaration. For a frame `c` (at position
`ci` of the chain) and a name: either no local of `c` has the name, and `resolveLocal`
returns -1 and changes nothing; or it returns the largest index `i` below `localCount`
whose local has exactly that name, and on the way has called `error("Can't read local
variable in its own initializer.")` if and only if the depth of that local is -1 (outside
panic mode the call prints the message). So the result is -1 if and only if no local has
the name. -/
theorem resolveLocal_returns_innermost (ci : Nat) (name : String) (s : State) (c : Compiler)
    (h : s.frames[ci]? = some c) :
    ((resolveLocal ci name s = (-1, s) ∧ ∀ l ∈ c.locals, l.name ≠ name) ∨
     (∃ (i : Nat) (l : Local), (resolveLocal ci name s).1 = i ∧ i < c.locals.length ∧
        c.locals[i]? = some l ∧ l.name = name ∧
        (∀ j l', i < j → c.locals[j]? = some l' → l'.name ≠ name) ∧
        (resolveLocal ci name s).2 =
          (if l.depth = -1 then
            error "Can't read local variable in its own initializer." s else s) ∧
        (s.parser.panicMode = false →
          (resolveLocal ci name s).2.stderr.map (fun e => e.message) =
            s.stderr.map (fun e => e.message) ++
              (if l.depth = -1 then ["Can't read local variable in its own initializer."]
                else [])))) ∧
    ((resolveLocal ci name s).1 = -1 ↔ ∀ l ∈ c.locals, l.name ≠ name) := by
  have key : (resolveLocal ci name s = (-1, s) ∧ ∀ l ∈ c.locals, l.name ≠ name) ∨
     (∃ (i : Nat) (l : Local), (resolveLocal ci name s).1 = i ∧ i < c.locals.length ∧
        c.locals[i]? = some l ∧ l.name = name ∧
        (∀ j l', i < j → c.locals[j]? = some l' → l'.name ≠ name) ∧
        (resolveLocal ci name s).2 =
          (if l.depth = -1 then
            error "Can't read local variable in its own initializer." s else s) ∧
        (s.parser.panicMode = false →
          (resolveLocal ci name s).2.stderr.map (fun e => e.message) =
            s.stderr.map (fun e => e.message) ++
              (if l.depth = -1 then ["Can't read local variable in its own initializer."]
                else []))) := by
    rcases resolveLocalLoop_spec c.locals name c.locals.length (le_refl _) with
      ⟨h1, h2⟩ | ⟨i, l, h1, h2, h3, h4, h5⟩
    · left
      refine ⟨by simp only [resolveLocal, h, h1], ?_⟩
      intro l hl
      obtain ⟨j, hj, rfl⟩ := List.getElem_of_mem hl
      exact h2 j _ hj (List.getElem?_eq_getElem hj)
    · right
      have hr : resolveLocal ci name s = ((i : Int), if l.depth = -1 then
          error "Can't read local variable in its own initializer." s else s) := by
        simp only [resolveLocal, h, h1]
      refine ⟨i, l, by rw [hr], h2, h3, h4, ?_, by rw [hr], ?_⟩
      · intro j l' hij hl
        have hj : j < c.locals.length := by
          by_contra hge
          rw [List.getElem?_eq_none (by omega)] at hl
          cases hl
        exact h5 j l' hij hj hl
      · intro hpm
        rw [hr]
        simp only
        split
        · exact (errorAt_stderr _ _ hpm).1
        · simp
  refine ⟨key, ?_⟩
  rcases key with ⟨h1, h2⟩ | ⟨i, l, h1, h2, h3, h4, _⟩
  · rw [h1]
    exact ⟨fun _ => h2, fun _ => rfl⟩
  · constructor
    · intro hneg
      rw [h1] at hneg
      omega
    · intro hall
      exact absurd h4 (hall l (List.getElem?_mem h3))

theorem resolveLocal_returns_innermost_witness :
    (resolveLocal 0 "a" shadowDemo).1 = 2 ∧ (resolveLocal 0 "a" shadowDemo).2 = shadowDemo ∧
    (resolveLocal 0 "b" shadowDemo).1 = 3 ∧
    (resolveLocal 0 "b" shadowDemo).2.stderr.map (fun e => e.message) =
      ["Can't read local variable in its own initializer."] ∧
    resolveLocal 0 "z" shadowDemo = (-1, shadowDemo) ∧
    ((resolveLocal 0 "z" shadowDemo).1 = -1 ↔
      ∀ l ∈ (demoFrame 1 [{ name := "a", depth := 1, isCaptured := false },
        { name := "a", depth := 2, isCaptured := false },
        { name := "b", depth := -1, isCaptured := false }]).locals, l.name ≠ "z") :=
  ⟨by decide, by decide, by decide, by decide, by decide,
    (resolveLocal_returns_innermost 0 "z" shadowDemo _ rfl).2⟩



/-! ## `declareVariable` -/

theorem reportAll_cons (m : String) (ms : List String) (s : State) :
    reportAll (m :: ms) s = reportAll ms (error m s) := rfl

theorem reportAll_nil (s : State) : reportAll [] s = s := rfl

theorem declareVariableLoop_eq (name : String) (c : Compiler) (rest : List Compiler) :
    ∀ (k : Nat) (s : State), s.frames = c :: rest → k ≤ c.locals.length →
      declareVariableLoop name k s =
        reportAll ((((c.locals.take k).reverse.takeWhile
          (fun l => !(decide (l.depth ≠ -1 ∧ l.depth < c.scopeDepth)))).filter
            (fun l => identifiersEqual name l.name)).map
              (fun _ => "Already variable with this name in this scope.")) s := by
  intro k
  induction k with
  | zero =>
    intro s _ _
    simp [declareVariableLoop, reportAll]
  | succ k ih =>
    intro s hfr hk
    have hlt : k < c.locals.length := by omega
    have hget : c.locals[k]? = some c.locals[k] := List.getElem?_eq_getElem hlt
    have htake : (c.locals.take (k + 1)).reverse = c.locals[k] :: (c.locals.take k).reverse := by
      rw [List.take_succ, hget]
      simp
    rw [htake, declareVariableLoop]
    simp only [hfr, hget]
    by_cases henc : c.locals[k].depth ≠ -1 ∧ c.locals[k].depth < c.scopeDepth
    · rw [if_pos henc]
      simp [List.takeWhile, henc, reportAll]
    · rw [if_neg henc]
      have htw : List.takeWhile (fun l : Local => !(decide (l.depth ≠ -1 ∧ l.depth < c.scopeDepth)))
          (c.locals[k] :: (c.locals.take k).reverse) =
          c.locals[k] :: List.takeWhile
            (fun l : Local => !(decide (l.depth ≠ -1 ∧ l.depth < c.scopeDepth)))
            (c.locals.take k).reverse := by
        simp [List.takeWhile, henc]
      rw [htw]
      by_cases hname : identifiersEqual name c.locals[k].name = true
      · rw [if_pos hname]
        simp only [List.filter_cons, hname, if_true, List.map_cons, reportAll_cons]
        exact ih _ (by rw [error, errorAt_frames, hfr]) (by omega)
      · rw [if_neg hname]
        simp only [List.filter_cons, hname, Bool.false_eq_true, if_false]
        exact ih _ hfr (by omega)

theorem errorAt_panic (token : Token) (message : String) {s : State}
    (h : s.parser.panicMode = true) : errorAt token message s = s := by
  unfold errorAt
  rw [if_pos h]

theorem reportAll_panic (ms : List String) : ∀ {s : State}, s.parser.panicMode = true →
    reportAll ms s = s := by
  induction ms with
  | nil => intro s _; rfl
  | cons m rest ih =>
    intro s h
    rw [reportAll_cons, error, errorAt_panic _ _ h]
    exact ih h

/-- Outside panic mode, of several calls of `error` in a row the first one prints. -/
theorem reportAll_stderr (ms : List String) {s : State} (h : s.parser.panicMode = false) :
    (reportAll ms s).stderr.map (fun e => e.message) =
      s.stderr.map (fun e => e.message) ++ ms.take 1 := by
  cases ms with
  | nil => simp [reportAll]
  | cons m rest =>
    have hp : (error m s).parser.panicMode = true := by
      simp [error, errorAt, h]
    rw [reportAll_cons, reportAll_panic rest hp]
    exact (errorAt_stderr _ _ h).1

theorem scopeLocals_split (outer inner : List Local) (depth : Int)
    (ho : ∀ l ∈ outer, l.depth ≠ -1 ∧ l.depth < depth)
    (hi : ∀ l ∈ inner, l.depth = -1 ∨ l.depth = depth) :
    scopeLocals (outer ++ inner) depth = inner.reverse := by
  unfold scopeLocals
  rw [List.reverse_append]
  have h1 : List.takeWhile (fun l : Local => !(decide (l.depth ≠ -1 ∧ l.depth < depth)))
      (inner.reverse ++ outer.reverse) = inner.reverse ++ List.takeWhile
        (fun l : Local => !(decide (l.depth ≠ -1 ∧ l.depth < depth))) outer.reverse := by
    apply List.takeWhile_append_of_pos
    intro l hl
    rcases hi l (List.mem_reverse.1 hl) with h | h
    · simp [h]
    · simp [h]
  rw [h1]
  have h2 : List.takeWhile (fun l : Local => !(decide (l.depth ≠ -1 ∧ l.depth < depth)))
      outer.reverse = [] := by
    cases hrev : outer.reverse with
    | nil => rfl
    | cons a t =>
      have ha : a ∈ outer := List.mem_reverse.1 (by rw [hrev]; exact List.mem_cons_self _ _)
      have := ho a ha
      simp [List.takeWhile, this.1, this.2]
  rw [h2, List.append_nil]

theorem redeclarations_ne_nil (c : Compiler) (name : String) :
    redeclarations c name ≠ [] ↔ ∃ l ∈ scopeLocals c.locals c.scopeDepth, l.name = name := by
  unfold redeclarations
  rw [Ne, List.map_eq_nil_iff, List.filter_eq_nil_iff]
  simp only [identifiersEqual, decide_eq_true_eq, not_forall, Classical.not_not]
  constructor
  · rintro ⟨l, hl, hn⟩
    exact ⟨l, hl, hn.symm⟩
  · rintro ⟨l, hl, hn⟩
    exact ⟨l, hl, hn.symm⟩

/-- C25: `declareVariable` rejects a redeclaration only within the same scope. With a
current frame `c` and the name of the previous token: at scope depth 0 nothing changes.
At another depth the call is `addLocal` after one call of
`error("Already variable with this name in this scope.")` for each local of the innermost
scope that has the name (`redeclarations`; outside panic mode the first call prints): an
error is reported if and only if such a local exists. The innermost scope is what the loop
scans, the trailing locals that are uninitialized or not below `scopeDepth`; when the
locals are laid out by scope (those of enclosing scopes first, then those at `scopeDepth`
or uninitialized), it is exactly the locals with depth `scopeDepth` or -1, so a local of
the same name in an enclosing scope alone is no error. After the reports, with fewer than
256 locals, the local (name, depth -1, `isCaptured` false) is appended; with 256 locals
nothing is appended. -/
theorem declareVariable_rejects_same_scope (s : State) (c : Compiler) (rest : List Compiler)
    (h : s.frames = c :: rest) :
    (c.scopeDepth = 0 → declareVariable s = s) ∧
    (c.scopeDepth ≠ 0 → declareVariable s = addLocal s.parser.previous.lexeme
      (reportAll (redeclarations c s.parser.previous.lexeme) s)) ∧
    (redeclarations c s.parser.previous.lexeme ≠ [] ↔
      ∃ l ∈ scopeLocals c.locals c.scopeDepth, l.name = s.parser.previous.lexeme) ∧
    (∀ outer inner, c.locals = outer ++ inner →
      (∀ l ∈ outer, l.depth ≠ -1 ∧ l.depth < c.scopeDepth) →
      (∀ l ∈ inner, l.depth = -1 ∨ l.depth = c.scopeDepth) →
      (redeclarations c s.parser.previous.lexeme ≠ [] ↔
        ∃ l ∈ c.locals, l.name = s.parser.previous.lexeme ∧
          (l.depth = c.scopeDepth ∨ l.depth = -1))) ∧
    (s.parser.panicMode = false →
      (reportAll (redeclarations c s.parser.previous.lexeme) s).stderr.map (fun e => e.message) =
        s.stderr.map (fun e => e.message) ++
          (redeclarations c s.parser.previous.lexeme).take 1) ∧
    (c.scopeDepth ≠ 0 → c.locals.length < 256 →
      (declareVariable s).frames = { c with locals := c.locals ++
        [{ name := s.parser.previous.lexeme, depth := -1, isCaptured := false }] } :: rest) ∧
    (c.scopeDepth ≠ 0 → c.locals.length = 256 → (declareVariable s).frames = s.frames) := by
  have hdepth : scopeDepth s = c.scopeDepth := by simp only [scopeDepth, h]
  have hcount : localCount s = c.locals.length := by simp only [localCount, h]
  have hloop : declareVariableLoop s.parser.previous.lexeme (localCount s) s =
      reportAll (redeclarations c s.parser.previous.lexeme) s := by
    rw [hcount, declareVariableLoop_eq _ c rest _ s h (le_refl _), List.take_length]
    rfl
  have hmain : c.scopeDepth ≠ 0 → declareVariable s = addLocal s.parser.previous.lexeme
      (reportAll (redeclarations c s.parser.previous.lexeme) s) := by
    intro hne
    unfold declareVariable
    rw [if_neg (by rw [hdepth]; exact hne)]
    simp only [hloop]
  have hfr2 : (reportAll (redeclarations c s.parser.previous.lexeme) s).frames = c :: rest := by
    rw [reportAll_frames, h]
  have hcount2 : localCount (reportAll (redeclarations c s.parser.previous.lexeme) s) =
      c.locals.length := by
    simp only [localCount, hfr2]
  refine ⟨?_, hmain, redeclarations_ne_nil c _, ?_, fun hpm => reportAll_stderr _ hpm, ?_, ?_⟩
  · intro h0
    unfold declareVariable
    rw [if_pos (by rw [hdepth]; exact h0)]
  · intro outer inner hsplit ho hi
    rw [redeclarations_ne_nil, hsplit, scopeLocals_split outer inner _ ho hi]
    constructor
    · rintro ⟨l, hl, hn⟩
      have hl2 : l ∈ inner := List.mem_reverse.1 hl
      refine ⟨l, List.mem_append_right _ hl2, hn, ?_⟩
      rcases hi l hl2 with h1 | h1
      · exact Or.inr h1
      · exact Or.inl h1
    · rintro ⟨l, hl, hn, hd⟩
      rcases List.mem_append.1 hl with hl2 | hl2
      · have := ho l hl2
        rcases hd with hd | hd
        · omega
        · exact absurd hd this.1
      · exact ⟨l, List.mem_reverse.2 hl2, hn⟩
  · intro hne hlen
    rw [hmain hne]
    unfold addLocal
    rw [if_neg (by rw [hcount2]; simp only [UINT8_COUNT]; omega)]
    rw [modifyCurrent_frames _ hfr2]
  · intro hne hlen
    rw [hmain hne]
    unfold addLocal
    rw [if_pos (by rw [hcount2, hlen]; rfl), error, errorAt_frames, hfr2, h]

set_option maxRecDepth 100000 in
theorem declareVariable_rejects_same_scope_witness :
    (declareVariable shadowDemo).stderr.map (fun e => e.message) =
      ["Already variable with this name in this scope."] ∧
    (declareVariable shadowStart).stderr = [] ∧
    (declareVariable shadowStart).frames.map (fun c => c.locals.map (fun l => (l.name, l.depth)))
      = [[("", 0), ("a", 1), ("a", -1)]] ∧
    (redeclarations { demoFrame 1 [{ name := "a", depth := 1, isCaptured := false }] with
        scopeDepth := 2 } "a" = [] ∧
      ¬ ∃ l ∈ [({ name := "", depth := 0, isCaptured := false } : Local),
          { name := "a", depth := 1, isCaptured := false }],
        l.name = "a" ∧ (l.depth = 2 ∨ l.depth = -1)) :=
  ⟨by decide, by decide, by decide, by decide,
    fun hex => (((declareVariable_rejects_same_scope shadowStart _ [] rfl).2.2.2.1
      [{ name := "", depth := 0, isCaptured := false },
        { name := "a", depth := 1, isCaptured := false }] [] rfl (by decide) (by decide)).2
      hex) (by decide)⟩



/-! ## Properties of the upvalue tables of the frames -/

theorem framesAll_of_frames {P : Compiler → Prop} {s t : State} (h : t.frames = s.frames)
    (hs : FramesAll P s) : FramesAll P t := by
  unfold FramesAll at *
  rw [h]
  exact hs

theorem framesAll_modifyCurrent {P : Compiler → Prop} (f : Compiler → Compiler)
    (hf : ∀ c, P c → P (f c)) {s : State} (hs : FramesAll P s) :
    FramesAll P (modifyCurrent f s) := by
  unfold modifyCurrent
  split
  · exact hs
  · rename_i c rest hfr
    intro d hd
    simp only [List.mem_cons] at hd
    rcases hd with rfl | hd
    · exact hf c (hs c (by rw [hfr]; exact List.mem_cons_self _ _))
    · exact hs d (by rw [hfr]; exact List.mem_cons_of_mem _ hd)

theorem framesAll_modifyCurrent_same {P : Compiler → Prop} [UpvalueProperty P]
    (f : Compiler → Compiler) (h1 : ∀ c, (f c).upvalues = c.upvalues)
    (h2 : ∀ c, (f c).function.upvalueCount = c.function.upvalueCount) {s : State}
    (hs : FramesAll P s) : FramesAll P (modifyCurrent f s) :=
  framesAll_modifyCurrent f (fun c hc => UpvalueProperty.congr c (f c) (h1 c) (h2 c) hc) hs

theorem framesAll_errorAt {P : Compiler → Prop} (token : Token) (message : String) {s : State}
    (hs : FramesAll P s) : FramesAll P (errorAt token message s) :=
  framesAll_of_frames (errorAt_frames token message s) hs

theorem framesAll_advance {P : Compiler → Prop} {s : State} (hs : FramesAll P s) :
    FramesAll P (advance s) :=
  framesAll_of_frames (advance_frames s) hs

theorem framesAll_synchronizeLoop {P : Compiler → Prop} (fuel : Nat) :
    ∀ {s : State}, FramesAll P s → FramesAll P (synchronizeLoop fuel s) := by
  induction fuel with
  | zero => intro s hs; exact hs
  | succ fuel ih =>
    intro s hs
    unfold synchronizeLoop
    split
    · split
      · exact hs
      · split <;> first | exact hs | exact ih (framesAll_advance hs)
    · exact hs

theorem framesAll_emitByte {P : Compiler → Prop} [UpvalueProperty P] (byte : Nat) {s : State}
    (hs : FramesAll P s) : FramesAll P (emitByte byte s) :=
  (by apply framesAll_modifyCurrent_same _ _ _ hs <;> intro _ <;> rfl)

theorem framesAll_endScopeLoop {P : Compiler → Prop} [UpvalueProperty P] (n : Nat) :
    ∀ {s : State}, FramesAll P s → FramesAll P (endScopeLoop n s) := by
  induction n with
  | zero => intro s hs; exact hs
  | succ n ih =>
    intro s hs
    unfold endScopeLoop
    split
    · exact hs
    · split
      · exact hs
      · split
        · apply ih
          rename_i l _ _
          have h : FramesAll P (if l.isCaptured = true then emitByte OP_CLOSE_UPVALUE s
              else emitByte OP_POP s) := by
            split <;> exact framesAll_emitByte _ hs
          apply framesAll_modifyCurrent_same _ _ _ h <;> intro _ <;> rfl
        · exact hs

instance {P : Compiler → Prop} [UpvalueProperty P] : Invariant (FramesAll P) where
  errorAt_keeps token message s hs := framesAll_errorAt token message hs
  advance_keeps s hs := framesAll_advance hs
  synchronize_keeps s hs := framesAll_synchronizeLoop _ hs
  faults_keeps faults s hs := hs
  classes_keeps classes s hs := hs
  emitByte_keeps byte s hs := framesAll_emitByte byte hs
  makeConstant_keeps value s hs := by
    unfold makeConstant
    simp only
    split
    · exact framesAll_errorAt _ _
        ((by apply framesAll_modifyCurrent_same _ _ _ hs <;> intro _ <;> rfl))
    · exact (by apply framesAll_modifyCurrent_same _ _ _ hs <;> intro _ <;> rfl)
  patchJump_keeps offset s hs := by
    unfold patchJump
    have h : FramesAll P (if currentCount s - offset - 2 > UINT16_MAX then
        error "Too much code to jump over." s else s) := by
      split
      · exact framesAll_errorAt _ _ hs
      · exact hs
    apply framesAll_modifyCurrent_same _ _ _ h <;> intro _ <;> rfl
  beginScope_keeps s hs :=
    (by apply framesAll_modifyCurrent_same _ _ _ hs <;> intro _ <;> rfl)
  endScope_keeps s hs := framesAll_endScopeLoop _
    ((by apply framesAll_modifyCurrent_same _ _ _ hs <;> intro _ <;> rfl))
  addLocal_keeps name s hs := by
    unfold addLocal
    split
    · exact framesAll_errorAt _ _ hs
    · exact (by apply framesAll_modifyCurrent_same _ _ _ hs <;> intro _ <;> rfl)
  addUpvalue_keeps ci index isLocal s hs := by
    unfold addUpvalue
    split
    · exact hs
    · rename_i c hc
      split
      · exact hs
      · rename_i hfind
        simp only
        split
        · exact framesAll_errorAt _ _ hs
        · rename_i hcount
          unfold modifyFrame
          rw [hc]
          intro d hd
          rcases List.mem_or_eq_of_mem_set hd with hd | rfl
          · exact hs d hd
          · exact UpvalueProperty.added c index isLocal (hs c (List.getElem?_mem hc)) hfind
              hcount
  setCaptured_keeps ci index s hs := by
    unfold setCaptured
    split
    · exact hs
    · rename_i c hc
      split
      · split
        · exact hs
        · intro d hd
          rcases List.mem_or_eq_of_mem_set hd with hd | rfl
          · exact hs d hd
          · exact UpvalueProperty.congr c _ rfl rfl (hs c (List.getElem?_mem hc))
      · exact hs
  markInitialized_keeps s hs := by
    unfold markInitialized
    split
    · exact hs
    · split
      · exact hs
      · rename_i c rest hfr
        split
        · exact hs
        · intro d hd
          simp only [List.mem_cons] at hd
          rcases hd with rfl | hd
          · exact UpvalueProperty.congr c _ rfl rfl
              (hs c (by rw [hfr]; exact List.mem_cons_self _ _))
          · exact hs d (by rw [hfr]; exact List.mem_cons_of_mem _ hd)
  arity_keeps s hs := (by apply framesAll_modifyCurrent_same _ _ _ hs <;> intro _ <;> rfl)
  initCompiler_keeps x type s hs := by
    intro d hd
    simp only [initCompiler, List.mem_cons] at hd
    rcases hd with rfl | hd
    · exact UpvalueProperty.fresh _ rfl rfl
    · exact hs d hd
  endCompiler_keeps s hs := by
    have h : FramesAll P (emitReturn s) := by
      unfold emitReturn emitBytes
      split <;> repeat (first | exact hs | apply framesAll_emitByte)
    unfold endCompiler
    simp only
    split
    · exact h
    · rename_i c rest hfr
      intro d hd
      exact h d (by rw [hfr]; exact List.mem_cons_of_mem _ hd)



/-! ## `addUpvalue` -/

theorem findUpvalue_none (index : Nat) (isLocal : Bool) : ∀ (ups : List Upvalue) (i : Nat),
    findUpvalue ups i index isLocal = none ↔ (⟨index, isLocal⟩ : Upvalue) ∉ ups := by
  intro ups
  induction ups with
  | nil => intro i; simp [findUpvalue]
  | cons u rest ih =>
    intro i
    unfold findUpvalue
    by_cases h : u.index = index ∧ u.isLocal = isLocal
    · rw [if_pos h]
      obtain ⟨h1, h2⟩ := h
      have : u = ⟨index, isLocal⟩ := by cases u; simp_all
      simp [this]
    · rw [if_neg h, ih]
      have : ¬ (⟨index, isLocal⟩ : Upvalue) = u := by
        intro e
        apply h
        rw [← e]
        exact ⟨rfl, rfl⟩
      simp [this]

theorem findUpvalue_some (index : Nat) (isLocal : Bool) : ∀ (ups : List Upvalue) (i j : Nat),
    ups.Nodup → ups[j]? = some ⟨index, isLocal⟩ →
    findUpvalue ups i index isLocal = some (i + j) := by
  intro ups
  induction ups with
  | nil => intro i j _ h; simp at h
  | cons u rest ih =>
    intro i j hnd hj
    unfold findUpvalue
    cases j with
    | zero =>
      simp only [List.getElem?_cons_zero, Option.some.injEq] at hj
      subst hj
      simp
    | succ j =>
      simp only [List.getElem?_cons_succ] at hj
      have hmem : (⟨index, isLocal⟩ : Upvalue) ∈ rest := List.getElem?_mem hj
      have hne : ¬ (u.index = index ∧ u.isLocal = isLocal) := by
        rintro ⟨h1, h2⟩
        have : u = ⟨index, isLocal⟩ := by cases u; simp_all
        rw [this] at hnd
        exact (List.nodup_cons.1 hnd).1 hmem
      rw [if_neg hne, ih (i + 1) j (List.nodup_cons.1 hnd).2 hj]
      congr 1
      omega

instance : UpvalueProperty UpvalueTable where
  congr c d h1 h2 hc := by
    unfold UpvalueTable FrameOK at *
    rw [h1, h2]
    exact hc
  fresh c h1 h2 := by
    unfold UpvalueTable FrameOK
    rw [h1, h2]
    simp
  added c index isLocal hc hfind hcount := by
    unfold UpvalueTable FrameOK at *
    obtain ⟨h1, h2, h3⟩ := hc
    have hnot := (findUpvalue_none index isLocal c.upvalues 0).1 hfind
    refine ⟨?_, ?_, ?_⟩
    · simp only [List.length_append, List.length_singleton, Nat.cast_add, Nat.cast_one, h1]
    · rw [List.nodup_append]
      refine ⟨h2, List.nodup_singleton _, ?_⟩
      intro a ha hb
      rw [List.mem_singleton] at hb
      subst hb
      exact hnot ha
    · simp only [List.length_append, List.length_singleton]
      simp only [UINT8_COUNT] at hcount
      omega

/-- C23: `addUpvalue` deduplicates. Let the frame `c` at position `ci` hold its upvalues in
order (`upvalueCount` entries, pairwise distinct, at most 256), as every frame does in
every state that the compiler reaches from a state in which the frames do (last part).
Called with a pair that is the entry `i`, `addUpvalue` returns `i` and changes nothing.
Called with a pair that is not there, it appends the pair, increments `upvalueCount` and
returns the old `upvalueCount` when that is below 256; when it is 256 it calls
`error("Too many closure variables in function.")`, returns 0 and leaves the frames alone.
In every case the frames hold their upvalues in order afterwards, so `upvalueCount` never
exceeds 256. -/
theorem addUpvalue_deduplicates (ci index : Nat) (isLocal : Bool) (s : State) (c : Compiler)
    (h : s.frames[ci]? = some c) (hc : UpvalueTable c) :
    (∀ i : Nat, c.upvalues[i]? = some ⟨index, isLocal⟩ →
      addUpvalue ci index isLocal s = ((i : Int), s)) ∧
    ((⟨index, isLocal⟩ : Upvalue) ∉ c.upvalues → c.function.upvalueCount < 256 →
      addUpvalue ci index isLocal s = (c.function.upvalueCount,
        { s with frames := s.frames.set ci { c with
            upvalues := c.upvalues ++ [{ index := index, isLocal := isLocal }]
            function := { c.function with upvalueCount := c.function.upvalueCount + 1 } } })) ∧
    ((⟨index, isLocal⟩ : Upvalue) ∉ c.upvalues → c.function.upvalueCount = 256 →
      addUpvalue ci index isLocal s =
        (0, error "Too many closure variables in function." s) ∧
      (error "Too many closure variables in function." s).frames = s.frames) ∧
    c.function.upvalueCount ≤ 256 ∧
    (FramesAll UpvalueTable s → FramesAll UpvalueTable (addUpvalue ci index isLocal s).2) ∧
    (∀ (x : Extern) (n : Nat) (p : Proc) (t u : State) (i : Int), FramesAll UpvalueTable t →
      exec x n p t = some (i, u) → FramesAll UpvalueTable u) := by
  obtain ⟨h1, h2, h3⟩ := hc
  unfold FrameOK at h1
  refine ⟨?_, ?_, ?_, by omega, fun hs => SegmentInvariant.addUpvalue_keeps ci index isLocal s hs,
    fun x n p t u i ht he => exec_invariant x _ he ht⟩
  · intro i hi
    have := findUpvalue_some index isLocal c.upvalues 0 i h2 hi
    simp only [addUpvalue, h, this, Nat.zero_add]
  · intro hnot hlt
    have := (findUpvalue_none index isLocal c.upvalues 0).2 hnot
    have hne : ¬ c.function.upvalueCount = UINT8_COUNT := by
      simp only [UINT8_COUNT]
      omega
    simp only [addUpvalue, h, this, hne, if_false, modifyFrame]
  · intro hnot heq
    have := (findUpvalue_none index isLocal c.upvalues 0).2 hnot
    have he : c.function.upvalueCount = UINT8_COUNT := by
      simp only [UINT8_COUNT]
      omega
    refine ⟨?_, errorAt_frames _ _ _⟩
    simp only [addUpvalue, h, this, he, if_true]

set_option maxRecDepth 100000 in
theorem addUpvalue_deduplicates_witness :
    addUpvalue 0 3 false upvalueDemo = (1, upvalueDemo) ∧
    (addUpvalue 0 3 true upvalueDemo).1 = 2 ∧
    (addUpvalue 0 3 true upvalueDemo).2.frames.map
      (fun c => (c.upvalues.map (fun u => (u.index, u.isLocal)), c.function.upvalueCount)) =
      [([(1, true), (3, false), (3, true)], 3), ([], 0)] ∧
    FramesAll UpvalueTable (addUpvalue 0 3 true upvalueDemo).2 :=
  have h := addUpvalue_deduplicates 0 3 true upvalueDemo
    { demoFrame 2 [] with
      upvalues := [{ index := 1, isLocal := true }, { index := 3, isLocal := false }]
      function := { emptyFunction with upvalueCount := 2 } } rfl (by decide)
  ⟨by decide, by decide, by decide, h.2.2.2.2.1 (by decide)⟩



/-! ## The code of the frames only grows at its end -/

theorem codePrefix_refl (c : Compiler) : CodePrefix c c := List.prefix_refl _

theorem codePrefix_trans {a b c : Compiler} (h1 : CodePrefix a b) (h2 : CodePrefix b c) :
    CodePrefix a c := List.IsPrefix.trans h1 h2

theorem ext_refl (s : State) : Ext s s :=
  List.forall₂_same.2 fun c _ => codePrefix_refl c

theorem ext_trans {s t u : State} (h1 : Ext s t) (h2 : Ext t u) : Ext s u := by
  unfold Ext at *
  generalize s.frames = a at h1
  generalize t.frames = b at h1 h2
  generalize u.frames = c at h2
  induction h1 generalizing c with
  | nil => cases h2; exact List.Forall₂.nil
  | cons hab _ ih =>
    cases h2 with
    | cons hbc htl => exact List.Forall₂.cons (codePrefix_trans hab hbc) (ih _ htl)

theorem ext_of_frames {t u : State} (h : u.frames = t.frames) : Ext t u := by
  unfold Ext
  rw [h]
  exact List.forall₂_same.2 fun c _ => codePrefix_refl c

theorem ext_modifyCurrent (f : Compiler → Compiler) (hf : ∀ c, CodePrefix c (f c)) (t : State) :
    Ext t (modifyCurrent f t) := by
  unfold Ext modifyCurrent
  split
  · rename_i h
    rw [h]
    exact List.Forall₂.nil
  · rename_i c rest h
    rw [h]
    exact List.Forall₂.cons (hf c) (List.forall₂_same.2 fun c _ => codePrefix_refl c)

theorem ext_modifyCurrent_same (f : Compiler → Compiler)
    (hf : ∀ c, (f c).function.chunk.code = c.function.chunk.code) (t : State) :
    Ext t (modifyCurrent f t) :=
  ext_modifyCurrent f (fun c => by unfold CodePrefix; rw [hf]) t

theorem forall₂_set (l : List Compiler) : ∀ (i : Nat) (c d : Compiler), l[i]? = some c →
    CodePrefix c d → List.Forall₂ CodePrefix l (l.set i d) := by
  induction l with
  | nil => intro i c d h; simp at h
  | cons a rest ih =>
    intro i c d h hcd
    cases i with
    | zero =>
      simp only [List.getElem?_cons_zero, Option.some.injEq] at h
      subst h
      exact List.Forall₂.cons hcd (List.forall₂_same.2 fun c _ => codePrefix_refl c)
    | succ i =>
      simp only [List.getElem?_cons_succ] at h
      exact List.Forall₂.cons (codePrefix_refl a) (ih i c d h hcd)

theorem ext_modifyFrame (ci : Nat) (f : Compiler → Compiler)
    (hf : ∀ c, (f c).function.chunk.code = c.function.chunk.code)
    (t : State) : Ext t (modifyFrame ci f t) := by
  unfold modifyFrame
  split
  · exact ext_of_frames rfl
  · rename_i c hc
    exact forall₂_set _ _ _ _ hc (by unfold CodePrefix; rw [hf])

theorem ext_errorAt (token : Token) (message : String) (t : State) :
    Ext t (errorAt token message t) :=
  ext_of_frames (errorAt_frames _ _ _)

theorem synchronizeLoop_frames (fuel : Nat) : ∀ s : State,
    (synchronizeLoop fuel s).frames = s.frames := by
  induction fuel with
  | zero => intro s; rfl
  | succ fuel ih =>
    intro s
    unfold synchronizeLoop
    split
    · split
      · rfl
      · split <;> first | rfl | (rw [ih, advance_frames])
    · rfl

theorem ext_emitByte (byte : Nat) (t : State) : Ext t (emitByte byte t) := by
  unfold emitByte modifyChunk
  apply ext_modifyCurrent
  intro c
  exact List.prefix_append _ _

theorem ext_endScopeLoop (n : Nat) : ∀ t : State, Ext t (endScopeLoop n t) := by
  induction n with
  | zero => intro t; exact ext_refl t
  | succ n ih =>
    intro t
    unfold endScopeLoop
    split
    · exact ext_refl t
    · split
      · exact ext_refl t
      · split
        · rename_i l _ _
          refine ext_trans ?_ (ih _)
          have h : Ext t (if l.isCaptured = true then emitByte OP_CLOSE_UPVALUE t
              else emitByte OP_POP t) := by
            split <;> exact ext_emitByte _ t
          exact ext_trans h ((by apply ext_modifyCurrent_same; intro _; rfl))
        · exact ext_refl t

instance (s0 : State) : StepInvariant (Ext s0) where
  errorAt_keeps token message s hs := ext_trans hs (ext_errorAt token message s)
  advance_keeps s hs := ext_trans hs (ext_of_frames (advance_frames s))
  synchronize_keeps s hs := ext_trans hs (ext_of_frames (by
    unfold synchronize
    rw [synchronizeLoop_frames]))
  faults_keeps faults s hs := hs
  classes_keeps classes s hs := hs
  emitByte_keeps byte s hs := ext_trans hs (ext_emitByte byte s)
  makeConstant_keeps value s hs := by
    unfold makeConstant
    simp only
    have h : Ext s (modifyChunk (fun chunk => (addConstant chunk value).2) s) := by
      unfold modifyChunk
      apply ext_modifyCurrent_same
      intro _
      rfl
    split
    · exact ext_trans hs (ext_trans h (ext_errorAt _ _ _))
    · exact ext_trans hs h
  beginScope_keeps s hs := ext_trans hs ((by apply ext_modifyCurrent_same; intro _; rfl))
  endScope_keeps s hs :=
    ext_trans hs (ext_trans ((by apply ext_modifyCurrent_same; intro _; rfl))
      (ext_endScopeLoop _ _))
  addLocal_keeps name s hs := by
    unfold addLocal
    split
    · exact ext_trans hs (ext_errorAt _ _ _)
    · exact ext_trans hs ((by apply ext_modifyCurrent_same; intro _; rfl))
  addUpvalue_keeps ci index isLocal s hs := by
    unfold addUpvalue
    split
    · exact hs
    · split
      · exact hs
      · simp only
        split
        · exact ext_trans hs (ext_errorAt _ _ _)
        · exact ext_trans hs ((by apply ext_modifyFrame; intro _; rfl))
  setCaptured_keeps ci index s hs := by
    unfold setCaptured
    split
    · exact hs
    · rename_i c hc
      split
      · split
        · exact hs
        · exact ext_trans hs (forall₂_set _ _ _ _ hc (codePrefix_refl c))
      · exact hs
  markInitialized_keeps s hs := by
    unfold markInitialized
    split
    · exact hs
    · split
      · exact hs
      · rename_i c rest hfr
        split
        · exact hs
        · refine ext_trans hs ?_
          unfold Ext
          rw [hfr]
          exact List.Forall₂.cons (codePrefix_refl c)
            (List.forall₂_same.2 fun c _ => codePrefix_refl c)
  arity_keeps s hs := ext_trans hs ((by apply ext_modifyCurrent_same; intro _; rfl))

theorem currentCount_eq (s : State) : currentCount s = ((currentCode s).length : Int) := by
  unfold currentCount currentCode
  split <;> rfl

theorem ext_code {s t : State} (h : Ext s t) (hs : s.frames ≠ []) :
    t.frames ≠ [] ∧ ∃ more, currentCode t = currentCode s ++ more := by
  unfold Ext at h
  unfold currentCode
  cases hfs : s.frames with
  | nil => exact absurd hfs hs
  | cons c rest =>
    rw [hfs] at h
    cases hft : t.frames with
    | nil => rw [hft] at h; cases h
    | cons d rest2 =>
      rw [hft] at h
      cases h with
      | cons hcd htl =>
        refine ⟨List.cons_ne_nil _ _, ?_⟩
        obtain ⟨more, hmore⟩ := hcd
        exact ⟨more, hmore.symm⟩

theorem ext_frames_nil {s t : State} (h : Ext s t) (hs : s.frames = []) : t.frames = [] := by
  unfold Ext at h
  rw [hs] at h
  cases hft : t.frames with
  | nil => rfl
  | cons d rest => rw [hft] at h; cases h

theorem ext_count {s t : State} (h : Ext s t) : currentCount s ≤ currentCount t := by
  by_cases hs : s.frames = []
  · simp [currentCount, hs, ext_frames_nil h hs]
  · obtain ⟨_, more, hmore⟩ := ext_code h hs
    rw [currentCount_eq, currentCount_eq, hmore]
    simp

theorem prefix_set {l1 l2 : List Nat} (h : l1 <+: l2) (k v : Nat) (hk : l1.length ≤ k) :
    l1 <+: l2.set k v := by
  obtain ⟨more, rfl⟩ := h
  rw [List.set_append_right _ _ hk]
  exact List.prefix_append _ _

/-- A patch at an offset that lies behind the code of `s0` keeps the code of `s0`. -/
theorem ext_patchJump {s0 t : State} {offset : Int} (h : Ext s0 t)
    (ho : currentCount s0 ≤ offset ∨ s0.frames = []) : Ext s0 (patchJump offset t) := by
  unfold patchJump
  simp only
  have h1 : Ext s0 (if currentCount t - offset - 2 > UINT16_MAX then
      error "Too much code to jump over." t else t) := inv_ite _ (inv_error _ h) h
  generalize (if currentCount t - offset - 2 > UINT16_MAX then
      error "Too much code to jump over." t else t) = t1 at h1
  generalize currentCount t - offset - 2 = jump
  unfold modifyChunk modifyCurrent
  unfold Ext at *
  cases hf1 : t1.frames with
  | nil =>
    rw [hf1] at h1
    simp only
    exact h1
  | cons d rest =>
    rw [hf1] at h1
    simp only
    cases hf0 : s0.frames with
    | nil => rw [hf0] at h1; cases h1
    | cons c rest0 =>
      rw [hf0] at h1
      cases h1 with
      | cons hcd htl =>
        refine List.Forall₂.cons ?_ htl
        have hlen : (c.function.chunk.code.length : Int) ≤ offset := by
          rcases ho with ho | ho
          · simpa [currentCount, hf0] using ho
          · rw [hf0] at ho; cases ho
        unfold CodePrefix at *
        simp only
        apply prefix_set (prefix_set hcd _ _ (by omega)) _ _ (by omega)

theorem emitJump_offset (instruction : Nat) (w : State) (hw : w.frames ≠ []) :
    (emitJump instruction w).1 = currentCount w + 1 := by
  unfold emitJump
  simp only
  have h1 := emitByte_code instruction hw
  have h2 := emitByte_code 255 h1.2.2
  have h3 := emitByte_code 255 h2.2.2
  rw [currentCount_eq, currentCount_eq, h3.1, h2.1, h1.1]
  simp
  omega

/-- The patch of a jump that was emitted after `s0` keeps the code of `s0`. -/
theorem ext_patchJump_emitJump {s0 w t : State} (instruction : Nat) (hw : Ext s0 w)
    (ht : Ext s0 t) : Ext s0 (patchJump (emitJump instruction w).1 t) := by
  apply ext_patchJump ht
  by_cases hs : s0.frames = []
  · exact Or.inr hs
  · left
    rw [emitJump_offset _ _ (ext_code hw hs).1]
    have := ext_count hw
    omega

/-- Leaving a function: what extends the state with the new frame extends, without that
frame, the state before. -/
theorem ext_pop {s t : State} (x : Extern) (type : FunctionType)
    (h : Ext (initCompiler x type s) t) : Ext s (endCompiler t).2 := by
  have h2 : Ext (initCompiler x type s) (emitReturn t) := inv_emitReturn h
  unfold endCompiler
  simp only
  unfold Ext at *
  generalize (emitReturn t).frames = fr at h2
  simp only [initCompiler] at h2
  cases h2 with
  | cons _ htl => exact htl

theorem post_bind_strong {α β : Type} {I : State → Prop} {Q : α × State → Prop}
    {a : Option (α × State)} {f : α × State → Option (β × State)}
    (ha : ∀ r, a = some r → Q r) (hf : ∀ r, Q r → Post I (f r)) : Post I (a.bind f) := by
  constructor
  intro r h
  obtain ⟨v, hv, hr⟩ := Option.bind_eq_some.1 h
  exact (hf v (ha v hv)).out r hr

/-- The patch of the exit jump of a loop, when there is one. -/
theorem ext_patch_exit {s0 t : State} {exitJump : Int} (instruction : Nat)
    (hq : exitJump = -1 ∨ ∃ w, Ext s0 w ∧ exitJump = (emitJump instruction w).1)
    (ht : Ext s0 t) :
    Ext s0 (if exitJump ≠ -1 then emitByte OP_POP (patchJump exitJump t) else t) := by
  split
  · rename_i hne
    rcases hq with hq | ⟨w, hw, rfl⟩
    · exact absurd hq hne
    · exact inv_step (ext_patchJump_emitJump instruction hw ht)
  · exact ht

set_option maxHeartbeats 4000000 in
/-- Every procedure of the compiler only appends to the code of the frames: what it
patches, it has emitted itself. -/
theorem exec_ext (x : Extern) : ∀ (n : Nat) (p : Proc) (s0 s : State), Ext s0 s →
    Post (Ext s0) (exec x n p s) := by
  intro n
  induction n with
  | zero =>
    intro p s0 s _
    constructor
    intro r h
    simp [exec] at h
  | succ n ih =>
    intro p s0 s hs
    cases p
    case function type =>
      constructor
      intro r h
      obtain ⟨⟨j, t⟩, hb⟩ := exec_function_block x n type s h
      have hentry : Ext (initCompiler x type s) (functionEntry x type s) := by
        unfold functionEntry
        with_reducible (repeat' (first | exact ext_refl _ | apply inv_ite | apply inv_step))
      have ht : Ext (initCompiler x type s) t := (ih _ _ _ hentry).out _ hb
      have hpop : Ext s0 (endCompiler t).2 := ext_trans hs (ext_pop x type ht)
      simp only [exec] at h
      change (exec x n Proc.block (functionEntry x type s)).bind _ = _ at h
      rw [hb] at h
      simp only [Option.some_bind] at h
      split at h
      · cases h
        exact hpop
      · cases h
        exact inv_emitUpvalues _ _ (inv_emitBytes _ _ (inv_step2 hpop))
    case forStatement =>
      simp only [exec]
      apply post_bind
      · with_reducible (repeat' (first | assumption | apply ih | apply post_bind | apply post_ite | apply post_some | intro _ | apply inv_ite | dsimp only | apply ext_patchJump_emitJump | apply inv_step | apply inv_step2))
      intro r1 hr1
      apply post_bind_strong (Q := fun r => Ext s0 r.2 ∧
        (r.1 = -1 ∨ ∃ w, Ext s0 w ∧ r.1 = (emitJump OP_JUMP_IF_FALSE w).1))
      · intro r hr
        split at hr
        · obtain ⟨v, hv, hr⟩ := Option.bind_eq_some.1 hr
          have hv2 : Ext s0 v.2 := (ih _ _ _ (inv_step2 hr1)).out _ hv
          cases hr
          exact ⟨inv_step (inv_step2 (inv_step hv2)), Or.inr ⟨_, inv_step hv2, rfl⟩⟩
        · cases hr
          exact ⟨inv_step2 (f := matchToken TOKEN_SEMICOLON) hr1, Or.inl rfl⟩
      · intro r2 hr2
        obtain ⟨h2, hq⟩ := hr2
        with_reducible (repeat' (first | assumption | apply ih | apply post_bind | apply post_ite | apply post_some | intro _ | apply ext_patch_exit OP_JUMP_IF_FALSE hq | apply inv_ite | dsimp only | apply ext_patchJump_emitJump | apply inv_step | apply inv_step2))
    all_goals (simp only [exec]; with_reducible (repeat' (first | assumption | apply ih | apply post_bind | apply post_ite | apply post_some | intro _ | apply inv_ite | dsimp only | apply ext_patchJump_emitJump | apply inv_step | apply inv_step2 | split)))

theorem exec_appends (x : Extern) {n : Nat} {p : Proc} {s u : State} {i : Int}
    (h : exec x n p s = some (i, u)) (hs : s.frames ≠ []) :
    u.frames ≠ [] ∧ ∃ more, currentCode u = currentCode s ++ more :=
  ext_code ((exec_ext x n p s s (ext_refl s)).out _ h) hs



/-! ## Jumps: `emitJump`, `patchJump`, `emitLoop` -/

theorem asUInt8_split (d : Nat) (h : d ≤ 65535) :
    asUInt8 ((d : Int) / 256) * 256 + asUInt8 (d : Int) = d ∧ asUInt8 (d : Int) < 256 ∧
    asUInt8 ((d : Int) / 256) < 256 := by
  unfold asUInt8
  omega

theorem readShort_append (pre post : List Nat) (hi lo : Nat) (hlo : lo < 256) :
    readShort (pre ++ [hi, lo] ++ post) pre.length = some (hi * 256 + lo) := by
  unfold readShort
  have h1 : (pre ++ [hi, lo] ++ post)[pre.length]? = some hi := by
    rw [List.append_assoc, List.getElem?_append_right (le_refl _)]
    simp
  have h2 : (pre ++ [hi, lo] ++ post)[pre.length + 1]? = some lo := by
    rw [List.append_assoc, List.getElem?_append_right (by omega)]
    simp
  rw [h1, h2]
  simp only [Option.some_bind, Option.map_some', Option.some.injEq]
  rw [Nat.shiftLeft_eq]
  have := Nat.mul_add_lt_is_or (i := 8) (by simpa using hlo) hi
  rw [← Nat.mul_comm] at this
  rw [← this]

/-- With a current frame, `emitJump` appends the instruction and two bytes 0xff and
returns the position of the first of them. -/
theorem emitJump_code (instruction : Nat) {s : State} (h : s.frames ≠ []) :
    currentCode (emitJump instruction s).2 = currentCode s ++ [instruction, 255, 255] ∧
    (emitJump instruction s).1 = ((currentCode s).length : Int) + 1 ∧
    (emitJump instruction s).2.frames ≠ [] ∧
    (emitJump instruction s).2.parser = s.parser ∧
    (emitJump instruction s).2.stderr = s.stderr := by
  have h1 := emitByte_code instruction h
  have h2 := emitByte_code 255 h1.2.2
  have h3 := emitByte_code 255 h2.2.2
  refine ⟨?_, ?_, h3.2.2, ?_, ?_⟩
  · unfold emitJump
    simp only
    rw [h3.1, h2.1, h1.1]
    simp
  · rw [emitJump_offset _ _ h, currentCount_eq]
  · unfold emitJump
    simp only [emitByte_parserEq]
  · unfold emitJump
    simp only [emitByte_stderr]

/-- With a current frame whose code has two bytes at `offset`, `patchJump` replaces them by
the high and the low byte of the number of bytes behind them. -/
theorem patchJump_code {t : State} {pre post : List Nat} {a b : Nat}
    (hcode : currentCode t = pre ++ [a, b] ++ post) :
    currentCode (patchJump (pre.length : Int) t) =
      pre ++ [asUInt8 ((post.length : Int) / 256), asUInt8 (post.length : Int)] ++ post ∧
    (patchJump (pre.length : Int) t).frames ≠ [] ∧
    currentCount t - (pre.length : Int) - 2 = (post.length : Int) ∧
    (patchJump (pre.length : Int) t).parser =
      (if (post.length : Int) > UINT16_MAX then error "Too much code to jump over." t
        else t).parser ∧
    (patchJump (pre.length : Int) t).stderr =
      (if (post.length : Int) > UINT16_MAX then error "Too much code to jump over." t
        else t).stderr := by
  have hjump : currentCount t - (pre.length : Int) - 2 = (post.length : Int) := by
    rw [currentCount_eq, hcode]
    simp
    omega
  cases hfr : t.frames with
  | nil => simp [currentCode, hfr] at hcode
  | cons c rest =>
    have hc : c.function.chunk.code = pre ++ [a, b] ++ post := by
      simpa [currentCode, hfr] using hcode
    unfold patchJump
    simp only [hjump]
    generalize hg : (if (post.length : Int) > UINT16_MAX then
      error "Too much code to jump over." t else t) = t1
    have hfr1 : t1.frames = c :: rest := by
      rw [← hg]
      split
      · rw [error, errorAt_frames, hfr]
      · exact hfr
    have hfr2 := modifyCurrent_frames (fun c => { c with function := { c.function with
      chunk := (fun chunk : Chunk => { chunk with
        code := (chunk.code.set (pre.length : Int).toNat
          (asUInt8 ((post.length : Int) / 256))).set ((pre.length : Int).toNat + 1)
          (asUInt8 (post.length : Int)) }) c.function.chunk } }) hfr1
    refine ⟨?_, ?_, trivial, ?_, ?_⟩
    · unfold modifyChunk currentCode
      rw [hfr2]
      simp only [Int.toNat_ofNat, hc]
      rw [List.append_assoc, List.set_append_right _ _ (le_refl _)]
      simp only [Nat.sub_self, List.cons_append, List.set_cons_zero, List.nil_append]
      rw [List.set_append_right _ _ (by omega)]
      simp
    · unfold modifyChunk
      rw [hfr2]
      exact List.cons_ne_nil _ _
    · unfold modifyChunk
      rw [modifyCurrent_parserEq]
    · unfold modifyChunk modifyCurrent
      rw [hfr1]

/-- C26: jump patching round-trips. Let `emitJump` be called with a current frame and
return `offset`, and let the code `more` be appended afterwards. Then `offset` is the
position of the first operand byte, `d = count - offset - 2` is the length of `more`, and
`patchJump(offset)` replaces exactly the two operand bytes, by the high and the low byte of
`d`. When `d <= 65535` the two bytes read big-endian, `(hi << 8) | lo`, give `d`, so that a
jump by the operand from the byte after it, `offset + 2`, lands at the `count` of the time
of the patch, and nothing is reported; when `d > 65535`, `patchJump` calls
`error("Too much code to jump over.")`, which outside panic mode prints the message. -/
theorem patchJump_round_trip (instruction : Nat) (s t : State) (more : List Nat)
    (hs : s.frames ≠ [])
    (hcode : currentCode t = currentCode (emitJump instruction s).2 ++ more) :
    (emitJump instruction s).1 = ((currentCode s).length : Int) + 1 ∧
    currentCode (emitJump instruction s).2 = currentCode s ++ [instruction, 255, 255] ∧
    currentCount t - (emitJump instruction s).1 - 2 = (more.length : Int) ∧
    currentCode (patchJump (emitJump instruction s).1 t) =
      currentCode s ++ [instruction, asUInt8 ((more.length : Int) / 256),
        asUInt8 (more.length : Int)] ++ more ∧
    (more.length ≤ 65535 →
      readShort (currentCode (patchJump (emitJump instruction s).1 t))
        ((currentCode s).length + 1) = some more.length ∧
      ((currentCode s).length + 1) + 2 + more.length = (currentCode t).length ∧
      (patchJump (emitJump instruction s).1 t).stderr = t.stderr ∧
      (patchJump (emitJump instruction s).1 t).parser = t.parser) ∧
    (65535 < more.length →
      (patchJump (emitJump instruction s).1 t).stderr =
        (error "Too much code to jump over." t).stderr ∧
      (patchJump (emitJump instruction s).1 t).parser =
        (error "Too much code to jump over." t).parser ∧
      (t.parser.panicMode = false →
        (patchJump (emitJump instruction s).1 t).stderr.map (fun e => e.message) =
          t.stderr.map (fun e => e.message) ++ ["Too much code to jump over."])) := by
  obtain ⟨e1, e2, _, _, _⟩ := emitJump_code instruction hs
  have hcode2 : currentCode t = (currentCode s ++ [instruction]) ++ [255, 255] ++ more := by
    rw [hcode, e1]
    simp
  have hlen : ((currentCode s ++ [instruction]).length : Int) = (emitJump instruction s).1 := by
    rw [e2]
    simp
  obtain ⟨p1, p2, p3, p4, p5⟩ := patchJump_code hcode2
  rw [hlen] at p1 p3 p4 p5
  refine ⟨e2, e1, p3, ?_, ?_, ?_⟩
  · rw [p1]
    simp
  · intro hle
    obtain ⟨a1, a2, a3⟩ := asUInt8_split more.length hle
    have hno : ¬ ((more.length : Int) > UINT16_MAX) := by
      simp only [UINT16_MAX]
      omega
    rw [if_neg hno] at p4 p5
    refine ⟨?_, ?_, p5, p4⟩
    · rw [p1]
      have := readShort_append (currentCode s ++ [instruction]) more
        (asUInt8 ((more.length : Int) / 256)) (asUInt8 (more.length : Int)) a2
      rw [a1] at this
      simpa using this
    · rw [hcode2]
      simp
      omega
  · intro hgt
    have hyes : (more.length : Int) > UINT16_MAX := by
      simp only [UINT16_MAX]
      omega
    rw [if_pos hyes] at p4 p5
    refine ⟨p5, p4, ?_⟩
    intro hpm
    rw [p5]
    exact (errorAt_stderr _ _ hpm).1

set_option maxRecDepth 100000 in
theorem patchJump_round_trip_witness :
    closureDemo.frames ≠ [] ∧
    currentCode (patchJump (emitJump OP_JUMP closureDemo).1
      (emitByte OP_NIL (emitByte OP_POP (emitJump OP_JUMP closureDemo).2))) =
      [OP_JUMP, 0, 2, OP_POP, OP_NIL] ∧
    readShort (currentCode (patchJump (emitJump OP_JUMP closureDemo).1
      (emitByte OP_NIL (emitByte OP_POP (emitJump OP_JUMP closureDemo).2))))
      ((currentCode closureDemo).length + 1) = some [OP_POP, OP_NIL].length :=
  ⟨by decide, by decide,
    ((patchJump_round_trip OP_JUMP closureDemo
      (emitByte OP_NIL (emitByte OP_POP (emitJump OP_JUMP closureDemo).2))
      [OP_POP, OP_NIL] (by decide) (by decide)).2.2.2.2.1 (by decide)).1⟩



/-! ## Following the code of the current chunk through the statements -/

theorem hasCode_of_frames {s t : State} {l : List Nat} (h : t.frames = s.frames)
    (hs : HasCode s l) : HasCode t l :=
  ⟨by rw [h]; exact hs.ne, by rw [currentCode_congr h]; exact hs.eq⟩

theorem consume_frames (type : TokenType) (message : String) (s : State) :
    (consume type message s).frames = s.frames := by
  unfold consume
  split
  · exact advance_frames s
  · exact errorAt_frames _ _ _

theorem hasCode_consume {s : State} {l : List Nat} (type : TokenType) (message : String)
    (hs : HasCode s l) : HasCode (consume type message s) l :=
  hasCode_of_frames (consume_frames _ _ _) hs

theorem hasCode_matchToken {s : State} {l : List Nat} (type : TokenType)
    (hs : HasCode s l) : HasCode (matchToken type s).2 l :=
  hasCode_of_frames (matchToken_frames _ _) hs

theorem hasCode_error {s : State} {l : List Nat} (message : String)
    (hs : HasCode s l) : HasCode (error message s) l :=
  hasCode_of_frames (errorAt_frames _ _ _) hs

theorem hasCode_emitByte {s : State} {l : List Nat} (byte : Nat) (hs : HasCode s l) :
    HasCode (emitByte byte s) (l ++ [byte]) :=
  ⟨(emitByte_code byte hs.ne).2.2, by rw [(emitByte_code byte hs.ne).1, hs.eq]⟩

theorem hasCode_emitJump {s : State} {l : List Nat} (instruction : Nat) (hs : HasCode s l) :
    HasCode (emitJump instruction s).2 (l ++ [instruction, 255, 255]) ∧
    (emitJump instruction s).1 = (l.length : Int) + 1 := by
  obtain ⟨e1, e2, e3, _, _⟩ := emitJump_code instruction hs.ne
  rw [hs.eq] at e1 e2
  exact ⟨⟨e3, e1⟩, e2⟩

theorem hasCode_patchJump {t : State} {pre post : List Nat} {a b : Nat}
    (ht : HasCode t (pre ++ [a, b] ++ post)) :
    HasCode (patchJump (pre.length : Int) t)
      (pre ++ [asUInt8 ((post.length : Int) / 256), asUInt8 (post.length : Int)] ++ post) :=
  ⟨(patchJump_code ht.eq).2.1, (patchJump_code ht.eq).1⟩

theorem hasCode_emitLoop {s : State} {l : List Nat} (loopStart : Int) (hs : HasCode s l) :
    HasCode (emitLoop loopStart s)
      (l ++ [OP_LOOP, asUInt8 (((l.length : Int) + 3 - loopStart) / 256),
        asUInt8 ((l.length : Int) + 3 - loopStart)]) := by
  unfold emitLoop
  simp only
  have h1 := hasCode_emitByte OP_LOOP hs
  have hcount : currentCount (emitByte OP_LOOP s) - loopStart + 2 =
      (l.length : Int) + 3 - loopStart := by
    rw [currentCount_eq, h1.eq]
    simp
    omega
  rw [hcount]
  have h2 : HasCode (if (l.length : Int) + 3 - loopStart > UINT16_MAX then
      error "Loop body too large." (emitByte OP_LOOP s) else emitByte OP_LOOP s)
      (l ++ [OP_LOOP]) := by
    split
    · exact hasCode_error _ h1
    · exact h1
  have h3 := hasCode_emitByte (asUInt8 (((l.length : Int) + 3 - loopStart) / 256)) h2
  have h4 := hasCode_emitByte (asUInt8 ((l.length : Int) + 3 - loopStart)) h3
  refine ⟨h4.ne, ?_⟩
  rw [h4.eq]
  simp

theorem hasCode_exec (x : Extern) {n : Nat} {p : Proc} {s u : State} {i : Int} {l : List Nat}
    (h : exec x n p s = some (i, u)) (hs : HasCode s l) : ∃ more, HasCode u (l ++ more) := by
  obtain ⟨h1, more, h2⟩ := exec_appends x h hs.ne
  exact ⟨more, h1, by rw [h2, hs.eq]⟩

theorem emitLoop_stderr (loopStart : Int) {s : State} {l : List Nat} (hs : HasCode s l) :
    (emitLoop loopStart s).stderr =
      (if (l.length : Int) + 3 - loopStart > UINT16_MAX then
        error "Loop body too large." (emitByte OP_LOOP s) else emitByte OP_LOOP s).stderr := by
  unfold emitLoop
  simp only
  have h1 := hasCode_emitByte OP_LOOP hs
  have hcount : currentCount (emitByte OP_LOOP s) - loopStart + 2 =
      (l.length : Int) + 3 - loopStart := by
    rw [currentCount_eq, h1.eq]
    simp
    omega
  rw [hcount, emitByte_stderr, emitByte_stderr]

/-- The code of a `while` statement: the code of the condition, the exit jump over the
body and the loop instruction, the pop of the condition, the code of the body, the loop
instruction back over all of it, and the pop of the condition at the exit. -/
theorem whileStatement_code (x : Extern) {n : Nat} {s u : State} {i : Int} {l : List Nat}
    (h : exec x (n + 1) Proc.whileStatement s = some (i, u)) (hs : HasCode s l) :
    ∃ (cond body : List Nat) (j1 j2 : Int) (t1 t2 : State),
      exec x n Proc.expression (consume TOKEN_LEFT_PAREN "Expect '(' after 'while'." s) =
        some (j1, t1) ∧ HasCode t1 (l ++ cond) ∧
      exec x n Proc.statement (emitByte OP_POP (emitJump OP_JUMP_IF_FALSE
        (consume TOKEN_RIGHT_PAREN "Expect ')' after 'while'." t1)).2) = some (j2, t2) ∧
      HasCode t2 (l ++ cond ++ [OP_JUMP_IF_FALSE, 255, 255, OP_POP] ++ body) ∧
      HasCode u (l ++ cond ++
        [OP_JUMP_IF_FALSE, asUInt8 (((body.length + 4 : Nat) : Int) / 256),
          asUInt8 ((body.length + 4 : Nat) : Int), OP_POP] ++ body ++
        [OP_LOOP, asUInt8 (((cond.length + body.length + 7 : Nat) : Int) / 256),
          asUInt8 ((cond.length + body.length + 7 : Nat) : Int), OP_POP]) := by
  simp only [exec] at h
  obtain ⟨⟨j1, t1⟩, h1, h⟩ := Option.bind_eq_some.1 h
  obtain ⟨⟨j2, t2⟩, h2, h⟩ := Option.bind_eq_some.1 h
  simp only [Option.some.injEq, Prod.mk.injEq] at h
  obtain ⟨_, hu⟩ := h
  obtain ⟨cond, c1⟩ := hasCode_exec x h1 (hasCode_consume _ _ hs)
  have c2 := hasCode_consume TOKEN_RIGHT_PAREN "Expect ')' after 'while'." c1
  obtain ⟨c3, o3⟩ := hasCode_emitJump OP_JUMP_IF_FALSE c2
  have c4 := hasCode_emitByte OP_POP c3
  simp only at h2
  obtain ⟨body, c5⟩ := hasCode_exec x h2 c4
  have hcount : currentCount s = (l.length : Int) := by rw [currentCount_eq, hs.eq]
  have c6 := hasCode_emitLoop (currentCount s) c5
  have c5' : HasCode t2 (l ++ cond ++ [OP_JUMP_IF_FALSE, 255, 255, OP_POP] ++ body) := by
    refine ⟨c5.ne, ?_⟩
    rw [c5.eq]
    simp
  have hpre : ∀ (a b c : Nat),
      l ++ cond ++ [OP_JUMP_IF_FALSE, 255, 255] ++ [OP_POP] ++ body ++ [a, b, c] =
      (l ++ cond ++ [OP_JUMP_IF_FALSE]) ++ [255, 255] ++ ([OP_POP] ++ body ++ [a, b, c]) := by
    intro a b c
    simp
  rw [hpre] at c6
  have c7 := hasCode_patchJump c6
  have hoff : (emitJump OP_JUMP_IF_FALSE
      (consume TOKEN_RIGHT_PAREN "Expect ')' after 'while'." t1)).1 =
      ((l ++ cond ++ [OP_JUMP_IF_FALSE]).length : Int) := by
    rw [o3]
    simp
    omega
  rw [← hoff] at c7
  have c8 := hasCode_emitByte OP_POP c7
  rw [hu] at c8
  refine ⟨cond, body, j1, j2, t1, t2, h1, c1, h2, c5', c8.ne, ?_⟩
  rw [c8.eq, hcount]
  have e1 : ((l ++ cond ++ [OP_JUMP_IF_FALSE, 255, 255] ++ [OP_POP] ++ body).length : Int) + 3
      - (l.length : Int) = ((cond.length + body.length + 7 : Nat) : Int) := by
    simp
    omega
  have e2 : (([OP_POP] ++ body ++
      [OP_LOOP, asUInt8 (((cond.length + body.length + 7 : Nat) : Int) / 256),
        asUInt8 ((cond.length + body.length + 7 : Nat) : Int)]).length : Int) =
      ((body.length + 4 : Nat) : Int) := by
    simp
    omega
  rw [e1, e2]
  simp

theorem readShort_at (pre post : List Nat) (d k : Nat) (hd : d ≤ 65535) (hk : k = pre.length) :
    readShort (pre ++ [asUInt8 ((d : Int) / 256), asUInt8 (d : Int)] ++ post) k = some d := by
  obtain ⟨a1, a2, _⟩ := asUInt8_split d hd
  rw [hk, readShort_append _ _ _ _ a2, a1]

/-- C27: loop back-jumps land on `loopStart`. With a current frame and
`loopStart <= count`, `emitLoop(loopStart)` appends `OP_LOOP` and the high and the low byte
of `count + 3 - loopStart`, the distance from the position just after the operand back to
`loopStart`. When the distance is at most 65535, the operand read big-endian is the
distance, so that the position after the operand minus the operand is `loopStart`, and
nothing is reported; otherwise `emitLoop` calls `error("Loop body too large.")`, which
outside panic mode prints the message. Whenever `whileStatement` returns, the code it has
appended is: the code of the condition, `OP_JUMP_IF_FALSE` with its operand, `OP_POP`, the
code of the body, `OP_LOOP` with its operand, `OP_POP`; and when the distance fits, the
operand of that `OP_LOOP` leads from the position after it back to the position at which
the code of the condition starts. -/
theorem emitLoop_lands_on_loopStart (x : Extern) (s : State) (loopStart : Nat)
    (hs : s.frames ≠ []) (hle : loopStart ≤ (currentCode s).length) :
    currentCode (emitLoop loopStart s) = currentCode s ++
      [OP_LOOP, asUInt8 ((((currentCode s).length + 3 - loopStart : Nat) : Int) / 256),
        asUInt8 (((currentCode s).length + 3 - loopStart : Nat) : Int)] ∧
    ((currentCode s).length + 3 - loopStart ≤ 65535 →
      readShort (currentCode (emitLoop loopStart s)) ((currentCode s).length + 1) =
        some ((currentCode s).length + 3 - loopStart) ∧
      ((currentCode s).length + 3) - ((currentCode s).length + 3 - loopStart) = loopStart ∧
      (emitLoop loopStart s).stderr = s.stderr) ∧
    (65535 < (currentCode s).length + 3 - loopStart →
      (emitLoop loopStart s).stderr =
        (error "Loop body too large." (emitByte OP_LOOP s)).stderr ∧
      (s.parser.panicMode = false →
        (emitLoop loopStart s).stderr.map (fun e => e.message) =
          s.stderr.map (fun e => e.message) ++ ["Loop body too large."])) ∧
    (∀ n i u, exec x n Proc.whileStatement s = some (i, u) →
      ∃ cond body : List Nat,
        currentCode u = currentCode s ++ cond ++
          [OP_JUMP_IF_FALSE, asUInt8 (((body.length + 4 : Nat) : Int) / 256),
            asUInt8 ((body.length + 4 : Nat) : Int), OP_POP] ++ body ++
          [OP_LOOP, asUInt8 (((cond.length + body.length + 7 : Nat) : Int) / 256),
            asUInt8 ((cond.length + body.length + 7 : Nat) : Int), OP_POP] ∧
        (cond.length + body.length + 7 ≤ 65535 →
          readShort (currentCode u)
            ((currentCode s).length + cond.length + 4 + body.length + 1) =
            some (cond.length + body.length + 7) ∧
          ((currentCode s).length + cond.length + 4 + body.length + 3) -
            (cond.length + body.length + 7) = (currentCode s).length)) := by
  have hc : HasCode s (currentCode s) := ⟨hs, rfl⟩
  have hw : ((currentCode s).length : Int) + 3 - ((loopStart : Nat) : Int) =
      (((currentCode s).length + 3 - loopStart : Nat) : Int) := by omega
  have h1 := hasCode_emitLoop (loopStart : Int) hc
  have h2 := emitLoop_stderr (loopStart : Int) hc
  rw [hw] at h1 h2
  refine ⟨h1.eq, ?_, ?_, ?_⟩
  · intro hfit
    have hno : ¬ ((((currentCode s).length + 3 - loopStart : Nat) : Int) > UINT16_MAX) := by
      simp only [UINT16_MAX]
      omega
    rw [if_neg hno, emitByte_stderr] at h2
    refine ⟨?_, by omega, h2⟩
    rw [h1.eq]
    have := readShort_at (currentCode s ++ [OP_LOOP]) [] _ ((currentCode s).length + 1) hfit
      (by simp)
    simpa using this
  · intro hbig
    have hyes : (((currentCode s).length + 3 - loopStart : Nat) : Int) > UINT16_MAX := by
      simp only [UINT16_MAX]
      omega
    rw [if_pos hyes] at h2
    refine ⟨h2, ?_⟩
    intro hpm
    rw [h2]
    have hpm2 : (emitByte OP_LOOP s).parser.panicMode = false := by
      rw [emitByte_parserEq]
      exact hpm
    have := (errorAt_stderr (emitByte OP_LOOP s).parser.previous "Loop body too large."
      hpm2).1
    rw [emitByte_stderr] at this
    exact this
  · intro n i u h
    cases n with
    | zero => simp [exec] at h
    | succ n =>
      obtain ⟨cond, body, _, _, _, _, _, _, _, _, c⟩ := whileStatement_code x h hc
      refine ⟨cond, body, c.eq, ?_⟩
      intro hfit
      refine ⟨?_, by omega⟩
      rw [c.eq]
      have := readShort_at (currentCode s ++ cond ++
          [OP_JUMP_IF_FALSE, asUInt8 (((body.length + 4 : Nat) : Int) / 256),
            asUInt8 ((body.length + 4 : Nat) : Int), OP_POP] ++ body ++ [OP_LOOP]) [OP_POP]
        (cond.length + body.length + 7)
        ((currentCode s).length + cond.length + 4 + body.length + 1) hfit (by simp; omega)
      simpa using this

set_option maxRecDepth 100000 in
theorem emitLoop_lands_on_loopStart_witness :
    whileDemo.frames ≠ [] ∧ 0 ≤ (currentCode whileDemo).length ∧
    exec digitExtern 12 Proc.whileStatement whileDemo = some (0, whileDemoEnd) ∧
    currentCode whileDemoEnd =
      [OP_CONSTANT, 0, OP_JUMP_IF_FALSE, 0, 7, OP_POP, OP_CONSTANT, 1, OP_PRINT,
        OP_LOOP, 0, 12, OP_POP] ∧
    readShort (currentCode whileDemoEnd) 10 = some 12 ∧
    ∃ cond body : List Nat,
      currentCode whileDemoEnd = currentCode whileDemo ++ cond ++
        [OP_JUMP_IF_FALSE, asUInt8 (((body.length + 4 : Nat) : Int) / 256),
          asUInt8 ((body.length + 4 : Nat) : Int), OP_POP] ++ body ++
        [OP_LOOP, asUInt8 (((cond.length + body.length + 7 : Nat) : Int) / 256),
          asUInt8 ((cond.length + body.length + 7 : Nat) : Int), OP_POP] ∧
      (cond.length + body.length + 7 ≤ 65535 →
        readShort (currentCode whileDemoEnd)
          ((currentCode whileDemo).length + cond.length + 4 + body.length + 1) =
          some (cond.length + body.length + 7) ∧
        ((currentCode whileDemo).length + cond.length + 4 + body.length + 3) -
          (cond.length + body.length + 7) = (currentCode whileDemo).length) :=
  ⟨by decide, by decide, by decide, by decide, by decide,
    (emitLoop_lands_on_loopStart digitExtern whileDemo 0 (by decide) (by decide)).2.2.2
      12 0 whileDemoEnd (by decide)⟩



/-! ## The stack depth along a piece of code -/

theorem stackAfter_append (b : List Nat) : ∀ (a : List Nat) (e : Expect) (d d' : Nat),
    stackAfter a e d = some d' →
    stackAfter (a ++ b) e d = stackAfter b Expect.opcode d' := by
  intro a
  induction a with
  | nil =>
    intro e d d' h
    cases e <;> simp [stackAfter] at h
    subst h
    rfl
  | cons x rest ih =>
    intro e d d' h
    cases e with
    | operands k =>
      simp only [stackAfter, List.cons_append] at h ⊢
      exact ih _ _ _ h
    | argCount =>
      simp only [stackAfter, List.cons_append] at h ⊢
      split at h
      · rename_i hc
        rw [if_pos hc]
        exact ih _ _ _ h
      · cases h
    | opcode =>
      simp only [stackAfter, List.cons_append] at h ⊢
      repeat' split at h
      all_goals first | cases h | (simp only [*, if_true, if_false]; exact ih _ _ _ h)

theorem pushes_append {a b : List Nat} {k m : Nat} (ha : Pushes a k) (hb : Pushes b m) :
    Pushes (a ++ b) (k + m) := by
  intro d
  rw [stackAfter_append b a _ _ _ (ha d), hb (d + k), Nat.add_assoc]

theorem pushes_nil : Pushes [] 0 := fun _ => rfl

theorem emitJump_parserEq (instruction : Nat) (s : State) :
    (emitJump instruction s).2.parser = s.parser := by
  unfold emitJump
  simp only [emitByte_parserEq]

theorem patchJump_current (offset : Int) (s : State) :
    (patchJump offset s).parser.current = s.parser.current := by
  unfold patchJump modifyChunk
  simp only [modifyCurrent_parserEq]
  split
  · exact errorAt_current _ _ _
  · rfl

/-- The code of an `if` statement. -/
theorem ifStatement_code (x : Extern) {n : Nat} {s u : State} {i : Int} {l : List Nat}
    (h : exec x (n + 1) Proc.ifStatement s = some (i, u)) (hs : HasCode s l) :
    ∃ (cond thenCode elseCode : List Nat) (j1 j2 : Int) (t1 t2 : State),
      exec x n Proc.expression (consume TOKEN_LEFT_PAREN "Expect '(' after 'if'." s) =
        some (j1, t1) ∧ HasCode t1 (l ++ cond) ∧
      exec x n Proc.statement (emitByte OP_POP (emitJump OP_JUMP_IF_FALSE
        (consume TOKEN_RIGHT_PAREN "Expect ')' after condition." t1)).2) = some (j2, t2) ∧
      HasCode t2 (l ++ cond ++ [OP_JUMP_IF_FALSE, 255, 255, OP_POP] ++ thenCode) ∧
      (t2.parser.current.type ≠ TOKEN_ELSE → elseCode = []) ∧
      HasCode u (l ++ cond ++
        [OP_JUMP_IF_FALSE, asUInt8 (((thenCode.length + 4 : Nat) : Int) / 256),
          asUInt8 ((thenCode.length + 4 : Nat) : Int), OP_POP] ++ thenCode ++
        [OP_JUMP, asUInt8 (((elseCode.length + 1 : Nat) : Int) / 256),
          asUInt8 ((elseCode.length + 1 : Nat) : Int), OP_POP] ++ elseCode) := by
  simp only [exec] at h
  obtain ⟨⟨j1, t1⟩, h1, h⟩ := Option.bind_eq_some.1 h
  obtain ⟨⟨j2, t2⟩, h2, h⟩ := Option.bind_eq_some.1 h
  obtain ⟨⟨j3, t3⟩, h3, h⟩ := Option.bind_eq_some.1 h
  simp only [Option.some.injEq, Prod.mk.injEq] at h
  obtain ⟨_, hu⟩ := h
  simp only at h2 h3 hu
  obtain ⟨cond, c1⟩ := hasCode_exec x h1 (hasCode_consume _ _ hs)
  have c2 := hasCode_consume TOKEN_RIGHT_PAREN "Expect ')' after condition." c1
  obtain ⟨c3, o3⟩ := hasCode_emitJump OP_JUMP_IF_FALSE c2
  have c4 := hasCode_emitByte OP_POP c3
  obtain ⟨thenCode, c5⟩ := hasCode_exec x h2 c4
  obtain ⟨c6, o6⟩ := hasCode_emitJump OP_JUMP c5
  have c5' : HasCode t2 (l ++ cond ++ [OP_JUMP_IF_FALSE, 255, 255, OP_POP] ++ thenCode) := by
    refine ⟨c5.ne, ?_⟩
    rw [c5.eq]
    simp
  have hpre : l ++ cond ++ [OP_JUMP_IF_FALSE, 255, 255] ++ [OP_POP] ++ thenCode ++
      [OP_JUMP, 255, 255] =
      (l ++ cond ++ [OP_JUMP_IF_FALSE]) ++ [255, 255] ++
        ([OP_POP] ++ thenCode ++ [OP_JUMP, 255, 255]) := by
    simp
  rw [hpre] at c6
  have c7 := hasCode_patchJump c6
  have hoff : (emitJump OP_JUMP_IF_FALSE
      (consume TOKEN_RIGHT_PAREN "Expect ')' after condition." t1)).1 =
      ((l ++ cond ++ [OP_JUMP_IF_FALSE]).length : Int) := by
    rw [o3]
    simp
    omega
  rw [← hoff] at c7
  have c8 := hasCode_emitByte OP_POP c7
  have c9 := hasCode_matchToken TOKEN_ELSE c8
  have hthen : (([OP_POP] ++ thenCode ++ [OP_JUMP, 255, 255]).length : Int) =
      ((thenCode.length + 4 : Nat) : Int) := by
    simp
    omega
  rw [hthen] at c8 c9
  have key : ∃ elseCode, HasCode t3 (l ++ cond ++ [OP_JUMP_IF_FALSE] ++
      [asUInt8 (((thenCode.length + 4 : Nat) : Int) / 256),
        asUInt8 ((thenCode.length + 4 : Nat) : Int)] ++
      ([OP_POP] ++ thenCode ++ [OP_JUMP, 255, 255]) ++ [OP_POP] ++ elseCode) ∧
      (t2.parser.current.type ≠ TOKEN_ELSE → elseCode = []) := by
    split at h3
    · obtain ⟨elseCode, c10⟩ := hasCode_exec x h3 c9
      refine ⟨elseCode, c10, ?_⟩
      intro hne
      rename_i hm
      rw [matchToken_fst] at hm
      have hcur : (emitByte OP_POP (patchJump (emitJump OP_JUMP_IF_FALSE
          (consume TOKEN_RIGHT_PAREN "Expect ')' after condition." t1)).1
          (emitJump OP_JUMP t2).2)).parser.current = t2.parser.current := by
        rw [emitByte_parserEq, patchJump_current, emitJump_parserEq]
      rw [hcur] at hm
      exact absurd hm hne
    · cases h3
      exact ⟨[], by simpa using c9, fun _ => rfl⟩
  obtain ⟨elseCode, c10, helse⟩ := key
  have hpre2 : l ++ cond ++ [OP_JUMP_IF_FALSE] ++
      [asUInt8 (((thenCode.length + 4 : Nat) : Int) / 256),
        asUInt8 ((thenCode.length + 4 : Nat) : Int)] ++
      ([OP_POP] ++ thenCode ++ [OP_JUMP, 255, 255]) ++ [OP_POP] ++ elseCode =
      (l ++ cond ++ [OP_JUMP_IF_FALSE,
        asUInt8 (((thenCode.length + 4 : Nat) : Int) / 256),
        asUInt8 ((thenCode.length + 4 : Nat) : Int), OP_POP] ++ thenCode ++ [OP_JUMP]) ++
        [255, 255] ++ ([OP_POP] ++ elseCode) := by
    simp
  rw [hpre2] at c10
  have c11 := hasCode_patchJump c10
  have hoff2 : (emitJump OP_JUMP t2).1 = ((l ++ cond ++ [OP_JUMP_IF_FALSE,
        asUInt8 (((thenCode.length + 4 : Nat) : Int) / 256),
        asUInt8 ((thenCode.length + 4 : Nat) : Int), OP_POP] ++ thenCode ++
        [OP_JUMP]).length : Int) := by
    rw [o6]
    simp
    omega
  rw [← hoff2, hu] at c11
  refine ⟨cond, thenCode, elseCode, j1, j2, t1, t2, h1, c1, h2, c5', helse, c11.ne, ?_⟩
  rw [c11.eq]
  have helse2 : (([OP_POP] ++ elseCode).length : Int) = ((elseCode.length + 1 : Nat) : Int) := by
    simp
  rw [helse2]
  simp

theorem stackAfter_jif_pop (a b : Nat) (rest : List Nat) (d : Nat) :
    stackAfter ([OP_JUMP_IF_FALSE, a, b, OP_POP] ++ rest) Expect.opcode (d + 1) =
      stackAfter rest Expect.opcode d := by
  simp [stackAfter, OP_JUMP_IF_FALSE, OP_POP, OP_CONSTANT, OP_NIL, OP_TRUE, OP_FALSE, OP_NOT,
    OP_NEGATE, OP_EQUAL, OP_GREATER, OP_LESS, OP_ADD, OP_SUBTRACT, OP_MULTIPLY, OP_DIVIDE,
    OP_PRINT, OP_JUMP, OP_LOOP]

theorem stackAfter_jump (a b : Nat) (rest : List Nat) (d : Nat) :
    stackAfter ([OP_JUMP, a, b] ++ rest) Expect.opcode d = stackAfter rest Expect.opcode d := by
  simp [stackAfter, OP_JUMP_IF_FALSE, OP_POP, OP_CONSTANT, OP_NIL, OP_TRUE, OP_FALSE, OP_NOT,
    OP_NEGATE, OP_EQUAL, OP_GREATER, OP_LESS, OP_ADD, OP_SUBTRACT, OP_MULTIPLY, OP_DIVIDE,
    OP_PRINT, OP_JUMP, OP_LOOP]

theorem stackAfter_pop (rest : List Nat) (d : Nat) :
    stackAfter ([OP_POP] ++ rest) Expect.opcode (d + 1) = stackAfter rest Expect.opcode d := by
  simp [stackAfter, OP_JUMP_IF_FALSE, OP_POP, OP_CONSTANT, OP_NIL, OP_TRUE, OP_FALSE, OP_NOT,
    OP_NEGATE, OP_EQUAL, OP_GREATER, OP_LESS, OP_ADD, OP_SUBTRACT, OP_MULTIPLY, OP_DIVIDE,
    OP_PRINT, OP_JUMP, OP_LOOP]

theorem stackAfter_loop (a b : Nat) (rest : List Nat) (d : Nat) :
    stackAfter ([OP_LOOP, a, b] ++ rest) Expect.opcode d = stackAfter rest Expect.opcode d := by
  simp [stackAfter, OP_JUMP_IF_FALSE, OP_POP, OP_CONSTANT, OP_NIL, OP_TRUE, OP_FALSE, OP_NOT,
    OP_NEGATE, OP_EQUAL, OP_GREATER, OP_LESS, OP_ADD, OP_SUBTRACT, OP_MULTIPLY, OP_DIVIDE,
    OP_PRINT, OP_JUMP, OP_LOOP]

/-- C28: the condition of an `if` statement is popped exactly once on each arm. Whenever
`ifStatement` returns, entered with a current frame, the code it has appended is
`cond, OP_JUMP_IF_FALSE t, OP_POP, then, OP_JUMP e, OP_POP, else`, where `cond` is what
`expression` has appended, `then` what the first `statement` has, and `else` what the
second has (nothing without `else`). When the distances fit 16 bits, the operand of
`OP_JUMP_IF_FALSE` leads from the position after it to the second `OP_POP`, and the operand
of `OP_JUMP` from the position after it to the end of the code, the first byte after the
else branch. So the path that falls through the first jump runs
`cond, JUMP_IF_FALSE, POP, then, JUMP` and the path that takes it runs
`cond, JUMP_IF_FALSE, POP, else`: each holds one of the two pops, and with a condition that
pushes one value and branches of net effect 0 each leaves the stack depth as it was. -/
theorem ifStatement_pops_condition_once (x : Extern) (n : Nat) (s u : State) (i : Int)
    (hs : s.frames ≠ []) (h : exec x (n + 1) Proc.ifStatement s = some (i, u)) :
    ∃ (cond thenCode elseCode : List Nat) (j1 j2 : Int) (t1 t2 : State),
      exec x n Proc.expression (consume TOKEN_LEFT_PAREN "Expect '(' after 'if'." s) =
        some (j1, t1) ∧ currentCode t1 = currentCode s ++ cond ∧
      exec x n Proc.statement (emitByte OP_POP (emitJump OP_JUMP_IF_FALSE
        (consume TOKEN_RIGHT_PAREN "Expect ')' after condition." t1)).2) = some (j2, t2) ∧
      currentCode t2 =
        currentCode s ++ cond ++ [OP_JUMP_IF_FALSE, 255, 255, OP_POP] ++ thenCode ∧
      (t2.parser.current.type ≠ TOKEN_ELSE → elseCode = []) ∧
      currentCode u = currentCode s ++ cond ++
        [OP_JUMP_IF_FALSE, asUInt8 (((thenCode.length + 4 : Nat) : Int) / 256),
          asUInt8 ((thenCode.length + 4 : Nat) : Int), OP_POP] ++ thenCode ++
        [OP_JUMP, asUInt8 (((elseCode.length + 1 : Nat) : Int) / 256),
          asUInt8 ((elseCode.length + 1 : Nat) : Int), OP_POP] ++ elseCode ∧
      (thenCode.length + 4 ≤ 65535 →
        readShort (currentCode u) ((currentCode s).length + cond.length + 1) =
          some (thenCode.length + 4) ∧
        (currentCode u)[((currentCode s).length + cond.length + 3) + (thenCode.length + 4)]? =
          some OP_POP ∧
        (currentCode u).drop (((currentCode s).length + cond.length + 3) +
          (thenCode.length + 4)) = [OP_POP] ++ elseCode) ∧
      (elseCode.length + 1 ≤ 65535 →
        readShort (currentCode u)
          ((currentCode s).length + cond.length + 4 + thenCode.length + 1) =
          some (elseCode.length + 1) ∧
        ((currentCode s).length + cond.length + 4 + thenCode.length + 3) +
          (elseCode.length + 1) = (currentCode u).length) ∧
      (Pushes cond 1 → Pushes thenCode 0 → Pushes elseCode 0 →
        Pushes (cond ++ [OP_JUMP_IF_FALSE,
            asUInt8 (((thenCode.length + 4 : Nat) : Int) / 256),
            asUInt8 ((thenCode.length + 4 : Nat) : Int), OP_POP] ++ thenCode ++
          [OP_JUMP, asUInt8 (((elseCode.length + 1 : Nat) : Int) / 256),
            asUInt8 ((elseCode.length + 1 : Nat) : Int)]) 0 ∧
        Pushes (cond ++ [OP_JUMP_IF_FALSE,
            asUInt8 (((thenCode.length + 4 : Nat) : Int) / 256),
            asUInt8 ((thenCode.length + 4 : Nat) : Int)] ++ [OP_POP] ++ elseCode) 0) := by
  obtain ⟨cond, thenCode, elseCode, j1, j2, t1, t2, h1, c1, h2, c2, helse, c3⟩ :=
    ifStatement_code x h ⟨hs, rfl⟩
  refine ⟨cond, thenCode, elseCode, j1, j2, t1, t2, h1, c1.eq, h2, c2.eq, helse, c3.eq,
    ?_, ?_, ?_⟩
  · intro hfit
    rw [c3.eq]
    refine ⟨?_, ?_, ?_⟩
    · have := readShort_at (currentCode s ++ cond ++ [OP_JUMP_IF_FALSE])
        ([OP_POP] ++ thenCode ++ [OP_JUMP, asUInt8 (((elseCode.length + 1 : Nat) : Int) / 256),
          asUInt8 ((elseCode.length + 1 : Nat) : Int), OP_POP] ++ elseCode)
        (thenCode.length + 4) ((currentCode s).length + cond.length + 1) hfit
        (by simp; omega)
      simpa using this
    · have e : currentCode s ++ cond ++
          [OP_JUMP_IF_FALSE, asUInt8 (((thenCode.length + 4 : Nat) : Int) / 256),
            asUInt8 ((thenCode.length + 4 : Nat) : Int), OP_POP] ++ thenCode ++
          [OP_JUMP, asUInt8 (((elseCode.length + 1 : Nat) : Int) / 256),
            asUInt8 ((elseCode.length + 1 : Nat) : Int), OP_POP] ++ elseCode =
          (currentCode s ++ cond ++
          [OP_JUMP_IF_FALSE, asUInt8 (((thenCode.length + 4 : Nat) : Int) / 256),
            asUInt8 ((thenCode.length + 4 : Nat) : Int), OP_POP] ++ thenCode ++
          [OP_JUMP, asUInt8 (((elseCode.length + 1 : Nat) : Int) / 256),
            asUInt8 ((elseCode.length + 1 : Nat) : Int)]) ++ (OP_POP :: elseCode) := by
        simp
      rw [e, List.getElem?_append_right (by simp; omega)]
      have : (currentCode s).length + cond.length + 3 + (thenCode.length + 4) -
          (currentCode s ++ cond ++
          [OP_JUMP_IF_FALSE, asUInt8 (((thenCode.length + 4 : Nat) : Int) / 256),
            asUInt8 ((thenCode.length + 4 : Nat) : Int), OP_POP] ++ thenCode ++
          [OP_JUMP, asUInt8 (((elseCode.length + 1 : Nat) : Int) / 256),
            asUInt8 ((elseCode.length + 1 : Nat) : Int)]).length = 0 := by
        simp
        omega
      rw [this]
      simp
    · have e : currentCode s ++ cond ++
          [OP_JUMP_IF_FALSE, asUInt8 (((thenCode.length + 4 : Nat) : Int) / 256),
            asUInt8 ((thenCode.length + 4 : Nat) : Int), OP_POP] ++ thenCode ++
          [OP_JUMP, asUInt8 (((elseCode.length + 1 : Nat) : Int) / 256),
            asUInt8 ((elseCode.length + 1 : Nat) : Int), OP_POP] ++ elseCode =
          (currentCode s ++ cond ++
          [OP_JUMP_IF_FALSE, asUInt8 (((thenCode.length + 4 : Nat) : Int) / 256),
            asUInt8 ((thenCode.length + 4 : Nat) : Int), OP_POP] ++ thenCode ++
          [OP_JUMP, asUInt8 (((elseCode.length + 1 : Nat) : Int) / 256),
            asUInt8 ((elseCode.length + 1 : Nat) : Int)]) ++ ([OP_POP] ++ elseCode) := by
        simp
      rw [e]
      apply List.drop_left'
      simp
      omega
  · intro hfit
    rw [c3.eq]
    refine ⟨?_, by simp; omega⟩
    have := readShort_at (currentCode s ++ cond ++
        [OP_JUMP_IF_FALSE, asUInt8 (((thenCode.length + 4 : Nat) : Int) / 256),
          asUInt8 ((thenCode.length + 4 : Nat) : Int), OP_POP] ++ thenCode ++ [OP_JUMP])
      ([OP_POP] ++ elseCode) (elseCode.length + 1)
      ((currentCode s).length + cond.length + 4 + thenCode.length + 1) hfit (by simp; omega)
    simpa using this
  · intro hc ht he
    constructor
    · intro d
      rw [List.append_assoc, List.append_assoc,
        stackAfter_append _ cond _ _ _ (hc d), stackAfter_jif_pop,
        stackAfter_append _ thenCode _ _ _ (ht d)]
      exact (stackAfter_jump _ _ [] (d + 0)).trans rfl
    · intro d
      rw [List.append_assoc, List.append_assoc,
        stackAfter_append _ cond _ _ _ (hc d)]
      have : [OP_JUMP_IF_FALSE, asUInt8 (((thenCode.length + 4 : Nat) : Int) / 256),
          asUInt8 ((thenCode.length + 4 : Nat) : Int)] ++ ([OP_POP] ++ elseCode) =
          [OP_JUMP_IF_FALSE, asUInt8 (((thenCode.length + 4 : Nat) : Int) / 256),
          asUInt8 ((thenCode.length + 4 : Nat) : Int), OP_POP] ++ elseCode := rfl
      rw [this, stackAfter_jif_pop]
      exact he d

set_option maxRecDepth 100000 in
theorem ifStatement_pops_condition_once_witness :
    ifDemo.frames ≠ [] ∧
    exec digitExtern 12 Proc.ifStatement ifDemo = some (0, ifDemoEnd) ∧
    currentCode ifDemoEnd =
      [OP_CONSTANT, 0, OP_JUMP_IF_FALSE, 0, 7, OP_POP, OP_CONSTANT, 1, OP_PRINT,
        OP_JUMP, 0, 4, OP_POP, OP_CONSTANT, 2, OP_PRINT] ∧
    readShort (currentCode ifDemoEnd) 3 = some 7 ∧
    (currentCode ifDemoEnd)[5 + 7]? = some OP_POP ∧
    readShort (currentCode ifDemoEnd) 10 = some 4 ∧
    12 + 4 = (currentCode ifDemoEnd).length ∧
    ∃ (cond thenCode elseCode : List Nat) (j1 j2 : Int) (t1 t2 : State),
      exec digitExtern 11 Proc.expression (consume TOKEN_LEFT_PAREN "Expect '(' after 'if'." ifDemo) =
        some (j1, t1) ∧ currentCode t1 = currentCode ifDemo ++ cond ∧
      exec digitExtern 11 Proc.statement (emitByte OP_POP (emitJump OP_JUMP_IF_FALSE
        (consume TOKEN_RIGHT_PAREN "Expect ')' after condition." t1)).2) = some (j2, t2) ∧
      currentCode t2 =
        currentCode ifDemo ++ cond ++ [OP_JUMP_IF_FALSE, 255, 255, OP_POP] ++ thenCode ∧
      (t2.parser.current.type ≠ TOKEN_ELSE → elseCode = []) ∧
      currentCode ifDemoEnd = currentCode ifDemo ++ cond ++
        [OP_JUMP_IF_FALSE, asUInt8 (((thenCode.length + 4 : Nat) : Int) / 256),
          asUInt8 ((thenCode.length + 4 : Nat) : Int), OP_POP] ++ thenCode ++
        [OP_JUMP, asUInt8 (((elseCode.length + 1 : Nat) : Int) / 256),
          asUInt8 ((elseCode.length + 1 : Nat) : Int), OP_POP] ++ elseCode ∧
      (thenCode.length + 4 ≤ 65535 →
        readShort (currentCode ifDemoEnd) ((currentCode ifDemo).length + cond.length + 1) =
          some (thenCode.length + 4) ∧
        (currentCode ifDemoEnd)[((currentCode ifDemo).length + cond.length + 3) + (thenCode.length + 4)]? =
          some OP_POP ∧
        (currentCode ifDemoEnd).drop (((currentCode ifDemo).length + cond.length + 3) +
          (thenCode.length + 4)) = [OP_POP] ++ elseCode) ∧
      (elseCode.length + 1 ≤ 65535 →
        readShort (currentCode ifDemoEnd)
          ((currentCode ifDemo).length + cond.length + 4 + thenCode.length + 1) =
          some (elseCode.length + 1) ∧
        ((currentCode ifDemo).length + cond.length + 4 + thenCode.length + 3) +
          (elseCode.length + 1) = (currentCode ifDemoEnd).length) ∧
      (Pushes cond 1 → Pushes thenCode 0 → Pushes elseCode 0 →
        Pushes (cond ++ [OP_JUMP_IF_FALSE,
            asUInt8 (((thenCode.length + 4 : Nat) : Int) / 256),
            asUInt8 ((thenCode.length + 4 : Nat) : Int), OP_POP] ++ thenCode ++
          [OP_JUMP, asUInt8 (((elseCode.length + 1 : Nat) : Int) / 256),
            asUInt8 ((elseCode.length + 1 : Nat) : Int)]) 0 ∧
        Pushes (cond ++ [OP_JUMP_IF_FALSE,
            asUInt8 (((thenCode.length + 4 : Nat) : Int) / 256),
            asUInt8 ((thenCode.length + 4 : Nat) : Int)] ++ [OP_POP] ++ elseCode) 0) :=
  ⟨by decide, by decide, by decide, by decide, by decide, by decide, by decide,
    ifStatement_pops_condition_once digitExtern 11 ifDemo ifDemoEnd 0 (by decide) (by decide)⟩



/-! ## `for` statements -/

theorem scope_of_frames {s t : State} (h : t.frames = s.frames) :
    scopeDepth t = scopeDepth s ∧ currentLocals t = currentLocals s := by
  unfold scopeDepth currentLocals
  rw [h]
  exact ⟨rfl, rfl⟩

theorem scope_modifyChunk (f : Chunk → Chunk) (s : State) :
    scopeDepth (modifyChunk f s) = scopeDepth s ∧
    currentLocals (modifyChunk f s) = currentLocals s := by
  unfold scopeDepth currentLocals modifyChunk modifyCurrent
  cases s.frames <;> exact ⟨rfl, rfl⟩

theorem scope_emitByte (byte : Nat) (s : State) :
    scopeDepth (emitByte byte s) = scopeDepth s ∧
    currentLocals (emitByte byte s) = currentLocals s :=
  scope_modifyChunk _ s

theorem scope_error (message : String) (s : State) :
    scopeDepth (error message s) = scopeDepth s ∧
    currentLocals (error message s) = currentLocals s :=
  scope_of_frames (errorAt_frames _ _ _)

theorem scope_emitLoop (loopStart : Int) (s : State) :
    scopeDepth (emitLoop loopStart s) = scopeDepth s ∧
    currentLocals (emitLoop loopStart s) = currentLocals s := by
  unfold emitLoop
  simp only
  split <;>
    simp only [(scope_emitByte _ _).1, (scope_emitByte _ _).2, (scope_error _ _).1,
      (scope_error _ _).2, and_self]

theorem scope_patchJump (offset : Int) (s : State) :
    scopeDepth (patchJump offset s) = scopeDepth s ∧
    currentLocals (patchJump offset s) = currentLocals s := by
  unfold patchJump
  simp only
  split <;>
    simp only [(scope_modifyChunk _ _).1, (scope_modifyChunk _ _).2, (scope_error _ _).1,
      (scope_error _ _).2, and_self]

theorem hasCode_beginScope {s : State} {l : List Nat} (hs : HasCode s l) :
    HasCode (beginScope s) l ∧ scopeDepth (beginScope s) = scopeDepth s + 1 ∧
    currentLocals (beginScope s) = currentLocals s := by
  have hne := hs.ne
  have heq := hs.eq
  unfold beginScope modifyCurrent scopeDepth currentLocals
  unfold currentCode at heq
  cases hfr : s.frames with
  | nil => exact absurd hfr hne
  | cons c rest =>
    rw [hfr] at heq
    exact ⟨⟨by simp, by simpa [currentCode] using heq⟩, rfl, rfl⟩

theorem hasCode_endScope {s : State} {l : List Nat} (hs : HasCode s l) :
    HasCode (endScope s)
      (l ++ (closedLocals (currentLocals s) (scopeDepth s - 1)).map closeOpcode) ∧
    scopeDepth (endScope s) = scopeDepth s - 1 ∧
    currentLocals (endScope s) = keptLocals (currentLocals s) (scopeDepth s - 1) := by
  have hne := hs.ne
  have heq := hs.eq
  unfold currentCode at heq
  cases hfr : s.frames with
  | nil => exact absurd hfr hne
  | cons c rest =>
    rw [hfr] at heq
    have hfr1 : (modifyCurrent (fun c => { c with scopeDepth := c.scopeDepth - 1 }) s).frames =
        { c with scopeDepth := c.scopeDepth - 1 } :: rest := modifyCurrent_frames _ hfr
    have hcount : localCount (modifyCurrent (fun c => { c with scopeDepth := c.scopeDepth - 1 }) s)
        = c.locals.length := by
      simp only [localCount, hfr1]
    obtain ⟨i1, _⟩ := endScopeLoop_frames rest (c.scopeDepth - 1)
      (localCount (modifyCurrent (fun c => { c with scopeDepth := c.scopeDepth - 1 }) s))
      _ _ hfr1 rfl (by rw [hcount])
    have e : (endScope s).frames = _ := i1
    simp only [scopeDepth, currentLocals, hfr]
    refine ⟨⟨by rw [e]; simp, ?_⟩, ?_, ?_⟩
    · simp only [currentCode, e]
      simpa using heq
    · rw [e]
    · rw [e]

theorem closedLocals_append (old added : List Local) (depth : Int)
    (hadded : ∀ a ∈ added, depth < a.depth)
    (hold : ∀ a, old.getLast? = some a → a.depth ≤ depth) :
    closedLocals (old ++ added) depth = added.reverse ∧
    keptLocals (old ++ added) depth = old := by
  induction added using List.reverseRecOn with
  | nil =>
    rcases List.eq_nil_or_concat old with hnil | ⟨L, l, hL⟩
    · subst hnil
      simp [closedLocals, keptLocals]
    · rw [List.concat_eq_append] at hL
      subst hL
      have := hold l (by simp)
      simpa using closedLocals_concat_neg L l depth (by omega)
  | append_singleton added a ih =>
    have h1 := ih (fun b hb => hadded b (by simp [hb]))
    have h2 := closedLocals_concat_pos (old ++ added) a depth (hadded a (by simp))
    rw [← List.append_assoc, h2.1, h2.2, h1.1, h1.2]
    simp

theorem hasCode_emitLoop_nat {s : State} {l : List Nat} (loopStart : Int) (d : Nat)
    (hd : (l.length : Int) + 3 - loopStart = (d : Int)) (hs : HasCode s l) :
    HasCode (emitLoop loopStart s) (l ++ [OP_LOOP] ++ shortOperand d) := by
  have h := hasCode_emitLoop loopStart hs
  rw [hd] at h
  refine ⟨h.ne, ?_⟩
  rw [h.eq]
  simp [shortOperand]

theorem hasCode_patchJump_nat {t : State} {pre post : List Nat} {a b : Nat} (offset : Int)
    (d : Nat) (ho : offset = (pre.length : Int)) (hd : d = post.length)
    (ht : HasCode t (pre ++ [a, b] ++ post)) :
    HasCode (patchJump offset t) (pre ++ shortOperand d ++ post) := by
  subst ho
  subst hd
  exact hasCode_patchJump ht

/-- The increment clause of a `for` statement. -/
theorem forIncrement_code (x : Extern) {n : Nat} {s t : State} {j : Int} {l : List Nat}
    (start : Nat) (hstart : start ≤ l.length) (hs : HasCode s l)
    (h : exec x n Proc.expression (emitJump OP_JUMP s).2 = some (j, t)) :
    ∃ incr : List Nat, HasCode t (l ++ [OP_JUMP, 255, 255] ++ incr) ∧
      currentCount (emitJump OP_JUMP s).2 = ((l.length + 3 : Nat) : Int) ∧
      HasCode (patchJump (emitJump OP_JUMP s).1 (emitLoop (start : Int)
        (consume TOKEN_RIGHT_PAREN "Expect ')' after for clauses." (emitByte OP_POP t))))
        (l ++ [OP_JUMP] ++ shortOperand (incr.length + 4) ++ incr ++ [OP_POP, OP_LOOP] ++
          shortOperand (l.length - start + incr.length + 7)) := by
  obtain ⟨c1, o1⟩ := hasCode_emitJump OP_JUMP hs
  obtain ⟨incr, c2⟩ := hasCode_exec x h c1
  have c3 := hasCode_consume TOKEN_RIGHT_PAREN "Expect ')' after for clauses."
    (hasCode_emitByte OP_POP c2)
  have c4 := hasCode_emitLoop_nat (start : Int) (l.length - start + incr.length + 7)
    (by simp; omega) c3
  have e : l ++ [OP_JUMP, 255, 255] ++ incr ++ [OP_POP] ++ [OP_LOOP] ++
      shortOperand (l.length - start + incr.length + 7) =
      (l ++ [OP_JUMP]) ++ [255, 255] ++ (incr ++ [OP_POP, OP_LOOP] ++
        shortOperand (l.length - start + incr.length + 7)) := by simp
  rw [e] at c4
  have c5 := hasCode_patchJump_nat (emitJump OP_JUMP s).1 (incr.length + 4)
    (by rw [o1]; simp) (by simp [shortOperand]) c4
  refine ⟨incr, c2, ?_, c5.ne, ?_⟩
  · rw [currentCount_eq, c1.eq]
    simp
  · rw [c5.eq]
    simp

/-- The end of a `for` statement without a condition: the loop back, and the end of the
scope. -/
theorem forEnd_code {t : State} {l : List Nat} (loopStart : Int) (d : Nat)
    (hd : (l.length : Int) + 3 - loopStart = (d : Int)) (ht : HasCode t l) :
    HasCode (endScope (emitLoop loopStart t)) (l ++ [OP_LOOP] ++ shortOperand d ++
      (closedLocals (currentLocals t) (scopeDepth t - 1)).map closeOpcode) ∧
    scopeDepth (endScope (emitLoop loopStart t)) = scopeDepth t - 1 ∧
    currentLocals (endScope (emitLoop loopStart t)) =
      keptLocals (currentLocals t) (scopeDepth t - 1) := by
  have c1 := hasCode_emitLoop_nat loopStart d hd ht
  have c2 := hasCode_endScope c1
  rw [(scope_emitLoop _ _).1, (scope_emitLoop _ _).2] at c2
  exact c2

/-- The end of a `for` statement with a condition: the loop back, the exit to which the
jump of the condition is patched, its pop, and the end of the scope. -/
theorem forExit_code {t : State} {pre post : List Nat} {a b : Nat} (loopStart exitJump : Int)
    (d : Nat) (hd : ((pre ++ [a, b] ++ post).length : Int) + 3 - loopStart = (d : Int))
    (he : exitJump = (pre.length : Int)) (ht : HasCode t (pre ++ [a, b] ++ post)) :
    HasCode (endScope (emitByte OP_POP (patchJump exitJump (emitLoop loopStart t))))
      (pre ++ shortOperand (post.length + 3) ++ post ++ [OP_LOOP] ++ shortOperand d ++
        [OP_POP] ++ (closedLocals (currentLocals t) (scopeDepth t - 1)).map closeOpcode) ∧
    scopeDepth (endScope (emitByte OP_POP (patchJump exitJump (emitLoop loopStart t)))) =
      scopeDepth t - 1 ∧
    currentLocals (endScope (emitByte OP_POP (patchJump exitJump (emitLoop loopStart t)))) =
      keptLocals (currentLocals t) (scopeDepth t - 1) := by
  have c1 := hasCode_emitLoop_nat loopStart d hd ht
  have e : pre ++ [a, b] ++ post ++ [OP_LOOP] ++ shortOperand d =
      pre ++ [a, b] ++ (post ++ [OP_LOOP] ++ shortOperand d) := by simp
  rw [e] at c1
  have c2 := hasCode_emitByte OP_POP (hasCode_patchJump_nat exitJump (post.length + 3) he
    (by simp [shortOperand]) c1)
  have c3 := hasCode_endScope c2
  rw [(scope_emitByte _ _).1, (scope_emitByte _ _).2, (scope_patchJump _ _).1,
    (scope_patchJump _ _).2, (scope_emitLoop _ _).1, (scope_emitLoop _ _).2] at c3
  refine ⟨⟨c3.1.ne, ?_⟩, c3.2⟩
  rw [c3.1.eq]
  simp

/-- The code of a `for` statement. -/
theorem forStatement_code (x : Extern) {n : Nat} {s u : State} {i : Int} {l : List Nat}
    (h : exec x (n + 1) Proc.forStatement s = some (i, u)) (hs : HasCode s l) :
    ∃ (init body : List Nat) (cond incr : Option (List Nat)) (j1 j4 : Int)
      (t1 t2 t3 t4 : State),
      forInitializer x n (consume TOKEN_LEFT_PAREN "Expect '(' after 'for'." (beginScope s)) =
        some (j1, t1) ∧
      HasCode t1 (l ++ init) ∧
      (cond = none ↔ (matchToken TOKEN_SEMICOLON t1).1 = true) ∧
      (cond = none → t2 = (matchToken TOKEN_SEMICOLON t1).2) ∧
      (∀ c, cond = some c → ∃ j t,
        exec x n Proc.expression (matchToken TOKEN_SEMICOLON t1).2 = some (j, t) ∧
        HasCode t (l ++ init ++ c) ∧
        t2 = emitByte OP_POP (emitJump OP_JUMP_IF_FALSE
          (consume TOKEN_SEMICOLON "Expect ';' after loop condition." t)).2) ∧
      (incr = none ↔ (matchToken TOKEN_RIGHT_PAREN t2).1 = true) ∧
      (incr = none → t3 = (matchToken TOKEN_RIGHT_PAREN t2).2) ∧
      (∀ c, incr = some c → ∃ j t,
        exec x n Proc.expression (emitJump OP_JUMP (matchToken TOKEN_RIGHT_PAREN t2).2).2 =
          some (j, t) ∧
        HasCode t (currentCode t2 ++ [OP_JUMP, 255, 255] ++ c) ∧
        t3 = patchJump (emitJump OP_JUMP (matchToken TOKEN_RIGHT_PAREN t2).2).1
          (emitLoop (currentCount t1)
            (consume TOKEN_RIGHT_PAREN "Expect ')' after for clauses." (emitByte OP_POP t)))) ∧
      exec x n Proc.statement t3 = some (j4, t4) ∧
      HasCode t4 (currentCode t3 ++ body) ∧
      HasCode u (l ++ forLayout init cond incr body
        ((closedLocals (currentLocals t4) (scopeDepth t4 - 1)).map closeOpcode)) ∧
      scopeDepth u = scopeDepth t4 - 1 ∧
      currentLocals u = keptLocals (currentLocals t4) (scopeDepth t4 - 1) := by
  simp only [exec] at h
  obtain ⟨⟨j1, t1⟩, h1, h⟩ := Option.bind_eq_some.1 h
  obtain ⟨⟨exitJump, t2⟩, h2, h⟩ := Option.bind_eq_some.1 h
  obtain ⟨⟨loopStart, t3⟩, h3, h⟩ := Option.bind_eq_some.1 h
  obtain ⟨⟨j4, t4⟩, h4, h⟩ := Option.bind_eq_some.1 h
  simp only [Option.some.injEq, Prod.mk.injEq] at h
  obtain ⟨_, hu⟩ := h
  have c0 : HasCode (consume TOKEN_LEFT_PAREN "Expect '(' after 'for'." (beginScope s)) l :=
    hasCode_consume _ _ (hasCode_beginScope hs).1
  have hinit : ∃ init, HasCode t1 (l ++ init) := by
    split at h1
    · simp only [Option.some.injEq, Prod.mk.injEq] at h1
      rw [← h1.2]
      exact ⟨[], by simpa using hasCode_matchToken TOKEN_SEMICOLON c0⟩
    · split at h1
      · exact hasCode_exec x h1 (hasCode_matchToken _ (hasCode_matchToken _ c0))
      · exact hasCode_exec x h1 (hasCode_matchToken _ (hasCode_matchToken _ c0))
  obtain ⟨init, c1⟩ := hinit
  have hcount1 : currentCount t1 = (((l ++ init).length : Nat) : Int) := by
    rw [currentCount_eq, c1.eq]
  simp only at h2 h3 h4 hu
  by_cases hm : (matchToken TOKEN_SEMICOLON t1).1 = true
  · -- no condition
    simp only [hm, Bool.not_true, Bool.false_eq_true, if_false, Option.some.injEq,
      Prod.mk.injEq] at h2
    obtain ⟨hexit, ht2⟩ := h2
    have c2 : HasCode t2 (l ++ init) := by
      rw [← ht2]
      exact hasCode_matchToken _ c1
    have hno : ¬ (exitJump ≠ -1) := by simp [← hexit]
    rw [if_neg hno] at hu
    by_cases hp : (matchToken TOKEN_RIGHT_PAREN t2).1 = true
    · -- no increment
      simp only [hp, Bool.not_true, Bool.false_eq_true, if_false, Option.some.injEq,
        Prod.mk.injEq] at h3
      obtain ⟨hls, ht3⟩ := h3
      have c3 : HasCode t3 (l ++ init) := by
        rw [← ht3]
        exact hasCode_matchToken _ c2
      obtain ⟨body, c4⟩ := hasCode_exec x h4 c3
      have hend := forEnd_code loopStart (body.length + 3)
        (by rw [← hls, hcount1]; simp; omega) c4
      rw [hu] at hend
      refine ⟨init, body, none, none, j1, j4, t1, t2, t3, t4, h1, c1, by simp [hm],
        fun _ => ht2.symm, by simp, by simp [hp], fun _ => ht3.symm, by simp, h4,
        by rw [c3.eq]; exact c4, ⟨hend.1.ne, ?_⟩, hend.2⟩
      rw [hend.1.eq]
      simp [forLayout, conditionLength]
    · -- an increment
      have hp2 : (matchToken TOKEN_RIGHT_PAREN t2).1 = false := by simpa using hp
      simp only [hp2, Bool.not_false, if_true] at h3
      obtain ⟨⟨j3, t⟩, h3, h3r⟩ := Option.bind_eq_some.1 h3
      simp only [Option.some.injEq, Prod.mk.injEq] at h3r
      obtain ⟨hls, ht3⟩ := h3r
      obtain ⟨incr, ci, hcnt, c3⟩ := forIncrement_code x (l ++ init).length (le_refl _)
        (hasCode_matchToken TOKEN_RIGHT_PAREN c2) h3
      rw [← hcount1, ht3] at c3
      obtain ⟨body, c4⟩ := hasCode_exec x h4 c3
      have hend := forEnd_code loopStart (incr.length + body.length + 7)
        (by rw [← hls, hcnt]; simp [shortOperand]; omega) c4
      rw [hu] at hend
      refine ⟨init, body, none, some incr, j1, j4, t1, t2, t3, t4, h1, c1, by simp [hm],
        fun _ => ht2.symm, by simp, by simp [hp2], by simp, ?_, h4,
        by rw [c3.eq]; exact c4, ⟨hend.1.ne, ?_⟩, hend.2⟩
      · intro c hc
        cases hc
        exact ⟨j3, t, h3, by rw [c2.eq]; exact ci, ht3.symm⟩
      · rw [hend.1.eq]
        simp [forLayout, conditionLength]
  · -- a condition
    have hm2 : (matchToken TOKEN_SEMICOLON t1).1 = false := by simpa using hm
    simp only [hm2, Bool.not_false, if_true] at h2
    obtain ⟨⟨jc, tc⟩, h2, h2r⟩ := Option.bind_eq_some.1 h2
    simp only [Option.some.injEq, Prod.mk.injEq] at h2r
    obtain ⟨hexit, ht2⟩ := h2r
    obtain ⟨cond, cc⟩ := hasCode_exec x h2 (hasCode_matchToken TOKEN_SEMICOLON c1)
    obtain ⟨cj, oj⟩ := hasCode_emitJump OP_JUMP_IF_FALSE
      (hasCode_consume TOKEN_SEMICOLON "Expect ';' after loop condition." cc)
    have c2 : HasCode t2 (l ++ init ++ cond ++ [OP_JUMP_IF_FALSE, 255, 255] ++ [OP_POP]) := by
      rw [← ht2]
      exact hasCode_emitByte OP_POP cj
    have hyes : exitJump ≠ -1 := by
      rw [← hexit, oj]
      omega
    rw [if_pos hyes] at hu
    have hexit2 : exitJump = (((l ++ init ++ cond ++ [OP_JUMP_IF_FALSE]).length : Nat) : Int) := by
      rw [← hexit, oj]
      simp
      omega
    by_cases hp : (matchToken TOKEN_RIGHT_PAREN t2).1 = true
    · -- no increment
      simp only [hp, Bool.not_true, Bool.false_eq_true, if_false, Option.some.injEq,
        Prod.mk.injEq] at h3
      obtain ⟨hls, ht3⟩ := h3
      have c3 : HasCode t3 (l ++ init ++ cond ++ [OP_JUMP_IF_FALSE, 255, 255] ++ [OP_POP]) := by
        rw [← ht3]
        exact hasCode_matchToken _ c2
      obtain ⟨body, c4⟩ := hasCode_exec x h4 c3
      have e4 : l ++ init ++ cond ++ [OP_JUMP_IF_FALSE, 255, 255] ++ [OP_POP] ++ body =
          (l ++ init ++ cond ++ [OP_JUMP_IF_FALSE]) ++ [255, 255] ++ ([OP_POP] ++ body) := by
        simp
      have c4b := c4
      rw [e4] at c4b
      have hend := forExit_code loopStart exitJump (cond.length + 4 + body.length + 3)
        (by rw [← hls, hcount1]; simp; omega) hexit2 c4b
      rw [hu] at hend
      refine ⟨init, body, some cond, none, j1, j4, t1, t2, t3, t4, h1, c1, by simp [hm2],
        by simp, ?_, by simp [hp], fun _ => ht3.symm, by simp, h4,
        by rw [c3.eq]; exact c4, ⟨hend.1.ne, ?_⟩, hend.2⟩
      · intro c hc
        cases hc
        exact ⟨jc, tc, h2, cc, ht2.symm⟩
      · rw [hend.1.eq]
        simp [forLayout, conditionLength, incrementLength]
    · -- an increment
      have hp2 : (matchToken TOKEN_RIGHT_PAREN t2).1 = false := by simpa using hp
      simp only [hp2, Bool.not_false, if_true] at h3
      obtain ⟨⟨j3, t⟩, h3, h3r⟩ := Option.bind_eq_some.1 h3
      simp only [Option.some.injEq, Prod.mk.injEq] at h3r
      obtain ⟨hls, ht3⟩ := h3r
      obtain ⟨incr, ci, hcnt, c3⟩ := forIncrement_code x (l ++ init).length
        (by simp) (hasCode_matchToken TOKEN_RIGHT_PAREN c2) h3
      rw [← hcount1, ht3] at c3
      obtain ⟨body, c4⟩ := hasCode_exec x h4 c3
      have e4 : l ++ init ++ cond ++ [OP_JUMP_IF_FALSE, 255, 255] ++ [OP_POP] ++ [OP_JUMP] ++
          shortOperand (incr.length + 4) ++ incr ++ [OP_POP, OP_LOOP] ++
          shortOperand ((l ++ init ++ cond ++ [OP_JUMP_IF_FALSE, 255, 255] ++ [OP_POP]).length -
            (l ++ init).length + incr.length + 7) ++ body =
          (l ++ init ++ cond ++ [OP_JUMP_IF_FALSE]) ++ [255, 255] ++ ([OP_POP] ++ [OP_JUMP] ++
          shortOperand (incr.length + 4) ++ incr ++ [OP_POP, OP_LOOP] ++
          shortOperand (cond.length + 4 + incr.length + 7) ++ body) := by
        have : (l ++ init ++ cond ++ [OP_JUMP_IF_FALSE, 255, 255] ++ [OP_POP]).length -
            (l ++ init).length + incr.length + 7 = cond.length + 4 + incr.length + 7 := by
          simp
          omega
        rw [this]
        simp
      have c4b := c4
      rw [e4] at c4b
      have hend := forExit_code loopStart exitJump (incr.length + body.length + 7)
        (by rw [← hls, hcnt]; simp [shortOperand]; omega) hexit2 c4b
      rw [hu] at hend
      refine ⟨init, body, some cond, some incr, j1, j4, t1, t2, t3, t4, h1, c1, by simp [hm2],
        by simp, ?_, by simp [hp2], by simp, ?_, h4,
        by rw [c3.eq]; exact c4, ⟨hend.1.ne, ?_⟩, hend.2⟩
      · intro c hc
        cases hc
        exact ⟨jc, tc, h2, cc, ht2.symm⟩
      · intro c hc
        cases hc
        exact ⟨j3, t, h3, by rw [c2.eq]; exact ci, ht3.symm⟩
      · rw [hend.1.eq]
        simp [forLayout, conditionLength, incrementLength, shortOperand]
        constructor <;> congr 1 <;> omega



theorem readShort_operand (pre post : List Nat) (d k : Nat) (hd : d ≤ 65535)
    (hk : k = pre.length) : readShort (pre ++ shortOperand d ++ post) k = some d :=
  readShort_at pre post d k hd hk

theorem jumpTarget_at (pre post : List Nat) (d k target : Nat) (hd : d ≤ 65535)
    (hk : k = pre.length) (ht : target = k + 2 + d) :
    jumpTarget (pre ++ shortOperand d ++ post) k = some target := by
  unfold jumpTarget
  rw [readShort_operand pre post d k hd hk, ht]
  rfl

theorem loopTarget_at (pre post : List Nat) (d k target : Nat) (hd : d ≤ 65535)
    (hk : k = pre.length) (ht : target + d = k + 2) :
    loopTarget (pre ++ shortOperand d ++ post) k = some target := by
  unfold loopTarget
  rw [readShort_operand pre post d k hd hk]
  simp only [Option.some_bind]
  rw [if_pos (by omega)]
  congr 1
  omega

theorem drop_at (pre post : List Nat) (k : Nat) (hk : k = pre.length) :
    (pre ++ post).drop k = post := by
  subst hk
  simp

/-- Where the jumps of the layout of a `for` statement lead. -/
theorem forLayout_targets (pre init body close code : List Nat) (cond incr : Option (List Nat))
    (hcode : code = pre ++ forLayout init cond incr body close)
    (hfit : (forLayout init cond incr body close).length ≤ 65535) :
    (∀ c, cond = some c →
      jumpTarget code (pre.length + init.length + c.length + 1) =
        some (pre.length + init.length + conditionLength cond + incrementLength incr +
          body.length + 3) ∧
      code.drop (pre.length + init.length + conditionLength cond + incrementLength incr +
          body.length + 3) = OP_POP :: close) ∧
    (∀ i, incr = some i →
      jumpTarget code (pre.length + init.length + conditionLength cond + 1) =
        some (pre.length + init.length + conditionLength cond + incrementLength incr) ∧
      (code.drop (pre.length + init.length + conditionLength cond + 3 + i.length)).take 2 =
        [OP_POP, OP_LOOP] ∧
      loopTarget code (pre.length + init.length + conditionLength cond + 3 + i.length + 2) =
        some (pre.length + init.length) ∧
      loopTarget code (pre.length + init.length + conditionLength cond + incrementLength incr +
          body.length + 1) = some (pre.length + init.length + conditionLength cond + 3)) ∧
    (incr = none →
      loopTarget code (pre.length + init.length + conditionLength cond + body.length + 1) =
        some (pre.length + init.length)) := by
  subst hcode
  cases cond with
  | none =>
    cases incr with
    | none =>
      simp only [forLayout, conditionLength, incrementLength, List.length_append,
        List.length_cons, List.length_nil, shortOperand] at hfit
      refine ⟨by simp, by simp, fun _ => ?_⟩
      have e : pre ++ forLayout init none none body close =
          (pre ++ init ++ body ++ [OP_LOOP]) ++ shortOperand (body.length + 3) ++ close := by
        simp [forLayout, conditionLength]
      rw [e]
      exact loopTarget_at _ _ _ _ _ (by omega) (by simp [conditionLength]; omega)
        (by simp [conditionLength]; omega)
    | some i =>
      simp only [forLayout, conditionLength, incrementLength, List.length_append,
        List.length_cons, List.length_nil, shortOperand] at hfit
      refine ⟨by simp, ?_, by simp⟩
      intro i2 hi
      cases hi
      refine ⟨?_, ?_, ?_, ?_⟩
      · have e : pre ++ forLayout init none (some i) body close =
            (pre ++ init ++ [OP_JUMP]) ++ shortOperand (i.length + 4) ++
            (i ++ [OP_POP, OP_LOOP] ++ shortOperand (i.length + 7) ++ body ++ [OP_LOOP] ++
              shortOperand (i.length + body.length + 7) ++ close) := by
          simp [forLayout, conditionLength]
        rw [e]
        exact jumpTarget_at _ _ _ _ _ (by omega) (by simp [conditionLength]; omega)
          (by simp [conditionLength, incrementLength]; omega)
      · have e : pre ++ forLayout init none (some i) body close =
            (pre ++ init ++ [OP_JUMP] ++ shortOperand (i.length + 4) ++ i) ++
            ([OP_POP, OP_LOOP] ++ shortOperand (i.length + 7) ++ body ++ [OP_LOOP] ++
              shortOperand (i.length + body.length + 7) ++ close) := by
          simp [forLayout, conditionLength]
        rw [e, drop_at _ _ _ (by simp [conditionLength, shortOperand]; omega)]
        rfl
      · have e : pre ++ forLayout init none (some i) body close =
            (pre ++ init ++ [OP_JUMP] ++ shortOperand (i.length + 4) ++ i ++
              [OP_POP, OP_LOOP]) ++ shortOperand (i.length + 7) ++
            (body ++ [OP_LOOP] ++ shortOperand (i.length + body.length + 7) ++ close) := by
          simp [forLayout, conditionLength]
        rw [e]
        exact loopTarget_at _ _ _ _ _ (by omega)
          (by simp [conditionLength, shortOperand]; omega)
          (by simp [conditionLength]; omega)
      · have e : pre ++ forLayout init none (some i) body close =
            (pre ++ init ++ [OP_JUMP] ++ shortOperand (i.length + 4) ++ i ++
              [OP_POP, OP_LOOP] ++ shortOperand (i.length + 7) ++ body ++ [OP_LOOP]) ++
            shortOperand (i.length + body.length + 7) ++ close := by
          simp [forLayout, conditionLength]
        rw [e]
        exact loopTarget_at _ _ _ _ _ (by omega)
          (by simp [conditionLength, incrementLength, shortOperand]; omega)
          (by simp [conditionLength, incrementLength]; omega)
  | some c =>
    cases incr with
    | none =>
      simp only [forLayout, conditionLength, incrementLength, List.length_append,
        List.length_cons, List.length_nil, shortOperand] at hfit
      refine ⟨?_, by simp, fun _ => ?_⟩
      · intro c2 hc
        cases hc
        constructor
        · have e : pre ++ forLayout init (some c) none body close =
              (pre ++ init ++ c ++ [OP_JUMP_IF_FALSE]) ++ shortOperand (body.length + 4) ++
              ([OP_POP] ++ body ++ [OP_LOOP] ++ shortOperand (c.length + 4 + body.length + 3) ++
                [OP_POP] ++ close) := by
            simp [forLayout, conditionLength, incrementLength]
          rw [e]
          exact jumpTarget_at _ _ _ _ _ (by omega) (by simp; omega)
            (by simp [conditionLength, incrementLength]; omega)
        · have e : pre ++ forLayout init (some c) none body close =
              (pre ++ init ++ c ++ [OP_JUMP_IF_FALSE] ++ shortOperand (body.length + 4) ++
              [OP_POP] ++ body ++ [OP_LOOP] ++ shortOperand (c.length + 4 + body.length + 3)) ++
                (OP_POP :: close) := by
            simp [forLayout, conditionLength, incrementLength]
          rw [e]
          exact drop_at _ _ _ (by simp [conditionLength, incrementLength, shortOperand]; omega)
      · have e : pre ++ forLayout init (some c) none body close =
            (pre ++ init ++ c ++ [OP_JUMP_IF_FALSE] ++ shortOperand (body.length + 4) ++
            [OP_POP] ++ body ++ [OP_LOOP]) ++ shortOperand (c.length + 4 + body.length + 3) ++
              ([OP_POP] ++ close) := by
          simp [forLayout, conditionLength, incrementLength]
        rw [e]
        exact loopTarget_at _ _ _ _ _ (by omega)
          (by simp [conditionLength, shortOperand]; omega)
          (by simp [conditionLength]; omega)
    | some i =>
      simp only [forLayout, conditionLength, incrementLength, List.length_append,
        List.length_cons, List.length_nil, shortOperand] at hfit
      refine ⟨?_, ?_, by simp⟩
      · intro c2 hc
        cases hc
        constructor
        · have e : pre ++ forLayout init (some c) (some i) body close =
              (pre ++ init ++ c ++ [OP_JUMP_IF_FALSE]) ++
              shortOperand (i.length + 7 + body.length + 4) ++
              ([OP_POP] ++ [OP_JUMP] ++ shortOperand (i.length + 4) ++ i ++
                [OP_POP, OP_LOOP] ++ shortOperand (c.length + 4 + i.length + 7) ++ body ++
                [OP_LOOP] ++ shortOperand (i.length + body.length + 7) ++
                [OP_POP] ++ close) := by
            simp [forLayout, conditionLength, incrementLength]
          rw [e]
          exact jumpTarget_at _ _ _ _ _ (by omega) (by simp; omega)
            (by simp [conditionLength, incrementLength]; omega)
        · have e : pre ++ forLayout init (some c) (some i) body close =
              (pre ++ init ++ c ++ [OP_JUMP_IF_FALSE] ++
              shortOperand (i.length + 7 + body.length + 4) ++
              [OP_POP] ++ [OP_JUMP] ++ shortOperand (i.length + 4) ++ i ++
                [OP_POP, OP_LOOP] ++ shortOperand (c.length + 4 + i.length + 7) ++ body ++
                [OP_LOOP] ++ shortOperand (i.length + body.length + 7)) ++
                (OP_POP :: close) := by
            simp [forLayout, conditionLength, incrementLength]
          rw [e]
          exact drop_at _ _ _ (by simp [conditionLength, incrementLength, shortOperand]; omega)
      · intro i2 hi
        cases hi
        refine ⟨?_, ?_, ?_, ?_⟩
        · have e : pre ++ forLayout init (some c) (some i) body close =
              (pre ++ init ++ c ++ [OP_JUMP_IF_FALSE] ++
              shortOperand (i.length + 7 + body.length + 4) ++
              [OP_POP] ++ [OP_JUMP]) ++ shortOperand (i.length + 4) ++ (i ++
                [OP_POP, OP_LOOP] ++ shortOperand (c.length + 4 + i.length + 7) ++ body ++
                [OP_LOOP] ++ shortOperand (i.length + body.length + 7) ++
                [OP_POP] ++ close) := by
            simp [forLayout, conditionLength, incrementLength]
          rw [e]
          exact jumpTarget_at _ _ _ _ _ (by omega)
            (by simp [conditionLength, shortOperand]; omega)
            (by simp [conditionLength, incrementLength]; omega)
        · have e : pre ++ forLayout init (some c) (some i) body close =
              (pre ++ init ++ c ++ [OP_JUMP_IF_FALSE] ++
              shortOperand (i.length + 7 + body.length + 4) ++
              [OP_POP] ++ [OP_JUMP] ++ shortOperand (i.length + 4) ++ i) ++
                ([OP_POP, OP_LOOP] ++ shortOperand (c.length + 4 + i.length + 7) ++ body ++
                [OP_LOOP] ++ shortOperand (i.length + body.length + 7) ++
                [OP_POP] ++ close) := by
            simp [forLayout, conditionLength, incrementLength]
          rw [e, drop_at _ _ _ (by simp [conditionLength, shortOperand]; omega)]
          rfl
        · have e : pre ++ forLayout init (some c) (some i) body close =
              (pre ++ init ++ c ++ [OP_JUMP_IF_FALSE] ++
              shortOperand (i.length + 7 + body.length + 4) ++
              [OP_POP] ++ [OP_JUMP] ++ shortOperand (i.length + 4) ++ i ++
                [OP_POP, OP_LOOP]) ++ shortOperand (c.length + 4 + i.length + 7) ++ (body ++
                [OP_LOOP] ++ shortOperand (i.length + body.length + 7) ++
                [OP_POP] ++ close) := by
            simp [forLayout, conditionLength, incrementLength]
          rw [e]
          exact loopTarget_at _ _ _ _ _ (by omega)
            (by simp [conditionLength, shortOperand]; omega)
            (by simp [conditionLength]; omega)
        · have e : pre ++ forLayout init (some c) (some i) body close =
              (pre ++ init ++ c ++ [OP_JUMP_IF_FALSE] ++
              shortOperand (i.length + 7 + body.length + 4) ++
              [OP_POP] ++ [OP_JUMP] ++ shortOperand (i.length + 4) ++ i ++
                [OP_POP, OP_LOOP] ++ shortOperand (c.length + 4 + i.length + 7) ++ body ++
                [OP_LOOP]) ++ shortOperand (i.length + body.length + 7) ++
                ([OP_POP] ++ close) := by
            simp [forLayout, conditionLength, incrementLength]
          rw [e]
          exact loopTarget_at _ _ _ _ _ (by omega)
            (by simp [conditionLength, incrementLength, shortOperand]; omega)
            (by simp [conditionLength, incrementLength]; omega)

theorem localCount_eq (s : State) : localCount s = (currentLocals s).length := by
  unfold localCount currentLocals
  split <;> rfl

/-- The desugaring of a `for` statement keeps the pops balanced for every combination
of omitted clauses. Whenever `forStatement` returns, entered with a current frame, the code
it has appended is `forLayout init cond incr body close`: the code of the initializer; with
a condition `c` (there is one exactly when no `;` follows the initializer) the code of `c`,
one `OP_JUMP_IF_FALSE` and one `OP_POP` on the path that falls through, and nothing without
one; with an increment `i` (there is one exactly when no `)` follows) an `OP_JUMP` over it,
the code of `i`, one `OP_POP` and an `OP_LOOP`, and nothing without one; the code of the
body and an `OP_LOOP`; with a condition one more `OP_POP`; and the instructions `close` by
which `endScope` removes the locals of the scope. When the code fits 16-bit distances, the
`OP_JUMP_IF_FALSE` leads to that last `OP_POP`, after which only `close` follows; the
`OP_LOOP` of the increment leads to the start of the condition; the `OP_LOOP` after the body
leads to the first byte of the increment when there is one and to the start of the condition
otherwise. A condition that pushes one value is popped once on either way out of its jump,
and an increment that pushes one value is popped once before its `OP_LOOP`. `endScope`
closes the scope that `beginScope` has opened: the depth after the statement is the depth
after the body less one, and the locals are those after the body without the trailing ones
deeper than that; so when the clauses and the body have left the depth of the scope and
have added only locals of the scope, `scopeDepth` and `localCount` are as before the
statement, and `close` has one instruction for each local of the scope. -/
theorem forStatement_keeps_pops_balanced (x : Extern) (n : Nat) (s u : State) (i : Int)
    (hs : s.frames ≠ []) (h : exec x (n + 1) Proc.forStatement s = some (i, u)) :
    ∃ (init body close : List Nat) (cond incr : Option (List Nat)) (j1 j4 : Int)
      (t1 t2 t3 t4 : State),
      forInitializer x n (consume TOKEN_LEFT_PAREN "Expect '(' after 'for'." (beginScope s)) =
        some (j1, t1) ∧
      currentCode t1 = currentCode s ++ init ∧
      (cond = none ↔ (matchToken TOKEN_SEMICOLON t1).1 = true) ∧
      (cond = none → t2 = (matchToken TOKEN_SEMICOLON t1).2) ∧
      (∀ c, cond = some c → ∃ j t,
        exec x n Proc.expression (matchToken TOKEN_SEMICOLON t1).2 = some (j, t) ∧
        currentCode t = currentCode s ++ init ++ c ∧
        t2 = emitByte OP_POP (emitJump OP_JUMP_IF_FALSE
          (consume TOKEN_SEMICOLON "Expect ';' after loop condition." t)).2) ∧
      (incr = none ↔ (matchToken TOKEN_RIGHT_PAREN t2).1 = true) ∧
      (incr = none → t3 = (matchToken TOKEN_RIGHT_PAREN t2).2) ∧
      (∀ c, incr = some c → ∃ j t,
        exec x n Proc.expression (emitJump OP_JUMP (matchToken TOKEN_RIGHT_PAREN t2).2).2 =
          some (j, t) ∧
        currentCode t = currentCode t2 ++ [OP_JUMP, 255, 255] ++ c ∧
        t3 = patchJump (emitJump OP_JUMP (matchToken TOKEN_RIGHT_PAREN t2).2).1
          (emitLoop (currentCount t1)
            (consume TOKEN_RIGHT_PAREN "Expect ')' after for clauses." (emitByte OP_POP t)))) ∧
      exec x n Proc.statement t3 = some (j4, t4) ∧
      currentCode t4 = currentCode t3 ++ body ∧
      close = (closedLocals (currentLocals t4) (scopeDepth t4 - 1)).map closeOpcode ∧
      currentCode u = currentCode s ++ forLayout init cond incr body close ∧
      ((forLayout init cond incr body close).length ≤ 65535 →
        (∀ c, cond = some c →
          jumpTarget (currentCode u) ((currentCode s).length + init.length + c.length + 1) =
            some ((currentCode s).length + init.length + conditionLength cond +
              incrementLength incr + body.length + 3) ∧
          (currentCode u).drop ((currentCode s).length + init.length + conditionLength cond +
              incrementLength incr + body.length + 3) = OP_POP :: close) ∧
        (∀ c, incr = some c →
          jumpTarget (currentCode u)
              ((currentCode s).length + init.length + conditionLength cond + 1) =
            some ((currentCode s).length + init.length + conditionLength cond +
              incrementLength incr) ∧
          ((currentCode u).drop ((currentCode s).length + init.length + conditionLength cond +
              3 + c.length)).take 2 = [OP_POP, OP_LOOP] ∧
          loopTarget (currentCode u)
              ((currentCode s).length + init.length + conditionLength cond + 3 + c.length + 2) =
            some ((currentCode s).length + init.length) ∧
          loopTarget (currentCode u) ((currentCode s).length + init.length +
              conditionLength cond + incrementLength incr + body.length + 1) =
            some ((currentCode s).length + init.length + conditionLength cond + 3)) ∧
        (incr = none →
          loopTarget (currentCode u) ((currentCode s).length + init.length +
              conditionLength cond + body.length + 1) =
            some ((currentCode s).length + init.length))) ∧
      (∀ c, cond = some c → Pushes c 1 →
        Pushes (c ++ [OP_JUMP_IF_FALSE] ++
          shortOperand (incrementLength incr + body.length + 4) ++ [OP_POP]) 0) ∧
      (∀ c, incr = some c → Pushes c 1 →
        Pushes (c ++ [OP_POP, OP_LOOP] ++
          shortOperand (conditionLength cond + c.length + 7)) 0) ∧
      scopeDepth (beginScope s) = scopeDepth s + 1 ∧
      scopeDepth u = scopeDepth t4 - 1 ∧
      currentLocals u = keptLocals (currentLocals t4) (scopeDepth t4 - 1) ∧
      (scopeDepth t4 = scopeDepth s + 1 → scopeDepth u = scopeDepth s ∧
        ∀ old added : List Local, currentLocals t4 = old ++ added →
          old.length = localCount s → (∀ a ∈ added, scopeDepth s < a.depth) →
          (∀ a, old.getLast? = some a → a.depth ≤ scopeDepth s) →
          localCount u = localCount s ∧ currentLocals u = old ∧
          close = added.reverse.map closeOpcode) := by
  obtain ⟨init, body, cond, incr, j1, j4, t1, t2, t3, t4, h1, c1, hc, hc0, hc1, hi, hi0, hi1,
    h4, c4, cu, sd, sl⟩ := forStatement_code x h ⟨hs, rfl⟩
  refine ⟨init, body, _, cond, incr, j1, j4, t1, t2, t3, t4, h1, c1.eq, hc, hc0, ?_, hi, hi0,
    ?_, h4, c4.eq, rfl, cu.eq, ?_, ?_, ?_, (hasCode_beginScope ⟨hs, rfl⟩).2.1, sd, sl, ?_⟩
  · intro c hcc
    obtain ⟨j, t, e1, e2, e3⟩ := hc1 c hcc
    exact ⟨j, t, e1, e2.eq, e3⟩
  · intro c hcc
    obtain ⟨j, t, e1, e2, e3⟩ := hi1 c hcc
    exact ⟨j, t, e1, e2.eq, e3⟩
  · intro hfit
    exact forLayout_targets (currentCode s) init body _ (currentCode u) cond incr cu.eq hfit
  · intro c _ hp d
    have e : c ++ [OP_JUMP_IF_FALSE] ++
        shortOperand (incrementLength incr + body.length + 4) ++ [OP_POP] =
        c ++ ([OP_JUMP_IF_FALSE,
          asUInt8 (((incrementLength incr + body.length + 4 : Nat) : Int) / 256),
          asUInt8 ((incrementLength incr + body.length + 4 : Nat) : Int), OP_POP] ++ []) := by
      simp [shortOperand]
    rw [e, stackAfter_append _ c _ _ _ (hp d), stackAfter_jif_pop]
    rfl
  · intro c _ hp d
    have e : c ++ [OP_POP, OP_LOOP] ++ shortOperand (conditionLength cond + c.length + 7) =
        c ++ ([OP_POP] ++ ([OP_LOOP,
          asUInt8 (((conditionLength cond + c.length + 7 : Nat) : Int) / 256),
          asUInt8 ((conditionLength cond + c.length + 7 : Nat) : Int)] ++ [])) := by
      simp [shortOperand]
    rw [e, stackAfter_append _ c _ _ _ (hp d), stackAfter_pop, stackAfter_loop]
    rfl
  · intro hd
    refine ⟨by rw [sd, hd]; omega, ?_⟩
    intro old added hl hlen hadded hold
    have hk := closedLocals_append old added (scopeDepth t4 - 1)
      (fun a ha => by have := hadded a ha; omega) (fun a ha => by have := hold a ha; omega)
    rw [hl, hk.1]
    rw [hl, hk.2] at sl
    exact ⟨by rw [localCount_eq, sl, hlen], sl, rfl⟩

set_option maxRecDepth 100000 in
theorem forStatement_keeps_pops_balanced_witness :
    forDemo.frames ≠ [] ∧
    exec digitExtern 12 Proc.forStatement forDemo = some (0, forDemoEnd) ∧
    currentCode forDemoEnd =
      [OP_CONSTANT, 0, OP_CONSTANT, 1, OP_JUMP_IF_FALSE, 0, 16, OP_POP, OP_JUMP, 0, 6,
        OP_CONSTANT, 2, OP_POP, OP_LOOP, 0, 15, OP_CONSTANT, 3, OP_PRINT, OP_LOOP, 0, 12,
        OP_POP, OP_POP] ∧
    scopeDepth forDemoEnd = scopeDepth forDemo ∧ localCount forDemoEnd = localCount forDemo ∧
    currentCode foreverDemoEnd = [OP_CONSTANT, 0, OP_PRINT, OP_LOOP, 0, 6] ∧
    ∃ (init body close : List Nat) (cond incr : Option (List Nat)) (j1 j4 : Int)
      (t1 t2 t3 t4 : State),
      forInitializer digitExtern 11 (consume TOKEN_LEFT_PAREN "Expect '(' after 'for'." (beginScope forDemo)) =
        some (j1, t1) ∧
      currentCode t1 = currentCode forDemo ++ init ∧
      (cond = none ↔ (matchToken TOKEN_SEMICOLON t1).1 = true) ∧
      (cond = none → t2 = (matchToken TOKEN_SEMICOLON t1).2) ∧
      (∀ c, cond = some c → ∃ j t,
        exec digitExtern 11 Proc.expression (matchToken TOKEN_SEMICOLON t1).2 = some (j, t) ∧
        currentCode t = currentCode forDemo ++ init ++ c ∧
        t2 = emitByte OP_POP (emitJump OP_JUMP_IF_FALSE
          (consume TOKEN_SEMICOLON "Expect ';' after loop condition." t)).2) ∧
      (incr = none ↔ (matchToken TOKEN_RIGHT_PAREN t2).1 = true) ∧
      (incr = none → t3 = (matchToken TOKEN_RIGHT_PAREN t2).2) ∧
      (∀ c, incr = some c → ∃ j t,
        exec digitExtern 11 Proc.expression (emitJump OP_JUMP (matchToken TOKEN_RIGHT_PAREN t2).2).2 =
          some (j, t) ∧
        currentCode t = currentCode t2 ++ [OP_JUMP, 255, 255] ++ c ∧
        t3 = patchJump (emitJump OP_JUMP (matchToken TOKEN_RIGHT_PAREN t2).2).1
          (emitLoop (currentCount t1)
            (consume TOKEN_RIGHT_PAREN "Expect ')' after for clauses." (emitByte OP_POP t)))) ∧
      exec digitExtern 11 Proc.statement t3 = some (j4, t4) ∧
      currentCode t4 = currentCode t3 ++ body ∧
      close = (closedLocals (currentLocals t4) (scopeDepth t4 - 1)).map closeOpcode ∧
      currentCode forDemoEnd = currentCode forDemo ++ forLayout init cond incr body close ∧
      ((forLayout init cond incr body close).length ≤ 65535 →
        (∀ c, cond = some c →
          jumpTarget (currentCode forDemoEnd) ((currentCode forDemo).length + init.length + c.length + 1) =
            some ((currentCode forDemo).length + init.length + conditionLength cond +
              incrementLength incr + body.length + 3) ∧
          (currentCode forDemoEnd).drop ((currentCode forDemo).length + init.length + conditionLength cond +
              incrementLength incr + body.length + 3) = OP_POP :: close) ∧
        (∀ c, incr = some c →
          jumpTarget (currentCode forDemoEnd)
              ((currentCode forDemo).length + init.length + conditionLength cond + 1) =
            some ((currentCode forDemo).length + init.length + conditionLength cond +
              incrementLength incr) ∧
          ((currentCode forDemoEnd).drop ((currentCode forDemo).length + init.length + conditionLength cond +
              3 + c.length)).take 2 = [OP_POP, OP_LOOP] ∧
          loopTarget (currentCode forDemoEnd)
              ((currentCode forDemo).length + init.length + conditionLength cond + 3 + c.length + 2) =
            some ((currentCode forDemo).length + init.length) ∧
          loopTarget (currentCode forDemoEnd) ((currentCode forDemo).length + init.length +
              conditionLength cond + incrementLength incr + body.length + 1) =
            some ((currentCode forDemo).length + init.length + conditionLength cond + 3)) ∧
        (incr = none →
          loopTarget (currentCode forDemoEnd) ((currentCode forDemo).length + init.length +
              conditionLength cond + body.length + 1) =
            some ((currentCode forDemo).length + init.length))) ∧
      (∀ c, cond = some c → Pushes c 1 →
        Pushes (c ++ [OP_JUMP_IF_FALSE] ++
          shortOperand (incrementLength incr + body.length + 4) ++ [OP_POP]) 0) ∧
      (∀ c, incr = some c → Pushes c 1 →
        Pushes (c ++ [OP_POP, OP_LOOP] ++
          shortOperand (conditionLength cond + c.length + 7)) 0) ∧
      scopeDepth (beginScope forDemo) = scopeDepth forDemo + 1 ∧
      scopeDepth forDemoEnd = scopeDepth t4 - 1 ∧
      currentLocals forDemoEnd = keptLocals (currentLocals t4) (scopeDepth t4 - 1) ∧
      (scopeDepth t4 = scopeDepth forDemo + 1 → scopeDepth forDemoEnd = scopeDepth forDemo ∧
        ∀ old added : List Local, currentLocals t4 = old ++ added →
          old.length = localCount forDemo → (∀ a ∈ added, scopeDepth forDemo < a.depth) →
          (∀ a, old.getLast? = some a → a.depth ≤ scopeDepth forDemo) →
          localCount forDemoEnd = localCount forDemo ∧ currentLocals forDemoEnd = old ∧
          close = added.reverse.map closeOpcode) :=
  ⟨by decide, by decide, by decide, by decide, by decide, by decide,
    forStatement_keeps_pops_balanced digitExtern 11 forDemo forDemoEnd 0 (by decide)
      (by decide)⟩

set_option maxRecDepth 100000 in
/-- C29, the last clause of the claim (the scope opened for the initializer is closed, so
`scopeDepth` and `localCount` are restored) fails on the code. `for (;;) { class A {} }` is
compiled without a report, and the scope depth of the script is 1 after the statement where
it was 0 before it, in the call of `forStatement` and in the function that `compile`
returns: `classDeclaration` in the body opens a scope for `super` that it closes only when
there is a superclass, so the `endScope` of `forStatement` closes that scope and not the one
that its `beginScope` has opened. With `var a;` for the body the depth is 0 again. The local
count is restored in both. -/
theorem forStatement_class_body_depth :
    scopeDepth forClassDemo = 0 ∧ localCount forClassDemo = 1 ∧
    (exec digitExtern 14 Proc.forStatement forClassDemo).map
      (fun r => (scopeDepth r.2, localCount r.2, r.2.stderr)) = some (1, 1, []) ∧
    (scopeDepth (initCompiler digitExtern TYPE_SCRIPT (compileStart forClassTokens startState)),
      scopeDepth (compiledState digitExtern 30 forClassTokens),
      localCount (compiledState digitExtern 30 forClassTokens)) = (0, 1, 1) ∧
    (compile digitExtern 30 forClassTokens startState).map
      (fun r => (r.1.map fun c => (c.scopeDepth, c.locals.length), r.2.stderr)) =
        some (some (1, 1), []) ∧
    (compile digitExtern 30 forVarTokens startState).map
      (fun r => (r.1.map fun c => (c.scopeDepth, c.locals.length), r.2.stderr)) =
        some (some (0, 1), []) := by
  decide



/-! ## The stack effect of expressions -/

theorem effect_pushes {a : List Nat} {k : Nat} : Effect a 0 k ↔ Pushes a k :=
  Iff.rfl

/-- On an array of `2 ^ m` slots with an empty slot, the loop of `findEntry` returns within
`j + 1` iterations for some `j` below the number of slots. -/
theorem findEntryLoop_bound {h : Heap} {es : List Entry} {capacity : Int} {m : Nat}
    (hc : capacity + 1 = 2 ^ m) (hlen : es.length = 2 ^ m)
    (hempty : ∃ (q : Nat) (e : Entry), es[q]? = some e ∧ e.isEmpty = true) (key : Nat) :
    ∃ n i, n ≤ es.length ∧ i < es.length ∧
      findEntryLoop es (asUInt32 capacity) key n ((h key).hash &&& asUInt32 capacity) = some i ∧
      findEntry h es capacity key = some i := by
  have hn : 0 < 2 ^ m := Nat.two_pow_pos m
  obtain ⟨q, eq, hq, hqe⟩ := hempty
  obtain ⟨j, e, hj, he, hs, hfirst⟩ :=
    exists_first_stop (Entry.stops key) hlen (h key).hash
      ⟨q, eq, hq, by simp [Entry.stops, hqe]⟩
  have hloop : ∀ fuel, j < fuel →
      findEntryLoop es (2 ^ m - 1) key fuel ((h key).hash % 2 ^ m) =
        some (((h key).hash + j) % 2 ^ m) := by
    intro fuel hf
    have := @findEntryLoop_first es m key j fuel ((h key).hash % 2 ^ m) hf
      (fun j' hj' => by rw [Nat.mod_add_mod]; exact hfirst j' hj')
      (by rw [Nat.mod_add_mod]; exact ⟨e, he, hs⟩) (Nat.mod_lt _ hn)
    rw [this, Nat.mod_add_mod]
  refine ⟨j + 1, ((h key).hash + j) % 2 ^ m, by omega, by rw [hlen]; exact Nat.mod_lt _ hn,
    ?_, ?_⟩
  · rw [asUInt32_pow capacity m hc, Nat.and_pow_two_sub_one_eq_mod]
    exact hloop _ (by omega)
  · unfold findEntry
    rw [asUInt32_pow capacity m hc, Nat.and_pow_two_sub_one_eq_mod, hlen]
    exact hloop _ hj

/-- The same for the loop of `tableFindString`. -/
theorem tableFindStringLoop_bound {h : Heap} {es : List Entry} {capacity : Int} {m : Nat}
    (hc : capacity + 1 = 2 ^ m) (hlen : es.length = 2 ^ m)
    (hempty : ∃ (q : Nat) (e : Entry), es[q]? = some e ∧ e.isEmpty = true)
    (chars : List Nat) (length : Int) (hash : Nat) :
    ∃ n r, n ≤ es.length ∧
      tableFindStringLoop h es (asUInt32 capacity) chars length hash n
        (hash &&& asUInt32 capacity) = some r ∧
      tableFindStringLoop h es (asUInt32 capacity) chars length hash es.length
        (hash &&& asUInt32 capacity) = some r := by
  have hn : 0 < 2 ^ m := Nat.two_pow_pos m
  obtain ⟨q, eq, hq, hqe⟩ := hempty
  obtain ⟨j, e, hj, he, hs, hfirst⟩ :=
    exists_first_stop (Entry.stopsFind h chars length hash) hlen hash
      ⟨q, eq, hq, by simp [Entry.stopsFind, hqe]⟩
  have hloop : ∀ fuel, j < fuel →
      tableFindStringLoop h es (2 ^ m - 1) chars length hash fuel (hash % 2 ^ m) =
        some e.key := by
    intro fuel hf
    exact @tableFindStringLoop_first h es m chars length hash j fuel (hash % 2 ^ m) e hf
      (fun j' hj' => by rw [Nat.mod_add_mod]; exact hfirst j' hj')
      (by rw [Nat.mod_add_mod]; exact he) hs (Nat.mod_lt _ hn)
  refine ⟨j + 1, e.key, by omega, ?_, ?_⟩
  · rw [asUInt32_pow capacity m hc, Nat.and_pow_two_sub_one_eq_mod]
    exact hloop _ (by omega)
  · rw [asUInt32_pow capacity m hc, Nat.and_pow_two_sub_one_eq_mod, hlen]
    exact hloop _ hj

/-- The table whose entries `tableSet` probes, after the growth if there is one: it is
well-formed and has an entry array. -/
theorem tableSet_grown {h : Heap} {t : Table} (hw : WF h t) :
    ∃ t1, (if exceedsMaxLoad t.count t.capacity then
        adjustCapacity h t (GROW_CAPACITY (t.capacity + 1) - 1) else some t) = some t1 ∧
      WF h t1 ∧ t1.capacity ≠ -1 := by
  by_cases hx : exceedsMaxLoad t.count t.capacity = true
  · have hcap : t.capacity + 1 = 0 ∨ ∃ m : Nat, t.capacity + 1 = 2 ^ m := by
      rcases hw.pow with h1 | h1
      · left; omega
      · exact Or.inr h1
    obtain ⟨m', hm', h8, hdbl⟩ := GROW_CAPACITY_pow hcap
    have hL := liveCount_le_nonEmpty t.entries
    have hce := hw.count_eq
    have hload := hw.load
    have hm'' : ((2 : Int) ^ m') = ((2 ^ m' : Nat) : Int) := by push_cast; rfl
    rw [hm''] at hm'
    have hroom : t.entries.countP (fun e => e.key.isSome) < 2 ^ m' := by
      generalize (2 ^ m' : Nat) = x at hm'
      omega
    obtain ⟨t1, hadj, hcap1, hlen1, hp1, _, hlive1, hcnt1, hcnt1'⟩ :=
      @adjustCapacity_spec h t hw (GROW_CAPACITY (t.capacity + 1) - 1) m'
        (by rw [hm'']; omega) hroom
    have hw1 : WF h t1 := by
      refine ⟨by rw [hlen1, hcap1]; omega, Or.inr ⟨m', by rw [hcap1, hm'']; omega⟩,
        hcnt1', ?_, hp1⟩
      rw [hcnt1, hcap1]
      omega
    exact ⟨t1, by rw [if_pos hx]; exact hadj, hw1, by rw [hcap1]; omega⟩
  · have hroom : 5 * (t.count + 1) ≤ 3 * (t.capacity + 1) := by
      simpa [exceedsMaxLoad] using hx
    have := hw.count_nonneg
    exact ⟨t, by rw [if_neg hx], hw, by omega⟩

/-- The probe loops on a well-formed table with an entry array return within as many
iterations as the array has slots. -/
theorem WF.probe_bound {h : Heap} {t : Table} (hw : WF h t) (hne : t.capacity ≠ -1)
    (key : Nat) (chars : List Nat) (length : Int) (hash : Nat) :
    (∃ n i, n ≤ t.entries.length ∧ i < t.entries.length ∧
      findEntryLoop t.entries (asUInt32 t.capacity) key n
        ((h key).hash &&& asUInt32 t.capacity) = some i ∧
      findEntry h t.entries t.capacity key = some i) ∧
    (∃ n r, n ≤ t.entries.length ∧
      tableFindStringLoop h t.entries (asUInt32 t.capacity) chars length hash n
        (hash &&& asUInt32 t.capacity) = some r ∧
      tableFindStringLoop h t.entries (asUInt32 t.capacity) chars length hash
        t.entries.length (hash &&& asUInt32 t.capacity) = some r) := by
  rcases hw.pow with h1 | ⟨m, hm⟩
  · exact absurd h1 hne
  · exact ⟨findEntryLoop_bound hm (hw.length_eq hm) (hw.exists_empty hne) key,
      tableFindStringLoop_bound hm (hw.length_eq hm) (hw.exists_empty hne) chars length hash⟩

/-- C33: table probing terminates. For every table `t` built from `initTable` by calls of
`tableSet`, `tableDelete` and `tableRemoveWhite`, every key and every query
`(chars, length, hash)`: `tableGet`, `tableSet`, `tableDelete` and `tableFindString`
return. The entry array has `capacity + 1` slots. When `capacity` is -1, `count` is 0 and
there is no array, and `tableGet`, `tableDelete` and `tableFindString` return at the test
`count == 0`, before an entry is indexed. Otherwise the array holds an empty slot that is
no tombstone, and the loop of `findEntry` on the table and the loop of `tableFindString`
return within `n` iterations, one slot visited in each, for some `n` that is at most
`capacity + 1`, and the slot returned by `findEntry` is inside the array. `tableSet` probes
the table as it is after the growth, if there is one, and there the same holds. -/
theorem table_probing_terminates (h : Heap) (t : Table) (hr : Reachable h t) (key : Nat)
    (value : Value) (chars : List Nat) (length : Int) (hash : Nat) :
    (∃ r, tableGet h t key = some r) ∧ (∃ r, tableSet h t key value = some r) ∧
    (∃ r, tableDelete h t key = some r) ∧
    (∃ r, tableFindString h t chars length hash = some r) ∧
    (t.entries.length : Int) = t.capacity + 1 ∧
    (t.capacity = -1 → t.count = 0 ∧ t.entries = [] ∧ tableGet h t key = some none ∧
      tableDelete h t key = some (false, t) ∧
      tableFindString h t chars length hash = some none) ∧
    (t.capacity ≠ -1 →
      (∃ (q : Nat) (e : Entry), t.entries[q]? = some e ∧ e.isEmpty = true) ∧
      (∃ (n i : Nat), (n : Int) ≤ t.capacity + 1 ∧ i < t.entries.length ∧
        findEntryLoop t.entries (asUInt32 t.capacity) key n
          ((h key).hash &&& asUInt32 t.capacity) = some i ∧
        findEntry h t.entries t.capacity key = some i) ∧
      (∃ (n : Nat) (r : Option Nat), (n : Int) ≤ t.capacity + 1 ∧
        tableFindStringLoop h t.entries (asUInt32 t.capacity) chars length hash n
          (hash &&& asUInt32 t.capacity) = some r ∧
        (t.count ≠ 0 → tableFindString h t chars length hash = some r))) ∧
    (∃ t1, (if exceedsMaxLoad t.count t.capacity then
        adjustCapacity h t (GROW_CAPACITY (t.capacity + 1) - 1) else some t) = some t1 ∧
      t1.capacity ≠ -1 ∧
      (∃ (q : Nat) (e : Entry), t1.entries[q]? = some e ∧ e.isEmpty = true) ∧
      ∃ (n i : Nat), (n : Int) ≤ t1.capacity + 1 ∧ i < t1.entries.length ∧
        findEntryLoop t1.entries (asUInt32 t1.capacity) key n
          ((h key).hash &&& asUInt32 t1.capacity) = some i ∧
        findEntry h t1.entries t1.capacity key = some i) := by
  have hw := hr.wf
  obtain ⟨r1, h1, _⟩ := tableGet_spec hw key
  obtain ⟨b, t', h2, _⟩ := tableSet_spec hw key value
  have h3 : ∃ r, tableDelete h t key = some r := by
    rcases tableDelete_spec hw key with ⟨i, v, _, hd⟩ | ⟨_, hd⟩
    · exact ⟨_, hd⟩
    · exact ⟨_, hd⟩
  obtain ⟨r4, h4, _⟩ := tableFindString_spec hw chars length hash
  refine ⟨⟨r1, h1⟩, ⟨_, h2⟩, h3, ⟨r4, h4⟩, hw.len, ?_, ?_, ?_⟩
  · intro hc
    have hcount : t.count = 0 := by
      have := hw.load
      have := hw.count_nonneg
      rw [hc] at *
      omega
    have hnil : t.entries = [] := by
      have := hw.len
      rw [hc] at this
      exact List.length_eq_zero.1 (by omega)
    refine ⟨hcount, hnil, ?_, ?_, ?_⟩
    · unfold tableGet
      rw [if_pos hcount]
    · unfold tableDelete
      rw [if_pos hcount]
    · unfold tableFindString
      rw [if_pos hcount]
  · intro hne
    obtain ⟨⟨n, i, hn, hi, hloop, hfind⟩, ⟨n', r, hn', hloop', hfull⟩⟩ :=
      hw.probe_bound hne key chars length hash
    have hlen := hw.len
    refine ⟨hw.exists_empty hne, ⟨n, i, by omega, hi, hloop, hfind⟩,
      ⟨n', r, by omega, hloop', ?_⟩⟩
    intro hc
    unfold tableFindString
    rw [if_neg hc]
    exact hfull
  · obtain ⟨t1, hg, hw1, hne1⟩ := tableSet_grown (h := h) hw
    obtain ⟨⟨n, i, hn, hi, hloop, hfind⟩, _⟩ := hw1.probe_bound hne1 key chars length hash
    have hlen := hw1.len
    exact ⟨t1, hg, hne1, hw1.exists_empty hne1, n, i, by omega, hi, hloop, hfind⟩

set_option maxRecDepth 100000 in
theorem table_probing_terminates_witness :
    Reachable demoHeap demoTable ∧ Reachable demoHeap initTable ∧
    tableGet demoHeap demoTable 17 = some (some (Value.number 30)) ∧
    findEntryLoop demoTable.entries (asUInt32 demoTable.capacity) 17 3
      ((demoHeap 17).hash &&& asUInt32 demoTable.capacity) = some 3 ∧
    (∃ r, tableGet demoHeap demoTable 17 = some r) ∧
    (initTable.capacity = -1 → initTable.count = 0 ∧ initTable.entries = [] ∧
      tableGet demoHeap initTable 17 = some none ∧
      tableDelete demoHeap initTable 17 = some (false, initTable) ∧
      tableFindString demoHeap initTable [17] 1 1 = some none) :=
  ⟨demoTable_reachable, Reachable.init, by decide, by decide,
    (table_probing_terminates demoHeap demoTable demoTable_reachable 17 Value.nil [17] 1 1).1,
    (table_probing_terminates demoHeap initTable Reachable.init 17 Value.nil
      [17] 1 1).2.2.2.2.2.1⟩

/-! ## Panic mode: one report between two calls of `synchronize` -/

theorem plain_refl (s : State) : Plain s s :=
  ⟨fun h => ⟨h, rfl⟩, fun h => Or.inl ⟨h, rfl⟩⟩

theorem plain_trans {s t u : State} (h1 : Plain s t) (h2 : Plain t u) : Plain s u := by
  constructor
  · intro hp
    obtain ⟨a, b⟩ := h1.panic hp
    obtain ⟨c, d⟩ := h2.panic a
    exact ⟨c, d.trans b⟩
  · intro hc
    rcases h1.calm hc with ⟨a, b⟩ | ⟨a, e, b⟩
    · rcases h2.calm a with ⟨c, d⟩ | ⟨c, e, d⟩
      · exact Or.inl ⟨c, d.trans b⟩
      · exact Or.inr ⟨c, e, by rw [d, b]⟩
    · obtain ⟨c, d⟩ := h2.panic a
      exact Or.inr ⟨c, e, d.trans b⟩

theorem plain_of_eq {s t : State} (h1 : t.parser.panicMode = s.parser.panicMode)
    (h2 : t.stderr = s.stderr) : Plain s t :=
  ⟨fun h => ⟨h1.trans h, h2⟩, fun h => Or.inl ⟨h1.trans h, h2⟩⟩

theorem plain_errorAt (token : Token) (message : String) (s : State) :
    Plain s (errorAt token message s) := by
  unfold errorAt
  split
  · exact plain_refl s
  · next h =>
    constructor
    · intro hp
      exact absurd hp h
    · intro _
      exact Or.inr ⟨rfl, _, rfl⟩

theorem plain_advanceLoop (fuel : Nat) : ∀ s : State, Plain s (advanceLoop fuel s) := by
  induction fuel with
  | zero => intro s; exact plain_refl s
  | succ fuel ih =>
    intro s
    unfold advanceLoop
    simp only
    split
    · exact plain_of_eq rfl rfl
    · refine plain_trans ?_ (ih _)
      unfold errorAtCurrent
      refine plain_trans ?_ (plain_errorAt _ _ _)
      exact plain_of_eq rfl rfl

theorem plain_advance (s : State) : Plain s (advance s) := by
  unfold advance
  refine plain_trans ?_ (plain_advanceLoop _ _)
  exact plain_of_eq rfl rfl

theorem modifyCurrent_stderr (f : Compiler → Compiler) (s : State) :
    (modifyCurrent f s).stderr = s.stderr := by
  unfold modifyCurrent
  split <;> rfl

theorem plain_modifyCurrent (f : Compiler → Compiler) (s : State) :
    Plain s (modifyCurrent f s) :=
  plain_of_eq (by rw [modifyCurrent_parserEq]) (modifyCurrent_stderr f s)

theorem plain_modifyFrame (ci : Nat) (f : Compiler → Compiler) (s : State) :
    Plain s (modifyFrame ci f s) := by
  unfold modifyFrame
  split <;> exact plain_of_eq rfl rfl

theorem plain_endScopeLoop (n : Nat) : ∀ s : State, Plain s (endScopeLoop n s) := by
  induction n with
  | zero => intro s; exact plain_refl s
  | succ n ih =>
    intro s
    unfold endScopeLoop
    split
    · exact plain_refl s
    · split
      · exact plain_refl s
      · split
        · refine plain_trans ?_ (ih _)
          refine plain_trans ?_ (plain_modifyCurrent _ _)
          split <;> exact plain_modifyCurrent _ _
        · exact plain_refl s

theorem plain_makeConstant (value : Value) (s : State) : Plain s (makeConstant value s).2 := by
  unfold makeConstant
  simp only
  split
  · exact plain_trans (plain_modifyCurrent _ _) (plain_errorAt _ _ _)
  · exact plain_modifyCurrent _ _

theorem plain_patchJump (offset : Int) (s : State) : Plain s (patchJump offset s) := by
  unfold patchJump
  refine plain_trans ?_ (plain_modifyCurrent _ _)
  split
  · exact plain_errorAt _ _ _
  · exact plain_refl s

theorem plain_addLocal (name : String) (s : State) : Plain s (addLocal name s) := by
  unfold addLocal
  split
  · exact plain_errorAt _ _ _
  · exact plain_modifyCurrent _ _

theorem plain_addUpvalue (ci index : Nat) (isLocal : Bool) (s : State) :
    Plain s (addUpvalue ci index isLocal s).2 := by
  unfold addUpvalue
  split
  · exact plain_of_eq rfl rfl
  · split
    · exact plain_refl s
    · simp only
      split
      · exact plain_errorAt _ _ _
      · exact plain_modifyFrame _ _ _

theorem plain_setCaptured (ci : Nat) (index : Int) (s : State) :
    Plain s (setCaptured ci index s) := by
  unfold setCaptured
  split
  · exact plain_of_eq rfl rfl
  · split
    · split <;> exact plain_of_eq rfl rfl
    · exact plain_of_eq rfl rfl

theorem plain_markInitialized (s : State) : Plain s (markInitialized s) := by
  unfold markInitialized
  split
  · exact plain_refl s
  · split
    · exact plain_of_eq rfl rfl
    · split <;> exact plain_of_eq rfl rfl

theorem plain_endCompiler (s : State) : Plain s (endCompiler s).2 :=
  plain_of_eq (by rw [endCompiler_parserEq]) (by
    unfold endCompiler
    simp only
    split <;> exact emitReturn_stderr s)

/-- A run stays segmented when its last segment goes on without a call of `synchronize`. -/
theorem segmented_then {calls : List State} : ∀ {a s t : State}, Segmented a calls s →
    Plain s t → Segmented a calls t := by
  induction calls with
  | nil => intro a s t h1 h2; exact plain_trans h1 h2
  | cons c calls ih => intro a s t h1 h2; exact ⟨h1.1, ih h1.2 h2⟩

/-- The loop of `synchronize` only advances. -/
theorem plain_synchronizeLoop (fuel : Nat) : ∀ s : State, Plain s (synchronizeLoop fuel s) := by
  induction fuel with
  | zero => intro s; exact plain_refl s
  | succ fuel ih =>
    intro s
    unfold synchronizeLoop
    split
    · split
      · exact plain_refl s
      · split <;> first | exact plain_refl s | exact plain_trans (plain_advance s) (ih _)
    · exact plain_refl s

/-- A call of `synchronize` in panic mode ends a segment and starts the next one. -/
theorem segmented_call {calls : List State} : ∀ {a s : State}, Segmented a calls s →
    s.parser.panicMode = true → Segmented a (calls ++ [s]) (synchronize s) := by
  induction calls with
  | nil => intro a s h1 h2; exact ⟨⟨h1, h2⟩, plain_synchronizeLoop _ _⟩
  | cons c calls ih => intro a s h1 h2; exact ⟨h1.1, ih h1.2 h2⟩

instance (a : State) (calls : List State) : SegmentInvariant (Segmented a calls) where
  errorAt_keeps token message s hs := segmented_then hs (plain_errorAt token message s)
  advance_keeps s hs := segmented_then hs (plain_advance s)
  faults_keeps _ _ hs := segmented_then hs (plain_of_eq rfl rfl)
  classes_keeps _ _ hs := segmented_then hs (plain_of_eq rfl rfl)
  emitByte_keeps _ s hs := segmented_then hs (plain_modifyCurrent _ s)
  makeConstant_keeps value s hs := segmented_then hs (plain_makeConstant value s)
  beginScope_keeps s hs := segmented_then hs (plain_modifyCurrent _ s)
  endScope_keeps s hs :=
    segmented_then hs (plain_trans (plain_modifyCurrent _ s) (plain_endScopeLoop _ _))
  addLocal_keeps name s hs := segmented_then hs (plain_addLocal name s)
  addUpvalue_keeps ci index isLocal s hs := segmented_then hs (plain_addUpvalue ci index isLocal s)
  setCaptured_keeps ci index s hs := segmented_then hs (plain_setCaptured ci index s)
  markInitialized_keeps s hs := segmented_then hs (plain_markInitialized s)
  arity_keeps s hs := segmented_then hs (plain_modifyCurrent _ s)

instance (a : State) (calls : List State) (offset : Int) :
    InvStep (Segmented a calls) (patchJump offset) :=
  ⟨fun h => segmented_then h (plain_patchJump offset _)⟩

instance (a : State) (calls : List State) (x : Extern) (type : FunctionType) :
    InvStep (Segmented a calls) (initCompiler x type) :=
  ⟨fun h => segmented_then h (plain_of_eq rfl rfl)⟩

instance (a : State) (calls : List State) : InvStep2 (Segmented a calls) endCompiler :=
  ⟨fun h => segmented_then h (plain_endCompiler _)⟩

theorem syncFree_proc (fn : ParseFn) (canAssign : Bool) :
    syncFree (fn.proc canAssign) = true := by
  cases fn <;> rfl

set_option maxHeartbeats 4000000 in
/-- The procedures that do not lead to `synchronize` keep a property that the elementary
steps other than `synchronize` keep. -/
theorem exec_segment (x : Extern) (I : State → Prop) [SegmentInvariant I]
    [∀ offset : Int, InvStep I (patchJump offset)] :
    ∀ (n : Nat) (p : Proc) (s : State), syncFree p = true → I s → Post I (exec x n p s) := by
  intro n
  induction n with
  | zero =>
    intro p s _ _
    constructor
    intro r h
    simp [exec] at h
  | succ n ih =>
    intro p s hp hs
    cases p <;> first
      | (simp [syncFree] at hp; done)
      | (simp only [exec]; with_reducible
          (repeat' (first | assumption | apply syncFree_proc | (with_unfolding_all rfl) | apply ih | apply post_bind | apply post_ite | apply post_some | intro _ | apply inv_ite | dsimp only | apply inv_step | apply inv_step2 | split)))

theorem postL_some {I : List State → State → Prop} {calls : List State} {i : Int} {t : State}
    (h : I calls t) : PostL I calls (some ((i, t), [])) :=
  ⟨fun r hr => by cases hr; simpa using h⟩

theorem postL_bind {I : List State → State → Prop} {calls : List State}
    {a : Option ((Int × State) × List State)}
    {f : Int × State → Option ((Int × State) × List State)} (ha : PostL I calls a)
    (hf : ∀ (r : Int × State) (calls1 : List State), I calls1 r.2 → PostL I calls1 (f r)) :
    PostL I calls (bindLog a f) := by
  constructor
  intro r h
  unfold bindLog at h
  obtain ⟨v, hv, hr⟩ := Option.bind_eq_some.1 h
  obtain ⟨q, hq, hr⟩ := Option.map_eq_some'.1 hr
  subst hr
  have := (hf v.1 (calls ++ v.2) (ha.out v hv)).out q hq
  simpa using this

theorem postL_lift {I : List State → State → Prop} {calls : List State}
    {o : Option (Int × State)} (h : Post (I calls) o) : PostL I calls (liftLog o) := by
  constructor
  intro r hr
  unfold liftLog at hr
  obtain ⟨q, hq, hr⟩ := Option.map_eq_some'.1 hr
  subst hr
  simpa using h.out q hq

theorem postL_call {a : State} {calls : List State} {i : Int} {s : State}
    (h : Segmented a calls s) (hp : s.parser.panicMode = true) :
    PostL (Segmented a) calls (some ((i, synchronize s), [s])) :=
  ⟨fun r hr => by cases hr; exact segmented_call h hp⟩

set_option maxHeartbeats 4000000 in
/-- Every run of a procedure is segmented by its calls of `synchronize`. -/
theorem execLog_post (x : Extern) (a : State) :
    ∀ (n : Nat) (p : Proc) (s : State) (calls : List State), Segmented a calls s →
      PostL (Segmented a) calls (execLog x n p s) := by
  intro n
  induction n with
  | zero =>
    intro p s calls _
    constructor
    intro r h
    simp [execLog] at h
  | succ n ih =>
    intro p s calls hs
    cases p <;> first
      | (simp only [execLog]; apply postL_lift; exact exec_segment x _ _ _ _ rfl hs)
      | (simp only [execLog]; with_reducible
          (repeat' (first | assumption | apply ih | apply postL_bind | apply postL_call | apply postL_some | intro _ | apply inv_ite | dsimp only | apply inv_step | apply inv_step2 | split)))

theorem erase_bind {a : Option ((Int × State) × List State)} {b : Option (Int × State)}
    {f : Int × State → Option ((Int × State) × List State)}
    {g : Int × State → Option (Int × State)} (ha : a.map Prod.fst = b)
    (hf : ∀ r, (f r).map Prod.fst = g r) : (bindLog a f).map Prod.fst = b.bind g := by
  subst ha
  unfold bindLog
  cases a with
  | none => rfl
  | some v =>
    simp only [Option.some_bind, Option.map_some', Option.map_map]
    rw [← hf v.1]
    cases f v.1 <;> rfl

theorem erase_ite {a b : Option ((Int × State) × List State)} {a1 b1 : Option (Int × State)}
    (c : Prop) [Decidable c] (ha : a.map Prod.fst = a1) (hb : b.map Prod.fst = b1) :
    (if c then a else b).map Prod.fst = if c then a1 else b1 := by
  split
  · exact ha
  · exact hb

theorem erase_some (r : Int × State) (calls : List State) :
    (some (r, calls)).map Prod.fst = some r :=
  rfl

theorem erase_lift (o : Option (Int × State)) : (liftLog o).map Prod.fst = o := by
  cases o <;> rfl

theorem erase_bind_state {β : Type} {a : Option ((Int × State) × List State)}
    {b : Option (β × State)} {f : Int × State → Option ((Int × State) × List State)}
    {g : β × State → Option (Int × State)}
    (ha : a.map (fun r => r.1.2) = b.map Prod.snd)
    (hf : ∀ (r : Int × State) (r1 : β × State), r.2 = r1.2 → (f r).map Prod.fst = g r1) :
    (bindLog a f).map Prod.fst = b.bind g := by
  unfold bindLog
  cases a with
  | none =>
    cases b with
    | none => rfl
    | some w => simp at ha
  | some v =>
    cases b with
    | none => simp at ha
    | some w =>
      simp only [Option.map_some', Option.some.injEq] at ha
      simp only [Option.some_bind, Option.map_map]
      rw [← hf v.1 w ha]
      cases f v.1 <;> rfl

theorem state_bind {β : Type} {a : Option ((Int × State) × List State)}
    {b : Option (Int × State)} {f : Int × State → Option ((Int × State) × List State)}
    {g : Int × State → Option (β × State)} (ha : a.map Prod.fst = b)
    (hf : ∀ r, (f r).map (fun r => r.1.2) = (g r).map Prod.snd) :
    (bindLog a f).map (fun r => r.1.2) = (b.bind g).map Prod.snd := by
  subst ha
  unfold bindLog
  cases a with
  | none => rfl
  | some v =>
    simp only [Option.some_bind, Option.map_some', Option.map_map]
    rw [← hf v.1]
    cases f v.1 <;> rfl

theorem state_ite {β : Type} {a b : Option ((Int × State) × List State)}
    {a1 b1 : Option (β × State)} (c : Prop) [Decidable c]
    (ha : a.map (fun r => r.1.2) = a1.map Prod.snd)
    (hb : b.map (fun r => r.1.2) = b1.map Prod.snd) :
    (if c then a else b).map (fun r => r.1.2) = (if c then a1 else b1).map Prod.snd := by
  split
  · exact ha
  · exact hb

set_option maxHeartbeats 4000000 in
/-- Without the record, `execLog` is `exec`. -/
theorem execLog_erase (x : Extern) :
    ∀ (n : Nat) (p : Proc) (s : State), (execLog x n p s).map Prod.fst = exec x n p s := by
  intro n
  induction n with
  | zero => intro p s; rfl
  | succ n ih =>
    intro p s
    cases p
    case classDeclaration =>
      simp only [execLog, exec]
      refine erase_bind_state ?_ ?_
      · refine state_ite _ ?_ rfl
        refine state_bind (ih _ _) ?_
        intro r
        exact state_bind (ih _ _) (fun _ => rfl)
      · intro r r1 h
        obtain ⟨i, t⟩ := r
        obtain ⟨j, t1⟩ := r1
        simp only at h
        subst h
        with_reducible
          (repeat' (first | apply ih | apply erase_bind | apply erase_ite | apply erase_some | intro _))
    all_goals first
      | (simp only [execLog]; exact erase_lift _)
      | (simp only [execLog, exec]; with_reducible
          (repeat' (first | apply ih | apply erase_bind | apply erase_ite | apply erase_some | intro _ | rfl | dsimp only | split)))

/-! ## `synchronize` stops at the first statement boundary -/

theorem atBoundary_iff (s : State) :
    atBoundary s = true ↔
      s.parser.current.type = TOKEN_EOF ∨ s.parser.previous.type = TOKEN_SEMICOLON ∨
      s.parser.current.type ∈ [TOKEN_CLASS, TOKEN_FUN, TOKEN_VAR, TOKEN_FOR, TOKEN_IF,
        TOKEN_WHILE, TOKEN_PRINT, TOKEN_RETURN] := by
  unfold atBoundary
  cases s.parser.current.type <;> simp

/-- One turn of the loop of `synchronize`. -/
theorem synchronizeLoop_step (fuel : Nat) (s : State) :
    synchronizeLoop (fuel + 1) s =
      if atBoundary s = true then s else synchronizeLoop fuel (advance s) := by
  rw [synchronizeLoop]
  unfold atBoundary
  by_cases h1 : s.parser.current.type = TOKEN_EOF
  · simp [h1]
  · by_cases h2 : s.parser.previous.type = TOKEN_SEMICOLON
    · simp [h1, h2]
    · simp only [ne_eq, h1, not_false_eq_true, if_true, h2, if_false, decide_False,
        Bool.false_or]
      split <;> simp

theorem remaining_le_length (s : State) : remaining s ≤ s.source.length + 1 := by
  have h := tokensBeforeEOF_le_length s.source
  unfold remaining
  split <;> omega

/-- The loop of `synchronize` advances to the first statement boundary. -/
theorem synchronizeLoop_spec (fuel : Nat) : ∀ s : State, remaining s ≤ fuel →
    ∃ k, k ≤ remaining s ∧ synchronizeLoop fuel s = advanceTimes k s ∧
      atBoundary (advanceTimes k s) = true ∧
      ∀ j, j < k → atBoundary (advanceTimes j s) = false := by
  induction fuel with
  | zero =>
    intro s h
    refine ⟨0, Nat.zero_le _, rfl, ?_, fun j hj => absurd hj (Nat.not_lt_zero j)⟩
    have h0 : s.parser.current.type = TOKEN_EOF := by
      by_contra hne
      simp only [remaining, if_neg hne] at h
      omega
    exact (atBoundary_iff s).2 (Or.inl h0)
  | succ fuel ih =>
    intro s h
    rw [synchronizeLoop_step]
    by_cases hb : atBoundary s = true
    · rw [if_pos hb]
      exact ⟨0, Nat.zero_le _, rfl, hb, fun j hj => absurd hj (Nat.not_lt_zero j)⟩
    · rw [if_neg hb]
      have hne : s.parser.current.type ≠ TOKEN_EOF := fun h0 =>
        hb ((atBoundary_iff s).2 (Or.inl h0))
      have hlt := remaining_advance_lt s hne
      obtain ⟨k, hk, he, hat, hmin⟩ := ih (advance s) (by omega)
      refine ⟨k + 1, by omega, he, hat, ?_⟩
      intro j hj
      cases j with
      | zero => simpa using hb
      | succ j => exact hmin j (by omega)

theorem scanToken_quiet (source : List Token) (h : ∀ t ∈ source, t.type ≠ TOKEN_ERROR) :
    (scanToken source).1.type ≠ TOKEN_ERROR ∧ ∀ t ∈ (scanToken source).2, t ∈ source := by
  cases source with
  | nil => exact ⟨by decide, fun t ht => ht⟩
  | cons a rest =>
    unfold scanToken
    simp only
    split
    · exact ⟨h a (List.mem_cons_self _ _), fun t ht => ht⟩
    · exact ⟨h a (List.mem_cons_self _ _), fun t ht => List.mem_cons_of_mem _ ht⟩

/-- An `advance` over a source without `TOKEN_ERROR` reports nothing. -/
theorem advance_quiet {s : State} (h : ∀ t ∈ s.source, t.type ≠ TOKEN_ERROR) :
    (advance s).parser.panicMode = s.parser.panicMode ∧ (advance s).stderr = s.stderr ∧
    ∀ t ∈ (advance s).source, t.type ≠ TOKEN_ERROR := by
  have hty := scanToken_quiet s.source h
  unfold advance advanceLoop
  simp only
  rw [if_pos hty.1]
  exact ⟨rfl, rfl, fun t ht => h t (hty.2 t ht)⟩

theorem advanceTimes_quiet (k : Nat) : ∀ {s : State},
    (∀ t ∈ s.source, t.type ≠ TOKEN_ERROR) →
    (advanceTimes k s).parser.panicMode = s.parser.panicMode ∧
    (advanceTimes k s).stderr = s.stderr := by
  induction k with
  | zero => intro s _; exact ⟨rfl, rfl⟩
  | succ k ih =>
    intro s h
    obtain ⟨h1, h2, h3⟩ := advance_quiet h
    obtain ⟨h4, h5⟩ := ih h3
    exact ⟨h4.trans h1, h5.trans h2⟩


/-- An `advance` that scans no `TOKEN_ERROR` reports nothing. -/
theorem advance_meets_none {t : State} (h : meetsError t = false) :
    (advance t).parser.panicMode = t.parser.panicMode ∧ (advance t).stderr = t.stderr := by
  have hty : (scanToken t.source).1.type ≠ TOKEN_ERROR := by
    simpa [meetsError] using h
  unfold advance advanceLoop
  simp only
  rw [if_pos hty]
  exact ⟨rfl, rfl⟩

/-- An `advance` that scans a `TOKEN_ERROR` returns in panic mode. -/
theorem advance_meets {t : State} (h : meetsError t = true) :
    (advance t).parser.panicMode = true := by
  have hty : ¬ (scanToken t.source).1.type ≠ TOKEN_ERROR := by
    simpa [meetsError] using h
  unfold advance advanceLoop
  simp only
  rw [if_neg hty]
  refine ((plain_advanceLoop _ _).panic ?_).1
  unfold errorAtCurrent errorAt
  split
  · assumption
  · rfl

theorem plain_advanceTimes (k : Nat) : ∀ t : State, Plain t (advanceTimes k t) := by
  induction k with
  | zero => intro t; exact plain_refl t
  | succ k ih => intro t; exact plain_trans (plain_advance t) (ih _)

/-- Calls of `advance` from a state out of panic mode end in panic mode exactly when one of
them scans a `TOKEN_ERROR`. -/
theorem advanceTimes_panic_iff (k : Nat) : ∀ t : State, t.parser.panicMode = false →
    ((advanceTimes k t).parser.panicMode = true ↔
      ∃ j, j < k ∧ meetsError (advanceTimes j t) = true) := by
  induction k with
  | zero =>
    intro t ht
    constructor
    · intro h
      rw [show advanceTimes 0 t = t from rfl, ht] at h
      exact absurd h (by decide)
    · rintro ⟨j, hj, _⟩
      exact absurd hj (Nat.not_lt_zero j)
  | succ k ih =>
    intro t ht
    show (advanceTimes k (advance t)).parser.panicMode = true ↔ _
    by_cases hm : meetsError t = true
    · constructor
      · intro _
        exact ⟨0, Nat.succ_pos k, hm⟩
      · intro _
        exact ((plain_advanceTimes k (advance t)).panic (advance_meets hm)).1
    · have hm1 : meetsError t = false := by simpa using hm
      have hc : (advance t).parser.panicMode = false := (advance_meets_none hm1).1.trans ht
      rw [ih (advance t) hc]
      constructor
      · rintro ⟨j, hj, h⟩
        exact ⟨j + 1, by omega, h⟩
      · rintro ⟨j, hj, h⟩
        cases j with
        | zero => exact absurd h hm
        | succ j => exact ⟨j, by omega, h⟩

/-- The calls of `synchronize` of a run follow each other with exactly one report between
them. -/
theorem segmented_chain {calls : List State} : ∀ {s u : State}, Segmented s calls u →
    List.Chain' (fun t t1 : State => ∃ e, t1.stderr = t.stderr ++ [e]) calls := by
  induction calls with
  | nil => intro s u _; exact List.chain'_nil
  | cons t calls ih =>
    intro s u h
    cases calls with
    | nil => exact List.chain'_singleton t
    | cons t1 calls =>
      refine List.chain'_cons.2 ⟨?_, ih h.2⟩
      have h1 : Plain (clearPanic t) t1 := h.2.1.1
      have h2 : t1.parser.panicMode = true := h.2.1.2
      rcases h1.calm rfl with ⟨a, _⟩ | ⟨_, e, he⟩
      · rw [h2] at a
        exact absurd a (by decide)
      · exact ⟨e, he⟩


/-- Every call of `synchronize` of a segmented run is made in panic mode. -/
theorem segmented_panic {calls : List State} : ∀ {s u : State}, Segmented s calls u →
    ∀ t ∈ calls, t.parser.panicMode = true := by
  induction calls with
  | nil => intro s u _ t ht; exact absurd ht (List.not_mem_nil t)
  | cons c calls ih =>
    intro s u h t ht
    rcases List.mem_cons.1 ht with rfl | ht
    · exact h.1.2
    · exact ih h.2 t ht

set_option maxRecDepth 100000 in
/-- C32, the claim as stated fails. The tokens of `var 1 @ ; print 2;` end in `TOKEN_EOF`,
and the scanner answers `@` with a `TOKEN_ERROR`. The `declaration` of `var 1` reports
"Expect variable name." and calls `synchronize` in panic mode; `synchronize` clears
`panicMode`, and its second `advance` meets the `TOKEN_ERROR`, for which `advance` calls
`errorAtCurrent`: "Unexpected character." is printed and `panicMode` is set again. So
`synchronize` returns, behind the semicolon, with `panicMode == true`. -/
theorem synchronize_returns_in_panic_mode :
    panicTokens.getLast? = some (symbolToken TOKEN_EOF "") ∧
    exec digitExtern 13 Proc.declaration panicDemo = some (0, synchronize panicDemoCall) ∧
    panicDemoCall.parser.panicMode = true ∧
    messagesOf panicDemoCall = ["Expect variable name."] ∧
    (synchronize panicDemoCall).parser.panicMode = true ∧
    messagesOf (synchronize panicDemoCall) =
      ["Expect variable name.", "Unexpected character."] ∧
    (synchronize panicDemoCall).parser.previous.type = TOKEN_SEMICOLON := by
  decide

/-- C32, amended: `synchronize` stops at the first statement boundary. From every state,
whatever tokens are still to be scanned (the scanner delivers `TOKEN_EOF` from the end of
the source on), `synchronize` returns after clearing `panicMode` and calling `advance` `k`
times, with `k` at most the number of tokens before `TOKEN_EOF`. On return the current token
is `TOKEN_EOF`, or the previous token is a semicolon, or the current token is one of `class`,
`fun`, `var`, `for`, `if`, `while`, `print`, `return`; after fewer than `k` calls of
`advance` the parser is at no such position, so every token before the first boundary is
skipped and none after it. `panicMode` is false on return when no skipped `advance` has
reported a `TOKEN_ERROR`; otherwise exactly one message has been added to `stderr` and
`panicMode` is true on return. With no `TOKEN_ERROR` in the source ahead, `panicMode` is
false on return and nothing is printed. In general `panicMode` is true on return exactly
when one of the `k` calls of `advance` has scanned a `TOKEN_ERROR`. -/
theorem synchronize_stops_at_first_boundary (s : State) :
    ∃ k, k ≤ remaining s ∧ synchronize s = advanceTimes k (clearPanic s) ∧
      (∀ j, j < k → atBoundary (advanceTimes j (clearPanic s)) = false) ∧
      ((synchronize s).parser.current.type = TOKEN_EOF ∨
        (synchronize s).parser.previous.type = TOKEN_SEMICOLON ∨
        (synchronize s).parser.current.type ∈ [TOKEN_CLASS, TOKEN_FUN, TOKEN_VAR, TOKEN_FOR,
          TOKEN_IF, TOKEN_WHILE, TOKEN_PRINT, TOKEN_RETURN]) ∧
      (((synchronize s).parser.panicMode = false ∧ (synchronize s).stderr = s.stderr) ∨
        ((synchronize s).parser.panicMode = true ∧
          ∃ e, (synchronize s).stderr = s.stderr ++ [e])) ∧
      ((∀ t ∈ s.source, t.type ≠ TOKEN_ERROR) →
        (synchronize s).parser.panicMode = false ∧ (synchronize s).stderr = s.stderr) ∧
      ((synchronize s).parser.panicMode = true ↔
        ∃ j, j < k ∧ meetsError (advanceTimes j (clearPanic s)) = true) := by
  obtain ⟨k, hk, he, hat, hmin⟩ :=
    synchronizeLoop_spec (s.source.length + 1) (clearPanic s) (remaining_le_length s)
  have he1 : synchronize s = advanceTimes k (clearPanic s) := he
  refine ⟨k, hk, he1, hmin, ?_, ?_, ?_, ?_⟩
  · rw [he1]
    exact (atBoundary_iff _).1 hat
  · exact (plain_synchronizeLoop (s.source.length + 1) (clearPanic s)).calm rfl
  · intro hq
    rw [he1]
    exact advanceTimes_quiet k hq
  · rw [he1]
    exact advanceTimes_panic_iff k (clearPanic s) rfl

set_option maxRecDepth 100000 in
theorem synchronize_stops_at_first_boundary_witness :
    (∀ t ∈ quietDemoCall.source, t.type ≠ TOKEN_ERROR) ∧
    quietDemoCall.parser.panicMode = true ∧
    (quietDemoCall.parser.previous.lexeme, quietDemoCall.parser.current.lexeme) = ("var", "1") ∧
    synchronize quietDemoCall = advanceTimes 3 (clearPanic quietDemoCall) ∧
    ((synchronize quietDemoCall).parser.previous.lexeme,
      (synchronize quietDemoCall).parser.current.lexeme) = (";", "print") ∧
    ((synchronize quietDemoCall).parser.panicMode = false ∧
      (synchronize quietDemoCall).stderr = quietDemoCall.stderr) ∧
    ∃ k, k ≤ remaining quietDemoCall ∧
      synchronize quietDemoCall = advanceTimes k (clearPanic quietDemoCall) ∧
      (∀ j, j < k → atBoundary (advanceTimes j (clearPanic quietDemoCall)) = false) :=
  ⟨by decide, by decide, by decide, by decide, by decide,
    (synchronize_stops_at_first_boundary quietDemoCall).elim
      fun _ h => h.2.2.2.2.2.1 (by decide),
    (synchronize_stops_at_first_boundary quietDemoCall).elim
      fun k h => ⟨k, h.1, h.2.1, h.2.2.1⟩⟩

/-- C31: panic mode suppresses cascading errors. When `parser.panicMode` is set, `errorAt`
prints nothing and changes nothing, so `hadError` and `panicMode` stay as they are; when it
is clear, `errorAt` appends one report with the message to `stderr` and sets `panicMode` and
`hadError`. For the runs of the compiler, `execLog` is `exec` with a record of the states in
which `synchronize` is called, in the order of the calls. Every run that returns is
segmented by its calls: `synchronize` is only called in panic mode, and from the start of
the run to the first call, from the clearing of `panicMode` in one call to the next call
(the `advance`s of `synchronize` included), and from the clearing in the last call to the
return, at most one report is added to `stderr`, none once panic mode is entered. Between
two consecutive calls of `synchronize` exactly one report is added. -/
theorem panic_mode_reports_once_between_synchronize (x : Extern) (n : Nat) (p : Proc)
    (s : State) (token : Token) (message : String) :
    (s.parser.panicMode = true → errorAt token message s = s) ∧
    (s.parser.panicMode = false →
      (errorAt token message s).stderr = s.stderr ++
        [{ line := token.line
           location :=
             if token.type = TOKEN_EOF then " at end"
             else if token.type = TOKEN_ERROR then ""
             else " at '" ++ token.lexeme ++ "'"
           message := message }] ∧
      (errorAt token message s).parser.panicMode = true ∧
      (errorAt token message s).parser.hadError = true) ∧
    (execLog x n p s).map Prod.fst = exec x n p s ∧
    ∀ (r : Int × State) (calls : List State), execLog x n p s = some (r, calls) →
      Segmented s calls r.2 ∧ (∀ t ∈ calls, t.parser.panicMode = true) ∧
      List.Chain' (fun t t1 : State => ∃ e, t1.stderr = t.stderr ++ [e]) calls := by
  refine ⟨?_, ?_, execLog_erase x n p s, ?_⟩
  · intro h
    unfold errorAt
    rw [if_pos h]
  · intro h
    unfold errorAt
    simp [h]
  · intro r calls h
    have hseg : Segmented s calls r.2 := by
      simpa using (execLog_post x s n p s [] (plain_refl s)).out (r, calls) h
    exact ⟨hseg, segmented_panic hseg, segmented_chain hseg⟩


set_option maxRecDepth 100000 in
theorem panic_mode_reports_once_between_synchronize_witness :
    panicDemoCall.parser.panicMode = true ∧
    errorAt panicDemoCall.parser.current "Expect ';' after variable declaration."
      panicDemoCall = panicDemoCall ∧
    panicDemo.parser.panicMode = false ∧
    messagesOf (errorAt panicDemo.parser.current "Expect expression." panicDemo) =
      ["Expect expression."] ∧
    execLog digitExtern 20 Proc.compileLoop panicDemo = some panicDemoRun ∧
    exec digitExtern 20 Proc.compileLoop panicDemo = some panicDemoRun.1 ∧
    panicDemoRun.2.map messagesOf =
      [["Expect variable name."], ["Expect variable name.", "Unexpected character."]] ∧
    messagesOf panicDemoRun.1.2 = ["Expect variable name.", "Unexpected character."] ∧
    Segmented panicDemo panicDemoRun.2 panicDemoRun.1.2 ∧
    List.Chain' (fun t t1 : State => ∃ e, t1.stderr = t.stderr ++ [e]) panicDemoRun.2 :=
  ⟨by decide,
    (panic_mode_reports_once_between_synchronize digitExtern 0 Proc.expression panicDemoCall
      panicDemoCall.parser.current "Expect ';' after variable declaration.").1 (by decide),
    by decide, by decide, by decide, by decide, by decide, by decide,
    ((panic_mode_reports_once_between_synchronize digitExtern 20 Proc.compileLoop panicDemo
      panicDemo.parser.current "").2.2.2 panicDemoRun.1 panicDemoRun.2 (by decide)).1,
    ((panic_mode_reports_once_between_synchronize digitExtern 20 Proc.compileLoop panicDemo
      panicDemo.parser.current "").2.2.2 panicDemoRun.1 panicDemoRun.2 (by decide)).2.2⟩

end CLox
